import Mathlib

/-!
# TinyLang interpreter: lexer, Pratt parser and tree-walking evaluator

A shallow embedding of the Go sources (`token.go`, `lexer.go`, `ast.go`,
`parser.go`, `object.go`, `evaluator.go`) followed by theorems about them.

Conventions of the embedding:
* a Go `string` is a list of bytes (`GoString`), a byte is a natural number;
* `int64` values are integers, arithmetic wraps with `wrap64`;
* loops and recursion that Go runs until they stop are given a fuel argument;
* pointers to environments are indices into a heap of environments.
-/

namespace TinyLang

/-! ## Strings and bytes -/

/-- A Go string: a sequence of bytes. -/
abbrev GoString := List Nat

/-- The bytes of an ASCII literal of the source. -/
def str (s : String) : GoString := s.toList.map Char.toNat

/-- Go conversion `string(ch)` of a byte: the UTF-8 encoding of the code point `ch`. -/
def byteToString (ch : Nat) : GoString :=
  if ch < 128 then [ch] else [192 + ch / 64, 128 + ch % 64]

/-! ## token.go -/

inductive TokenType
  | ILLEGAL | EOF
  | IDENT | INT | STRING
  | ASSIGN | PLUS | MINUS | MULTIPLY | DIVIDE
  | EQ | NOT_EQ | LT | GT | LTE | GTE
  | AND | OR | NOT
  | COMMA | SEMICOLON | LPAREN | RPAREN | LBRACE | RBRACE
  | FUNCTION | LET | TRUE | FALSE | IF | ELSE | RETURN
  deriving DecidableEq, Repr

/-- Token of the lexer. The field `Typ` is the Go field `Type`. -/
structure Token where
  Typ : TokenType
  Literal : GoString
  Line : Nat
  Column : Nat
  deriving DecidableEq, Repr

/-- The zero value of the Go struct `Token`. -/
def Token.zero : Token := ⟨TokenType.ILLEGAL, [], 0, 0⟩

/-- Display name of a token type: the table `tokenTypeNames`. -/
def TokenType.String : TokenType → GoString
  | .ILLEGAL => str "ILLEGAL"
  | .EOF => str "EOF"
  | .IDENT => str "IDENT"
  | .INT => str "INT"
  | .STRING => str "STRING"
  | .ASSIGN => str "="
  | .PLUS => str "+"
  | .MINUS => str "-"
  | .MULTIPLY => str "*"
  | .DIVIDE => str "/"
  | .EQ => str "=="
  | .NOT_EQ => str "!="
  | .LT => str "<"
  | .GT => str ">"
  | .LTE => str "<="
  | .GTE => str ">="
  | .AND => str "&&"
  | .OR => str "||"
  | .NOT => str "!"
  | .COMMA => str ","
  | .SEMICOLON => str ";"
  | .LPAREN => str "("
  | .RPAREN => str ")"
  | .LBRACE => str "\x7b"
  | .RBRACE => str "\x7d"
  | .FUNCTION => str "FUNCTION"
  | .LET => str "LET"
  | .TRUE => str "TRUE"
  | .FALSE => str "FALSE"
  | .IF => str "IF"
  | .ELSE => str "ELSE"
  | .RETURN => str "RETURN"

/-- Keyword table lookup: `LookupIdent`. -/
def LookupIdent (ident : GoString) : TokenType :=
  if ident = str "func" then .FUNCTION
  else if ident = str "let" then .LET
  else if ident = str "true" then .TRUE
  else if ident = str "false" then .FALSE
  else if ident = str "if" then .IF
  else if ident = str "else" then .ELSE
  else if ident = str "return" then .RETURN
  else .IDENT

/-! ## lexer.go

The functions take the lexer apart into its fields before they use them, so that a call is
evaluated on a lexer that is already a value, as in Go. -/

structure Lexer where
  input : GoString
  position : Nat
  readPosition : Nat
  ch : Nat
  line : Nat
  column : Nat
  deriving DecidableEq, Repr

/-- Go slice expression `s[lo:hi]`. -/
def slice (s : GoString) (lo hi : Nat) : GoString := (s.drop lo).take (hi - lo)

def isLetter (ch : Nat) : Bool :=
  (97 ≤ ch && ch ≤ 122) || (65 ≤ ch && ch ≤ 90) || ch = 95

def isDigit (ch : Nat) : Bool := 48 ≤ ch && ch ≤ 57

def isWhitespace (ch : Nat) : Bool := ch = 32 || ch = 9 || ch = 10 || ch = 13

namespace Lexer

def readChar : Lexer → Lexer
  | ⟨input, _, readPosition, _, line, column⟩ =>
    let c := if readPosition ≥ input.length then 0 else input.getD readPosition 0
    if c = 10 then ⟨input, readPosition, readPosition + 1, c, line + 1, 0⟩
    else ⟨input, readPosition, readPosition + 1, c, line, column + 1⟩

def peekChar : Lexer → Nat
  | ⟨input, _, readPosition, _, _, _⟩ =>
    if readPosition ≥ input.length then 0 else input.getD readPosition 0

/-- Loop of `skipWhitespace`; every iteration reads one character. -/
def skipWhitespaceLoop : Nat → Lexer → Lexer
  | 0, l => l
  | fuel + 1, ⟨input, position, readPosition, ch, line, column⟩ =>
    if isWhitespace ch then
      skipWhitespaceLoop fuel (readChar ⟨input, position, readPosition, ch, line, column⟩)
    else ⟨input, position, readPosition, ch, line, column⟩

def skipWhitespace (l : Lexer) : Lexer := skipWhitespaceLoop (l.input.length + 1) l

/-- Loop of `skipComment`: up to, not including, the next LF or end of input. -/
def skipCommentLoop : Nat → Lexer → Lexer
  | 0, l => l
  | fuel + 1, ⟨input, position, readPosition, ch, line, column⟩ =>
    if ch ≠ 10 ∧ ch ≠ 0 then
      skipCommentLoop fuel (readChar ⟨input, position, readPosition, ch, line, column⟩)
    else ⟨input, position, readPosition, ch, line, column⟩

def skipComment (l : Lexer) : Lexer := skipCommentLoop (l.input.length + 1) l

def readIdentifierLoop : Nat → Lexer → Lexer
  | 0, l => l
  | fuel + 1, ⟨input, position, readPosition, ch, line, column⟩ =>
    if isLetter ch || isDigit ch then
      readIdentifierLoop fuel (readChar ⟨input, position, readPosition, ch, line, column⟩)
    else ⟨input, position, readPosition, ch, line, column⟩

def readIdentifier (l : Lexer) : GoString × Lexer :=
  let position := l.position
  match readIdentifierLoop (l.input.length + 1) l with
  | ⟨input1, position1, readPosition1, ch1, line1, column1⟩ =>
    (slice input1 position position1, ⟨input1, position1, readPosition1, ch1, line1, column1⟩)

def readNumberLoop : Nat → Lexer → Lexer
  | 0, l => l
  | fuel + 1, ⟨input, position, readPosition, ch, line, column⟩ =>
    if isDigit ch then
      readNumberLoop fuel (readChar ⟨input, position, readPosition, ch, line, column⟩)
    else ⟨input, position, readPosition, ch, line, column⟩

def readNumber (l : Lexer) : GoString × Lexer :=
  let position := l.position
  match readNumberLoop (l.input.length + 1) l with
  | ⟨input1, position1, readPosition1, ch1, line1, column1⟩ =>
    (slice input1 position position1, ⟨input1, position1, readPosition1, ch1, line1, column1⟩)

/-- Loop of `readString`: read, then stop on a double quote or on NUL. -/
def readStringLoop : Nat → Lexer → Lexer
  | 0, l => l
  | fuel + 1, l =>
    match l.readChar with
    | ⟨input1, position1, readPosition1, ch1, line1, column1⟩ =>
      if ch1 = 34 ∨ ch1 = 0 then ⟨input1, position1, readPosition1, ch1, line1, column1⟩
      else readStringLoop fuel ⟨input1, position1, readPosition1, ch1, line1, column1⟩

def readString (l : Lexer) : GoString × Lexer :=
  let position := l.position + 1
  match readStringLoop (l.input.length + 1) l with
  | ⟨input1, position1, readPosition1, ch1, line1, column1⟩ =>
    (slice input1 position position1, ⟨input1, position1, readPosition1, ch1, line1, column1⟩)

end Lexer

def newToken (tokenType : TokenType) (ch : Nat) (line column : Nat) : Token :=
  ⟨tokenType, byteToString ch, line, column⟩

namespace Lexer

/-- Two-character operator `c c2` or the one-character token: the shape shared by the
cases `=`, `!`, `<`, `>`, `&`, `|` of `NextToken`. The result is the token and the lexer
after the final `readChar` of `NextToken`. -/
def twoCharToken (l : Lexer) (second : Nat) (two one : TokenType) (line column : Nat) :
    Token × Lexer :=
  if l.peekChar = second then
    let ch := l.ch
    match l.readChar with
    | ⟨input1, position1, readPosition1, ch1, line1, column1⟩ =>
      (⟨two, byteToString ch ++ byteToString ch1, line, column⟩,
        readChar ⟨input1, position1, readPosition1, ch1, line1, column1⟩)
  else
    (newToken one l.ch line column, l.readChar)

/-- The `switch` of `NextToken` on the current character, after the whitespace is
skipped; `again` is the recursive call of `NextToken` that follows a comment. -/
def tokenSwitch (again : Lexer → Token × Lexer) (l : Lexer) : Token × Lexer :=
  let ch := l.ch
  let line := l.line
  let column := l.column
  if ch = 61 then twoCharToken l 61 .EQ .ASSIGN line column
  else if ch = 43 then (newToken .PLUS ch line column, l.readChar)
  else if ch = 45 then (newToken .MINUS ch line column, l.readChar)
  else if ch = 42 then (newToken .MULTIPLY ch line column, l.readChar)
  else if ch = 47 then
    if l.peekChar = 47 then again l.skipComment
    else (newToken .DIVIDE ch line column, l.readChar)
  else if ch = 33 then twoCharToken l 61 .NOT_EQ .NOT line column
  else if ch = 60 then twoCharToken l 61 .LTE .LT line column
  else if ch = 62 then twoCharToken l 61 .GTE .GT line column
  else if ch = 38 then twoCharToken l 38 .AND .ILLEGAL line column
  else if ch = 124 then twoCharToken l 124 .OR .ILLEGAL line column
  else if ch = 44 then (newToken .COMMA ch line column, l.readChar)
  else if ch = 59 then (newToken .SEMICOLON ch line column, l.readChar)
  else if ch = 40 then (newToken .LPAREN ch line column, l.readChar)
  else if ch = 41 then (newToken .RPAREN ch line column, l.readChar)
  else if ch = 123 then (newToken .LBRACE ch line column, l.readChar)
  else if ch = 125 then (newToken .RBRACE ch line column, l.readChar)
  else if ch = 34 then
    match l.readString with
    | (literal, l1) => (⟨.STRING, literal, line, column⟩, l1.readChar)
  else if ch = 0 then (⟨.EOF, [], line, column⟩, l.readChar)
  else if isLetter ch then
    match l.readIdentifier with
    | (literal, l1) => (⟨LookupIdent literal, literal, line, column⟩, l1)
  else if isDigit ch then
    match l.readNumber with
    | (literal, l1) => (⟨.INT, literal, line, column⟩, l1)
  else (newToken .ILLEGAL ch line column, l.readChar)

/-- The function `NextToken`: skip the whitespace, then the `switch`. The recursive call
after a comment consumes fuel; with no fuel left the result is an ILLEGAL token with an
empty literal. -/
def NextTokenAux : Nat → Lexer → Token × Lexer
  | 0, l => (⟨.ILLEGAL, [], l.line, l.column⟩, l)
  | fuel + 1, l0 =>
    match l0.skipWhitespace with
    | ⟨input, position, readPosition, ch, line, column⟩ =>
      tokenSwitch (NextTokenAux fuel) ⟨input, position, readPosition, ch, line, column⟩

def NextToken (l : Lexer) : Token × Lexer :=
  match l with
  | ⟨input, position, readPosition, ch, line, column⟩ =>
    NextTokenAux (input.length + 1) ⟨input, position, readPosition, ch, line, column⟩

end Lexer

/-- The constructor `New` of the lexer. -/
def New (input : GoString) : Lexer :=
  Lexer.readChar { input := input, position := 0, readPosition := 0, ch := 0, line := 1, column := 0 }

/-! ## ast.go -/

structure Identifier where
  Token : Token
  Value : GoString
  deriving DecidableEq, Repr

/-- Expression nodes. `nil` is the nil interface value, which the parser returns where an
expression could not be parsed. -/
inductive Expression
  | nil
  | Identifier (tok : Token) (value : GoString)
  | IntegerLiteral (tok : Token) (value : Int)
  | StringLiteral (tok : Token) (value : GoString)
  | BooleanLiteral (tok : Token) (value : Bool)
  | PrefixExpression (tok : Token) (operator : GoString) (right : Expression)
  | InfixExpression (tok : Token) (left : Expression) (operator : GoString) (right : Expression)
  | CallExpression (tok : Token) (function : Expression) (arguments : List Expression)

mutual
/-- Statement nodes. The last three constructors are the nil pointers of type `*LetStatement`,
`*FunctionStatement` and `*IfStatement` that the parser returns, wrapped in the `Statement`
interface, when `expectPeek` fails. -/
inductive Statement
  | LetStatement (tok : Token) (name : Identifier) (value : Expression)
  | FunctionStatement (tok : Token) (name : Identifier) (parameters : List Identifier)
      (body : BlockStatement)
  | ReturnStatement (tok : Token) (returnValue : Expression)
  | IfStatement (tok : Token) (condition : Expression) (consequence : BlockStatement)
      (alternative : Option BlockStatement)
  | ExpressionStatement (tok : Token) (expression : Expression)
  | nilLetStatement
  | nilFunctionStatement
  | nilIfStatement
inductive BlockStatement
  | mk (tok : Token) (statements : List Statement)
end

def BlockStatement.Statements : BlockStatement → List Statement
  | .mk _ stmts => stmts

structure Program where
  Statements : List Statement

/-- The interface `Node`: what `Eval` is called on. -/
inductive Node
  | Program (program : Program)
  | Statement (stmt : Statement)
  | BlockStatement (block : BlockStatement)
  | Expression (exp : Expression)

/-! ## parser.go -/

def LOWEST : Nat := 1
def LOGICAL_OR : Nat := 2
def LOGICAL_AND : Nat := 3
def EQUALS : Nat := 4
def LESSGREATER : Nat := 5
def SUM : Nat := 6
def PRODUCT : Nat := 7
def PREFIX : Nat := 8
def CALL : Nat := 9

/-- The table `precedences`. -/
def precedences : TokenType → Option Nat
  | .OR => some LOGICAL_OR
  | .AND => some LOGICAL_AND
  | .EQ => some EQUALS
  | .NOT_EQ => some EQUALS
  | .LT => some LESSGREATER
  | .GT => some LESSGREATER
  | .LTE => some LESSGREATER
  | .GTE => some LESSGREATER
  | .PLUS => some SUM
  | .MINUS => some SUM
  | .DIVIDE => some PRODUCT
  | .MULTIPLY => some PRODUCT
  | .LPAREN => some CALL
  | _ => none

/-- Value of a run of digit bytes in a base of at most ten; `none` at a byte that is not a
digit of that base. -/
def digitsValue (base : Nat) : List Nat → Nat → Option Nat
  | [], acc => some acc
  | c :: cs, acc =>
    if 48 ≤ c ∧ c < 48 + base then digitsValue base cs (acc * base + (c - 48)) else none

/-- The Go library call `strconv.ParseInt(s, 0, 64)` on the literal of an INT token, which
`readNumber` makes a non-empty run of ASCII digits: base 0 reads a literal with a leading
`0` in base 8 and any other in base 10, and a value above `2^63 - 1` is a range error. -/
def ParseInt (s : GoString) : Option Int :=
  match s with
  | [] => none
  | 48 :: rest =>
    match digitsValue 8 rest 0 with
    | some v => if v < 2 ^ 63 then some (v : Int) else none
    | none => none
  | _ =>
    match digitsValue 10 s 0 with
    | some v => if v < 2 ^ 63 then some (v : Int) else none
    | none => none

structure Parser where
  l : Lexer
  errors : List GoString
  curToken : Token
  peekToken : Token

namespace Parser

def nextToken (p : Parser) : Parser :=
  let r := p.l.NextToken
  { p with curToken := p.peekToken, peekToken := r.1, l := r.2 }

def curTokenIs (p : Parser) (t : TokenType) : Bool := p.curToken.Typ = t

def peekTokenIs (p : Parser) (t : TokenType) : Bool := p.peekToken.Typ = t

def peekError (p : Parser) (t : TokenType) : Parser :=
  { p with errors := p.errors ++
      [str "expected next token to be " ++ t.String ++ str ", got " ++
        p.peekToken.Typ.String ++ str " instead"] }

def noPrefixParseFnError (p : Parser) (t : TokenType) : Parser :=
  { p with errors := p.errors ++
      [str "no prefix parse function for " ++ t.String ++ str " found"] }

def expectPeek (p : Parser) (t : TokenType) : Bool × Parser :=
  if p.peekTokenIs t then (true, p.nextToken) else (false, p.peekError t)

def peekPrecedence (p : Parser) : Nat :=
  match precedences p.peekToken.Typ with
  | some v => v
  | none => LOWEST

def curPrecedence (p : Parser) : Nat :=
  match precedences p.curToken.Typ with
  | some v => v
  | none => LOWEST

end Parser

/-- The constructor `NewParser`: both tokens of the window are primed. -/
def NewParser (l : Lexer) : Parser :=
  Parser.nextToken (Parser.nextToken
    { l := l, errors := [], curToken := Token.zero, peekToken := Token.zero })

/-- The two mutually recursive entry points of the parser, as seen from one level of
recursion: `parseExpression` and `parseStatement`. The result `none` means out of fuel. -/
structure ParseFns where
  parseExpression : Nat → Parser → Option (Expression × Parser)
  parseStatement : Parser → Option (Statement × Parser)

def parseIdentifier (p : Parser) : Expression × Parser :=
  (Expression.Identifier p.curToken p.curToken.Literal, p)

def parseIntegerLiteral (p : Parser) : Expression × Parser :=
  match ParseInt p.curToken.Literal with
  | none =>
    (Expression.nil,
      { p with errors := p.errors ++
          [str "could not parse \"" ++ p.curToken.Literal ++ str "\" as integer"] })
  | some value => (Expression.IntegerLiteral p.curToken value, p)

def parseStringLiteral (p : Parser) : Expression × Parser :=
  (Expression.StringLiteral p.curToken p.curToken.Literal, p)

def parseBooleanLiteral (p : Parser) : Expression × Parser :=
  (Expression.BooleanLiteral p.curToken (p.curTokenIs .TRUE), p)

def parsePrefixExpression (r : ParseFns) (p : Parser) : Option (Expression × Parser) :=
  let tok := p.curToken
  let p1 := p.nextToken
  match r.parseExpression PREFIX p1 with
  | none => none
  | some (right, p2) => some (Expression.PrefixExpression tok tok.Literal right, p2)

def parseInfixExpression (r : ParseFns) (left : Expression) (p : Parser) :
    Option (Expression × Parser) :=
  let tok := p.curToken
  let precedence := p.curPrecedence
  let p1 := p.nextToken
  match r.parseExpression precedence p1 with
  | none => none
  | some (right, p2) => some (Expression.InfixExpression tok left tok.Literal right, p2)

def parseGroupedExpression (r : ParseFns) (p : Parser) : Option (Expression × Parser) :=
  let p1 := p.nextToken
  match r.parseExpression LOWEST p1 with
  | none => none
  | some (exp, p2) =>
    let e := p2.expectPeek .RPAREN
    if !e.1 then some (Expression.nil, e.2) else some (exp, e.2)

/-- The comma loop of `parseExpressionList`. -/
def parseExpressionListLoop (r : ParseFns) :
    Nat → List Expression → Parser → Option (List Expression × Parser)
  | 0, _, _ => none
  | fuel + 1, args, p =>
    if p.peekTokenIs .COMMA then
      let p1 := p.nextToken.nextToken
      match r.parseExpression LOWEST p1 with
      | none => none
      | some (e, p2) => parseExpressionListLoop r fuel (args ++ [e]) p2
    else some (args, p)

/-- The rule `parseExpressionList`; a nil slice is the empty list. -/
def parseExpressionList (fuel : Nat) (r : ParseFns) (endTok : TokenType) (p : Parser) :
    Option (List Expression × Parser) :=
  if p.peekTokenIs endTok then some ([], p.nextToken)
  else
    let p1 := p.nextToken
    match r.parseExpression LOWEST p1 with
    | none => none
    | some (e, p2) =>
      match parseExpressionListLoop r fuel [e] p2 with
      | none => none
      | some (args, p3) =>
        let x := p3.expectPeek endTok
        if !x.1 then some ([], x.2) else some (args, x.2)

def parseCallExpression (fuel : Nat) (r : ParseFns) (fn : Expression) (p : Parser) :
    Option (Expression × Parser) :=
  let tok := p.curToken
  match parseExpressionList fuel r .RPAREN p with
  | none => none
  | some (args, p1) => some (Expression.CallExpression tok fn args, p1)

/-- The table `prefixParseFns` filled by `NewParser`. -/
def prefixParseFns (r : ParseFns) :
    TokenType → Option (Parser → Option (Expression × Parser))
  | .IDENT => some fun p => some (parseIdentifier p)
  | .INT => some fun p => some (parseIntegerLiteral p)
  | .STRING => some fun p => some (parseStringLiteral p)
  | .TRUE => some fun p => some (parseBooleanLiteral p)
  | .FALSE => some fun p => some (parseBooleanLiteral p)
  | .NOT => some (parsePrefixExpression r)
  | .MINUS => some (parsePrefixExpression r)
  | .LPAREN => some (parseGroupedExpression r)
  | _ => none

/-- The table `infixParseFns` filled by `NewParser`. -/
def infixParseFns (fuel : Nat) (r : ParseFns) :
    TokenType → Option (Expression → Parser → Option (Expression × Parser))
  | .PLUS => some (parseInfixExpression r)
  | .MINUS => some (parseInfixExpression r)
  | .DIVIDE => some (parseInfixExpression r)
  | .MULTIPLY => some (parseInfixExpression r)
  | .EQ => some (parseInfixExpression r)
  | .NOT_EQ => some (parseInfixExpression r)
  | .LT => some (parseInfixExpression r)
  | .GT => some (parseInfixExpression r)
  | .LTE => some (parseInfixExpression r)
  | .GTE => some (parseInfixExpression r)
  | .AND => some (parseInfixExpression r)
  | .OR => some (parseInfixExpression r)
  | .LPAREN => some (parseCallExpression fuel r)
  | _ => none

/-- The loop of `parseExpression` that extends the left-hand expression. -/
def parseExpressionLoop (lfuel : Nat) (r : ParseFns) (precedence : Nat) :
    Nat → Expression → Parser → Option (Expression × Parser)
  | 0, _, _ => none
  | fuel + 1, leftExp, p =>
    if !p.peekTokenIs .SEMICOLON && decide (precedence < p.peekPrecedence) then
      match infixParseFns lfuel r p.peekToken.Typ with
      | none => some (leftExp, p)
      | some infixFn =>
        match infixFn leftExp p.nextToken with
        | none => none
        | some (e, p1) => parseExpressionLoop lfuel r precedence fuel e p1
    else some (leftExp, p)

/-- One level of `parseExpression`. -/
def parseExpressionStep (fuel : Nat) (r : ParseFns) (precedence : Nat) (p : Parser) :
    Option (Expression × Parser) :=
  match prefixParseFns r p.curToken.Typ with
  | none => some (Expression.nil, p.noPrefixParseFnError p.curToken.Typ)
  | some prefixFn =>
    match prefixFn p with
    | none => none
    | some (leftExp, p1) => parseExpressionLoop fuel r precedence fuel leftExp p1

def parseLetStatement (r : ParseFns) (p : Parser) : Option (Statement × Parser) :=
  let tok := p.curToken
  let e1 := p.expectPeek .IDENT
  if !e1.1 then some (Statement.nilLetStatement, e1.2)
  else
    let name : Identifier := ⟨e1.2.curToken, e1.2.curToken.Literal⟩
    let e2 := e1.2.expectPeek .ASSIGN
    if !e2.1 then some (Statement.nilLetStatement, e2.2)
    else
      match r.parseExpression LOWEST e2.2.nextToken with
      | none => none
      | some (value, p1) =>
        let p2 := if p1.peekTokenIs .SEMICOLON then p1.nextToken else p1
        some (Statement.LetStatement tok name value, p2)

/-- The comma loop of `parseFunctionParameters`. -/
def parseFunctionParametersLoop :
    Nat → List Identifier → Parser → Option (List Identifier × Parser)
  | 0, _, _ => none
  | fuel + 1, identifiers, p =>
    if p.peekTokenIs .COMMA then
      let p1 := p.nextToken.nextToken
      parseFunctionParametersLoop fuel
        (identifiers ++ [⟨p1.curToken, p1.curToken.Literal⟩]) p1
    else some (identifiers, p)

/-- The rule `parseFunctionParameters`; a nil slice is the empty list. -/
def parseFunctionParameters (fuel : Nat) (p : Parser) : Option (List Identifier × Parser) :=
  if p.peekTokenIs .RPAREN then some ([], p.nextToken)
  else
    let p1 := p.nextToken
    match parseFunctionParametersLoop fuel [⟨p1.curToken, p1.curToken.Literal⟩] p1 with
    | none => none
    | some (identifiers, p2) =>
      let e := p2.expectPeek .RPAREN
      if !e.1 then some ([], e.2) else some (identifiers, e.2)

/-- The loop of `parseBlockStatement`. Every result of `parseStatement` is a typed pointer
inside the interface, so the test `stmt != nil` holds for each of them. -/
def parseBlockStatementLoop (r : ParseFns) :
    Nat → List Statement → Parser → Option (List Statement × Parser)
  | 0, _, _ => none
  | fuel + 1, stmts, p =>
    if !p.curTokenIs .RBRACE && !p.curTokenIs .EOF then
      match r.parseStatement p with
      | none => none
      | some (stmt, p1) => parseBlockStatementLoop r fuel (stmts ++ [stmt]) p1.nextToken
    else some (stmts, p)

def parseBlockStatement (fuel : Nat) (r : ParseFns) (p : Parser) :
    Option (BlockStatement × Parser) :=
  let tok := p.curToken
  match parseBlockStatementLoop r fuel [] p.nextToken with
  | none => none
  | some (stmts, p1) => some (BlockStatement.mk tok stmts, p1)

def parseFunctionStatement (fuel : Nat) (r : ParseFns) (p : Parser) :
    Option (Statement × Parser) :=
  let tok := p.curToken
  let e1 := p.expectPeek .IDENT
  if !e1.1 then some (Statement.nilFunctionStatement, e1.2)
  else
    let name : Identifier := ⟨e1.2.curToken, e1.2.curToken.Literal⟩
    let e2 := e1.2.expectPeek .LPAREN
    if !e2.1 then some (Statement.nilFunctionStatement, e2.2)
    else
      match parseFunctionParameters fuel e2.2 with
      | none => none
      | some (parameters, p1) =>
        let e3 := p1.expectPeek .LBRACE
        if !e3.1 then some (Statement.nilFunctionStatement, e3.2)
        else
          match parseBlockStatement fuel r e3.2 with
          | none => none
          | some (body, p2) => some (Statement.FunctionStatement tok name parameters body, p2)

def parseReturnStatement (r : ParseFns) (p : Parser) : Option (Statement × Parser) :=
  let tok := p.curToken
  let p1 := p.nextToken
  let res : Option (Expression × Parser) :=
    if !p1.curTokenIs .SEMICOLON then r.parseExpression LOWEST p1
    else some (Expression.nil, p1)
  match res with
  | none => none
  | some (value, p2) =>
    let p3 := if p2.peekTokenIs .SEMICOLON then p2.nextToken else p2
    some (Statement.ReturnStatement tok value, p3)

def parseIfStatement (fuel : Nat) (r : ParseFns) (p : Parser) : Option (Statement × Parser) :=
  let tok := p.curToken
  let e1 := p.expectPeek .LPAREN
  if !e1.1 then some (Statement.nilIfStatement, e1.2)
  else
    match r.parseExpression LOWEST e1.2.nextToken with
    | none => none
    | some (condition, p1) =>
      let e2 := p1.expectPeek .RPAREN
      if !e2.1 then some (Statement.nilIfStatement, e2.2)
      else
        let e3 := e2.2.expectPeek .LBRACE
        if !e3.1 then some (Statement.nilIfStatement, e3.2)
        else
          match parseBlockStatement fuel r e3.2 with
          | none => none
          | some (consequence, p2) =>
            if p2.peekTokenIs .ELSE then
              let e4 := p2.nextToken.expectPeek .LBRACE
              if !e4.1 then some (Statement.nilIfStatement, e4.2)
              else
                match parseBlockStatement fuel r e4.2 with
                | none => none
                | some (alternative, p3) =>
                  some (Statement.IfStatement tok condition consequence (some alternative), p3)
            else some (Statement.IfStatement tok condition consequence none, p2)

def parseExpressionStatement (r : ParseFns) (p : Parser) : Option (Statement × Parser) :=
  let tok := p.curToken
  match r.parseExpression LOWEST p with
  | none => none
  | some (expression, p1) =>
    let p2 := if p1.peekTokenIs .SEMICOLON then p1.nextToken else p1
    some (Statement.ExpressionStatement tok expression, p2)

/-- One level of `parseStatement`. -/
def parseStatementStep (fuel : Nat) (r : ParseFns) (p : Parser) : Option (Statement × Parser) :=
  match p.curToken.Typ with
  | .LET => parseLetStatement r p
  | .FUNCTION => parseFunctionStatement fuel r p
  | .RETURN => parseReturnStatement r p
  | .IF => parseIfStatement fuel r p
  | _ => parseExpressionStatement r p

/-- The parser with `fuel` levels of recursion; every loop at a level may run `fuel`
times. -/
def parseFns : Nat → ParseFns
  | 0 => ⟨fun _ _ => none, fun _ => none⟩
  | fuel + 1 =>
    ⟨parseExpressionStep (fuel + 1) (parseFns fuel), parseStatementStep (fuel + 1) (parseFns fuel)⟩

/-- The loop of `ParseProgram`. -/
def ParseProgramLoop (r : ParseFns) :
    Nat → List Statement → Parser → Option (List Statement × Parser)
  | 0, _, _ => none
  | fuel + 1, stmts, p =>
    if p.curToken.Typ ≠ .EOF then
      match r.parseStatement p with
      | none => none
      | some (stmt, p1) => ParseProgramLoop r fuel (stmts ++ [stmt]) p1.nextToken
    else some (stmts, p)

/-- The method `ParseProgram` run with a given amount of fuel. -/
def ParseProgramFuel (fuel : Nat) (p : Parser) : Option (Program × Parser) :=
  match ParseProgramLoop (parseFns fuel) fuel [] p with
  | none => none
  | some (stmts, p1) => some (⟨stmts⟩, p1)

/-- The method `ParseProgram`: the program and the parser, whose field `errors` is what
`Errors()` returns. The fuel covers two levels of recursion and two loop iterations for
every byte of the input. -/
def ParseProgram (p : Parser) : Option (Program × Parser) :=
  ParseProgramFuel (2 * p.l.input.length + 8) p

/-! ## object.go -/

def INTEGER_OBJ : GoString := str "INTEGER"
def BOOLEAN_OBJ : GoString := str "BOOLEAN"
def STRING_OBJ : GoString := str "STRING"
def NULL_OBJ : GoString := str "NULL"
def RETURN_OBJ : GoString := str "RETURN_VALUE"
def ERROR_OBJ : GoString := str "ERROR"
def FUNCTION_OBJ : GoString := str "FUNCTION"

/-- Values of the interface `Object`. `nil` is the nil interface value. `Boolean b` and
`Null` are the shared instances `RUNTIME_TRUE`, `RUNTIME_FALSE` and `NULL`, the only
`Boolean` and `Null` objects the program ever allocates. A `Function` carries the address
`addr` of its allocation and the index `env` of the environment it captured. -/
inductive Object
  | nil
  | Integer (value : Int)
  | Boolean (value : Bool)
  | String (value : GoString)
  | Null
  | ReturnValue (value : Object)
  | Error (message : GoString)
  | Function (addr : Nat) (parameters : List Identifier) (body : BlockStatement) (env : Nat)

/-- Outcome of a piece of Go code: a value, a run-time fault (nil dereference, failed type
assertion, integer division by zero), or fuel exhausted before the code returned. -/
inductive Res (α : Type)
  | ok (val : α)
  | panic
  | outOfFuel

/-- The method `Type()`; `none` is the fault of calling it on the nil interface. -/
def Object.Type : Object → Option GoString
  | .nil => none
  | .Integer _ => some INTEGER_OBJ
  | .Boolean _ => some BOOLEAN_OBJ
  | .String _ => some STRING_OBJ
  | .Null => some NULL_OBJ
  | .ReturnValue _ => some RETURN_OBJ
  | .Error _ => some ERROR_OBJ
  | .Function _ _ _ _ => some FUNCTION_OBJ

/-- What the verb `%T` prints for an object. -/
def Object.goTypeName : Object → GoString
  | .nil => str "<nil>"
  | .Integer _ => str "*main.Integer"
  | .Boolean _ => str "*main.Boolean"
  | .String _ => str "*main.String"
  | .Null => str "*main.Null"
  | .ReturnValue _ => str "*main.ReturnValue"
  | .Error _ => str "*main.Error"
  | .Function _ _ _ _ => str "*main.Function"

def NULL : Object := Object.Null
def RUNTIME_TRUE : Object := Object.Boolean true
def RUNTIME_FALSE : Object := Object.Boolean false

def isTruthy (obj : Object) : Bool :=
  match obj with
  | .Null => false
  | .Boolean true => true
  | .Boolean false => false
  | _ => true

/-- The helper `newError`, applied to the formatted message. -/
def newError (message : GoString) : Object := Object.Error message

/-- Go comparison `left == right` of two interface values: same dynamic type and same
pointer. Booleans and Null are shared instances, functions are compared by address.
Integer and String objects carry no address here: `evalInfixExpression` hands a pair of
Integers or of Strings to the value comparison before it reaches an identity comparison. -/
def identical (left right : Object) : Bool :=
  match left, right with
  | .nil, .nil => true
  | .Boolean a, .Boolean b => decide (a = b)
  | .Null, .Null => true
  | .Function a _ _ _, .Function b _ _ _ => decide (a = b)
  | _, _ => false

/-! ## Environments

The file that declares `Environment` is not part of the sources at hand. -/

/-- Modelled from the spec: the type `Environment`, "a mapping from name to Object, plus
an optional reference to an enclosing (parent) Environment". The map is an association
list whose first entry for a name is the current one; the reference is a heap index. -/
structure Environment where
  store : List (GoString × Object)
  outer : Option Nat

/-- The memory of a run: the environments allocated so far and the address of the next
`Function` object. -/
structure Heap where
  envs : List Environment
  nextAddr : Nat

def Heap.empty : Heap := ⟨[], 0⟩

/-- Modelled from the spec: `NewEnvironment`, the fresh root environment of a run. -/
def NewEnvironment (h : Heap) : Nat × Heap :=
  (h.envs.length, { h with envs := h.envs ++ [⟨[], none⟩] })

/-- Modelled from the spec: `NewEnclosedEnvironment`, "a new child Environment" of
`outer`. -/
def NewEnclosedEnvironment (outer : Nat) (h : Heap) : Nat × Heap :=
  (h.envs.length, { h with envs := h.envs ++ [⟨[], some outer⟩] })

def storeLookup (name : GoString) : List (GoString × Object) → Option Object
  | [] => none
  | (k, v) :: rest => if k = name then some v else storeLookup name rest

/-- The walk of `Get` along the parent references; a chain of environments is never
longer than the heap. -/
def Heap.GetLoop (h : Heap) (name : GoString) : Nat → Nat → Option Object
  | 0, _ => none
  | fuel + 1, env =>
    match h.envs[env]? with
    | none => none
    | some e =>
      match storeLookup name e.store with
      | some v => some v
      | none =>
        match e.outer with
        | none => none
        | some o => Heap.GetLoop h name fuel o

/-- Modelled from the spec: `Environment.Get`, "lookup walks outward through parents until
found or exhausted". -/
def Heap.Get (h : Heap) (env : Nat) (name : GoString) : Option Object :=
  h.GetLoop name h.envs.length env

/-- Modelled from the spec: `Environment.Set`, "bind name→value in the current
environment". -/
def Heap.Set (h : Heap) (env : Nat) (name : GoString) (val : Object) : Heap :=
  match h.envs[env]? with
  | none => h
  | some e => { h with envs := h.envs.set env { e with store := (name, val) :: e.store } }

/-! ## evaluator.go -/

/-- Reduction of an integer into the range of `int64`, as Go arithmetic wraps. -/
def wrap64 (x : Int) : Int := (x + 2 ^ 63) % 2 ^ 64 - 2 ^ 63

/-- Go division of two `int64`: a fault when the divisor is zero, else the quotient
truncated toward zero, wrapped. -/
def goDiv (a b : Int) : Option Int :=
  if b = 0 then none else some (wrap64 (Int.tdiv a b))

def nativeBoolToPyBoolean (input : Bool) : Object :=
  if input then RUNTIME_TRUE else RUNTIME_FALSE

def isError (obj : Object) : Bool :=
  match obj with
  | .Error _ => true
  | _ => false

def unwrapReturnValue (obj : Object) : Object :=
  match obj with
  | .ReturnValue value => value
  | _ => obj

def evalBangOperatorExpression (right : Object) : Object :=
  match right with
  | .Boolean true => RUNTIME_FALSE
  | .Boolean false => RUNTIME_TRUE
  | .Null => RUNTIME_TRUE
  | _ => RUNTIME_FALSE

def evalMinusPrefixOperatorExpression (right : Object) : Res Object :=
  match right with
  | .nil => .panic
  | .Integer value => .ok (Object.Integer (wrap64 (-value)))
  | o =>
    match o.Type with
    | none => .panic
    | some t => .ok (newError (str "unknown operator: -" ++ t))

def evalPrefixExpression (operator : GoString) (right : Object) : Res Object :=
  if operator = str "!" then .ok (evalBangOperatorExpression right)
  else if operator = str "-" then evalMinusPrefixOperatorExpression right
  else
    match right.Type with
    | none => .panic
    | some t => .ok (newError (str "unknown operator: " ++ operator ++ t))

/-- Integer operators. The type assertions `left.(*Integer)` and `right.(*Integer)` fault
on any other operand. -/
def evalIntegerInfixExpression (operator : GoString) (left right : Object) : Res Object :=
  match left, right with
  | .Integer leftVal, .Integer rightVal =>
    if operator = str "+" then .ok (Object.Integer (wrap64 (leftVal + rightVal)))
    else if operator = str "-" then .ok (Object.Integer (wrap64 (leftVal - rightVal)))
    else if operator = str "*" then .ok (Object.Integer (wrap64 (leftVal * rightVal)))
    else if operator = str "/" then
      if rightVal = 0 then .ok (newError (str "division by zero"))
      else
        match goDiv leftVal rightVal with
        | none => .panic
        | some q => .ok (Object.Integer q)
    else if operator = str "<" then .ok (nativeBoolToPyBoolean (decide (leftVal < rightVal)))
    else if operator = str ">" then .ok (nativeBoolToPyBoolean (decide (leftVal > rightVal)))
    else if operator = str "<=" then .ok (nativeBoolToPyBoolean (decide (leftVal ≤ rightVal)))
    else if operator = str ">=" then .ok (nativeBoolToPyBoolean (decide (leftVal ≥ rightVal)))
    else if operator = str "==" then .ok (nativeBoolToPyBoolean (decide (leftVal = rightVal)))
    else if operator = str "!=" then .ok (nativeBoolToPyBoolean (decide (leftVal ≠ rightVal)))
    else .ok (newError (str "unknown operator: " ++ operator))
  | _, _ => .panic

/-- String operators. The type assertions fault on any other operand. -/
def evalStringInfixExpression (operator : GoString) (left right : Object) : Res Object :=
  match left, right with
  | .String leftVal, .String rightVal =>
    if operator = str "+" then .ok (Object.String (leftVal ++ rightVal))
    else if operator = str "==" then .ok (nativeBoolToPyBoolean (decide (leftVal = rightVal)))
    else if operator = str "!=" then .ok (nativeBoolToPyBoolean (decide (leftVal ≠ rightVal)))
    else
      .ok (newError (str "unknown operator: " ++ STRING_OBJ ++ str " " ++ operator ++
        str " " ++ STRING_OBJ))
  | _, _ => .panic

def evalLogicalAndExpression (left right : Object) : Object :=
  if !isTruthy left then RUNTIME_FALSE else nativeBoolToPyBoolean (isTruthy right)

def evalLogicalOrExpression (left right : Object) : Object :=
  if isTruthy left then RUNTIME_TRUE else nativeBoolToPyBoolean (isTruthy right)

/-- Go condition `left.Type() == t && right.Type() == t`, given the type `lt` of the left
operand: `right.Type()` is called, and faults on nil, only when the left type is `t`. -/
def bothOfType (t lt : GoString) (right : Object) : Res Bool :=
  if lt = t then
    match right.Type with
    | none => .panic
    | some rt => .ok (decide (rt = t))
  else .ok false

/-- The dispatch of `evalInfixExpression`, case by case in the order of the source. A
call `Type()` on a nil operand is a fault. -/
def evalInfixExpression (operator : GoString) (left right : Object) : Res Object :=
  match left.Type with
  | none => .panic
  | some lt =>
    match bothOfType INTEGER_OBJ lt right with
    | .panic => .panic
    | .outOfFuel => .outOfFuel
    | .ok true => evalIntegerInfixExpression operator left right
    | .ok false =>
      match bothOfType STRING_OBJ lt right with
      | .panic => .panic
      | .outOfFuel => .outOfFuel
      | .ok true => evalStringInfixExpression operator left right
      | .ok false =>
        if operator = str "==" then .ok (nativeBoolToPyBoolean (identical left right))
        else if operator = str "!=" then .ok (nativeBoolToPyBoolean (!identical left right))
        else if operator = str "&&" then .ok (evalLogicalAndExpression left right)
        else if operator = str "||" then .ok (evalLogicalOrExpression left right)
        else
          match right.Type with
          | none => .panic
          | some rt =>
            if lt ≠ rt then
              .ok (newError
                (str "type mismatch: " ++ lt ++ str " " ++ operator ++ str " " ++ rt))
            else
              .ok (newError
                (str "unknown operator: " ++ lt ++ str " " ++ operator ++ str " " ++ rt))

def evalIdentifier (name : GoString) (env : Nat) (h : Heap) : Object :=
  match h.Get env name with
  | none => newError (str "identifier not found: " ++ name)
  | some val => val

/-- The parameter loop of `extendFunctionEnv`. -/
def extendFunctionEnvLoop (env : Nat) (args : List Object) :
    Nat → List Identifier → Heap → Heap
  | _, [], h => h
  | paramIdx, param :: rest, h =>
    if paramIdx ≥ args.length then
      extendFunctionEnvLoop env args (paramIdx + 1) rest (h.Set env param.Value NULL)
    else
      extendFunctionEnvLoop env args (paramIdx + 1) rest
        (h.Set env param.Value (args.getD paramIdx Object.nil))

/-- The helper `extendFunctionEnv`, given the fields `Parameters` and `Env` of the
function: the new environment and the heap that holds it. -/
def extendFunctionEnv (parameters : List Identifier) (fnEnv : Nat) (args : List Object)
    (h : Heap) : Nat × Heap :=
  let r := NewEnclosedEnvironment fnEnv h
  (r.1, extendFunctionEnvLoop r.1 args 0 parameters r.2)

/-- The type of `Eval` as its own recursive calls see it: node, environment, heap. -/
abbrev EvalFn := Node → Nat → Heap → Res (Object × Heap)

/-- The loop of `evalProgram`; `result` is the variable of that name. -/
def evalProgramLoop (ev : EvalFn) (env : Nat) :
    List Statement → Object → Heap → Res (Object × Heap)
  | [], result, h => .ok (result, h)
  | statement :: rest, _, h =>
    match ev (Node.Statement statement) env h with
    | .panic => .panic
    | .outOfFuel => .outOfFuel
    | .ok (result, h1) =>
      match result with
      | .ReturnValue value => .ok (value, h1)
      | .Error message => .ok (Object.Error message, h1)
      | _ => evalProgramLoop ev env rest result h1

def evalProgram (ev : EvalFn) (stmts : List Statement) (env : Nat) (h : Heap) :
    Res (Object × Heap) :=
  evalProgramLoop ev env stmts Object.nil h

/-- The loop of `evalBlockStatement`. -/
def evalBlockStatementLoop (ev : EvalFn) (env : Nat) :
    List Statement → Object → Heap → Res (Object × Heap)
  | [], result, h => .ok (result, h)
  | statement :: rest, _, h =>
    match ev (Node.Statement statement) env h with
    | .panic => .panic
    | .outOfFuel => .outOfFuel
    | .ok (result, h1) =>
      match result with
      | .ReturnValue _ => .ok (result, h1)
      | .Error _ => .ok (result, h1)
      | _ => evalBlockStatementLoop ev env rest result h1

def evalBlockStatement (ev : EvalFn) (block : BlockStatement) (env : Nat) (h : Heap) :
    Res (Object × Heap) :=
  evalBlockStatementLoop ev env block.Statements Object.nil h

def evalIfExpression (ev : EvalFn) (cond : Expression) (consequence : BlockStatement)
    (alternative : Option BlockStatement) (env : Nat) (h : Heap) : Res (Object × Heap) :=
  match ev (Node.Expression cond) env h with
  | .panic => .panic
  | .outOfFuel => .outOfFuel
  | .ok (condition, h1) =>
    if isError condition then .ok (condition, h1)
    else if isTruthy condition then ev (Node.BlockStatement consequence) env h1
    else
      match alternative with
      | some alt => ev (Node.BlockStatement alt) env h1
      | none => .ok (NULL, h1)

/-- The loop of `evalExpressions`: the list stops at the first Error and is then that
Error alone. -/
def evalExpressionsLoop (ev : EvalFn) (env : Nat) :
    List Expression → List Object → Heap → Res (List Object × Heap)
  | [], result, h => .ok (result, h)
  | e :: rest, result, h =>
    match ev (Node.Expression e) env h with
    | .panic => .panic
    | .outOfFuel => .outOfFuel
    | .ok (evaluated, h1) =>
      if isError evaluated then .ok ([evaluated], h1)
      else evalExpressionsLoop ev env rest (result ++ [evaluated]) h1

def evalExpressions (ev : EvalFn) (exps : List Expression) (env : Nat) (h : Heap) :
    Res (List Object × Heap) :=
  evalExpressionsLoop ev env exps [] h

def applyFunction (ev : EvalFn) (fn : Object) (args : List Object) (h : Heap) :
    Res (Object × Heap) :=
  match fn with
  | .Function _ parameters body fnEnv =>
    let x := extendFunctionEnv parameters fnEnv args h
    match ev (Node.BlockStatement body) x.1 x.2 with
    | .panic => .panic
    | .outOfFuel => .outOfFuel
    | .ok (evaluated, h1) => .ok (unwrapReturnValue evaluated, h1)
  | _ => .ok (newError (str "not a function: " ++ fn.goTypeName), h)

/-- The cases of `Eval` for statements. A nil pointer faults at its first field access. -/
def evalStatement (ev : EvalFn) (stmt : Statement) (env : Nat) (h : Heap) :
    Res (Object × Heap) :=
  match stmt with
  | .ExpressionStatement _ expression => ev (Node.Expression expression) env h
  | .LetStatement _ name value =>
    match ev (Node.Expression value) env h with
    | .panic => .panic
    | .outOfFuel => .outOfFuel
    | .ok (val, h1) =>
      if isError val then .ok (val, h1) else .ok (NULL, h1.Set env name.Value val)
  | .ReturnStatement _ returnValue =>
    match ev (Node.Expression returnValue) env h with
    | .panic => .panic
    | .outOfFuel => .outOfFuel
    | .ok (val, h1) =>
      if isError val then .ok (val, h1) else .ok (Object.ReturnValue val, h1)
  | .FunctionStatement _ name parameters body =>
    let fn := Object.Function h.nextAddr parameters body env
    .ok (NULL, Heap.Set { h with nextAddr := h.nextAddr + 1 } env name.Value fn)
  | .IfStatement _ condition consequence alternative =>
    evalIfExpression ev condition consequence alternative env h
  | .nilLetStatement => .panic
  | .nilFunctionStatement => .panic
  | .nilIfStatement => .panic

/-- The cases of `Eval` for expressions. The nil interface matches no case of the type
switch and falls to `default`. -/
def evalExpression (ev : EvalFn) (exp : Expression) (env : Nat) (h : Heap) :
    Res (Object × Heap) :=
  match exp with
  | .IntegerLiteral _ value => .ok (Object.Integer value, h)
  | .StringLiteral _ value => .ok (Object.String value, h)
  | .BooleanLiteral _ value => .ok (nativeBoolToPyBoolean value, h)
  | .Identifier _ value => .ok (evalIdentifier value env h, h)
  | .PrefixExpression _ operator right =>
    match ev (Node.Expression right) env h with
    | .panic => .panic
    | .outOfFuel => .outOfFuel
    | .ok (r, h1) =>
      if isError r then .ok (r, h1)
      else
        match evalPrefixExpression operator r with
        | .panic => .panic
        | .outOfFuel => .outOfFuel
        | .ok v => .ok (v, h1)
  | .InfixExpression _ left operator right =>
    match ev (Node.Expression left) env h with
    | .panic => .panic
    | .outOfFuel => .outOfFuel
    | .ok (l, h1) =>
      if isError l then .ok (l, h1)
      else
        match ev (Node.Expression right) env h1 with
        | .panic => .panic
        | .outOfFuel => .outOfFuel
        | .ok (r, h2) =>
          if isError r then .ok (r, h2)
          else
            match evalInfixExpression operator l r with
            | .panic => .panic
            | .outOfFuel => .outOfFuel
            | .ok v => .ok (v, h2)
  | .CallExpression _ function arguments =>
    match ev (Node.Expression function) env h with
    | .panic => .panic
    | .outOfFuel => .outOfFuel
    | .ok (fn, h1) =>
      if isError fn then .ok (fn, h1)
      else
        match evalExpressions ev arguments env h1 with
        | .panic => .panic
        | .outOfFuel => .outOfFuel
        | .ok (args, h2) =>
          match args with
          | [a] => if isError a then .ok (a, h2) else applyFunction ev fn args h2
          | _ => applyFunction ev fn args h2
  | .nil => .ok (newError (str "unknown node type: <nil>"), h)

/-- One level of `Eval`: the type switch on the node. -/
def EvalStep (ev : EvalFn) (node : Node) (env : Nat) (h : Heap) : Res (Object × Heap) :=
  match node with
  | .Program program => evalProgram ev program.Statements env h
  | .Statement stmt => evalStatement ev stmt env h
  | .BlockStatement block => evalBlockStatement ev block env h
  | .Expression exp => evalExpression ev exp env h

/-- The function `Eval` with `fuel` levels of recursion. -/
def Eval : Nat → EvalFn
  | 0 => fun _ _ _ => .outOfFuel
  | fuel + 1 => EvalStep (Eval fuel)

/-- The pipeline of `RunFile` up to the evaluation: lex and parse the source; with an empty
error list evaluate the program in a fresh root environment. `none` stands for a parse that
reported errors or did not finish. -/
def run (fuel : Nat) (code : GoString) : Option (Res (Object × Heap)) :=
  match ParseProgram (NewParser (New code)) with
  | none => none
  | some (program, p) =>
    if p.errors.length > 0 then none
    else
      let x := NewEnvironment Heap.empty
      some (Eval fuel (Node.Program program) x.1 x.2)

/-! ## Vocabulary of the statements -/

def Object.isInteger : Object → Bool
  | .Integer _ => true
  | _ => false

def Object.isString : Object → Bool
  | .String _ => true
  | _ => false

/-- The heap reached when the statements `stmts` are evaluated one after the other and
none of them yields an Error or a ReturnValue; `none` when one of them does, faults or
runs out of fuel. -/
def passThrough (ev : EvalFn) (env : Nat) : List Statement → Heap → Option Heap
  | [], h => some h
  | statement :: rest, h =>
    match ev (Node.Statement statement) env h with
    | .ok (result, h1) =>
      match result with
      | .ReturnValue _ => none
      | .Error _ => none
      | _ => passThrough ev env rest h1
    | _ => none

/-- The object that `extendFunctionEnv` binds to the parameter at index `i`. -/
def argumentFor (args : List Object) (i : Nat) : Object :=
  if i ≥ args.length then NULL else args.getD i Object.nil

/-- The statements of the program that `ParseProgram` returns for a source text. -/
def statementsOf (code : GoString) : List Statement :=
  match ParseProgram (NewParser (New code)) with
  | none => []
  | some (program, _) => program.Statements

/-- The bindings that the parameter loop of `extendFunctionEnv` makes, in the order of
the parameters, from parameter index `idx` on. -/
def parameterBindings (args : List Object) : Nat → List Identifier → List (GoString × Object)
  | _, [] => []
  | idx, p :: ps => (p.Value, argumentFor args idx) :: parameterBindings args (idx + 1) ps
/-- The lexer after `k` calls of `NextToken`. -/
def Lexer.advance : Nat → Lexer → Lexer
  | 0, l => l
  | k + 1, l => (Lexer.advance k l).NextToken.2

/-- The token that call number `k` (from 0) of `NextToken` returns. -/
def Lexer.tokenAt (k : Nat) (l : Lexer) : Token := (Lexer.advance k l).NextToken.1

/-- The first `k` tokens of a lexer, and the lexer after them. -/
def Lexer.take : Nat → Lexer → List Token × Lexer
  | 0, l => ([], l)
  | k + 1, l =>
    match l.NextToken with
    | (t, l1) =>
      match Lexer.take k l1 with
      | (ts, l2) => (t :: ts, l2)

/-- Value of a decimal literal: its digits read in base ten. -/
def decimalValue (lit : GoString) : Nat := lit.foldl (fun acc c => acc * 10 + (c - 48)) 0

/-- The source text of the closure example with the integer literal `lit`. -/
def closureSource (lit : GoString) : GoString :=
  str "func make(x)\x7b func inner()\x7b return x; \x7d return inner; \x7d make(" ++ lit ++
    str ")()"

/-- The program that `closureSource` parses to, over the tokens `T 0`, `T 1`, ... of the
source and the value `n` of its literal. -/
def closureProgram (T : Nat → Token) (n : Int) : Program :=
  ⟨[Statement.FunctionStatement (T 0) ⟨T 1, (T 1).Literal⟩ [⟨T 3, (T 3).Literal⟩]
      (BlockStatement.mk (T 5)
        [Statement.FunctionStatement (T 6) ⟨T 7, (T 7).Literal⟩ []
            (BlockStatement.mk (T 10)
              [Statement.ReturnStatement (T 11) (Expression.Identifier (T 12) (T 12).Literal)]),
          Statement.ReturnStatement (T 15) (Expression.Identifier (T 16) (T 16).Literal)]),
    Statement.ExpressionStatement (T 19)
      (Expression.CallExpression (T 23)
        (Expression.CallExpression (T 20) (Expression.Identifier (T 19) (T 19).Literal)
          [Expression.IntegerLiteral (T 21) n]) [])]⟩

/-- The bytes of `func make(x)\x7b func inner()\x7b return x; \x7d return inner; \x7d make(`,
the text of `closureSource` before its literal, in front of `rest`. -/
def closurePrefix (rest : GoString) : GoString :=
    102 :: 117 :: 110 :: 99 :: 32 :: 109 :: 97 :: 107 :: 101 :: 40 :: 120 :: 41 :: 123 :: 32
    :: 102 :: 117 :: 110 :: 99 :: 32 :: 105 :: 110 :: 110 :: 101 :: 114 :: 40 :: 41 :: 123
    :: 32 :: 114 :: 101 :: 116 :: 117 :: 114 :: 110 :: 32 :: 120 :: 59 :: 32 :: 125 :: 32 ::
    114 :: 101 :: 116 :: 117 :: 114 :: 110 :: 32 :: 105 :: 110 :: 110 :: 101 :: 114 :: 59 ::
    32 :: 125 :: 32 :: 109 :: 97 :: 107 :: 101 :: 40 :: rest

/-- The program of the scoping example
`let x = a; func f() { return x; } func g() { let x = b; return f(); } g();`
over the tokens `T 0`, `T 1`, ... of its source and the values `a`, `b` of its literals. -/
def scopingProgram (T : Nat → Token) (a b : Int) : Program :=
  ⟨[Statement.LetStatement (T 0) ⟨T 1, str "x"⟩ (Expression.IntegerLiteral (T 3) a),
    Statement.FunctionStatement (T 5) ⟨T 6, str "f"⟩ []
      (BlockStatement.mk (T 9)
        [Statement.ReturnStatement (T 10) (Expression.Identifier (T 11) (str "x"))]),
    Statement.FunctionStatement (T 14) ⟨T 15, str "g"⟩ []
      (BlockStatement.mk (T 18)
        [Statement.LetStatement (T 19) ⟨T 20, str "x"⟩ (Expression.IntegerLiteral (T 22) b),
          Statement.ReturnStatement (T 24)
            (Expression.CallExpression (T 26) (Expression.Identifier (T 25) (str "f")) [])]),
    Statement.ExpressionStatement (T 30)
      (Expression.CallExpression (T 31) (Expression.Identifier (T 30) (str "g")) [])]⟩

/-- The lexer `l` seen from a longer text: `pre` is put in front of the input and the
two positions move by its length; character, line and column stay. -/
def Lexer.shift (pre : GoString) (l : Lexer) : Lexer :=
  ⟨pre ++ l.input, pre.length + l.position, pre.length + l.readPosition, l.ch, l.line,
    l.column⟩

/-- What every lexer made by `New`, `readChar` and `NextToken` satisfies: the read position
is one past the position and `ch` is the byte at the position (0 past the end). -/
def Lexer.wf (l : Lexer) : Prop :=
  l.readPosition = l.position + 1 ∧ l.ch = l.input.getD l.position 0

/-- The shape of the loops `skipWhitespace`, `skipComment`, `readIdentifier` and
`readNumber`: read characters while the current one satisfies `c`. -/
def Lexer.whileLoop (c : Nat → Bool) : Nat → Lexer → Lexer
  | 0, l => l
  | fuel + 1, l => if c l.ch then Lexer.whileLoop c fuel l.readChar else l

/-- A lexing result carried to the input extended by `pre` at the front. -/
def Lexer.shiftResult {α : Type} (pre : GoString) (r : α × Lexer) : α × Lexer :=
  (r.1, r.2.shift pre)

/-- The source text of the scoping example with the integer literals `a` and `b`:
`let x = a; func f() { return x; } func g() { let x = b; return f(); } g();`. -/
def scopingSource (a b : GoString) : GoString :=
  str "let x = " ++ (a ++ (str "; func f() \x7b return x; \x7d func g() \x7b let x = " ++
    (b ++ str "; return f(); \x7d g();")))

/-- The text `let x = ` in front of `rest`. -/
def scopingStart (rest : GoString) : GoString :=
  108 :: 101 :: 116 :: 32 :: 120 :: 32 :: 61 :: 32 :: rest

/-- The text `; func f() { return x; } func g() { let x = ` in front of `rest`. -/
def scopingMiddle (rest : GoString) : GoString :=
  59 :: 32 :: 102 :: 117 :: 110 :: 99 :: 32 :: 102 :: 40 :: 41 :: 32 :: 123 :: 32 :: 114 ::
    101 :: 116 :: 117 :: 114 :: 110 :: 32 :: 120 :: 59 :: 32 :: 125 :: 32 :: 102 :: 117 ::
    110 :: 99 :: 32 :: 103 :: 40 :: 41 :: 32 :: 123 :: 32 :: 108 :: 101 :: 116 :: 32 :: 120 ::
    32 :: 61 :: 32 :: rest

/-- The environments that exist in `h` are still in `h1`, each of them unchanged except the
one at index `skip`. -/
def Heap.frame (skip : Option Nat) (h h1 : Heap) : Prop :=
  h.envs.length ≤ h1.envs.length ∧
    ∀ i, i < h.envs.length → skip ≠ some i → h1.envs[i]? = h.envs[i]?

/-- The environment in which the evaluation of a node in `env` may bind names: `env` for a
program, a statement or a block, none for an expression. -/
def Node.bindsIn : Node → Nat → Option Nat
  | .Expression _, _ => none
  | _, env => some env

def Object.isReturnValue : Object → Bool
  | .ReturnValue _ => true
  | _ => false

/-- No environment of the heap binds a name to a ReturnValue. -/
def Heap.noReturnValue (h : Heap) : Prop :=
  ∀ e ∈ h.envs, ∀ kv ∈ e.store, kv.2.isReturnValue = false

/-- What the evaluation of a node may yield as far as ReturnValue goes: an expression or a
program no ReturnValue at all; a statement or a block a ReturnValue around an object that
is not one itself. -/
def Node.yields : Node → Object → Bool
  | .Expression _, v => !v.isReturnValue
  | .Program _, v => !v.isReturnValue
  | _, v => !(unwrapReturnValue v).isReturnValue

/-- The source text `if (true) { let x = n; } x;` with the integer literal `n`. -/
def branchSource (n : GoString) : GoString :=
  str "if (true) \x7b let x = " ++ (n ++ str "; \x7d x;")

/-- The program of `branchSource` over the tokens `T 0`, `T 1`, ... of the source and the
value `n` of its literal. -/
def branchProgram (T : Nat → Token) (n : Int) : Program :=
  ⟨[Statement.IfStatement (T 0) (Expression.BooleanLiteral (T 2) true)
      (BlockStatement.mk (T 4)
        [Statement.LetStatement (T 5) ⟨T 6, str "x"⟩ (Expression.IntegerLiteral (T 8) n)])
      none,
    Statement.ExpressionStatement (T 11) (Expression.Identifier (T 11) (str "x"))]⟩

/-- The source text `let x = a; func f(x) { let y = 2; return x; } f(b); x;` with the
integer literals `a` and `b`. -/
def callerSource (a b : GoString) : GoString :=
  str "let x = " ++ (a ++ (str "; func f(x) \x7b let y = 2; return x; \x7d f(" ++
    (b ++ str "); x;")))

/-- The program of `callerSource` over the tokens `T 0`, `T 1`, ... of the source and the
values `a`, `b` of its literals. -/
def callerProgram (T : Nat → Token) (a b : Int) : Program :=
  ⟨[Statement.LetStatement (T 0) ⟨T 1, str "x"⟩ (Expression.IntegerLiteral (T 3) a),
    Statement.FunctionStatement (T 5) ⟨T 6, str "f"⟩ [⟨T 8, str "x"⟩]
      (BlockStatement.mk (T 10)
        [Statement.LetStatement (T 11) ⟨T 12, str "y"⟩ (Expression.IntegerLiteral (T 14) 2),
          Statement.ReturnStatement (T 16) (Expression.Identifier (T 17) (str "x"))]),
    Statement.ExpressionStatement (T 20)
      (Expression.CallExpression (T 21) (Expression.Identifier (T 20) (str "f"))
        [Expression.IntegerLiteral (T 22) b]),
    Statement.ExpressionStatement (T 25) (Expression.Identifier (T 25) (str "x"))]⟩

/-- The text `if (true) { let x = ` in front of `rest`. -/
def branchStart (rest : GoString) : GoString :=
  105 :: 102 :: 32 :: 40 :: 116 :: 114 :: 117 :: 101 :: 41 :: 32 :: 123 :: 32 :: 108 ::
    101 :: 116 :: 32 :: 120 :: 32 :: 61 :: 32 :: rest

/-- The text `; func f(x) { let y = 2; return x; } f(` in front of `rest`. -/
def callerMiddle (rest : GoString) : GoString :=
  59 :: 32 :: 102 :: 117 :: 110 :: 99 :: 32 :: 102 :: 40 :: 120 :: 41 :: 32 :: 123 :: 32 ::
    108 :: 101 :: 116 :: 32 :: 121 :: 32 :: 61 :: 32 :: 50 :: 59 :: 32 :: 114 :: 101 ::
    116 :: 117 :: 114 :: 110 :: 32 :: 120 :: 59 :: 32 :: 125 :: 32 :: 102 :: 40 :: rest

/-! ## ast.go: the method `String` -/

/-- `strings.Join(elems, sep)`. -/
def stringsJoin (sep : GoString) : List GoString → GoString
  | [] => []
  | [a] => a
  | a :: b :: rest => a ++ sep ++ stringsJoin sep (b :: rest)

def Identifier.String (i : Identifier) : GoString := i.Value

mutual
/-- The method `String` of the expression nodes. The result is `none` when the method is
called on the nil interface value, where the Go call faults. -/
def Expression.String : Expression → Option GoString
  | .nil => none
  | .Identifier _ value => some value
  | .IntegerLiteral tok _ => some tok.Literal
  | .StringLiteral _ value => some (str "\"" ++ value ++ str "\"")
  | .BooleanLiteral tok _ => some tok.Literal
  | .PrefixExpression _ operator right =>
    match Expression.String right with
    | none => none
    | some r => some (str "(" ++ operator ++ r ++ str ")")
  | .InfixExpression _ left operator right =>
    match Expression.String left with
    | none => none
    | some l =>
      match Expression.String right with
      | none => none
      | some r => some (str "(" ++ l ++ str " " ++ operator ++ str " " ++ r ++ str ")")
  | .CallExpression _ function arguments =>
    match Expression.StringAll arguments with
    | none => none
    | some args =>
      match Expression.String function with
      | none => none
      | some f => some (f ++ str "(" ++ stringsJoin (str ", ") args ++ str ")")
/-- The loop of `CallExpression.String` that renders the arguments. -/
def Expression.StringAll : List Expression → Option (List GoString)
  | [] => some []
  | a :: rest =>
    match Expression.String a with
    | none => none
    | some s =>
      match Expression.StringAll rest with
      | none => none
      | some ss => some (s :: ss)
end

mutual
/-- The method `String` of the statement nodes; `none` where the Go call faults: on a nil
pointer and on a nil expression whose `String` is called. -/
def Statement.String : Statement → Option GoString
  | .LetStatement _ name value =>
    match value with
    | .nil => some (str "let " ++ name.String ++ str " = " ++ str ";")
    | v =>
      match Expression.String v with
      | none => none
      | some s => some (str "let " ++ name.String ++ str " = " ++ s ++ str ";")
  | .FunctionStatement _ name parameters body =>
    match BlockStatement.String body with
    | none => none
    | some b =>
      some (str "func " ++ name.String ++ str "(" ++
        stringsJoin (str ", ") (parameters.map Identifier.String) ++ str ") " ++ b)
  | .ReturnStatement _ returnValue =>
    match returnValue with
    | .nil => some (str "return" ++ str ";")
    | v =>
      match Expression.String v with
      | none => none
      | some s => some (str "return" ++ str " " ++ s ++ str ";")
  | .IfStatement _ condition consequence alternative =>
    match Expression.String condition with
    | none => none
    | some c =>
      match BlockStatement.String consequence with
      | none => none
      | some b =>
        match BlockStatement.StringElse alternative with
        | none => none
        | some a => some (str "if (" ++ c ++ str ") " ++ b ++ a)
  | .ExpressionStatement _ expression =>
    match expression with
    | .nil => some []
    | e =>
      match Expression.String e with
      | none => none
      | some s => some (s ++ str ";")
  | .nilLetStatement => none
  | .nilFunctionStatement => none
  | .nilIfStatement => none
/-- The method `String` of a block. -/
def BlockStatement.String : BlockStatement → Option GoString
  | .mk _ statements =>
    match Statement.StringAll (str " ") statements with
    | none => none
    | some s => some (str "\x7b " ++ s ++ str "\x7d")
/-- The end of `IfStatement.String`: nothing for a nil alternative, else the text
` else ` and the rendering of the alternative. -/
def BlockStatement.StringElse : Option BlockStatement → Option GoString
  | none => some []
  | some alternative =>
    match BlockStatement.String alternative with
    | none => none
    | some a => some (str " else " ++ a)
/-- The loops of `Program.String` and `BlockStatement.String`: the renderings of the
statements in order, each followed by `after`. -/
def Statement.StringAll (after : GoString) : List Statement → Option GoString
  | [] => some []
  | s :: rest =>
    match Statement.String s with
    | none => none
    | some x =>
      match Statement.StringAll after rest with
      | none => none
      | some xs => some (x ++ after ++ xs)
end

def Program.String (p : Program) : Option GoString :=
  Statement.StringAll [] p.Statements

/-- Lexing and parsing of a source text: the rendering `Program.String()` of the program
that `ParseProgram` returns, and the parser's error list. -/
def parseAndRender (src : GoString) : Option (Option GoString × List GoString) :=
  match ParseProgram (NewParser (New src)) with
  | none => none
  | some (program, p) => some (program.String, p.errors)

/-- The lexer that has read the text `pre` and stands on the first byte of `post`, at the
given line and column. -/
def Lexer.between (pre post : GoString) (line col : Nat) : Lexer :=
  ⟨pre ++ post, pre.length, pre.length + 1, post.getD 0 0, line, col⟩

/-- The bytes that `readIdentifier` reads on. -/
def isIdentByte (ch : Nat) : Bool := isLetter ch || isDigit ch

/-- An identifier: a letter followed by letters and digits that is not a keyword. -/
def isIdentifier : GoString → Bool
  | [] => false
  | x :: xs => isLetter x && xs.all isIdentByte && decide (LookupIdent (x :: xs) = .IDENT)

/-- The binary operators by binding strength, from the weakest level to the strongest:
the levels LOGICAL_OR to PRODUCT of the table `precedences`. -/
def binaryLevels : List (List TokenType) :=
  [[.OR], [.AND], [.EQ, .NOT_EQ], [.LT, .GT, .LTE, .GTE], [.PLUS, .MINUS],
    [.MULTIPLY, .DIVIDE]]

/-- The binary operators: the kinds with the infix rule `parseInfixExpression`. -/
def binaryOperators : List TokenType :=
  [.OR, .AND, .EQ, .NOT_EQ, .LT, .GT, .LTE, .GTE, .PLUS, .MINUS, .MULTIPLY, .DIVIDE]

/-- The source text `a op1 b op2 c`, the operators written as they are displayed. -/
def infixSource (a : GoString) (op1 : TokenType) (b : GoString) (op2 : TokenType)
    (c : GoString) : GoString :=
  a ++ 32 :: (op1.String ++ 32 :: (b ++ 32 :: (op2.String ++ 32 :: c)))

/-- The source text `pa op b`: the prefix operator stands right before `a`. -/
def prefixSource (p : TokenType) (a : GoString) (op : TokenType) (b : GoString) : GoString :=
  p.String ++ (a ++ 32 :: (op.String ++ 32 :: b))

/-- The parser that stands on token number `k` of the lexer `l0` with the error list
`errs`: its window holds the tokens `k` and `k + 1`, and its lexer has yielded `k + 2`
tokens. -/
def Parser.atToken (l0 : Lexer) (k : Nat) (errs : List GoString) : Parser :=
  ⟨Lexer.advance (k + 2) l0, errs, Lexer.tokenAt k l0, Lexer.tokenAt (k + 1) l0⟩

/-- The prefix operators: the kinds with the prefix rule `parsePrefixExpression`. -/
def prefixOperators : List TokenType := [.NOT, .MINUS]

/-- The lexer after `n` calls of `readChar`. -/
def Lexer.readChars : Nat → Lexer → Lexer
  | 0, l => l
  | n + 1, l => Lexer.readChars n l.readChar

/-- The offset of the first byte of the token that `NextToken` returns: the position of
the lexer once the whitespace and the comments are skipped, where `NextToken` stores the
line and the column of the token. The recursion after a comment consumes fuel as in
`NextTokenAux`. -/
def Lexer.tokenStartAux : Nat → Lexer → Nat
  | 0, l => l.position
  | fuel + 1, l =>
    if l.skipWhitespace.ch = 47 ∧ l.skipWhitespace.peekChar = 47 then
      Lexer.tokenStartAux fuel l.skipWhitespace.skipComment
    else l.skipWhitespace.position

def Lexer.tokenStart (l : Lexer) : Nat := Lexer.tokenStartAux (l.input.length + 1) l

/-- What a call of `NextToken` on the lexer `l` does, counted in calls of `readChar`: the
token `r.1` is made on the lexer that has skipped `m` bytes, which stands on a byte that
is not whitespace, and the lexer `r.2` is left after `n` bytes. The token is of kind EOF
exactly when it is made on the byte 0, and then `r.2` is one byte further. -/
def Lexer.scanned (l : Lexer) (m n : Nat) (r : Token × Lexer) : Prop :=
  m < n ∧ r.2 = Lexer.readChars n l ∧
    r.1.Line = (Lexer.readChars m l).line ∧ r.1.Column = (Lexer.readChars m l).column ∧
    isWhitespace (Lexer.readChars m l).ch = false ∧
    (r.1.Typ = .EOF ↔ (Lexer.readChars m l).ch = 0) ∧
    ((Lexer.readChars m l).ch = 0 → r.1.Literal = [] ∧ n = m + 1)

/-- The line of the byte at offset `s` of a text, as the specification counts it: 1 plus
the number of LF bytes before the byte. -/
def lineAt (input : GoString) (s : Nat) : Nat := 1 + (input.take s).count 10

/-- The column of the byte at offset `s` of a text, as the specification counts it: 1 plus
the number of bytes between the last LF before the byte, or the start of the text, and
the byte. -/
def columnAt (input : GoString) (s : Nat) : Nat :=
  1 + ((input.take s).reverse.takeWhile (fun b => b != 10)).length

/-- The result `r` of a parsing rule that was called on the parser standing on token `k`
of the lexer `l0` with the error list `errs`: the rule returns, the parser it leaves stands
on token `k` or behind it, and the error list is `errs` with what the rule appended. -/
def Parser.returnsFrom {α : Type} (l0 : Lexer) (k : Nat) (errs : List GoString)
    (r : Option (α × Parser)) : Prop :=
  ∃ x k1 more, k ≤ k1 ∧ r = some (x, Parser.atToken l0 k1 (errs ++ more))

/-- The rule `parseExpression` of `r` returns at every token `k` for which `fuel` levels
of recursion are enough, when the tokens from number `n` on are EOF tokens. -/
def ParseFns.expressionsReturn (l0 : Lexer) (n : Nat) (r : ParseFns) (fuel : Nat) : Prop :=
  ∀ (precedence k : Nat) (errs : List GoString), (n - k) + 1 ≤ fuel →
    Parser.returnsFrom l0 k errs (r.parseExpression precedence (Parser.atToken l0 k errs))

/-- The rule `parseStatement` of `r` returns at every token `k` for which `fuel` levels
of recursion are enough, when the tokens from number `n` on are EOF tokens. -/
def ParseFns.statementsReturn (l0 : Lexer) (n : Nat) (r : ParseFns) (fuel : Nat) : Prop :=
  ∀ (k : Nat) (errs : List GoString), (n - k) + 2 ≤ fuel →
    Parser.returnsFrom l0 k errs (r.parseStatement (Parser.atToken l0 k errs))

/-- Whether a token kind has a prefix rule: an entry in the table `prefixParseFns`. -/
def hasPrefixRule (t : TokenType) : Bool := (prefixParseFns (parseFns 0) t).isSome

/-- The kinds with which a statement form begins: the cases of the `switch` of
`parseStatement` other than the default. -/
def startsStatementForm (t : TokenType) : Bool :=
  t = .LET || t = .FUNCTION || t = .RETURN || t = .IF

/-- Whether an integer is a value of the Go type `int64`, the type of the field `Value` of
an Integer object. -/
def isInt64 (x : Int) : Bool := decide (-2 ^ 63 ≤ x) && decide (x < 2 ^ 63)

/-- The heap reached when the argument expressions `args` are evaluated one after the
other and each of them yields an object that is not an Error; `none` when one of them
yields an Error, faults or runs out of fuel. -/
def argumentsPass (ev : EvalFn) (env : Nat) : List Expression → Heap → Option Heap
  | [], h => some h
  | e :: rest, h =>
    match ev (Node.Expression e) env h with
    | .ok (evaluated, h1) => if isError evaluated then none else argumentsPass ev env rest h1
    | _ => none

mutual
/-- The entries of the `Parameters` lists of the Function statements in a statement, in
the order of the source. -/
def Statement.parameters : Statement → List Identifier
  | .FunctionStatement _ _ parameters body => parameters ++ BlockStatement.parameters body
  | .IfStatement _ _ consequence alternative =>
    BlockStatement.parameters consequence ++ BlockStatement.parametersElse alternative
  | _ => []
/-- The parameters of the Function statements in a block. -/
def BlockStatement.parameters : BlockStatement → List Identifier
  | .mk _ statements => Statement.parametersAll statements
/-- The parameters of the Function statements in the alternative of an If statement. -/
def BlockStatement.parametersElse : Option BlockStatement → List Identifier
  | none => []
  | some alternative => BlockStatement.parameters alternative
/-- The parameters of the Function statements in a list of statements. -/
def Statement.parametersAll : List Statement → List Identifier
  | [] => []
  | s :: rest => Statement.parameters s ++ Statement.parametersAll rest
end

/-- The parameters of all Function statements of a program. -/
def Program.parameters (p : Program) : List Identifier := Statement.parametersAll p.Statements

/-- The function parameters of the program that `ParseProgram` returns for a source text,
each with the kind of the token it was built from, and the parser's error list. -/
def parseParameters (src : GoString) : Option (List (TokenType × GoString) × List GoString) :=
  match ParseProgram (NewParser (New src)) with
  | none => none
  | some (program, p) =>
    some (program.parameters.map (fun i => (i.Token.Typ, i.Value)), p.errors)

/-- The loop of `TokenizeAll`: tokens are appended until one of kind EOF is appended. -/
def Lexer.TokenizeAllLoop : Nat → List Token → Lexer → Option (List Token)
  | 0, _, _ => none
  | fuel + 1, tokens, l =>
    match l.NextToken with
    | (tok, l1) =>
      if tok.Typ = .EOF then some (tokens ++ [tok])
      else Lexer.TokenizeAllLoop fuel (tokens ++ [tok]) l1

/-- The method `TokenizeAll`. Every token but the last consumes a byte of the input, so
the loop runs at most once more than the input is long; `none` means out of fuel. -/
def Lexer.TokenizeAll (l : Lexer) : Option (List Token) :=
  Lexer.TokenizeAllLoop (l.input.length + 2) [] l

/-- The kind and the literal of a token, without its line and column. -/
def Token.kindLiteral (t : Token) : TokenType × GoString := (t.Typ, t.Literal)

/-- The sequence of (kind, literal) pairs that lexing a source text yields: the result of
`TokenizeAll` on a new lexer, without the lines and columns. -/
def tokensOf (src : GoString) : Option (List (TokenType × GoString)) :=
  (New src).TokenizeAll.map (List.map Token.kindLiteral)

/-- The lexer `l` without its line and column. -/
def Lexer.erase (l : Lexer) : Lexer := ⟨l.input, l.position, l.readPosition, l.ch, 0, 0⟩

/-- A lexing result without the lines and columns. -/
def Lexer.eraseResult (r : Token × Lexer) : (TokenType × GoString) × Lexer :=
  (r.1.kindLiteral, r.2.erase)

/-- Whether the Go slice expression `s[lo:hi]` is in range: it faults unless
`lo ≤ hi ≤ len(s)`. -/
def sliceInRange (s : GoString) (lo hi : Nat) : Bool := decide (lo ≤ hi) && decide (hi ≤ s.length)

/-- The bytes with which an operator or a delimiter begins. -/
def operatorBytes : GoString := str "=+-*/!<>&|,;()\x7b\x7d"

/-- The source form of a token: its literal, for a STRING token between double quotes. -/
def Token.sourceForm (t : Token) : GoString :=
  if t.Typ = .STRING then 34 :: (t.Literal ++ [34]) else t.Literal

/-- The text obtained by joining the source forms of the tokens with single spaces. -/
def joinTokens (T : List Token) : GoString := stringsJoin [32] (T.map Token.sourceForm)

/-- The kinds of the operators and delimiters. -/
def punctuation : List TokenType :=
  [.ASSIGN, .PLUS, .MINUS, .MULTIPLY, .DIVIDE, .EQ, .NOT_EQ, .LT, .GT, .LTE, .GTE, .AND, .OR,
    .NOT, .COMMA, .SEMICOLON, .LPAREN, .RPAREN, .LBRACE, .RBRACE]

/-- What the kind of a token that `NextToken` returns says of its literal: nothing for
ILLEGAL; EOF has the empty literal; a STRING literal holds no double quote and no NUL; an
INT literal is a run of digits; an identifier or keyword is a letter followed by letters
and digits, its kind given by the keyword table; an operator or delimiter is its own
text. -/
def Token.lexed (t : Token) : Prop :=
  t.Typ = .ILLEGAL ∨
  (t.Typ = .EOF ∧ t.Literal = []) ∨
  (t.Typ = .STRING ∧ 34 ∉ t.Literal ∧ 0 ∉ t.Literal) ∨
  (t.Typ = .INT ∧ ∃ d ds, t.Literal = d :: ds ∧ isDigit d = true ∧
    ∀ x ∈ ds, isDigit x = true) ∨
  (∃ x xs, t.Literal = x :: xs ∧ isLetter x = true ∧ (∀ y ∈ xs, isIdentByte y = true) ∧
    t.Typ = LookupIdent (x :: xs)) ∨
  (t.Typ ∈ punctuation ∧ t.Literal = t.Typ.String)

/-! ## Vocabulary of the round trip of a rendering -/

/-- The tokens of the lexer `l0` from number `k` on begin with the kinds and literals
`ts`. -/
def Lexer.yields (l0 : Lexer) : Nat → List (TokenType × GoString) → Prop
  | _, [] => True
  | k, t :: ts => (Lexer.tokenAt k l0).kindLiteral = t ∧ Lexer.yields l0 (k + 1) ts

theorem nativeBoolToPyBoolean_eq (b : Bool) : nativeBoolToPyBoolean b = Object.Boolean b := by
  cases b <;> rfl

theorem evalInfixExpression_div (a b : Int) :
    evalInfixExpression (str "/") (Object.Integer a) (Object.Integer b) =
      if b = 0 then Res.ok (Object.Error (str "division by zero"))
      else Res.ok (Object.Integer (wrap64 (Int.tdiv a b))) := by
  simp +decide [evalInfixExpression, Object.Type, bothOfType, evalIntegerInfixExpression,
    INTEGER_OBJ, goDiv, newError]
  split <;> simp_all

theorem passThrough_evalProgramLoop (ev : EvalFn) (env : Nat) (pre rest : List Statement) :
    ∀ (h h1 : Heap) (r0 : Object), passThrough ev env pre h = some h1 →
      ∃ r1, evalProgramLoop ev env (pre ++ rest) r0 h = evalProgramLoop ev env rest r1 h1 := by
  induction pre with
  | nil =>
    intro h h1 r0 hp
    simp [passThrough] at hp
    subst hp
    exact ⟨r0, rfl⟩
  | cons s pre ih =>
    intro h h1 r0 hp
    simp only [passThrough] at hp
    cases hev : ev (Node.Statement s) env h with
    | panic => simp [hev] at hp
    | outOfFuel => simp [hev] at hp
    | ok v =>
      obtain ⟨res, h'⟩ := v
      simp only [hev] at hp
      cases res <;> simp at hp <;>
        (obtain ⟨r1, hr1⟩ := ih h' h1 _ hp
         refine ⟨r1, ?_⟩
         simp only [List.cons_append, evalProgramLoop, hev]
         exact hr1)

/-! ## Error propagation -/

/-- C4. For every infix expression and every operator: when the left operand evaluates to
an Error, the infix expression evaluates to that Error in the heap the left operand left
behind, whatever the right operand is (it is not evaluated); when the left operand
evaluates to a non-Error and the right operand to an Error, the result is that Error. -/
theorem infix_error_propagation (fuel : Nat) (tok : Token) (left right : Expression)
    (operator : GoString) (env : Nat) (h : Heap) :
    (∀ e h1, Eval fuel (Node.Expression left) env h = Res.ok (Object.Error e, h1) →
      Eval (fuel + 1) (Node.Expression (Expression.InfixExpression tok left operator right))
        env h = Res.ok (Object.Error e, h1)) ∧
    (∀ l h1 e h2, Eval fuel (Node.Expression left) env h = Res.ok (l, h1) →
      isError l = false →
      Eval fuel (Node.Expression right) env h1 = Res.ok (Object.Error e, h2) →
      Eval (fuel + 1) (Node.Expression (Expression.InfixExpression tok left operator right))
        env h = Res.ok (Object.Error e, h2)) := by
  constructor
  · intro e h1 hl
    simp [Eval, EvalStep, evalExpression, hl, isError]
  · intro l h1 e h2 hl hne hr
    have he : isError (Object.Error e) = true := rfl
    simp [Eval, EvalStep, evalExpression, hl, hne, hr, he]

/-- Witness of C4: `(1 / 0) || true` and `true || (1 / 0)` both evaluate to the
division-by-zero Error. -/
theorem infix_error_propagation_witness :
    Eval 3 (Node.Expression (Expression.InfixExpression ⟨.OR, str "||", 1, 9⟩
        (Expression.InfixExpression ⟨.DIVIDE, str "/", 1, 4⟩
          (Expression.IntegerLiteral ⟨.INT, str "1", 1, 2⟩ 1) (str "/")
          (Expression.IntegerLiteral ⟨.INT, str "0", 1, 6⟩ 0))
        (str "||") (Expression.BooleanLiteral ⟨.TRUE, str "true", 1, 12⟩ true)))
      0 (NewEnvironment Heap.empty).2
      = Res.ok (Object.Error (str "division by zero"), (NewEnvironment Heap.empty).2) ∧
    Eval 3 (Node.Expression (Expression.InfixExpression ⟨.OR, str "||", 1, 6⟩
        (Expression.BooleanLiteral ⟨.TRUE, str "true", 1, 1⟩ true) (str "||")
        (Expression.InfixExpression ⟨.DIVIDE, str "/", 1, 12⟩
          (Expression.IntegerLiteral ⟨.INT, str "1", 1, 10⟩ 1) (str "/")
          (Expression.IntegerLiteral ⟨.INT, str "0", 1, 14⟩ 0))))
      0 (NewEnvironment Heap.empty).2
      = Res.ok (Object.Error (str "division by zero"), (NewEnvironment Heap.empty).2) :=
  ⟨(infix_error_propagation 2 _ _ _ _ 0 _).1 _ _ rfl,
   (infix_error_propagation 2 _ _ _ _ 0 _).2 _ _ _ _ rfl rfl rfl⟩

/-- C5. When the statements before the `i`-th run through with no Error and no
ReturnValue and the `i`-th statement evaluates to an Error, `Eval` of the Program returns
that Error in the heap the `i`-th statement left behind: no later statement is
evaluated. -/
theorem program_stops_at_first_error (fuel : Nat) (pre post : List Statement)
    (s : Statement) (env : Nat) (h h1 h2 : Heap) (e : GoString)
    (hpre : passThrough (Eval fuel) env pre h = some h1)
    (hs : Eval fuel (Node.Statement s) env h1 = Res.ok (Object.Error e, h2)) :
    Eval (fuel + 1) (Node.Program ⟨pre ++ s :: post⟩) env h = Res.ok (Object.Error e, h2) := by
  obtain ⟨r1, hr1⟩ := passThrough_evalProgramLoop (Eval fuel) env pre (s :: post) h h1
    Object.nil hpre
  simp only [Eval, EvalStep, evalProgram, hr1, evalProgramLoop, hs]

set_option maxRecDepth 100000 in
/-- Witness of C5: in `let x = 10; let y = 0; x / y; x;` the two `let` statements run
through, the third statement is the division-by-zero Error, and that is the result. -/
theorem program_stops_at_first_error_witness :
    ∃ h, run 4 (str "let x = 10; let y = 0; x / y; x;")
      = some (Res.ok (Object.Error (str "division by zero"), h)) :=
  ⟨_, congrArg some (program_stops_at_first_error 3
    ((statementsOf (str "let x = 10; let y = 0; x / y; x;")).take 2)
    ((statementsOf (str "let x = 10; let y = 0; x / y; x;")).drop 3)
    ((statementsOf (str "let x = 10; let y = 0; x / y; x;")).getD 2 Statement.nilLetStatement)
    0 (NewEnvironment Heap.empty).2 _ _ _ rfl rfl)⟩

/-- C6. For every Integer `a`, `a / 0` is the Error "division by zero"; integer division
of any two Integers returns a value, never a fault; and an infix expression `/` whose
operands evaluate to Integers `a` and `b` evaluates to a value, which is that Error when
`b = 0`. -/
theorem division_by_zero_is_an_error_value :
    (∀ a : Int, evalInfixExpression (str "/") (Object.Integer a) (Object.Integer 0)
        = Res.ok (Object.Error (str "division by zero"))) ∧
    (∀ a b : Int, ∃ v, evalInfixExpression (str "/") (Object.Integer a) (Object.Integer b)
        = Res.ok v) ∧
    (∀ (fuel : Nat) (tok : Token) (left right : Expression) (env : Nat) (h h1 h2 : Heap)
        (a b : Int),
      Eval fuel (Node.Expression left) env h = Res.ok (Object.Integer a, h1) →
      Eval fuel (Node.Expression right) env h1 = Res.ok (Object.Integer b, h2) →
      ∃ v, Eval (fuel + 1)
            (Node.Expression (Expression.InfixExpression tok left (str "/") right)) env h
          = Res.ok (v, h2) ∧
        (b = 0 → v = Object.Error (str "division by zero"))) := by
  refine ⟨?_, ?_, ?_⟩
  · intro a
    simp [evalInfixExpression_div]
  · intro a b
    rw [evalInfixExpression_div]
    split
    · exact ⟨_, rfl⟩
    · exact ⟨_, rfl⟩
  · intro fuel tok left right env h h1 h2 a b hl hr
    by_cases hb : b = 0
    · refine ⟨Object.Error (str "division by zero"), ?_, fun _ => rfl⟩
      simp [Eval, EvalStep, evalExpression, hl, hr, isError, evalInfixExpression_div, hb]
    · refine ⟨Object.Integer (wrap64 (Int.tdiv a b)), ?_, fun h0 => absurd h0 hb⟩
      simp [Eval, EvalStep, evalExpression, hl, hr, isError, evalInfixExpression_div, hb]

/-- Witness of C6: the operands of `10 / 0` evaluate to Integers and the expression to
the Error "division by zero". -/
theorem division_by_zero_is_an_error_value_witness :
    Eval 1 (Node.Expression (Expression.IntegerLiteral ⟨.INT, str "10", 1, 1⟩ 10)) 0
        (NewEnvironment Heap.empty).2
      = Res.ok (Object.Integer 10, (NewEnvironment Heap.empty).2) ∧
    Eval 1 (Node.Expression (Expression.IntegerLiteral ⟨.INT, str "0", 1, 6⟩ 0)) 0
        (NewEnvironment Heap.empty).2
      = Res.ok (Object.Integer 0, (NewEnvironment Heap.empty).2) ∧
    ∃ v, Eval 2 (Node.Expression (Expression.InfixExpression ⟨.DIVIDE, str "/", 1, 4⟩
          (Expression.IntegerLiteral ⟨.INT, str "10", 1, 1⟩ 10) (str "/")
          (Expression.IntegerLiteral ⟨.INT, str "0", 1, 6⟩ 0))) 0 (NewEnvironment Heap.empty).2
        = Res.ok (v, (NewEnvironment Heap.empty).2) ∧
      ((0 : Int) = 0 → v = Object.Error (str "division by zero")) :=
  ⟨rfl, rfl, division_by_zero_is_an_error_value.2.2 1 _ _ _ 0 _ _ _ 10 0 rfl rfl⟩

/-! ## Operators -/

/-- C7, counterexample. `1 && 2` is not Boolean true: two Integers go to the integer
operators, which know no `&&`, and the result is the Error "unknown operator: &&"; so the
rule "truthiness of both operands" does not hold for every pair of non-Error values. -/
theorem logical_and_of_two_integers_is_an_error :
    evalInfixExpression (str "&&") (Object.Integer 1) (Object.Integer 2)
      = Res.ok (Object.Error (str "unknown operator: &&")) ∧
    (∃ h, run 10 (str "1 && 2")
      = some (Res.ok (Object.Error (str "unknown operator: &&"), h))) ∧
    ¬ (∀ l r : Object, l ≠ Object.nil → r ≠ Object.nil → isError l = false →
        isError r = false →
        evalInfixExpression (str "&&") l r
          = Res.ok (Object.Boolean (isTruthy l && isTruthy r))) := by
  refine ⟨rfl, ⟨_, rfl⟩, ?_⟩
  intro hall
  have h1 := hall (Object.Integer 1) (Object.Integer 2) (fun h => Object.noConfusion h)
    (fun h => Object.noConfusion h) rfl rfl
  have h2 : evalInfixExpression (str "&&") (Object.Integer 1) (Object.Integer 2)
      = Res.ok (Object.Error (str "unknown operator: &&")) := rfl
  rw [h2] at h1
  cases h1

/-- C7, amended. For all objects `l` and `r` other than the nil object that are not both
Integers and not both Strings, `l && r` is Boolean(truthy(l) and truthy(r)) and `l || r`
is Boolean(truthy(l) or truthy(r)); an object is falsy exactly when it is Null or false;
for all Integers `a` and `b`, `a && b` and `a || b` are the Errors
"unknown operator: &&" and "unknown operator: ||"; for all Strings `s` and `t`, `s && t`
and `s || t` are the Errors "unknown operator: STRING && STRING" and
"unknown operator: STRING || STRING". -/
theorem logical_operators_by_truthiness :
    (∀ l r : Object, l ≠ Object.nil → r ≠ Object.nil →
      ¬ (l.isInteger = true ∧ r.isInteger = true) →
      ¬ (l.isString = true ∧ r.isString = true) →
      evalInfixExpression (str "&&") l r
          = Res.ok (Object.Boolean (isTruthy l && isTruthy r)) ∧
        evalInfixExpression (str "||") l r
          = Res.ok (Object.Boolean (isTruthy l || isTruthy r))) ∧
    (∀ l : Object, isTruthy l = false ↔ (l = Object.Null ∨ l = Object.Boolean false)) ∧
    (∀ a b : Int,
      evalInfixExpression (str "&&") (Object.Integer a) (Object.Integer b)
          = Res.ok (Object.Error (str "unknown operator: &&")) ∧
        evalInfixExpression (str "||") (Object.Integer a) (Object.Integer b)
          = Res.ok (Object.Error (str "unknown operator: ||"))) ∧
    (∀ s t : GoString,
      evalInfixExpression (str "&&") (Object.String s) (Object.String t)
          = Res.ok (Object.Error (str "unknown operator: STRING && STRING")) ∧
        evalInfixExpression (str "||") (Object.String s) (Object.String t)
          = Res.ok (Object.Error (str "unknown operator: STRING || STRING"))) := by
  refine ⟨?_, ?_, ?_, ?_⟩
  · intro l r hl hr hint hstr
    constructor
    · cases l <;> cases r <;>
        simp_all +decide [evalInfixExpression, Object.Type, bothOfType, INTEGER_OBJ, STRING_OBJ,
          BOOLEAN_OBJ, NULL_OBJ, FUNCTION_OBJ, RETURN_OBJ, ERROR_OBJ, evalLogicalAndExpression,
          nativeBoolToPyBoolean_eq, RUNTIME_FALSE, RUNTIME_TRUE,
          Object.isInteger, Object.isString] <;>
        (try split) <;> simp_all
    · cases l <;> cases r <;>
        simp_all +decide [evalInfixExpression, Object.Type, bothOfType, INTEGER_OBJ, STRING_OBJ,
          BOOLEAN_OBJ, NULL_OBJ, FUNCTION_OBJ, RETURN_OBJ, ERROR_OBJ, evalLogicalOrExpression,
          nativeBoolToPyBoolean_eq, RUNTIME_FALSE, RUNTIME_TRUE,
          Object.isInteger, Object.isString] <;>
        (try split) <;> simp_all
  · intro l
    cases l <;> simp [isTruthy]
    rename_i b; cases b <;> simp
  · intro a b
    exact ⟨rfl, rfl⟩
  · intro s t
    exact ⟨rfl, rfl⟩

/-- Witness of C7 amended: the Integer 0 and the empty String are truthy, Null is not. -/
theorem logical_operators_by_truthiness_witness :
    evalInfixExpression (str "&&") (Object.Integer 0) (Object.String [])
      = Res.ok (Object.Boolean true) ∧
    evalInfixExpression (str "||") Object.Null (Object.Boolean false)
      = Res.ok (Object.Boolean false) ∧
    evalInfixExpression (str "||") (Object.Integer 1) (Object.Integer 2)
      = Res.ok (Object.Error (str "unknown operator: ||")) :=
  ⟨(logical_operators_by_truthiness.1 (Object.Integer 0) (Object.String [])
      (fun h => Object.noConfusion h) (fun h => Object.noConfusion h) (by decide)
      (by decide)).1,
   (logical_operators_by_truthiness.1 Object.Null (Object.Boolean false)
      (fun h => Object.noConfusion h) (fun h => Object.noConfusion h) (by decide)
      (by decide)).2,
   (logical_operators_by_truthiness.2.2.1 1 2).2⟩

/-- C8. The source `true || (1/0)` evaluates to the Error "division by zero": `Eval`
evaluates the right operand of `||` before `evalLogicalOrExpression` looks at the left
one. -/
theorem logical_or_evaluates_its_right_operand :
    ∃ h, run 10 (str "true || (1/0)")
      = some (Res.ok (Object.Error (str "division by zero"), h)) :=
  ⟨_, rfl⟩

set_option maxRecDepth 100000 in
/-- C9. The source `func f() {} f() == 1;` faults: the call of the function with
the empty body evaluates to the nil object, and `evalInfixExpression` calls `Type()` on
its left operand first. Every operator faults on a nil left operand, and on a nil right
operand next to an Integer or a String. -/
theorem equality_faults_on_nil_operand :
    run 10 (str "func f() \x7b\x7d f() == 1;") = some Res.panic ∧
    run 10 (str "func f() \x7b\x7d 1 != f();") = some Res.panic ∧
    (∃ h, run 10 (str "func f() \x7b\x7d f();") = some (Res.ok (Object.nil, h))) ∧
    (∀ (operator : GoString) (r : Object),
      evalInfixExpression operator Object.nil r = Res.panic) ∧
    (∀ (operator : GoString) (v : Int),
      evalInfixExpression operator (Object.Integer v) Object.nil = Res.panic) ∧
    (∀ (operator : GoString) (s : GoString),
      evalInfixExpression operator (Object.String s) Object.nil = Res.panic) :=
  ⟨rfl, rfl, ⟨_, rfl⟩, fun _ _ => rfl, fun _ _ => rfl, fun _ _ => rfl⟩

/-- Outside the nil object: for operands that are not both Integers and not both Strings,
`==` yields Boolean(the two are the same object) and `!=` its negation; operands of
different types are not the same object, two Booleans are the same object exactly when
they are equal, Null is the same object as Null, and two Functions are the same object
exactly when they are the same allocation. -/
theorem equality_of_other_operands_is_identity (l r : Object) (hl : l ≠ Object.nil)
    (hr : r ≠ Object.nil) (hint : ¬ (l.isInteger = true ∧ r.isInteger = true))
    (hstr : ¬ (l.isString = true ∧ r.isString = true)) :
    evalInfixExpression (str "==") l r = Res.ok (Object.Boolean (identical l r)) ∧
    evalInfixExpression (str "!=") l r = Res.ok (Object.Boolean (!identical l r)) ∧
    (l.Type ≠ r.Type → identical l r = false) ∧
    (∀ a b : Bool, l = Object.Boolean a → r = Object.Boolean b →
      identical l r = decide (a = b)) ∧
    (l = Object.Null → r = Object.Null → identical l r = true) ∧
    (∀ a ps bd e a' ps' bd' e', l = Object.Function a ps bd e →
      r = Object.Function a' ps' bd' e' → identical l r = decide (a = a')) := by
  refine ⟨?_, ?_, ?_, ?_, ?_, ?_⟩
  · cases l <;> cases r <;>
      simp_all +decide [evalInfixExpression, Object.Type, bothOfType, INTEGER_OBJ, STRING_OBJ,
        BOOLEAN_OBJ, NULL_OBJ, FUNCTION_OBJ, RETURN_OBJ, ERROR_OBJ, nativeBoolToPyBoolean_eq,
        Object.isInteger, Object.isString, identical]
  · cases l <;> cases r <;>
      simp_all +decide [evalInfixExpression, Object.Type, bothOfType, INTEGER_OBJ, STRING_OBJ,
        BOOLEAN_OBJ, NULL_OBJ, FUNCTION_OBJ, RETURN_OBJ, ERROR_OBJ, nativeBoolToPyBoolean_eq,
        Object.isInteger, Object.isString, identical]
  · cases l <;> cases r <;> simp_all [identical, Object.Type]
  · rintro a b rfl rfl
    rfl
  · rintro rfl rfl
    rfl
  · rintro a ps bd e a' ps' bd' e' rfl rfl
    rfl

/-- An instance of the identity comparison: `1 == true` is false and `1 != true` is
true. -/
theorem equality_of_other_operands_is_identity_at_one_and_true :
    evalInfixExpression (str "==") (Object.Integer 1) (Object.Boolean true)
      = Res.ok (Object.Boolean false) ∧
    evalInfixExpression (str "!=") (Object.Integer 1) (Object.Boolean true)
      = Res.ok (Object.Boolean true) :=
  ⟨(equality_of_other_operands_is_identity (Object.Integer 1) (Object.Boolean true)
      (fun h => Object.noConfusion h) (fun h => Object.noConfusion h)
      (by decide) (by decide)).1,
   (equality_of_other_operands_is_identity (Object.Integer 1) (Object.Boolean true)
      (fun h => Object.noConfusion h) (fun h => Object.noConfusion h)
      (by decide) (by decide)).2.1⟩

/-- C10. For all strings `s` and `t`: `s + t` is the String `s` followed by `t`, `s == t`
and `s != t` compare the values, and every other operator, among them `-`, `*`, `/`, `<`,
`>`, `<=`, `>=`, `&&` and `||`, yields the Error "unknown operator: STRING op STRING". -/
theorem string_operators (s t : GoString) :
    evalInfixExpression (str "+") (Object.String s) (Object.String t)
        = Res.ok (Object.String (s ++ t)) ∧
    evalInfixExpression (str "==") (Object.String s) (Object.String t)
        = Res.ok (Object.Boolean (decide (s = t))) ∧
    evalInfixExpression (str "!=") (Object.String s) (Object.String t)
        = Res.ok (Object.Boolean (decide (s ≠ t))) ∧
    (∀ op : GoString, op ≠ str "+" → op ≠ str "==" → op ≠ str "!=" →
      evalInfixExpression op (Object.String s) (Object.String t)
        = Res.ok (Object.Error (str "unknown operator: STRING " ++ op ++ str " STRING"))) ∧
    (∀ op ∈ [str "-", str "*", str "/", str "<", str ">", str "<=", str ">=", str "&&",
          str "||"],
      ∃ m, evalInfixExpression op (Object.String s) (Object.String t)
        = Res.ok (Object.Error m)) := by
  have key : ∀ op : GoString, op ≠ str "+" → op ≠ str "==" → op ≠ str "!=" →
      evalInfixExpression op (Object.String s) (Object.String t)
        = Res.ok (Object.Error (str "unknown operator: STRING " ++ op ++ str " STRING")) := by
    intro op h1 h2 h3
    simp +decide [evalInfixExpression, Object.Type, bothOfType, evalStringInfixExpression,
      h1, h2, h3, newError, STRING_OBJ, INTEGER_OBJ]
    rfl
  refine ⟨?_, ?_, ?_, key, ?_⟩
  · simp +decide [evalInfixExpression, Object.Type, bothOfType, evalStringInfixExpression,
      STRING_OBJ, INTEGER_OBJ]
  · simp +decide [evalInfixExpression, Object.Type, bothOfType, evalStringInfixExpression,
      STRING_OBJ, INTEGER_OBJ, nativeBoolToPyBoolean, RUNTIME_TRUE, RUNTIME_FALSE]
    by_cases h : s = t <;> simp [h]
  · simp +decide [evalInfixExpression, Object.Type, bothOfType, evalStringInfixExpression,
      STRING_OBJ, INTEGER_OBJ, nativeBoolToPyBoolean, RUNTIME_TRUE, RUNTIME_FALSE]
    by_cases h : s = t <;> simp [h]
  · intro op hop
    refine ⟨_, key op ?_ ?_ ?_⟩ <;>
      (simp only [List.mem_cons, List.mem_singleton, List.not_mem_nil, or_false] at hop
       rcases hop with h | h | h | h | h | h | h | h | h <;> (subst h; decide))

/-- Witness of C10: `"a" - "b"` is the Error "unknown operator: STRING - STRING". -/
theorem string_operators_witness :
    evalInfixExpression (str "-") (Object.String (str "a")) (Object.String (str "b"))
      = Res.ok (Object.Error (str "unknown operator: STRING - STRING")) :=
  (string_operators (str "a") (str "b")).2.2.2.1 (str "-") (by decide) (by decide)
    (by decide)

/-! ## Lemmas on the lexer -/

theorem getD_of_length_le (inp : GoString) (i : Nat) (h : inp.length ≤ i) :
    inp.getD i 0 = 0 := by
  rw [List.getD_eq_getElem?_getD, List.getElem?_eq_none h]
  rfl

theorem getD_append_add (a b : GoString) (j : Nat) :
    (a ++ b).getD (a.length + j) 0 = b.getD j 0 := by
  rw [List.getD_eq_getElem?_getD, List.getD_eq_getElem?_getD,
    List.getElem?_append_right (Nat.le_add_right _ _), Nat.add_sub_cancel_left]

theorem readChar_mk (inp : GoString) (p rp ch line col c : Nat) (hc : inp.getD rp 0 = c)
    (h10 : c ≠ 10) :
    Lexer.readChar ⟨inp, p, rp, ch, line, col⟩ = ⟨inp, rp, rp + 1, c, line, col + 1⟩ := by
  subst hc
  unfold Lexer.readChar
  by_cases h : rp ≥ inp.length
  · rw [getD_of_length_le inp rp h]
    simp [h]
  · simp only [h, if_false, h10]

theorem NextToken_lparen (inp : GoString) (p rp line col : Nat) :
    Lexer.NextToken ⟨inp, p, rp, 40, line, col⟩ =
      (⟨.LPAREN, [40], line, col⟩, Lexer.readChar ⟨inp, p, rp, 40, line, col⟩) := rfl

theorem NextToken_rparen (inp : GoString) (p rp line col : Nat) :
    Lexer.NextToken ⟨inp, p, rp, 41, line, col⟩ =
      (⟨.RPAREN, [41], line, col⟩, Lexer.readChar ⟨inp, p, rp, 41, line, col⟩) := rfl

theorem NextToken_eof (inp : GoString) (p rp line col : Nat) :
    Lexer.NextToken ⟨inp, p, rp, 0, line, col⟩ =
      (⟨.EOF, [], line, col⟩, Lexer.readChar ⟨inp, p, rp, 0, line, col⟩) := rfl

theorem readNumberLoop_digits :
    ∀ (ds pre post : GoString) (d line col fuel : Nat),
      isDigit d = true → (∀ x ∈ ds, isDigit x = true) →
      isDigit (post.getD 0 0) = false → post.getD 0 0 ≠ 10 → ds.length + 1 ≤ fuel →
      Lexer.readNumberLoop fuel ⟨pre ++ d :: (ds ++ post), pre.length, pre.length + 1, d,
          line, col⟩ =
        ⟨pre ++ d :: (ds ++ post), pre.length + ds.length + 1, pre.length + ds.length + 2,
          post.getD 0 0, line, col + ds.length + 1⟩ := by
  intro ds
  induction ds with
  | nil =>
    intro pre post d line col fuel hd _ hpost h10 hfuel
    obtain ⟨f, rfl⟩ : ∃ f, fuel = f + 1 := ⟨fuel - 1, by simp at hfuel; omega⟩
    have hget : (pre ++ d :: ([] ++ post)).getD (pre.length + 1) 0 = post.getD 0 0 := by
      have := getD_append_add (pre ++ [d]) post 0
      simpa using this
    simp only [Lexer.readNumberLoop, hd, if_true]
    rw [readChar_mk _ _ _ _ _ _ _ hget h10]
    cases f with
    | zero => rfl
    | succ f =>
      simp only [Lexer.readNumberLoop, hpost, Bool.false_eq_true, if_false]
      rfl
  | cons d' ds ih =>
    intro pre post d line col fuel hd hds hpost h10 hfuel
    obtain ⟨f, rfl⟩ : ∃ f, fuel = f + 1 := ⟨fuel - 1, by simp at hfuel; omega⟩
    have hd' : isDigit d' = true := hds d' (List.mem_cons_self _ _)
    have hd10 : d' ≠ 10 := by
      intro h; subst h; simp [isDigit] at hd'
    have hget : (pre ++ d :: (d' :: ds ++ post)).getD (pre.length + 1) 0 = d' := by
      have := getD_append_add (pre ++ [d]) (d' :: ds ++ post) 0
      simpa using this
    simp only [Lexer.readNumberLoop, hd, if_true]
    rw [readChar_mk _ _ _ _ _ _ _ hget hd10]
    have hin : pre ++ d :: (d' :: ds ++ post) = (pre ++ [d]) ++ d' :: (ds ++ post) := by simp
    have := ih (pre ++ [d]) post d' line (col + 1) f hd'
      (fun x hx => hds x (List.mem_cons_of_mem _ hx)) hpost h10
      (by simp at hfuel ⊢; omega)
    simp only [List.length_append, List.length_singleton] at this
    rw [hin, this]
    simp only [List.length_cons, Lexer.mk.injEq, true_and]
    omega

theorem slice_middle (pre ds post : GoString) :
    slice (pre ++ (ds ++ post)) pre.length (pre.length + ds.length) = ds := by
  simp [slice]

theorem NextToken_digits (ds pre post : GoString) (d line col : Nat)
    (hd : isDigit d = true) (hds : ∀ x ∈ ds, isDigit x = true)
    (hpost : isDigit (post.getD 0 0) = false) (h10 : post.getD 0 0 ≠ 10) :
    Lexer.NextToken ⟨pre ++ d :: (ds ++ post), pre.length, pre.length + 1, d, line, col⟩ =
      (⟨.INT, d :: ds, line, col⟩,
        ⟨pre ++ d :: (ds ++ post), pre.length + ds.length + 1, pre.length + ds.length + 2,
          post.getD 0 0, line, col + ds.length + 1⟩) := by
  have hb : 48 ≤ d ∧ d ≤ 57 := by simpa [isDigit] using hd
  have hws : isWhitespace d = false := by
    simp only [isWhitespace, Bool.or_eq_false_iff, decide_eq_false_iff_not]
    omega
  have hlet : isLetter d = false := by
    simp only [isLetter, Bool.or_eq_false_iff, Bool.and_eq_false_iff, decide_eq_false_iff_not]
    omega
  have hloop := readNumberLoop_digits ds pre post d line col
    ((pre ++ d :: (ds ++ post)).length + 1) hd hds hpost h10 (by simp; omega)
  have hsl : slice (pre ++ d :: (ds ++ post)) pre.length (pre.length + ds.length + 1)
      = d :: ds := by
    have := slice_middle pre (d :: ds) post
    simpa [Nat.add_assoc] using this
  have n61 : ¬ d = 61 := by omega
  have n43 : ¬ d = 43 := by omega
  have n45 : ¬ d = 45 := by omega
  have n42 : ¬ d = 42 := by omega
  have n47 : ¬ d = 47 := by omega
  have n33 : ¬ d = 33 := by omega
  have n60 : ¬ d = 60 := by omega
  have n62 : ¬ d = 62 := by omega
  have n38 : ¬ d = 38 := by omega
  have n124 : ¬ d = 124 := by omega
  have n44 : ¬ d = 44 := by omega
  have n59 : ¬ d = 59 := by omega
  have n40 : ¬ d = 40 := by omega
  have n41 : ¬ d = 41 := by omega
  have n123 : ¬ d = 123 := by omega
  have n125 : ¬ d = 125 := by omega
  have n34 : ¬ d = 34 := by omega
  have n0 : ¬ d = 0 := by omega
  simp only [Lexer.NextToken, Lexer.NextTokenAux, Lexer.tokenSwitch, Lexer.skipWhitespace,
    Lexer.skipWhitespaceLoop, hws, Bool.false_eq_true, if_false, Lexer.readNumber, hloop, hsl,
    hlet, hd, if_true, ↓reduceIte, n61, n43, n45, n42, n47, n33, n60, n62, n38, n124,
    n44, n59, n40, n41, n123, n125, n34, n0]

theorem digitsValue_ten (lit : GoString) (hlit : ∀ x ∈ lit, isDigit x = true) :
    ∀ acc : Nat, digitsValue 10 lit acc
      = some (lit.foldl (fun acc c => acc * 10 + (c - 48)) acc) := by
  induction lit with
  | nil => intro acc; rfl
  | cons c cs ih =>
    intro acc
    have hc : 48 ≤ c ∧ c ≤ 57 := by
      simpa [isDigit] using hlit c (List.mem_cons_self _ _)
    have hc' : 48 ≤ c ∧ c < 48 + 10 := by omega
    simp only [digitsValue, hc', and_self, if_true, List.foldl_cons]
    exact ih (fun x hx => hlit x (List.mem_cons_of_mem _ hx)) _

theorem ParseInt_decimal (d : Nat) (ds : GoString)
    (hlit : ∀ x ∈ d :: ds, isDigit x = true) (hlead : d = 48 → ds = [])
    (hrange : decimalValue (d :: ds) ≤ 2 ^ 63 - 1) :
    ParseInt (d :: ds) = some (decimalValue (d :: ds) : Int) := by
  by_cases h48 : d = 48
  · subst h48
    rw [hlead rfl]
    rfl
  · have hv := digitsValue_ten (d :: ds) hlit 0
    have hlt : decimalValue (d :: ds) < 2 ^ 63 := by omega
    unfold ParseInt
    split
    · rename_i heq; cases heq
    · rename_i rest heq
      simp only [List.cons.injEq] at heq
      exact absurd heq.1 h48
    · rw [hv]
      show (if decimalValue (d :: ds) < 2 ^ 63 then some (decimalValue (d :: ds) : Int)
        else none) = _
      rw [if_pos hlt]

theorem closureSource_eq (lit : GoString) :
    closureSource lit = closurePrefix (lit ++ str ")()") := rfl

set_option maxRecDepth 100000 in
set_option maxHeartbeats 4000000 in
theorem take_closurePrefix (rest : GoString) :
    Lexer.take 20 (New (closurePrefix rest)) =
      ([⟨.FUNCTION, str "func", 1, 1⟩,
        ⟨.IDENT, str "make", 1, 6⟩,
        ⟨.LPAREN, str "(", 1, 10⟩,
        ⟨.IDENT, str "x", 1, 11⟩,
        ⟨.RPAREN, str ")", 1, 12⟩,
        ⟨.LBRACE, str "\x7b", 1, 13⟩,
        ⟨.FUNCTION, str "func", 1, 15⟩,
        ⟨.IDENT, str "inner", 1, 20⟩,
        ⟨.LPAREN, str "(", 1, 25⟩,
        ⟨.RPAREN, str ")", 1, 26⟩,
        ⟨.LBRACE, str "\x7b", 1, 27⟩,
        ⟨.RETURN, str "return", 1, 29⟩,
        ⟨.IDENT, str "x", 1, 36⟩,
        ⟨.SEMICOLON, str ";", 1, 37⟩,
        ⟨.RBRACE, str "\x7d", 1, 39⟩,
        ⟨.RETURN, str "return", 1, 41⟩,
        ⟨.IDENT, str "inner", 1, 48⟩,
        ⟨.SEMICOLON, str ";", 1, 53⟩,
        ⟨.RBRACE, str "\x7d", 1, 55⟩,
        ⟨.IDENT, str "make", 1, 57⟩],
        ⟨closurePrefix rest, 60, 61, 40, 1, 61⟩) := rfl

theorem Lexer.advance_succ_front (k : Nat) (l : Lexer) :
    Lexer.advance (k + 1) l = Lexer.advance k l.NextToken.2 := by
  induction k with
  | zero => rfl
  | succ k ih =>
    show (Lexer.advance (k + 1) l).NextToken.2 = (Lexer.advance k l.NextToken.2).NextToken.2
    rw [ih]

theorem Lexer.take_eq (k : Nat) :
    ∀ l : Lexer, Lexer.take k l =
      ((List.range k).map (fun i => Lexer.tokenAt i l), Lexer.advance k l) := by
  induction k with
  | zero => intro l; rfl
  | succ k ih =>
    intro l
    have h1 : Lexer.take (k + 1) l =
        (l.NextToken.1 :: (Lexer.take k l.NextToken.2).1, (Lexer.take k l.NextToken.2).2) := rfl
    rw [h1, ih, Lexer.advance_succ_front, List.range_succ_eq_map]
    simp only [List.map_cons, List.map_map, Prod.mk.injEq, List.cons.injEq, and_true]
    refine ⟨rfl, ?_⟩
    apply List.map_congr_left
    intro i _
    show Lexer.tokenAt i l.NextToken.2 = Lexer.tokenAt (i + 1) l
    unfold Lexer.tokenAt
    rw [Lexer.advance_succ_front]

/-- One token that `NextToken` takes from a single character: the token is `tok` and the
lexer moves on by one `readChar`. -/
theorem Lexer.step_single (l0 : Lexer) (k : Nat) (inp : GoString)
    (p rp ch line col c : Nat) (tok : Token)
    (hs : Lexer.advance k l0 = ⟨inp, p, rp, ch, line, col⟩)
    (hnt : Lexer.NextToken ⟨inp, p, rp, ch, line, col⟩ =
      (tok, Lexer.readChar ⟨inp, p, rp, ch, line, col⟩))
    (hc : inp.getD rp 0 = c) (h10 : c ≠ 10) :
    Lexer.tokenAt k l0 = tok ∧ Lexer.advance (k + 1) l0 = ⟨inp, rp, rp + 1, c, line, col + 1⟩ := by
  constructor
  · unfold Lexer.tokenAt
    rw [hs, hnt]
  · show (Lexer.advance k l0).NextToken.2 = _
    rw [hs, hnt]
    exact readChar_mk inp p rp ch line col c hc h10

theorem getD_tail (pre ds post : GoString) (d j : Nat) :
    (pre ++ d :: (ds ++ post)).getD (pre.length + ds.length + 1 + j) 0 = post.getD j 0 := by
  have h := getD_append_add (pre ++ d :: ds) post j
  have e1 : (pre ++ d :: ds) ++ post = pre ++ d :: (ds ++ post) := by simp
  have e2 : (pre ++ d :: ds).length + j = pre.length + ds.length + 1 + j := by
    simp only [List.length_append, List.length_cons]
    omega
  rw [e1, e2] at h
  exact h

set_option maxRecDepth 100000 in
/-- The tokens of `closureSource` for a literal that is a run of digits: the kinds of the
first 26 tokens, the names of the identifiers, and the text of the literal. -/
theorem lex_closureSource (d : Nat) (ds : GoString) (hd : isDigit d = true)
    (hds : ∀ x ∈ ds, isDigit x = true) :
    (List.range 26).map (fun k => (Lexer.tokenAt k (New (closureSource (d :: ds)))).Typ) =
      [.FUNCTION, .IDENT, .LPAREN, .IDENT, .RPAREN, .LBRACE, .FUNCTION, .IDENT, .LPAREN,
        .RPAREN, .LBRACE, .RETURN, .IDENT, .SEMICOLON, .RBRACE, .RETURN, .IDENT, .SEMICOLON,
        .RBRACE, .IDENT, .LPAREN, .INT, .RPAREN, .LPAREN, .RPAREN, .EOF] ∧
    [1, 3, 7, 12, 16, 19].map
        (fun k => (Lexer.tokenAt k (New (closureSource (d :: ds)))).Literal) =
      [str "make", str "x", str "inner", str "x", str "inner", str "make"] ∧
    (Lexer.tokenAt 21 (New (closureSource (d :: ds)))).Literal = d :: ds := by
  have hb : 48 ≤ d ∧ d ≤ 57 := by simpa [isDigit] using hd
  have hd10 : d ≠ 10 := by omega
  have htake := take_closurePrefix ((d :: ds) ++ str ")()")
  rw [← closureSource_eq, Lexer.take_eq] at htake
  obtain ⟨hmap, hadv⟩ := Prod.mk.inj htake
  simp only [List.range_succ, List.range_zero, List.nil_append, List.cons_append,
    List.map_cons, List.map_nil, List.cons.injEq, and_true] at hmap
  obtain ⟨t0, t1, t2, t3, t4, t5, t6, t7, t8, t9, t10, t11, t12, t13, t14, t15, t16, t17,
    t18, t19⟩ := hmap
  -- the opening parenthesis of the call
  obtain ⟨t20, s21⟩ := Lexer.step_single _ 20 _ _ _ _ _ _ d _ hadv (NextToken_lparen _ _ _ _ _)
    (show (closureSource (d :: ds)).getD 61 0 = d from rfl) hd10
  -- the literal
  have hnd := NextToken_digits ds (closurePrefix []) (str ")()") d 1 62 hd hds
    (by decide) (by decide)
  have t21 : Lexer.tokenAt 21 (New (closureSource (d :: ds))) = ⟨.INT, d :: ds, 1, 62⟩ := by
    unfold Lexer.tokenAt
    rw [s21]
    exact congrArg Prod.fst hnd
  have s22 : Lexer.advance 22 (New (closureSource (d :: ds))) =
      ⟨closureSource (d :: ds), (closurePrefix []).length + ds.length + 1,
        (closurePrefix []).length + ds.length + 2, 41, 1, 62 + ds.length + 1⟩ := by
    show (Lexer.advance 21 (New (closureSource (d :: ds)))).NextToken.2 = _
    rw [s21]
    exact congrArg Prod.snd hnd
  -- the three parentheses and the end of input
  obtain ⟨t22, s23⟩ := Lexer.step_single _ 22 _ _ _ _ _ _ 40 _ s22 (NextToken_rparen _ _ _ _ _)
    (getD_tail (closurePrefix []) ds (str ")()") d 1) (by decide)
  obtain ⟨t23, s24⟩ := Lexer.step_single _ 23 _ _ _ _ _ _ 41 _ s23 (NextToken_lparen _ _ _ _ _)
    (getD_tail (closurePrefix []) ds (str ")()") d 2) (by decide)
  obtain ⟨t24, s25⟩ := Lexer.step_single _ 24 _ _ _ _ _ _ 0 _ s24 (NextToken_rparen _ _ _ _ _)
    (getD_tail (closurePrefix []) ds (str ")()") d 3) (by decide)
  obtain ⟨t25, _⟩ := Lexer.step_single _ 25 _ _ _ _ _ _ 0 _ s25 (NextToken_eof _ _ _ _ _)
    (getD_tail (closurePrefix []) ds (str ")()") d 4) (by decide)
  refine ⟨?_, ?_, ?_⟩
  · simp only [List.range_succ, List.range_zero, List.nil_append, List.cons_append,
      List.map_cons, List.map_nil, t0, t1, t2, t3, t4, t5, t6, t7, t8, t9, t10, t11, t12, t13,
      t14, t15, t16, t17, t18, t19, t20, t21, t22, t23, t24, t25]
  · simp only [List.map_cons, List.map_nil, t1, t3, t7, t12, t16, t19]
  · rw [t21]

/-! ## Closures -/

/-- Parsing of the closure example from any lexer that yields its 26 tokens. -/
theorem parse_closureProgram (L : Nat → Lexer) (T : Nat → Token) (n : Int) (m : Nat)
    (hnext : ∀ k, (L k).NextToken = (T k, L (k + 1)))
    (htypes : (List.range 26).map (fun k => (T k).Typ) =
      [.FUNCTION, .IDENT, .LPAREN, .IDENT, .RPAREN, .LBRACE, .FUNCTION, .IDENT, .LPAREN,
        .RPAREN, .LBRACE, .RETURN, .IDENT, .SEMICOLON, .RBRACE, .RETURN, .IDENT, .SEMICOLON,
        .RBRACE, .IDENT, .LPAREN, .INT, .RPAREN, .LPAREN, .RPAREN, .EOF])
    (hn : ParseInt (T 21).Literal = some n) :
    ∃ p, ParseProgramFuel (m + 4) (NewParser (L 0)) = some (closureProgram T n, p) ∧
      p.errors = [] := by
  simp only [List.range_succ, List.range_zero, List.nil_append, List.cons_append,
    List.map_cons, List.map_nil, List.cons.injEq, and_true] at htypes
  obtain ⟨h0, h1, h2, h3, h4, h5, h6, h7, h8, h9, h10, h11, h12, h13, h14, h15, h16, h17,
    h18, h19, h20, h21, h22, h23, h24, h25⟩ := htypes
  simp [ParseProgramFuel, ParseProgramLoop, NewParser, Parser.nextToken, hnext, parseFns,
    parseStatementStep, parseExpressionStatement, parseExpressionStep, prefixParseFns,
    infixParseFns, parseExpressionLoop, parseIdentifier, parseIntegerLiteral,
    parseCallExpression, parseExpressionList, parseExpressionListLoop,
    parseFunctionStatement, parseFunctionParameters, parseFunctionParametersLoop,
    parseBlockStatement, parseBlockStatementLoop, parseReturnStatement,
    Parser.peekTokenIs, Parser.curTokenIs, Parser.peekPrecedence, Parser.curPrecedence,
    Parser.expectPeek, precedences, h0, h1, h2, h3, h4, h5, h6, h7, h8, h9, h10, h11, h12,
    h13, h14, h15, h16, h17, h18, h19, h20, h21, h22, h23, h24, h25, hn, LOWEST, CALL,
    closureProgram]

set_option maxRecDepth 100000 in
/-- Evaluation of the closure example: the call of the inner function returns the
argument of the outer call. -/
theorem eval_closureProgram (T : Nat → Token) (n : Int) (m : Nat)
    (hlits : [1, 3, 7, 12, 16, 19].map (fun k => (T k).Literal) =
      [str "make", str "x", str "inner", str "x", str "inner", str "make"]) :
    ∃ h, Eval (m + 7) (Node.Program (closureProgram T n)) (NewEnvironment Heap.empty).1
      (NewEnvironment Heap.empty).2 = Res.ok (Object.Integer n, h) := by
  simp only [List.map_cons, List.map_nil, List.cons.injEq, and_true] at hlits
  obtain ⟨l1, l3, l7, l12, l16, l19⟩ := hlits
  simp only [closureProgram, l1, l3, l7, l12, l16, l19]
  exact ⟨_, rfl⟩

/-- C1. For every decimal integer literal (a non-empty run of digits with no leading
zero) of value `n` at most `2^63 - 1`, the source
`func make(x){ func inner(){ return x; } return inner; } make(n)()` is parsed with an
empty error list, and lexing, parsing and evaluating it in a fresh root environment, with
any fuel from 7 on, yields Integer(n). -/
theorem closure_reads_outer_parameter (lit : GoString) (hne : lit ≠ [])
    (hdigits : ∀ x ∈ lit, isDigit x = true) (hlead : lit.head? = some 48 → lit = [48])
    (hrange : decimalValue lit ≤ 2 ^ 63 - 1) (fuel : Nat) (hfuel : 7 ≤ fuel) :
    (∃ program p, ParseProgram (NewParser (New (closureSource lit))) = some (program, p) ∧
      p.errors = []) ∧
    ∃ h, run fuel (closureSource lit)
      = some (Res.ok (Object.Integer (decimalValue lit), h)) := by
  obtain ⟨d, ds, rfl⟩ : ∃ d ds, lit = d :: ds := by
    cases lit with
    | nil => exact absurd rfl hne
    | cons d ds => exact ⟨d, ds, rfl⟩
  have hlead' : d = 48 → ds = [] := by
    intro h48
    have h := hlead (by simp [h48])
    simp only [List.cons.injEq] at h
    exact h.2
  obtain ⟨htypes, hlits, hint⟩ := lex_closureSource d ds
    (hdigits d (List.mem_cons_self _ _)) (fun x hx => hdigits x (List.mem_cons_of_mem _ hx))
  have hparse := parse_closureProgram
    (fun k => Lexer.advance k (New (closureSource (d :: ds))))
    (fun k => Lexer.tokenAt k (New (closureSource (d :: ds))))
    (decimalValue (d :: ds))
    (2 * (NewParser (New (closureSource (d :: ds)))).l.input.length + 4)
    (fun _ => rfl) htypes
    (by rw [hint]; exact ParseInt_decimal d ds hdigits hlead' hrange)
  obtain ⟨p, hp, herr⟩ := hparse
  have hp' : ParseProgram (NewParser (New (closureSource (d :: ds))))
      = some (closureProgram (fun k => Lexer.tokenAt k (New (closureSource (d :: ds))))
          (decimalValue (d :: ds)), p) := hp
  obtain ⟨m, rfl⟩ : ∃ m, fuel = m + 7 := ⟨fuel - 7, by omega⟩
  obtain ⟨h, heval⟩ := eval_closureProgram
    (fun k => Lexer.tokenAt k (New (closureSource (d :: ds)))) (decimalValue (d :: ds)) m hlits
  refine ⟨⟨_, p, hp', herr⟩, h, ?_⟩
  unfold run
  rw [hp']
  simp only [herr, List.length_nil, gt_iff_lt, Nat.lt_irrefl, if_false]
  rw [heval]

/-- Witness of C1: the literal `5`. -/
theorem closure_reads_outer_parameter_witness :
    ∃ h, run 7 (closureSource (str "5")) = some (Res.ok (Object.Integer 5, h)) :=
  (closure_reads_outer_parameter (str "5") (by decide) (by decide) (by decide) (by decide)
    7 (Nat.le_refl 7)).2

/-! ## Environments of calls -/

theorem list_set_self {α : Type} (l : List α) (i : Nat) (a : α) (h : l[i]? = some a) :
    l.set i a = l := by
  apply List.ext_getElem?
  intro j
  rw [List.getElem?_set']
  by_cases hij : i = j
  · subst hij
    simp [h]
  · simp [hij]

theorem Heap.Set_of_get (h : Heap) (env : Nat) (name : GoString) (val : Object)
    (e : Environment) (he : h.envs[env]? = some e) :
    h.Set env name val =
      ⟨h.envs.set env ⟨(name, val) :: e.store, e.outer⟩, h.nextAddr⟩ := by
  simp [Heap.Set, he]

theorem extendFunctionEnvLoop_step (env : Nat) (args : List Object) (idx : Nat)
    (p : Identifier) (ps : List Identifier) (h : Heap) :
    extendFunctionEnvLoop env args idx (p :: ps) h =
      extendFunctionEnvLoop env args (idx + 1) ps
        (h.Set env p.Value (argumentFor args idx)) := by
  simp only [extendFunctionEnvLoop, argumentFor]
  split <;> rfl

theorem extendFunctionEnvLoop_envs (env : Nat) (args : List Object) :
    ∀ (ps : List Identifier) (idx : Nat) (h : Heap) (e : Environment),
      h.envs[env]? = some e →
      extendFunctionEnvLoop env args idx ps h =
        ⟨h.envs.set env ⟨(parameterBindings args idx ps).reverse ++ e.store, e.outer⟩,
          h.nextAddr⟩ := by
  intro ps
  induction ps with
  | nil =>
    intro idx h e he
    simp only [extendFunctionEnvLoop, parameterBindings, List.reverse_nil, List.nil_append]
    rw [list_set_self _ _ _ he]
  | cons p ps ih =>
    intro idx h e he
    rw [extendFunctionEnvLoop_step, Heap.Set_of_get h env _ _ e he]
    have hlt : env < h.envs.length := by
      rcases Nat.lt_or_ge env h.envs.length with hl | hl
      · exact hl
      · rw [List.getElem?_eq_none hl] at he
        cases he
    rw [ih (idx + 1) _ ⟨(p.Value, argumentFor args idx) :: e.store, e.outer⟩
      (by simp [List.getElem?_set_self hlt])]
    simp [parameterBindings, List.set_set]

theorem extendFunctionEnv_eq (parameters : List Identifier) (fnEnv : Nat)
    (args : List Object) (h : Heap) :
    extendFunctionEnv parameters fnEnv args h =
      (h.envs.length,
        ⟨h.envs ++ [⟨(parameterBindings args 0 parameters).reverse, some fnEnv⟩],
          h.nextAddr⟩) := by
  simp only [extendFunctionEnv, NewEnclosedEnvironment]
  rw [extendFunctionEnvLoop_envs _ _ _ _ _ ⟨[], some fnEnv⟩ (by simp)]
  simp

theorem storeLookup_append_of_not_mem (name : GoString) (rest : List (GoString × Object)) :
    ∀ l : List (GoString × Object), (∀ kv ∈ l, kv.1 ≠ name) →
      storeLookup name (l ++ rest) = storeLookup name rest := by
  intro l
  induction l with
  | nil => intro _; rfl
  | cons kv l ih =>
    intro hl
    obtain ⟨k, v⟩ := kv
    have hk : k ≠ name := hl (k, v) (List.mem_cons_self _ _)
    simp only [List.cons_append, storeLookup, hk, if_false]
    exact ih (fun kv hkv => hl kv (List.mem_cons_of_mem _ hkv))

theorem mem_parameterBindings (args : List Object) :
    ∀ (ps : List Identifier) (idx : Nat) (kv : GoString × Object),
      kv ∈ parameterBindings args idx ps →
        ∃ (j : Nat) (q : Identifier), ps[j]? = some q ∧ kv.1 = q.Value := by
  intro ps
  induction ps with
  | nil => intro idx kv hkv; simp [parameterBindings] at hkv
  | cons p ps ih =>
    intro idx kv hkv
    simp only [parameterBindings, List.mem_cons] at hkv
    rcases hkv with rfl | hkv
    · exact ⟨0, p, by simp, rfl⟩
    · obtain ⟨j, q, hj, hq⟩ := ih (idx + 1) kv hkv
      exact ⟨j + 1, q, by simpa using hj, hq⟩

theorem storeLookup_parameterBindings (args : List Object) :
    ∀ (ps : List Identifier) (idx i : Nat) (p : Identifier)
      (rest : List (GoString × Object)),
      ps[i]? = some p →
      (∀ j q, i < j → ps[j]? = some q → q.Value ≠ p.Value) →
      storeLookup p.Value ((parameterBindings args idx ps).reverse ++ rest)
        = some (argumentFor args (idx + i)) := by
  intro ps
  induction ps with
  | nil => intro idx i p rest hp; simp at hp
  | cons q0 ps ih =>
    intro idx i p rest hp hlast
    simp only [parameterBindings, List.reverse_cons, List.append_assoc, List.singleton_append]
    cases i with
    | zero =>
      simp only [List.getElem?_cons_zero, Option.some.injEq] at hp
      subst hp
      rw [storeLookup_append_of_not_mem]
      · simp [storeLookup]
      · intro kv hkv
        rw [List.mem_reverse] at hkv
        obtain ⟨j, q, hj, hq⟩ := mem_parameterBindings args ps (idx + 1) kv hkv
        rw [hq]
        exact hlast (j + 1) q (Nat.succ_pos j) (by simpa using hj)
    | succ i =>
      simp only [List.getElem?_cons_succ] at hp
      have := ih (idx + 1) i p ((q0.Value, argumentFor args idx) :: rest) hp
        (fun j q hij hq => hlast (j + 1) q (Nat.succ_lt_succ hij) (by simpa using hq))
      rw [this]
      congr 2
      omega

theorem Heap.Get_of_store (h : Heap) (env : Nat) (name : GoString) (e : Environment)
    (v : Object) (he : h.envs[env]? = some e) (hv : storeLookup name e.store = some v) :
    h.Get env name = some v := by
  have hlt : env < h.envs.length := by
    rcases Nat.lt_or_ge env h.envs.length with hl | hl
    · exact hl
    · rw [List.getElem?_eq_none hl] at he
      cases he
  obtain ⟨n, hn⟩ : ∃ n, h.envs.length = n + 1 := ⟨h.envs.length - 1, by omega⟩
  simp [Heap.Get, hn, Heap.GetLoop, he, hv]

theorem argumentFor_take (args : List Object) (k i : Nat) (hi : i < k) :
    argumentFor (args.take k) i = argumentFor args i := by
  simp only [argumentFor, List.length_take, ge_iff_le]
  by_cases h : args.length ≤ i
  · have : min k args.length ≤ i := le_trans (Nat.min_le_right _ _) h
    simp [h, this]
  · have h' : ¬ min k args.length ≤ i := by
      intro hc
      rcases Nat.le_total k args.length with hk | hk
      · rw [Nat.min_eq_left hk] at hc; omega
      · rw [Nat.min_eq_right hk] at hc; omega
    simp only [h, h', if_false]
    rw [List.getD_eq_getElem?_getD, List.getD_eq_getElem?_getD, List.getElem?_take_of_lt hi]

theorem parameterBindings_congr (args args' : List Object) :
    ∀ (ps : List Identifier) (idx : Nat),
      (∀ i, idx ≤ i → i < idx + ps.length → argumentFor args i = argumentFor args' i) →
      parameterBindings args idx ps = parameterBindings args' idx ps := by
  intro ps
  induction ps with
  | nil => intro idx _; rfl
  | cons p ps ih =>
    intro idx hcong
    simp only [parameterBindings]
    rw [hcong idx (Nat.le_refl _) (by simp), ih (idx + 1) (fun i h1 h2 =>
      hcong i (by omega) (by simp only [List.length_cons]; omega))]

/-- C3, counterexample. With the parameter list `(a, a)` and the arguments `1, 2` the
first parameter is not bound to the first argument: the call environment binds `a` to
Integer(2), and `func f(a, a) { return a; } f(1, 2);` evaluates to Integer(2). -/
theorem duplicate_parameter_takes_last_argument :
    (extendFunctionEnv [⟨Token.zero, str "a"⟩, ⟨Token.zero, str "a"⟩] 0
        [Object.Integer 1, Object.Integer 2] (NewEnvironment Heap.empty).2).2.Get 1 (str "a")
      = some (Object.Integer 2) ∧
    (∃ h, run 10 (str "func f(a, a) \x7b return a; \x7d f(1, 2);")
      = some (Res.ok (Object.Integer 2, h))) ∧
    ¬ (∀ (parameters : List Identifier) (fnEnv : Nat) (args : List Object) (h : Heap)
        (i : Nat) (p : Identifier), parameters[i]? = some p → i < args.length →
        (extendFunctionEnv parameters fnEnv args h).2.Get
            (extendFunctionEnv parameters fnEnv args h).1 p.Value
          = some (args.getD i Object.nil)) := by
  refine ⟨rfl, ⟨_, rfl⟩, ?_⟩
  intro hall
  have h1 := hall [⟨Token.zero, str "a"⟩, ⟨Token.zero, str "a"⟩] 0
    [Object.Integer 1, Object.Integer 2] (NewEnvironment Heap.empty).2 0
    ⟨Token.zero, str "a"⟩ rfl (by decide)
  have h2 : (extendFunctionEnv [⟨Token.zero, str "a"⟩, ⟨Token.zero, str "a"⟩] 0
        [Object.Integer 1, Object.Integer 2] (NewEnvironment Heap.empty).2).2.Get 1 (str "a")
      = some (Object.Integer 2) := rfl
  have h3 : (extendFunctionEnv [⟨Token.zero, str "a"⟩, ⟨Token.zero, str "a"⟩] 0
        [Object.Integer 1, Object.Integer 2] (NewEnvironment Heap.empty).2).1 = 1 := rfl
  rw [h3] at h1
  rw [h2] at h1
  have h4 : Object.Integer 2 = Object.Integer 1 := Option.some.inj h1
  have h5 : (2 : Int) = 1 := Object.Integer.inj h4
  exact absurd h5 (by decide)

/-- C3, amended. In the call environment that `extendFunctionEnv` builds, the name of the
parameter at index `i` is bound to argument `i`, or to Null when there are no more than
`i` arguments, provided no later parameter has the same name; arguments beyond the
parameters change nothing; so `func f(a, b) { return b; } f(1);` evaluates to Null and
`func f(a) { return a; } f(1, 2);` to Integer(1). -/
theorem extendFunctionEnv_binds_parameters (parameters : List Identifier) (fnEnv : Nat)
    (args : List Object) (h : Heap) :
    (∀ (i : Nat) (p : Identifier), parameters[i]? = some p →
      (∀ (j : Nat) (q : Identifier), i < j → parameters[j]? = some q → q.Value ≠ p.Value) →
      (extendFunctionEnv parameters fnEnv args h).2.Get
          (extendFunctionEnv parameters fnEnv args h).1 p.Value
        = some (argumentFor args i)) ∧
    (∀ i, i < args.length → argumentFor args i = args.getD i Object.nil) ∧
    (∀ i, args.length ≤ i → argumentFor args i = NULL) ∧
    extendFunctionEnv parameters fnEnv (args.take parameters.length) h
      = extendFunctionEnv parameters fnEnv args h ∧
    (∃ h1, run 10 (str "func f(a, b) \x7b return b; \x7d f(1);")
      = some (Res.ok (Object.Null, h1))) ∧
    (∃ h1, run 10 (str "func f(a) \x7b return a; \x7d f(1, 2);")
      = some (Res.ok (Object.Integer 1, h1))) := by
  refine ⟨?_, ?_, ?_, ?_, ⟨_, rfl⟩, ⟨_, rfl⟩⟩
  · intro i p hp hlast
    rw [extendFunctionEnv_eq]
    apply Heap.Get_of_store _ _ _
      ⟨(parameterBindings args 0 parameters).reverse, some fnEnv⟩
    · exact List.getElem?_concat_length _ _
    · have := storeLookup_parameterBindings args parameters 0 i p [] hp hlast
      simpa using this
  · intro i hi
    simp [argumentFor, Nat.not_le.mpr hi]
  · intro i hi
    simp [argumentFor, hi]
  · rw [extendFunctionEnv_eq, extendFunctionEnv_eq,
      parameterBindings_congr (args.take parameters.length) args parameters 0
        (fun i _ hi => argumentFor_take args parameters.length i (by omega))]

/-- Witness of C3 amended: with parameters `(a, b)` and the one argument `1`, `a` is bound
to Integer(1) and `b` to Null. -/
theorem extendFunctionEnv_binds_parameters_witness :
    (extendFunctionEnv [⟨Token.zero, str "a"⟩, ⟨Token.zero, str "b"⟩] 0 [Object.Integer 1]
        (NewEnvironment Heap.empty).2).2.Get 1 (str "a") = some (Object.Integer 1) ∧
    (extendFunctionEnv [⟨Token.zero, str "a"⟩, ⟨Token.zero, str "b"⟩] 0 [Object.Integer 1]
        (NewEnvironment Heap.empty).2).2.Get 1 (str "b") = some Object.Null :=
  ⟨(extendFunctionEnv_binds_parameters [⟨Token.zero, str "a"⟩, ⟨Token.zero, str "b"⟩] 0
      [Object.Integer 1] (NewEnvironment Heap.empty).2).1 0 ⟨Token.zero, str "a"⟩ rfl
      (by
        intro j q hj hq
        have hj1 : j = 1 := by
          rcases Nat.lt_or_ge j 2 with h | h
          · omega
          · rw [List.getElem?_eq_none (by simpa using h)] at hq
            cases hq
        subst hj1
        have hq' : q = ⟨Token.zero, str "b"⟩ := (Option.some.inj hq).symm
        subst hq'
        decide),
   (extendFunctionEnv_binds_parameters [⟨Token.zero, str "a"⟩, ⟨Token.zero, str "b"⟩] 0
      [Object.Integer 1] (NewEnvironment Heap.empty).2).1 1 ⟨Token.zero, str "b"⟩ rfl
      (by
        intro j q hj hq
        rw [List.getElem?_eq_none (by simp; omega)] at hq
        cases hq)⟩

/-! ## The lexer reads its input locally -/

theorem Lexer.readChar_eq (l : Lexer) :
    l.readChar = ⟨l.input, l.readPosition, l.readPosition + 1, l.input.getD l.readPosition 0,
      if l.input.getD l.readPosition 0 = 10 then l.line + 1 else l.line,
      if l.input.getD l.readPosition 0 = 10 then 0 else l.column + 1⟩ := by
  obtain ⟨inp, p, rp, ch, line, col⟩ := l
  unfold Lexer.readChar
  by_cases h : rp ≥ inp.length
  · have e := getD_of_length_le inp rp h
    simp only [h, e, if_true]
    rfl
  · by_cases h10 : inp.getD rp 0 = 10 <;> simp only [h, h10, if_false, if_true]

theorem Lexer.peekChar_eq (l : Lexer) : l.peekChar = l.input.getD l.readPosition 0 := by
  obtain ⟨inp, p, rp, ch, line, col⟩ := l
  unfold Lexer.peekChar
  by_cases h : rp ≥ inp.length
  · have e := getD_of_length_le inp rp h
    simp only [h, e, if_true]
  · simp only [h, if_false]

theorem Lexer.readChar_shift (pre : GoString) (l : Lexer) :
    (l.shift pre).readChar = l.readChar.shift pre := by
  rw [Lexer.readChar_eq, Lexer.readChar_eq]
  simp only [Lexer.shift, getD_append_add]
  rfl

theorem Lexer.peekChar_shift (pre : GoString) (l : Lexer) :
    (l.shift pre).peekChar = l.peekChar := by
  rw [Lexer.peekChar_eq, Lexer.peekChar_eq]
  simp only [Lexer.shift, getD_append_add]

theorem Lexer.wf_readChar (l : Lexer) : l.readChar.wf := by
  rw [Lexer.readChar_eq]
  exact ⟨rfl, rfl⟩

theorem Lexer.wf_shift (pre : GoString) (l : Lexer) (h : l.wf) : (l.shift pre).wf := by
  obtain ⟨h1, h2⟩ := h
  refine ⟨?_, ?_⟩
  · simp only [Lexer.shift, h1]; omega
  · simp only [Lexer.shift, getD_append_add, h2]

theorem Lexer.whileLoop_shift (c : Nat → Bool) (pre : GoString) :
    ∀ (fuel : Nat) (l : Lexer),
      Lexer.whileLoop c fuel (l.shift pre) = (Lexer.whileLoop c fuel l).shift pre := by
  intro fuel
  induction fuel with
  | zero => intro l; rfl
  | succ f ih =>
    intro l
    simp only [Lexer.whileLoop]
    have hch : (l.shift pre).ch = l.ch := rfl
    rw [hch]
    by_cases hc : c l.ch = true
    · simp only [hc, if_true, Lexer.readChar_shift, ih]
    · simp only [hc, if_false, Bool.false_eq_true]

theorem Lexer.whileLoop_stable (c : Nat → Bool) :
    ∀ (fuel k : Nat) (l : Lexer), c (Lexer.whileLoop c fuel l).ch = false →
      Lexer.whileLoop c (fuel + k) l = Lexer.whileLoop c fuel l := by
  intro fuel
  induction fuel with
  | zero =>
    intro k l h
    simp only [Lexer.whileLoop] at h
    cases k with
    | zero => rfl
    | succ k => simp only [Nat.zero_add, Lexer.whileLoop, h, Bool.false_eq_true, if_false]
  | succ f ih =>
    intro k l h
    have e : f + 1 + k = (f + k) + 1 := by omega
    rw [e]
    simp only [Lexer.whileLoop] at h ⊢
    by_cases hc : c l.ch = true
    · simp only [hc, if_true] at h ⊢
      exact ih k _ h
    · simp only [hc, if_false, Bool.false_eq_true]

theorem Lexer.whileLoop_adequate (c : Nat → Bool) (h0 : c 0 = false) :
    ∀ (fuel : Nat) (l : Lexer), l.wf → l.input.length + 1 ≤ fuel + l.position →
      c (Lexer.whileLoop c fuel l).ch = false := by
  intro fuel
  induction fuel with
  | zero =>
    intro l hwf hf
    simp only [Lexer.whileLoop]
    rw [hwf.2, getD_of_length_le _ _ (by omega)]
    exact h0
  | succ f ih =>
    intro l hwf hf
    simp only [Lexer.whileLoop]
    by_cases hc : c l.ch = true
    · simp only [hc, if_true]
      apply ih _ (Lexer.wf_readChar l)
      have hin : l.readChar.input = l.input := by rw [Lexer.readChar_eq]
      have hp : l.readChar.position = l.readPosition := by rw [Lexer.readChar_eq]
      rw [hin, hp, hwf.1]
      omega
    · simp only [hc, if_false, Bool.false_eq_true]

theorem Lexer.whileLoop_fuel (c : Nat → Bool) (h0 : c 0 = false) (f f' : Nat) (l : Lexer)
    (hwf : l.wf) (hf : l.input.length + 1 ≤ f + l.position)
    (hf' : l.input.length + 1 ≤ f' + l.position) :
    Lexer.whileLoop c f l = Lexer.whileLoop c f' l := by
  rcases Nat.le_total f f' with h | h
  · obtain ⟨k, rfl⟩ := Nat.exists_eq_add_of_le h
    exact (Lexer.whileLoop_stable c f k l (Lexer.whileLoop_adequate c h0 f l hwf hf)).symm
  · obtain ⟨k, rfl⟩ := Nat.exists_eq_add_of_le h
    exact Lexer.whileLoop_stable c f' k l (Lexer.whileLoop_adequate c h0 f' l hwf hf')

theorem Lexer.readChar_position (l : Lexer) : l.readChar.position = l.readPosition := by
  rw [Lexer.readChar_eq]

theorem Lexer.readChar_input (l : Lexer) : l.readChar.input = l.input := by
  rw [Lexer.readChar_eq]

theorem Lexer.whileLoop_input (c : Nat → Bool) :
    ∀ (fuel : Nat) (l : Lexer), (Lexer.whileLoop c fuel l).input = l.input := by
  intro fuel
  induction fuel with
  | zero => intro l; rfl
  | succ f ih =>
    intro l
    simp only [Lexer.whileLoop]
    by_cases hc : c l.ch = true
    · simp only [hc, if_true, ih, Lexer.readChar_input]
    · simp only [hc, if_false, Bool.false_eq_true]

theorem Lexer.whileLoop_wf (c : Nat → Bool) :
    ∀ (fuel : Nat) (l : Lexer), l.wf → (Lexer.whileLoop c fuel l).wf := by
  intro fuel
  induction fuel with
  | zero => intro l h; exact h
  | succ f ih =>
    intro l h
    simp only [Lexer.whileLoop]
    by_cases hc : c l.ch = true
    · simp only [hc, if_true]
      exact ih _ (Lexer.wf_readChar l)
    · simp only [hc, if_false, Bool.false_eq_true]
      exact h

theorem Lexer.whileLoop_position_ge (c : Nat → Bool) :
    ∀ (fuel : Nat) (l : Lexer), l.wf → l.position ≤ (Lexer.whileLoop c fuel l).position := by
  intro fuel
  induction fuel with
  | zero => intro l _; exact Nat.le_refl _
  | succ f ih =>
    intro l h
    simp only [Lexer.whileLoop]
    by_cases hc : c l.ch = true
    · simp only [hc, if_true]
      have := ih _ (Lexer.wf_readChar l)
      have hp : l.readChar.position = l.position + 1 := by
        rw [Lexer.readChar_position, h.1]
      omega
    · simp only [hc, if_false, Bool.false_eq_true]
      exact Nat.le_refl _

theorem Lexer.ch_zero_of_length_le (l : Lexer) (h : l.wf) (hp : l.input.length ≤ l.position) :
    l.ch = 0 := by
  rw [h.2]
  exact getD_of_length_le _ _ hp

theorem Lexer.whileLoop_position_le (c : Nat → Bool) (h0 : c 0 = false) :
    ∀ (fuel : Nat) (l : Lexer), l.wf → l.position ≤ l.input.length →
      (Lexer.whileLoop c fuel l).position ≤ l.input.length := by
  intro fuel
  induction fuel with
  | zero => intro l _ hp; exact hp
  | succ f ih =>
    intro l h hp
    simp only [Lexer.whileLoop]
    by_cases hc : c l.ch = true
    · simp only [hc, if_true]
      have hlt : l.position < l.input.length := by
        rcases Nat.lt_or_ge l.position l.input.length with hl | hl
        · exact hl
        · rw [Lexer.ch_zero_of_length_le l h hl, h0] at hc
          cases hc
      have hin : l.readChar.input = l.input := Lexer.readChar_input l
      have hp : l.readChar.position = l.position + 1 := by
        rw [Lexer.readChar_position, h.1]
      have := ih _ (Lexer.wf_readChar l) (by rw [hin, hp]; omega)
      rw [hin] at this
      exact this
    · simp only [hc, if_false, Bool.false_eq_true]
      exact hp

theorem Lexer.whileLoop_shift_length (c : Nat → Bool) (h0 : c 0 = false) (pre : GoString)
    (l : Lexer) (hwf : l.wf) :
    Lexer.whileLoop c ((l.shift pre).input.length + 1) (l.shift pre) =
      (Lexer.whileLoop c (l.input.length + 1) l).shift pre := by
  rw [Lexer.whileLoop_shift]
  congr 1
  apply Lexer.whileLoop_fuel c h0 _ _ l hwf
  · simp only [Lexer.shift, List.length_append]; omega
  · omega

theorem Lexer.skipWhitespaceLoop_eq :
    ∀ (fuel : Nat) (l : Lexer),
      Lexer.skipWhitespaceLoop fuel l = Lexer.whileLoop isWhitespace fuel l := by
  intro fuel
  induction fuel with
  | zero => intro l; rfl
  | succ f ih =>
    intro l
    obtain ⟨inp, p, rp, ch, line, col⟩ := l
    simp only [Lexer.skipWhitespaceLoop, Lexer.whileLoop, ih]

theorem Lexer.skipCommentLoop_eq :
    ∀ (fuel : Nat) (l : Lexer),
      Lexer.skipCommentLoop fuel l =
        Lexer.whileLoop (fun ch => decide (ch ≠ 10 ∧ ch ≠ 0)) fuel l := by
  intro fuel
  induction fuel with
  | zero => intro l; rfl
  | succ f ih =>
    intro l
    obtain ⟨inp, p, rp, ch, line, col⟩ := l
    simp only [Lexer.skipCommentLoop, Lexer.whileLoop, ih, decide_eq_true_eq]

theorem Lexer.readIdentifierLoop_eq :
    ∀ (fuel : Nat) (l : Lexer),
      Lexer.readIdentifierLoop fuel l =
        Lexer.whileLoop (fun ch => isLetter ch || isDigit ch) fuel l := by
  intro fuel
  induction fuel with
  | zero => intro l; rfl
  | succ f ih =>
    intro l
    obtain ⟨inp, p, rp, ch, line, col⟩ := l
    simp only [Lexer.readIdentifierLoop, Lexer.whileLoop, ih]

theorem Lexer.readNumberLoop_eq :
    ∀ (fuel : Nat) (l : Lexer),
      Lexer.readNumberLoop fuel l = Lexer.whileLoop isDigit fuel l := by
  intro fuel
  induction fuel with
  | zero => intro l; rfl
  | succ f ih =>
    intro l
    obtain ⟨inp, p, rp, ch, line, col⟩ := l
    simp only [Lexer.readNumberLoop, Lexer.whileLoop, ih]

theorem slice_shift (pre inp : GoString) (a b : Nat) :
    slice (pre ++ inp) (pre.length + a) (pre.length + b) = slice inp a b := by
  simp only [slice, List.drop_append, Nat.add_sub_add_left]

theorem Lexer.skipWhitespace_shift (pre : GoString) (l : Lexer) (hwf : l.wf) :
    (l.shift pre).skipWhitespace = l.skipWhitespace.shift pre := by
  simp only [Lexer.skipWhitespace, Lexer.skipWhitespaceLoop_eq]
  exact Lexer.whileLoop_shift_length isWhitespace rfl pre l hwf

theorem Lexer.skipComment_shift (pre : GoString) (l : Lexer) (hwf : l.wf) :
    (l.shift pre).skipComment = l.skipComment.shift pre := by
  simp only [Lexer.skipComment, Lexer.skipCommentLoop_eq]
  exact Lexer.whileLoop_shift_length _ rfl pre l hwf

theorem Lexer.readIdentifier_eq (l : Lexer) :
    l.readIdentifier =
      (slice l.input l.position
          (Lexer.whileLoop (fun ch => isLetter ch || isDigit ch) (l.input.length + 1) l).position,
        Lexer.whileLoop (fun ch => isLetter ch || isDigit ch) (l.input.length + 1) l) := by
  unfold Lexer.readIdentifier
  rw [Lexer.readIdentifierLoop_eq]
  have hin := Lexer.whileLoop_input (fun ch => isLetter ch || isDigit ch)
    (l.input.length + 1) l
  generalize Lexer.whileLoop (fun ch => isLetter ch || isDigit ch) (l.input.length + 1) l
    = l1 at hin ⊢
  obtain ⟨i1, p1, r1, c1, ln1, cl1⟩ := l1
  simp only at hin
  simp only [hin]

theorem Lexer.readNumber_eq (l : Lexer) :
    l.readNumber =
      (slice l.input l.position (Lexer.whileLoop isDigit (l.input.length + 1) l).position,
        Lexer.whileLoop isDigit (l.input.length + 1) l) := by
  unfold Lexer.readNumber
  rw [Lexer.readNumberLoop_eq]
  have hin := Lexer.whileLoop_input isDigit (l.input.length + 1) l
  generalize Lexer.whileLoop isDigit (l.input.length + 1) l = l1 at hin ⊢
  obtain ⟨i1, p1, r1, c1, ln1, cl1⟩ := l1
  simp only at hin
  simp only [hin]

theorem Lexer.readIdentifier_shift (pre : GoString) (l : Lexer) (hwf : l.wf) :
    (l.shift pre).readIdentifier = (l.readIdentifier.1, l.readIdentifier.2.shift pre) := by
  rw [Lexer.readIdentifier_eq, Lexer.readIdentifier_eq,
    Lexer.whileLoop_shift_length _ rfl pre l hwf]
  simp only [Lexer.shift, slice_shift]

theorem Lexer.readNumber_shift (pre : GoString) (l : Lexer) (hwf : l.wf) :
    (l.shift pre).readNumber = (l.readNumber.1, l.readNumber.2.shift pre) := by
  rw [Lexer.readNumber_eq, Lexer.readNumber_eq,
    Lexer.whileLoop_shift_length _ rfl pre l hwf]
  simp only [Lexer.shift, slice_shift]

theorem Lexer.readStringLoop_succ (fuel : Nat) (l : Lexer) :
    Lexer.readStringLoop (fuel + 1) l =
      if l.readChar.ch = 34 ∨ l.readChar.ch = 0 then l.readChar
      else Lexer.readStringLoop fuel l.readChar := by
  simp only [Lexer.readStringLoop]

theorem Lexer.readStringLoop_shift (pre : GoString) :
    ∀ (fuel : Nat) (l : Lexer),
      Lexer.readStringLoop fuel (l.shift pre) = (Lexer.readStringLoop fuel l).shift pre := by
  intro fuel
  induction fuel with
  | zero => intro l; rfl
  | succ f ih =>
    intro l
    rw [Lexer.readStringLoop_succ, Lexer.readStringLoop_succ, Lexer.readChar_shift]
    have hch : (l.readChar.shift pre).ch = l.readChar.ch := rfl
    rw [hch]
    by_cases hc : l.readChar.ch = 34 ∨ l.readChar.ch = 0
    · simp only [hc, if_true]
    · simp only [hc, if_false, ih]

theorem Lexer.readStringLoop_stable :
    ∀ (fuel k : Nat) (l : Lexer), l.input.length + 1 ≤ fuel + l.readPosition →
      Lexer.readStringLoop (fuel + 1 + k) l = Lexer.readStringLoop (fuel + 1) l := by
  intro fuel
  induction fuel with
  | zero =>
    intro k l hf
    have e : 0 + 1 + k = k + 1 := by omega
    rw [e, Lexer.readStringLoop_succ, Lexer.readStringLoop_succ]
    have h0 : l.readChar.ch = 0 := by
      rw [Lexer.readChar_eq]
      exact getD_of_length_le _ _ (by omega)
    simp only [h0, or_true, if_true]
  | succ f ih =>
    intro k l hf
    have e : f + 1 + 1 + k = (f + 1 + k) + 1 := by omega
    rw [e, Lexer.readStringLoop_succ, Lexer.readStringLoop_succ (f + 1)]
    by_cases hc : l.readChar.ch = 34 ∨ l.readChar.ch = 0
    · simp only [hc, if_true]
    · simp only [hc, if_false]
      apply ih
      have hin : l.readChar.input = l.input := Lexer.readChar_input l
      have hrp : l.readChar.readPosition = l.readPosition + 1 := by rw [Lexer.readChar_eq]
      rw [hin, hrp]
      omega

theorem Lexer.readStringLoop_input :
    ∀ (fuel : Nat) (l : Lexer), (Lexer.readStringLoop fuel l).input = l.input := by
  intro fuel
  induction fuel with
  | zero => intro l; rfl
  | succ f ih =>
    intro l
    rw [Lexer.readStringLoop_succ]
    by_cases hc : l.readChar.ch = 34 ∨ l.readChar.ch = 0
    · simp only [hc, if_true, Lexer.readChar_input]
    · simp only [hc, if_false, ih, Lexer.readChar_input]

theorem Lexer.readString_eq (l : Lexer) :
    l.readString =
      (slice l.input (l.position + 1) (Lexer.readStringLoop (l.input.length + 1) l).position,
        Lexer.readStringLoop (l.input.length + 1) l) := by
  unfold Lexer.readString
  have hin := Lexer.readStringLoop_input (l.input.length + 1) l
  generalize Lexer.readStringLoop (l.input.length + 1) l = l1 at hin ⊢
  obtain ⟨i1, p1, r1, c1, ln1, cl1⟩ := l1
  simp only at hin
  simp only [hin]

theorem Lexer.readString_shift (pre : GoString) (l : Lexer) (hwf : l.wf) :
    (l.shift pre).readString = (l.readString.1, l.readString.2.shift pre) := by
  rw [Lexer.readString_eq, Lexer.readString_eq, Lexer.readStringLoop_shift]
  have hlen : (l.shift pre).input.length + 1 = l.input.length + 1 + pre.length := by
    simp only [Lexer.shift, List.length_append]; omega
  rw [hlen, Lexer.readStringLoop_stable l.input.length pre.length l (by rw [hwf.1]; omega)]
  simp only [Lexer.shift]
  rw [show pre.length + l.position + 1 = pre.length + (l.position + 1) from by omega,
    slice_shift]

theorem Lexer.twoCharToken_shift (pre : GoString) (l : Lexer) (second : Nat)
    (two one : TokenType) (line column : Nat) :
    (l.shift pre).twoCharToken second two one line column =
      ((l.twoCharToken second two one line column).1,
        (l.twoCharToken second two one line column).2.shift pre) := by
  have e : ∀ m : Lexer, m.twoCharToken second two one line column =
      if m.peekChar = second then
        (⟨two, byteToString m.ch ++ byteToString m.readChar.ch, line, column⟩,
          m.readChar.readChar)
      else (newToken one m.ch line column, m.readChar) := by
    intro m
    unfold Lexer.twoCharToken
    cases m.readChar
    rfl
  rw [e, e, Lexer.peekChar_shift]
  have hch : (l.shift pre).ch = l.ch := rfl
  by_cases hc : l.peekChar = second
  · simp only [hc, if_true, Lexer.readChar_shift, hch]
    rfl
  · simp only [hc, if_false, Lexer.readChar_shift, hch]

theorem Lexer.NextTokenAux_succ (fuel : Nat) (l : Lexer) :
    Lexer.NextTokenAux (fuel + 1) l = Lexer.tokenSwitch (Lexer.NextTokenAux fuel) l.skipWhitespace := by
  rw [Lexer.NextTokenAux]

theorem Lexer.NextToken_eq (l : Lexer) :
    l.NextToken = Lexer.NextTokenAux (l.input.length + 1) l := by
  cases l
  rfl

theorem Lexer.tokenSwitch_eq (again : Lexer → Token × Lexer) (l : Lexer) :
    Lexer.tokenSwitch again l =
      if l.ch = 61 then l.twoCharToken 61 .EQ .ASSIGN l.line l.column
      else if l.ch = 43 then (newToken .PLUS l.ch l.line l.column, l.readChar)
      else if l.ch = 45 then (newToken .MINUS l.ch l.line l.column, l.readChar)
      else if l.ch = 42 then (newToken .MULTIPLY l.ch l.line l.column, l.readChar)
      else if l.ch = 47 then
        if l.peekChar = 47 then again l.skipComment
        else (newToken .DIVIDE l.ch l.line l.column, l.readChar)
      else if l.ch = 33 then l.twoCharToken 61 .NOT_EQ .NOT l.line l.column
      else if l.ch = 60 then l.twoCharToken 61 .LTE .LT l.line l.column
      else if l.ch = 62 then l.twoCharToken 61 .GTE .GT l.line l.column
      else if l.ch = 38 then l.twoCharToken 38 .AND .ILLEGAL l.line l.column
      else if l.ch = 124 then l.twoCharToken 124 .OR .ILLEGAL l.line l.column
      else if l.ch = 44 then (newToken .COMMA l.ch l.line l.column, l.readChar)
      else if l.ch = 59 then (newToken .SEMICOLON l.ch l.line l.column, l.readChar)
      else if l.ch = 40 then (newToken .LPAREN l.ch l.line l.column, l.readChar)
      else if l.ch = 41 then (newToken .RPAREN l.ch l.line l.column, l.readChar)
      else if l.ch = 123 then (newToken .LBRACE l.ch l.line l.column, l.readChar)
      else if l.ch = 125 then (newToken .RBRACE l.ch l.line l.column, l.readChar)
      else if l.ch = 34 then
        (⟨.STRING, l.readString.1, l.line, l.column⟩, l.readString.2.readChar)
      else if l.ch = 0 then (⟨.EOF, [], l.line, l.column⟩, l.readChar)
      else if isLetter l.ch then
        (⟨LookupIdent l.readIdentifier.1, l.readIdentifier.1, l.line, l.column⟩,
          l.readIdentifier.2)
      else if isDigit l.ch then
        (⟨.INT, l.readNumber.1, l.line, l.column⟩, l.readNumber.2)
      else (newToken .ILLEGAL l.ch l.line l.column, l.readChar) := by
  unfold Lexer.tokenSwitch
  rfl

theorem Lexer.tokenSwitch_congr (a b : Lexer → Token × Lexer) (l : Lexer)
    (h : l.ch = 47 → l.peekChar = 47 → a l.skipComment = b l.skipComment) :
    Lexer.tokenSwitch a l = Lexer.tokenSwitch b l := by
  rw [Lexer.tokenSwitch_eq, Lexer.tokenSwitch_eq]
  by_cases h47 : l.ch = 47
  · by_cases hp : l.peekChar = 47
    · simp only [h47, hp, if_true, h h47 hp]
    · simp only [h47, hp, if_false]
  · simp only [h47, if_false]

theorem Lexer.tokenSwitch_shift (a b : Lexer → Token × Lexer) (pre : GoString) (l : Lexer)
    (hwf : l.wf)
    (h : l.ch = 47 → l.peekChar = 47 →
      b (l.skipComment.shift pre) = Lexer.shiftResult pre (a l.skipComment)) :
    Lexer.tokenSwitch b (l.shift pre) = Lexer.shiftResult pre (Lexer.tokenSwitch a l) := by
  have hch : (l.shift pre).ch = l.ch := rfl
  have hline : (l.shift pre).line = l.line := rfl
  have hcol : (l.shift pre).column = l.column := rfl
  have e : Lexer.tokenSwitch b (l.shift pre) =
      Lexer.tokenSwitch (fun _ => Lexer.shiftResult pre (a l.skipComment)) (l.shift pre) := by
    apply Lexer.tokenSwitch_congr
    intro h1 h2
    rw [Lexer.peekChar_shift] at h2
    rw [Lexer.skipComment_shift pre l hwf]
    exact h h1 h2
  rw [e, Lexer.tokenSwitch_eq, Lexer.tokenSwitch_eq]
  simp only [hch, hline, hcol, Lexer.peekChar_shift, Lexer.readChar_shift,
    Lexer.twoCharToken_shift, Lexer.readString_shift pre l hwf,
    Lexer.readIdentifier_shift pre l hwf, Lexer.readNumber_shift pre l hwf,
    apply_ite (Lexer.shiftResult pre)]
  rfl

theorem Lexer.skipWhitespace_wf (l : Lexer) (h : l.wf) : l.skipWhitespace.wf := by
  simp only [Lexer.skipWhitespace, Lexer.skipWhitespaceLoop_eq]
  exact Lexer.whileLoop_wf _ _ l h

theorem Lexer.skipWhitespace_input (l : Lexer) : l.skipWhitespace.input = l.input := by
  simp only [Lexer.skipWhitespace, Lexer.skipWhitespaceLoop_eq]
  exact Lexer.whileLoop_input _ _ l

theorem Lexer.skipWhitespace_position_ge (l : Lexer) (h : l.wf) :
    l.position ≤ l.skipWhitespace.position := by
  simp only [Lexer.skipWhitespace, Lexer.skipWhitespaceLoop_eq]
  exact Lexer.whileLoop_position_ge _ _ l h

theorem Lexer.skipComment_wf (l : Lexer) (h : l.wf) : l.skipComment.wf := by
  simp only [Lexer.skipComment, Lexer.skipCommentLoop_eq]
  exact Lexer.whileLoop_wf _ _ l h

theorem Lexer.skipComment_input (l : Lexer) : l.skipComment.input = l.input := by
  simp only [Lexer.skipComment, Lexer.skipCommentLoop_eq]
  exact Lexer.whileLoop_input _ _ l

theorem Lexer.skipComment_position_gt (l : Lexer) (h : l.wf) (h47 : l.ch = 47) :
    l.position + 1 ≤ l.skipComment.position := by
  simp only [Lexer.skipComment, Lexer.skipCommentLoop_eq]
  rw [Lexer.whileLoop]
  simp only [h47]
  have := Lexer.whileLoop_position_ge (fun ch => decide (ch ≠ 10 ∧ ch ≠ 0)) l.input.length
    l.readChar (Lexer.wf_readChar l)
  rw [Lexer.readChar_position, h.1] at this
  exact this

theorem Lexer.NextTokenAux_shift (pre : GoString) :
    ∀ (fuel : Nat) (l : Lexer), l.wf →
      Lexer.NextTokenAux fuel (l.shift pre) =
        Lexer.shiftResult pre (Lexer.NextTokenAux fuel l) := by
  intro fuel
  induction fuel with
  | zero => intro l _; rfl
  | succ f ih =>
    intro l hwf
    rw [Lexer.NextTokenAux_succ, Lexer.NextTokenAux_succ, Lexer.skipWhitespace_shift pre l hwf]
    apply Lexer.tokenSwitch_shift _ _ pre _ (Lexer.skipWhitespace_wf l hwf)
    intro _ _
    exact ih _ (Lexer.skipComment_wf _ (Lexer.skipWhitespace_wf l hwf))

theorem Lexer.NextTokenAux_fuel :
    ∀ (fuel k : Nat) (l : Lexer), l.wf → l.input.length ≤ fuel + l.position →
      Lexer.NextTokenAux (fuel + 1 + k) l = Lexer.NextTokenAux (fuel + 1) l := by
  intro fuel
  induction fuel with
  | zero =>
    intro k l hwf hf
    have e : 0 + 1 + k = k + 1 := by omega
    rw [e, Lexer.NextTokenAux_succ, Lexer.NextTokenAux_succ]
    apply Lexer.tokenSwitch_congr
    intro h47 _
    have hws := Lexer.skipWhitespace_wf l hwf
    have hge := Lexer.skipWhitespace_position_ge l hwf
    have h0 := Lexer.ch_zero_of_length_le l.skipWhitespace hws
      (by rw [Lexer.skipWhitespace_input]; omega)
    omega
  | succ f ih =>
    intro k l hwf hf
    have e : f + 1 + 1 + k = (f + 1 + k) + 1 := by omega
    rw [e, Lexer.NextTokenAux_succ, Lexer.NextTokenAux_succ (f + 1)]
    apply Lexer.tokenSwitch_congr
    intro h47 _
    have hws := Lexer.skipWhitespace_wf l hwf
    have hge := Lexer.skipWhitespace_position_ge l hwf
    have hgt := Lexer.skipComment_position_gt l.skipWhitespace hws h47
    apply ih k _ (Lexer.skipComment_wf _ hws)
    rw [Lexer.skipComment_input, Lexer.skipWhitespace_input]
    omega

theorem Lexer.NextToken_shift (pre : GoString) (l : Lexer) (hwf : l.wf) :
    (l.shift pre).NextToken = Lexer.shiftResult pre l.NextToken := by
  rw [Lexer.NextToken_eq, Lexer.NextToken_eq, Lexer.NextTokenAux_shift pre _ l hwf]
  have hlen : (l.shift pre).input.length + 1 = l.input.length + 1 + pre.length := by
    simp only [Lexer.shift, List.length_append]; omega
  rw [hlen, Lexer.NextTokenAux_fuel l.input.length pre.length l hwf (by omega)]

theorem Lexer.twoCharToken_wf (l : Lexer) (second : Nat) (two one : TokenType)
    (line column : Nat) : (l.twoCharToken second two one line column).2.wf := by
  have e : ∀ m : Lexer, m.twoCharToken second two one line column =
      if m.peekChar = second then
        (⟨two, byteToString m.ch ++ byteToString m.readChar.ch, line, column⟩,
          m.readChar.readChar)
      else (newToken one m.ch line column, m.readChar) := by
    intro m
    unfold Lexer.twoCharToken
    cases m.readChar
    rfl
  rw [e]
  by_cases hc : l.peekChar = second
  · simp only [hc, if_true]
    exact Lexer.wf_readChar _
  · simp only [hc, if_false]
    exact Lexer.wf_readChar _

theorem Lexer.tokenSwitch_wf (a : Lexer → Token × Lexer) (l : Lexer) (hwf : l.wf)
    (h : (a l.skipComment).2.wf) : (Lexer.tokenSwitch a l).2.wf := by
  rw [Lexer.tokenSwitch_eq]
  have hid : l.readIdentifier.2.wf := by
    rw [Lexer.readIdentifier_eq]
    exact Lexer.whileLoop_wf _ _ l hwf
  have hnum : l.readNumber.2.wf := by
    rw [Lexer.readNumber_eq]
    exact Lexer.whileLoop_wf _ _ l hwf
  simp only [apply_ite Prod.snd, apply_ite Lexer.wf, Lexer.twoCharToken_wf, Lexer.wf_readChar,
    hid, hnum, h, ite_self]

theorem Lexer.NextTokenAux_wf :
    ∀ (fuel : Nat) (l : Lexer), l.wf → (Lexer.NextTokenAux fuel l).2.wf := by
  intro fuel
  induction fuel with
  | zero => intro l h; exact h
  | succ f ih =>
    intro l hwf
    rw [Lexer.NextTokenAux_succ]
    have hws := Lexer.skipWhitespace_wf l hwf
    exact Lexer.tokenSwitch_wf _ _ hws (ih _ (Lexer.skipComment_wf _ hws))

theorem Lexer.NextToken_wf (l : Lexer) (hwf : l.wf) : l.NextToken.2.wf := by
  rw [Lexer.NextToken_eq]
  exact Lexer.NextTokenAux_wf _ l hwf

theorem New_wf (input : GoString) : (New input).wf := Lexer.wf_readChar _

theorem Lexer.shift_shift (p q : GoString) (l : Lexer) :
    (l.shift q).shift p = l.shift (p ++ q) := by
  simp only [Lexer.shift, List.append_assoc, List.length_append, Nat.add_assoc]

theorem Lexer.take_succ (k : Nat) (l : Lexer) :
    Lexer.take (k + 1) l =
      (l.NextToken.1 :: (Lexer.take k l.NextToken.2).1, (Lexer.take k l.NextToken.2).2) := rfl

theorem Lexer.take_append :
    ∀ (j k : Nat) (l l1 l2 : Lexer) (ts1 ts2 : List Token),
      Lexer.take j l = (ts1, l1) → Lexer.take k l1 = (ts2, l2) →
      Lexer.take (j + k) l = (ts1 ++ ts2, l2) := by
  intro j
  induction j with
  | zero =>
    intro k l l1 l2 ts1 ts2 h1 h2
    obtain ⟨rfl, rfl⟩ := Prod.mk.inj h1
    rw [Nat.zero_add]
    exact h2
  | succ j ih =>
    intro k l l1 l2 ts1 ts2 h1 h2
    rw [Lexer.take_succ] at h1
    obtain ⟨rfl, hl⟩ := Prod.mk.inj h1
    have e : j + 1 + k = (j + k) + 1 := by omega
    rw [e, Lexer.take_succ, ih k l.NextToken.2 l1 l2 _ ts2 (Prod.ext rfl hl) h2]
    rfl

theorem Lexer.take_one (l l1 : Lexer) (t : Token) (h : l.NextToken = (t, l1)) :
    Lexer.take 1 l = ([t], l1) := by
  rw [Lexer.take_succ, h]
  rfl

theorem Lexer.take_shift (pre : GoString) :
    ∀ (k : Nat) (l l1 : Lexer) (ts : List Token), l.wf → Lexer.take k l = (ts, l1) →
      Lexer.take k (l.shift pre) = (ts, l1.shift pre) := by
  intro k
  induction k with
  | zero =>
    intro l l1 ts _ h
    obtain ⟨rfl, rfl⟩ := Prod.mk.inj h
    rfl
  | succ k ih =>
    intro l l1 ts hwf h
    rw [Lexer.take_succ] at h
    obtain ⟨rfl, hl⟩ := Prod.mk.inj h
    rw [Lexer.take_succ, Lexer.NextToken_shift pre l hwf]
    have := ih l.NextToken.2 l1 _ (Lexer.NextToken_wf l hwf) (Prod.ext rfl hl)
    simp only [Lexer.shiftResult, this]

/-- A lexer on whitespace yields the token of the next character. -/
theorem Lexer.NextToken_skip (l : Lexer) (hwf : l.wf) (hws : isWhitespace l.ch = true) :
    l.NextToken = l.readChar.NextToken := by
  rw [Lexer.NextToken_eq, Lexer.NextToken_eq, Lexer.readChar_input, Lexer.NextTokenAux_succ,
    Lexer.NextTokenAux_succ]
  congr 1
  simp only [Lexer.skipWhitespace, Lexer.skipWhitespaceLoop_eq, Lexer.readChar_input]
  rw [Lexer.whileLoop]
  simp only [hws, if_true]
  apply Lexer.whileLoop_fuel isWhitespace rfl _ _ _ (Lexer.wf_readChar l)
  · rw [Lexer.readChar_input, Lexer.readChar_position, hwf.1]; omega
  · rw [Lexer.readChar_input, Lexer.readChar_position, hwf.1]; omega

/-- An integer literal after one space: the token is the run of digits, and the lexer
goes on from the text behind the literal. -/
theorem NextToken_space_digits (ds pre post : GoString) (d line col : Nat)
    (hd : isDigit d = true) (hds : ∀ x ∈ ds, isDigit x = true)
    (hpost : isDigit (post.getD 0 0) = false) (h10 : post.getD 0 0 ≠ 10) :
    Lexer.NextToken ⟨pre ++ 32 :: d :: (ds ++ post), pre.length, pre.length + 1, 32, line, col⟩ =
      (⟨.INT, d :: ds, line, col + 1⟩,
        Lexer.shift (pre ++ 32 :: d :: ds)
          ⟨post, 0, 1, post.getD 0 0, line, col + ds.length + 2⟩) := by
  have hb : 48 ≤ d ∧ d ≤ 57 := by simpa [isDigit] using hd
  have hin : pre ++ 32 :: d :: (ds ++ post) = (pre ++ [32]) ++ d :: (ds ++ post) := by
    simp only [List.append_assoc, List.singleton_append]
  have hwf : Lexer.wf
      ⟨pre ++ 32 :: d :: (ds ++ post), pre.length, pre.length + 1, 32, line, col⟩ := by
    refine ⟨rfl, ?_⟩
    have := getD_append_add pre (32 :: d :: (ds ++ post)) 0
    rw [Nat.add_zero] at this
    exact this.symm
  have hrc : Lexer.readChar
      ⟨pre ++ 32 :: d :: (ds ++ post), pre.length, pre.length + 1, 32, line, col⟩ =
      ⟨(pre ++ [32]) ++ d :: (ds ++ post), (pre ++ [32]).length, (pre ++ [32]).length + 1, d,
        line, col + 1⟩ := by
    rw [readChar_mk _ _ _ _ _ _ d (getD_append_add pre (32 :: d :: (ds ++ post)) 1)
      (by omega), hin]
    simp only [List.length_append, List.length_singleton]
  rw [Lexer.NextToken_skip _ hwf rfl, hrc,
    NextToken_digits ds (pre ++ [32]) post d line (col + 1) hd hds hpost h10]
  simp only [Lexer.shift, List.length_append, List.length_cons, List.length_singleton,
    List.append_assoc, List.singleton_append, List.cons_append, Prod.mk.injEq,
    Lexer.mk.injEq, true_and, and_true, List.nil_append, List.length_nil]
  omega

/-! ## The tokens of the scoping example -/

theorem scopingSource_eq (a b : GoString) :
    scopingSource a b =
      scopingStart (a ++ scopingMiddle (b ++ str "; return f(); \x7d g();")) := rfl

theorem take_scopingStart (rest : GoString) :
    Lexer.take 3 (New (scopingStart rest)) =
      ([⟨.LET, str "let", 1, 1⟩, ⟨.IDENT, str "x", 1, 5⟩, ⟨.ASSIGN, str "=", 1, 7⟩],
        ⟨scopingStart rest, 7, 8, 32, 1, 8⟩) := rfl

set_option maxRecDepth 100000 in
set_option maxHeartbeats 4000000 in
theorem take_scopingMiddle (rest : GoString) (line c : Nat) :
    Lexer.take 18 ⟨scopingMiddle rest, 0, 1, 59, line, c⟩ =
      ([⟨.SEMICOLON, str ";", line, c⟩,
        ⟨.FUNCTION, str "func", line, c + 2⟩,
        ⟨.IDENT, str "f", line, c + 7⟩,
        ⟨.LPAREN, str "(", line, c + 8⟩,
        ⟨.RPAREN, str ")", line, c + 9⟩,
        ⟨.LBRACE, str "\x7b", line, c + 11⟩,
        ⟨.RETURN, str "return", line, c + 13⟩,
        ⟨.IDENT, str "x", line, c + 20⟩,
        ⟨.SEMICOLON, str ";", line, c + 21⟩,
        ⟨.RBRACE, str "\x7d", line, c + 23⟩,
        ⟨.FUNCTION, str "func", line, c + 25⟩,
        ⟨.IDENT, str "g", line, c + 30⟩,
        ⟨.LPAREN, str "(", line, c + 31⟩,
        ⟨.RPAREN, str ")", line, c + 32⟩,
        ⟨.LBRACE, str "\x7b", line, c + 34⟩,
        ⟨.LET, str "let", line, c + 36⟩,
        ⟨.IDENT, str "x", line, c + 40⟩,
        ⟨.ASSIGN, str "=", line, c + 42⟩],
        ⟨scopingMiddle rest, 43, 44, 32, line, c + 43⟩) := rfl

set_option maxRecDepth 100000 in
set_option maxHeartbeats 4000000 in
theorem take_scopingEnd (line c : Nat) :
    Lexer.take 12 ⟨str "; return f(); \x7d g();", 0, 1, 59, line, c⟩ =
      ([⟨.SEMICOLON, str ";", line, c⟩,
        ⟨.RETURN, str "return", line, c + 2⟩,
        ⟨.IDENT, str "f", line, c + 9⟩,
        ⟨.LPAREN, str "(", line, c + 10⟩,
        ⟨.RPAREN, str ")", line, c + 11⟩,
        ⟨.SEMICOLON, str ";", line, c + 12⟩,
        ⟨.RBRACE, str "\x7d", line, c + 14⟩,
        ⟨.IDENT, str "g", line, c + 16⟩,
        ⟨.LPAREN, str "(", line, c + 17⟩,
        ⟨.RPAREN, str ")", line, c + 18⟩,
        ⟨.SEMICOLON, str ";", line, c + 19⟩,
        ⟨.EOF, [], line, c + 20⟩],
        ⟨str "; return f(); \x7d g();", 21, 22, 0, line, c + 21⟩) := rfl

/-- The 35 tokens of `scopingSource` for two literals that are runs of digits: their kinds,
the names of the identifiers and the texts of the two literals. -/
theorem lex_scopingSource (d1 d2 : Nat) (ds1 ds2 : GoString)
    (hd1 : isDigit d1 = true) (hds1 : ∀ x ∈ ds1, isDigit x = true)
    (hd2 : isDigit d2 = true) (hds2 : ∀ x ∈ ds2, isDigit x = true) :
    (List.range 35).map
        (fun k => (Lexer.tokenAt k (New (scopingSource (d1 :: ds1) (d2 :: ds2)))).Typ) =
      [.LET, .IDENT, .ASSIGN, .INT, .SEMICOLON, .FUNCTION, .IDENT, .LPAREN, .RPAREN, .LBRACE,
        .RETURN, .IDENT, .SEMICOLON, .RBRACE, .FUNCTION, .IDENT, .LPAREN, .RPAREN, .LBRACE,
        .LET, .IDENT, .ASSIGN, .INT, .SEMICOLON, .RETURN, .IDENT, .LPAREN, .RPAREN,
        .SEMICOLON, .RBRACE, .IDENT, .LPAREN, .RPAREN, .SEMICOLON, .EOF] ∧
    (List.range 35).map
        (fun k => (Lexer.tokenAt k (New (scopingSource (d1 :: ds1) (d2 :: ds2)))).Literal) =
      [str "let", str "x", str "=", d1 :: ds1, str ";", str "func", str "f", str "(", str ")",
        str "\x7b", str "return", str "x", str ";", str "\x7d", str "func", str "g", str "(",
        str ")", str "\x7b", str "let", str "x", str "=", d2 :: ds2, str ";", str "return",
        str "f", str "(", str ")", str ";", str "\x7d", str "g", str "(", str ")", str ";",
        []] := by
  have h0 := take_scopingStart
    (d1 :: (ds1 ++ scopingMiddle (d2 :: (ds2 ++ str "; return f(); \x7d g();"))))
  have hA := NextToken_space_digits ds1 [108, 101, 116, 32, 120, 32, 61]
    (scopingMiddle (d2 :: (ds2 ++ str "; return f(); \x7d g();"))) d1 1 8 hd1 hds1 rfl
    (by show (59 : Nat) ≠ 10; decide)
  have hB := Lexer.take_shift ([108, 101, 116, 32, 120, 32, 61] ++ 32 :: d1 :: ds1) 18 _ _ _
    ⟨rfl, rfl⟩
    (take_scopingMiddle (d2 :: (ds2 ++ str "; return f(); \x7d g();")) 1 (8 + ds1.length + 2))
  have hC := NextToken_space_digits ds2 ((scopingMiddle []).take 43)
    (str "; return f(); \x7d g();") d2 1 (8 + ds1.length + 2 + 43) hd2 hds2 rfl (by decide)
  have hwfM : Lexer.wf ⟨scopingMiddle (d2 :: (ds2 ++ str "; return f(); \x7d g();")), 43, 44,
      32, 1, 8 + ds1.length + 2 + 43⟩ := ⟨rfl, rfl⟩
  have hC' := Lexer.NextToken_shift ([108, 101, 116, 32, 120, 32, 61] ++ 32 :: d1 :: ds1) _ hwfM
  rw [show Lexer.NextToken ⟨scopingMiddle (d2 :: (ds2 ++ str "; return f(); \x7d g();")), 43,
      44, 32, 1, 8 + ds1.length + 2 + 43⟩ = _ from hC] at hC'
  have hwfE : Lexer.wf ⟨str "; return f(); \x7d g();", 0, 1, 59, 1,
      8 + ds1.length + 2 + 43 + ds2.length + 2⟩ := ⟨rfl, rfl⟩
  have hD := Lexer.take_shift ([108, 101, 116, 32, 120, 32, 61] ++ 32 :: d1 :: ds1) 12 _ _ _
    (Lexer.wf_shift _ _ hwfE)
    (Lexer.take_shift ((scopingMiddle []).take 43 ++ 32 :: d2 :: ds2) 12 _ _ _ hwfE
      (take_scopingEnd 1 (8 + ds1.length + 2 + 43 + ds2.length + 2)))
  have h1 := Lexer.take_append 3 1 _ _ _ _ _ h0 (Lexer.take_one _ _ _ hA)
  have h2 := Lexer.take_append (3 + 1) 18 _ _ _ _ _ h1 hB
  have h3 := Lexer.take_append (3 + 1 + 18) 1 _ _ _ _ _ h2 (Lexer.take_one _ _ _ hC')
  have h4 := Lexer.take_append (3 + 1 + 18 + 1) 12 _ _ _ _ _ h3 hD
  have h5 : Lexer.take 35 (New (scopingSource (d1 :: ds1) (d2 :: ds2))) = _ := h4
  rw [Lexer.take_eq] at h5
  have hlist := (Prod.mk.inj h5).1
  constructor
  · have := congrArg (List.map Token.Typ) hlist
    rw [List.map_map] at this
    exact this
  · have := congrArg (List.map Token.Literal) hlist
    rw [List.map_map] at this
    exact this

/-! ## Lexical scoping -/

/-- Parsing of the scoping example from any lexer that yields its 35 tokens. -/
theorem parse_scopingProgram (L : Nat → Lexer) (T : Nat → Token) (a b : Int) (m : Nat)
    (hnext : ∀ k, (L k).NextToken = (T k, L (k + 1)))
    (htypes : (List.range 35).map (fun k => (T k).Typ) =
      [.LET, .IDENT, .ASSIGN, .INT, .SEMICOLON, .FUNCTION, .IDENT, .LPAREN, .RPAREN, .LBRACE,
        .RETURN, .IDENT, .SEMICOLON, .RBRACE, .FUNCTION, .IDENT, .LPAREN, .RPAREN, .LBRACE,
        .LET, .IDENT, .ASSIGN, .INT, .SEMICOLON, .RETURN, .IDENT, .LPAREN, .RPAREN,
        .SEMICOLON, .RBRACE, .IDENT, .LPAREN, .RPAREN, .SEMICOLON, .EOF])
    (hlits : [1, 6, 11, 15, 20, 25, 30].map (fun k => (T k).Literal) =
      [str "x", str "f", str "x", str "g", str "x", str "f", str "g"])
    (ha : ParseInt (T 3).Literal = some a) (hb : ParseInt (T 22).Literal = some b) :
    ∃ p, ParseProgramFuel (m + 6) (NewParser (L 0)) = some (scopingProgram T a b, p) ∧
      p.errors = [] := by
  simp only [List.range_succ, List.range_zero, List.nil_append, List.cons_append,
    List.map_cons, List.map_nil, List.cons.injEq, and_true] at htypes hlits
  obtain ⟨h0, h1, h2, h3, h4, h5, h6, h7, h8, h9, h10, h11, h12, h13, h14, h15, h16, h17,
    h18, h19, h20, h21, h22, h23, h24, h25, h26, h27, h28, h29, h30, h31, h32, h33, h34⟩ :=
    htypes
  obtain ⟨l1, l6, l11, l15, l20, l25, l30⟩ := hlits
  simp [ParseProgramFuel, ParseProgramLoop, NewParser, Parser.nextToken, hnext, parseFns,
    parseStatementStep, parseExpressionStatement, parseExpressionStep, prefixParseFns,
    infixParseFns, parseExpressionLoop, parseIdentifier, parseIntegerLiteral,
    parseCallExpression, parseExpressionList, parseExpressionListLoop,
    parseFunctionStatement, parseFunctionParameters, parseFunctionParametersLoop,
    parseBlockStatement, parseBlockStatementLoop, parseReturnStatement, parseLetStatement,
    Parser.peekTokenIs, Parser.curTokenIs, Parser.peekPrecedence, Parser.curPrecedence,
    Parser.expectPeek, precedences, h0, h1, h2, h3, h4, h5, h6, h7, h8, h9, h10, h11, h12,
    h13, h14, h15, h16, h17, h18, h19, h20, h21, h22, h23, h24, h25, h26, h27, h28, h29, h30,
    h31, h32, h33, h34, l1, l6, l11, l15, l20, l25, l30, ha, hb, LOWEST, CALL, scopingProgram]

theorem digitsValue_digits (base : Nat) (hbase : base ≤ 10) :
    ∀ (s : GoString) (acc v : Nat), digitsValue base s acc = some v →
      ∀ x ∈ s, isDigit x = true := by
  intro s
  induction s with
  | nil => intro _ _ _ x hx; cases hx
  | cons c cs ih =>
    intro acc v h x hx
    unfold digitsValue at h
    by_cases hc : 48 ≤ c ∧ c < 48 + base
    · rw [if_pos hc] at h
      rcases List.mem_cons.mp hx with rfl | hx
      · simp only [isDigit, Bool.and_eq_true, decide_eq_true_eq]
        omega
      · exact ih _ _ h x hx
    · rw [if_neg hc] at h
      cases h

/-- What `ParseInt` accepts is a non-empty run of digits. -/
theorem ParseInt_digits (s : GoString) (v : Int) (h : ParseInt s = some v) :
    ∃ d ds, s = d :: ds ∧ isDigit d = true ∧ ∀ x ∈ ds, isDigit x = true := by
  unfold ParseInt at h
  split at h
  · cases h
  · rename_i rest
    refine ⟨48, rest, rfl, rfl, ?_⟩
    cases hv : digitsValue 8 rest 0 with
    | none => rw [hv] at h; cases h
    | some w => exact digitsValue_digits 8 (by decide) rest 0 w hv
  · cases s with
    | nil => exact absurd rfl (by assumption)
    | cons d ds =>
      cases hv : digitsValue 10 (d :: ds) 0 with
      | none => rw [hv] at h; cases h
      | some w =>
        have hall := digitsValue_digits 10 (by decide) (d :: ds) 0 w hv
        exact ⟨d, ds, rfl, hall d (List.mem_cons_self _ _),
          fun x hx => hall x (List.mem_cons_of_mem _ hx)⟩

set_option maxRecDepth 100000 in
set_option maxHeartbeats 4000000 in
/-- Evaluation of the scoping example: the call of `f` from the body of `g` reads the `x`
of the root environment. -/
theorem eval_scopingProgram (T : Nat → Token) (a b : Int) (m : Nat) :
    ∃ h, Eval (m + 9) (Node.Program (scopingProgram T a b)) (NewEnvironment Heap.empty).1
      (NewEnvironment Heap.empty).2 = Res.ok (Object.Integer a, h) :=
  ⟨_, rfl⟩

/-- Lexing, parsing and evaluating the scoping example with two literals that `ParseInt`
reads as `a` and `b`. -/
theorem run_scopingSource (la lb : GoString) (a b : Int) (fuel : Nat)
    (ha : ParseInt la = some a) (hb : ParseInt lb = some b) (hfuel : 9 ≤ fuel) :
    ∃ h, run fuel (scopingSource la lb) = some (Res.ok (Object.Integer a, h)) := by
  obtain ⟨d1, ds1, rfl, hd1, hds1⟩ := ParseInt_digits la a ha
  obtain ⟨d2, ds2, rfl, hd2, hds2⟩ := ParseInt_digits lb b hb
  obtain ⟨htypes, hlits⟩ := lex_scopingSource d1 d2 ds1 ds2 hd1 hds1 hd2 hds2
  have hl := hlits
  simp only [List.range_succ, List.range_zero, List.nil_append, List.cons_append,
    List.map_cons, List.map_nil, List.cons.injEq, and_true] at hl
  obtain ⟨-, l1, -, l3, -, -, l6, -, -, -, -, l11, -, -, -, l15, -, -, -, -, l20, -, l22, -, -,
    l25, -, -, -, -, l30, -, -, -, -⟩ := hl
  obtain ⟨p, hp, herr⟩ := parse_scopingProgram
    (fun k => Lexer.advance k (New (scopingSource (d1 :: ds1) (d2 :: ds2))))
    (fun k => Lexer.tokenAt k (New (scopingSource (d1 :: ds1) (d2 :: ds2)))) a b
    (2 * (NewParser (New (scopingSource (d1 :: ds1) (d2 :: ds2)))).l.input.length + 2)
    (fun _ => rfl) htypes
    (by simp only [List.map_cons, List.map_nil, l1, l6, l11, l15, l20, l25, l30])
    (by rw [l3]; exact ha) (by rw [l22]; exact hb)
  have hp' : ParseProgram (NewParser (New (scopingSource (d1 :: ds1) (d2 :: ds2))))
      = some (scopingProgram
          (fun k => Lexer.tokenAt k (New (scopingSource (d1 :: ds1) (d2 :: ds2)))) a b, p) := hp
  obtain ⟨m, rfl⟩ : ∃ m, fuel = m + 9 := ⟨fuel - 9, by omega⟩
  obtain ⟨h, heval⟩ := eval_scopingProgram
    (fun k => Lexer.tokenAt k (New (scopingSource (d1 :: ds1) (d2 :: ds2)))) a b m
  refine ⟨h, ?_⟩
  unfold run
  rw [hp']
  simp only [herr, List.length_nil, gt_iff_lt, Nat.lt_irrefl, if_false]
  rw [heval]

/-- C2. A function declaration stores a Function that captures the environment of the
declaration; `applyFunction` evaluates the body in a fresh environment whose parent is
that captured environment, whatever environment the call is made from; and for all
integer literals `la` and `lb`, read by `ParseInt` as `a` and `b`, lexing, parsing and
evaluating the source
`let x = la; func f() { return x; } func g() { let x = lb; return f(); } g();`
in a fresh root environment, with any fuel from 9 on, yields Integer(a). -/
theorem function_body_runs_in_declaring_scope :
    (∀ (fuel : Nat) (tok : Token) (name : Identifier) (parameters : List Identifier)
        (body : BlockStatement) (env : Nat) (h : Heap) (e : Environment),
      h.envs[env]? = some e →
      ∃ h1, Eval (fuel + 1)
            (Node.Statement (Statement.FunctionStatement tok name parameters body)) env h
          = Res.ok (NULL, h1) ∧
        h1.Get env name.Value = some (Object.Function h.nextAddr parameters body env)) ∧
    (∀ (ev : EvalFn) (addr : Nat) (parameters : List Identifier) (body : BlockStatement)
        (fnEnv : Nat) (args : List Object) (h : Heap),
      (extendFunctionEnv parameters fnEnv args h).1 = h.envs.length ∧
      ((extendFunctionEnv parameters fnEnv args h).2.envs[h.envs.length]?).map
          Environment.outer = some (some fnEnv) ∧
      applyFunction ev (Object.Function addr parameters body fnEnv) args h =
        match ev (Node.BlockStatement body) (extendFunctionEnv parameters fnEnv args h).1
            (extendFunctionEnv parameters fnEnv args h).2 with
        | .panic => .panic
        | .outOfFuel => .outOfFuel
        | .ok (evaluated, h1) => .ok (unwrapReturnValue evaluated, h1)) ∧
    (∀ (la lb : GoString) (a b : Int) (fuel : Nat),
      ParseInt la = some a → ParseInt lb = some b → 9 ≤ fuel →
      ∃ h, run fuel (scopingSource la lb) = some (Res.ok (Object.Integer a, h))) := by
  refine ⟨?_, ?_, ?_⟩
  · intro fuel tok name parameters body env h e he
    refine ⟨_, rfl, ?_⟩
    have he' : (⟨h.envs, h.nextAddr + 1⟩ : Heap).envs[env]? = some e := he
    rw [Heap.Set_of_get _ env _ _ e he']
    have hlt : env < h.envs.length := by
      rcases Nat.lt_or_ge env h.envs.length with hl | hl
      · exact hl
      · rw [List.getElem?_eq_none hl] at he
        cases he
    apply Heap.Get_of_store _ env _
      ⟨(name.Value, Object.Function h.nextAddr parameters body env) :: e.store, e.outer⟩
    · exact List.getElem?_set_self hlt
    · simp [storeLookup]
  · intro ev addr parameters body fnEnv args h
    refine ⟨?_, ?_, rfl⟩
    · rw [extendFunctionEnv_eq]
    · rw [extendFunctionEnv_eq]
      simp
  · intro la lb a b fuel ha hb hfuel
    exact run_scopingSource la lb a b fuel ha hb hfuel

/-- Witness of C2: in the fresh root environment the declaration of `f` binds `f` to a
Function that captures the root environment, and the source with the literals 1 and 2,
`let x = 1; func f() { return x; } func g() { let x = 2; return f(); } g();`,
evaluates to Integer(1). -/
theorem function_body_runs_in_declaring_scope_witness :
    (∃ h1, Eval 1 (Node.Statement (Statement.FunctionStatement Token.zero
          ⟨Token.zero, str "f"⟩ [] (BlockStatement.mk Token.zero []))) 0
          (NewEnvironment Heap.empty).2 = Res.ok (NULL, h1) ∧
        h1.Get 0 (str "f")
          = some (Object.Function 0 [] (BlockStatement.mk Token.zero []) 0)) ∧
    scopingSource (str "1") (str "2") = str
      "let x = 1; func f() \x7b return x; \x7d func g() \x7b let x = 2; return f(); \x7d g();" ∧
    ParseInt (str "1") = some 1 ∧ ParseInt (str "2") = some 2 ∧
    ∃ h, run 9 (scopingSource (str "1") (str "2")) = some (Res.ok (Object.Integer 1, h)) :=
  ⟨function_body_runs_in_declaring_scope.1 0 Token.zero ⟨Token.zero, str "f"⟩ []
      (BlockStatement.mk Token.zero []) 0 (NewEnvironment Heap.empty).2 ⟨[], none⟩ rfl,
   rfl, rfl, rfl,
   function_body_runs_in_declaring_scope.2.2 (str "1") (str "2") 1 2 9 rfl rfl (Nat.le_refl 9)⟩

/-! ## Type errors of the operators -/

/-- C11. For operands with Object types `lt` and `rt` and every operator other than `==`,
`!=`, `&&` and `||`: operands of different types give the Error
"type mismatch: lt op rt", and operands of one type that is neither INTEGER nor STRING
give the Error "unknown operator: lt op lt"; an infix expression whose operands evaluate
to such objects evaluates to that Error. -/
theorem infix_type_mismatch (op : GoString) (l r : Object) (lt rt : GoString)
    (hl : l.Type = some lt) (hr : r.Type = some rt) (heq : op ≠ str "==")
    (hne : op ≠ str "!=") (hand : op ≠ str "&&") (hor : op ≠ str "||") :
    (lt ≠ rt → evalInfixExpression op l r = Res.ok (Object.Error
        (str "type mismatch: " ++ lt ++ str " " ++ op ++ str " " ++ rt))) ∧
    (lt = rt → lt ≠ INTEGER_OBJ → lt ≠ STRING_OBJ → evalInfixExpression op l r =
        Res.ok (Object.Error
          (str "unknown operator: " ++ lt ++ str " " ++ op ++ str " " ++ lt))) ∧
    (∀ (fuel : Nat) (tok : Token) (left right : Expression) (env : Nat) (h h1 h2 : Heap),
      isError l = false → isError r = false →
      Eval fuel (Node.Expression left) env h = Res.ok (l, h1) →
      Eval fuel (Node.Expression right) env h1 = Res.ok (r, h2) →
      Eval (fuel + 1) (Node.Expression (Expression.InfixExpression tok left op right)) env h
        = match evalInfixExpression op l r with
          | .ok v => .ok (v, h2)
          | .panic => .panic
          | .outOfFuel => .outOfFuel) := by
  refine ⟨?_, ?_, ?_⟩
  · intro hlr
    cases l <;> cases r <;> simp only [Object.Type, Option.some.injEq, reduceCtorEq] at hl hr <;>
      subst hl <;> subst hr <;>
      simp_all +decide [evalInfixExpression, Object.Type, bothOfType, INTEGER_OBJ, STRING_OBJ,
        BOOLEAN_OBJ, NULL_OBJ, FUNCTION_OBJ, RETURN_OBJ, ERROR_OBJ, newError]
  · intro hlr hi hs
    cases l <;> cases r <;> simp only [Object.Type, Option.some.injEq, reduceCtorEq] at hl hr <;>
      subst hl <;> subst hr <;>
      simp_all +decide [evalInfixExpression, Object.Type, bothOfType, INTEGER_OBJ, STRING_OBJ,
        BOOLEAN_OBJ, NULL_OBJ, FUNCTION_OBJ, RETURN_OBJ, ERROR_OBJ, newError]
  · intro fuel tok left right env h h1 h2 hel her hle hri
    simp only [Eval, EvalStep, evalExpression, hle, hri, hel, her, Bool.false_eq_true,
      if_false]
    cases evalInfixExpression op l r <;> rfl

set_option maxRecDepth 100000 in
/-- Witness of C11: `1 + "a"` is the Error "type mismatch: INTEGER + STRING", also as a
source text, and `true - false` is the Error "unknown operator: BOOLEAN - BOOLEAN". -/
theorem infix_type_mismatch_witness :
    evalInfixExpression (str "+") (Object.Integer 1) (Object.String (str "a"))
      = Res.ok (Object.Error (str "type mismatch: INTEGER + STRING")) ∧
    evalInfixExpression (str "-") (Object.Boolean true) (Object.Boolean false)
      = Res.ok (Object.Error (str "unknown operator: BOOLEAN - BOOLEAN")) ∧
    ∃ h, run 10 (str "1 + \"a\"")
      = some (Res.ok (Object.Error (str "type mismatch: INTEGER + STRING"), h)) :=
  ⟨(infix_type_mismatch (str "+") (Object.Integer 1) (Object.String (str "a")) INTEGER_OBJ
      STRING_OBJ rfl rfl (by decide) (by decide) (by decide) (by decide)).1 (by decide),
   (infix_type_mismatch (str "-") (Object.Boolean true) (Object.Boolean false) BOOLEAN_OBJ
      BOOLEAN_OBJ rfl rfl (by decide) (by decide) (by decide) (by decide)).2.1 rfl
      (by decide) (by decide),
   ⟨_, rfl⟩⟩

/-! ## Conditionals and prefix operators -/

/-- C12. An if statement whose condition evaluates to an Error evaluates to that Error;
with a truthy condition it evaluates to what the consequence block evaluates to; with a
falsy condition to what the alternative block evaluates to when there is one, and to Null
when there is none. An object is falsy exactly when it is Null or false: the Integer 0 and
the empty String are truthy. -/
theorem if_statement_by_truthiness (fuel : Nat) (tok : Token) (condition : Expression)
    (consequence : BlockStatement) (alternative : Option BlockStatement) (env : Nat)
    (h : Heap) :
    (∀ e h1, Eval fuel (Node.Expression condition) env h = Res.ok (Object.Error e, h1) →
      Eval (fuel + 1)
          (Node.Statement (Statement.IfStatement tok condition consequence alternative)) env h
        = Res.ok (Object.Error e, h1)) ∧
    (∀ c h1, Eval fuel (Node.Expression condition) env h = Res.ok (c, h1) →
      isError c = false → isTruthy c = true →
      Eval (fuel + 1)
          (Node.Statement (Statement.IfStatement tok condition consequence alternative)) env h
        = Eval fuel (Node.BlockStatement consequence) env h1) ∧
    (∀ c h1 alt, Eval fuel (Node.Expression condition) env h = Res.ok (c, h1) →
      isTruthy c = false → alternative = some alt →
      Eval (fuel + 1)
          (Node.Statement (Statement.IfStatement tok condition consequence alternative)) env h
        = Eval fuel (Node.BlockStatement alt) env h1) ∧
    (∀ c h1, Eval fuel (Node.Expression condition) env h = Res.ok (c, h1) →
      isTruthy c = false → alternative = none →
      Eval (fuel + 1)
          (Node.Statement (Statement.IfStatement tok condition consequence alternative)) env h
        = Res.ok (Object.Null, h1)) ∧
    (∀ v : Object, isTruthy v = false ↔ (v = Object.Null ∨ v = Object.Boolean false)) ∧
    isTruthy (Object.Integer 0) = true ∧ isTruthy (Object.String []) = true := by
  have hfalsy : ∀ v : Object, isTruthy v = false ↔ (v = Object.Null ∨ v = Object.Boolean false) := by
    intro v
    cases v <;> simp [isTruthy]
    rename_i b; cases b <;> simp
  refine ⟨?_, ?_, ?_, ?_, hfalsy, rfl, rfl⟩
  · intro e h1 hc
    simp [Eval, EvalStep, evalStatement, evalIfExpression, hc, isError]
  · intro c h1 hc he ht
    simp [Eval, EvalStep, evalStatement, evalIfExpression, hc, he, ht]
  · intro c h1 alt hc ht ha
    have he : isError c = false := by
      rcases (hfalsy c).mp ht with rfl | rfl <;> rfl
    simp [Eval, EvalStep, evalStatement, evalIfExpression, hc, he, ht, ha]
  · intro c h1 hc ht ha
    have he : isError c = false := by
      rcases (hfalsy c).mp ht with rfl | rfl <;> rfl
    simp [Eval, EvalStep, evalStatement, evalIfExpression, hc, he, ht, ha, NULL]

set_option maxRecDepth 100000 in
/-- Witness of C12: the condition `1 < 2` is true, so the if statement with the blocks
`"yes";` and `"no";` evaluates as its consequence does, and the source
`if (1 < 2) { "yes"; } else { "no"; }` evaluates to String("yes"). -/
theorem if_statement_by_truthiness_witness :
    Eval 3 (Node.Statement (Statement.IfStatement Token.zero
        (Expression.InfixExpression Token.zero (Expression.IntegerLiteral Token.zero 1)
          (str "<") (Expression.IntegerLiteral Token.zero 2))
        (BlockStatement.mk Token.zero [Statement.ExpressionStatement Token.zero
          (Expression.StringLiteral Token.zero (str "yes"))])
        (some (BlockStatement.mk Token.zero [Statement.ExpressionStatement Token.zero
          (Expression.StringLiteral Token.zero (str "no"))])))) 0 (NewEnvironment Heap.empty).2
      = Eval 2 (Node.BlockStatement (BlockStatement.mk Token.zero
          [Statement.ExpressionStatement Token.zero
            (Expression.StringLiteral Token.zero (str "yes"))])) 0
          (NewEnvironment Heap.empty).2 ∧
    ∃ h, run 10 (str "if (1 < 2) \x7b \"yes\"; \x7d else \x7b \"no\"; \x7d")
      = some (Res.ok (Object.String (str "yes"), h)) :=
  ⟨(if_statement_by_truthiness 2 Token.zero _ _ _ 0 (NewEnvironment Heap.empty).2).2.1
      (Object.Boolean true) _ rfl rfl rfl,
   ⟨_, rfl⟩⟩

/-- C13. For every object `v` that is not an Error, `!v` is Boolean true exactly when `v`
is Null or false and Boolean false otherwise, and `!!v` is Boolean(truthy(v)); so `!0`
and `!""` are false. -/
theorem bang_negates_truthiness :
    (∀ v : Object, evalPrefixExpression (str "!") v = Res.ok (Object.Boolean (!isTruthy v))) ∧
    (∀ v : Object, (!isTruthy v) = true ↔ (v = Object.Null ∨ v = Object.Boolean false)) ∧
    (∀ (fuel : Nat) (tok tok1 : Token) (right : Expression) (env : Nat) (h h1 : Heap)
        (v : Object),
      Eval fuel (Node.Expression right) env h = Res.ok (v, h1) → isError v = false →
      Eval (fuel + 1) (Node.Expression (Expression.PrefixExpression tok (str "!") right)) env h
          = Res.ok (Object.Boolean (!isTruthy v), h1) ∧
        Eval (fuel + 2) (Node.Expression (Expression.PrefixExpression tok1 (str "!")
            (Expression.PrefixExpression tok (str "!") right))) env h
          = Res.ok (Object.Boolean (isTruthy v), h1)) ∧
    evalPrefixExpression (str "!") (Object.Integer 0) = Res.ok (Object.Boolean false) ∧
    evalPrefixExpression (str "!") (Object.String []) = Res.ok (Object.Boolean false) := by
  have hbang : ∀ v : Object,
      evalPrefixExpression (str "!") v = Res.ok (Object.Boolean (!isTruthy v)) := by
    intro v
    cases v <;> simp [evalPrefixExpression, evalBangOperatorExpression, isTruthy,
      RUNTIME_FALSE, RUNTIME_TRUE]
    rename_i b; cases b <;> simp
  refine ⟨hbang, ?_, ?_, rfl, rfl⟩
  · intro v
    cases v <;> simp [isTruthy]
    rename_i b; cases b <;> simp
  · intro fuel tok tok1 right env h h1 v hr he
    have h1' : Eval (fuel + 1)
        (Node.Expression (Expression.PrefixExpression tok (str "!") right)) env h
        = Res.ok (Object.Boolean (!isTruthy v), h1) := by
      simp [Eval, EvalStep, evalExpression, hr, he, hbang]
    refine ⟨h1', ?_⟩
    have e : Eval (fuel + 2) = EvalStep (Eval (fuel + 1)) := rfl
    rw [e]
    simp only [EvalStep, evalExpression, h1', isError, Bool.false_eq_true, if_false, hbang]
    cases isTruthy v <;> rfl

set_option maxRecDepth 100000 in
/-- Witness of C13: the sources `!0` and `!!0` evaluate to false and true. -/
theorem bang_negates_truthiness_witness :
    Eval 2 (Node.Expression (Expression.PrefixExpression Token.zero (str "!")
        (Expression.IntegerLiteral Token.zero 0))) 0 (NewEnvironment Heap.empty).2
      = Res.ok (Object.Boolean false, (NewEnvironment Heap.empty).2) ∧
    (∃ h, run 10 (str "!0") = some (Res.ok (Object.Boolean false, h))) ∧
    (∃ h, run 10 (str "!\"\"") = some (Res.ok (Object.Boolean false, h))) ∧
    ∃ h, run 10 (str "!!0") = some (Res.ok (Object.Boolean true, h)) :=
  ⟨(bang_negates_truthiness.2.2.1 1 Token.zero Token.zero
      (Expression.IntegerLiteral Token.zero 0) 0 (NewEnvironment Heap.empty).2
      (NewEnvironment Heap.empty).2 (Object.Integer 0) rfl rfl).1,
   ⟨_, rfl⟩, ⟨_, rfl⟩, ⟨_, rfl⟩⟩

set_option maxRecDepth 100000 in
/-- C14, counterexample. Prefix `-` of the Integer `-2^63` is the Integer `-2^63` again,
not the Integer `2^63`: the source `-(-9223372036854775807 - 1)` evaluates to
Integer(-9223372036854775808); so "the result is Integer(-v)" does not hold for every
Integer operand. -/
theorem minus_of_least_integer_is_itself :
    evalPrefixExpression (str "-") (Object.Integer (-2 ^ 63))
      = Res.ok (Object.Integer (-2 ^ 63)) ∧
    (∃ h, run 10 (str "-9223372036854775807 - 1")
      = some (Res.ok (Object.Integer (-9223372036854775808), h))) ∧
    (∃ h, run 10 (str "-(-9223372036854775807 - 1)")
      = some (Res.ok (Object.Integer (-9223372036854775808), h))) ∧
    ¬ (∀ v : Int, -2 ^ 63 ≤ v → v < 2 ^ 63 →
        evalPrefixExpression (str "-") (Object.Integer v) = Res.ok (Object.Integer (-v))) := by
  have hneg : ∀ v : Int, evalPrefixExpression (str "-") (Object.Integer v)
      = Res.ok (Object.Integer (wrap64 (-v))) := by
    intro v
    simp +decide [evalPrefixExpression, evalMinusPrefixOperatorExpression]
  have hw : wrap64 (-(-2 ^ 63)) = -2 ^ 63 := by
    unfold wrap64
    omega
  have h2 : evalPrefixExpression (str "-") (Object.Integer (-2 ^ 63))
      = Res.ok (Object.Integer (-2 ^ 63)) := by
    rw [hneg, hw]
  refine ⟨h2, ⟨_, rfl⟩, ⟨_, rfl⟩, ?_⟩
  intro hall
  have h1 := hall (-2 ^ 63) (by omega) (by omega)
  rw [h2] at h1
  simp only [Res.ok.injEq, Object.Integer.injEq] at h1
  omega

/-- C14, amended. Prefix `-` of an Integer `v` is the Integer `-v` for every `v` above
`-2^63` in the range of `int64`, and the Integer `-2^63` for `v = -2^63` (it is `-v`
wrapped to 64 bits for every `v`); prefix `-` of an operand of any other type `t` is the
Error "unknown operator: -t"; and a prefix expression `-` whose operand evaluates to such
an object evaluates to that result. -/
theorem minus_requires_integer :
    (∀ v : Int, -2 ^ 63 < v → v < 2 ^ 63 →
      evalPrefixExpression (str "-") (Object.Integer v) = Res.ok (Object.Integer (-v))) ∧
    evalPrefixExpression (str "-") (Object.Integer (-2 ^ 63))
      = Res.ok (Object.Integer (-2 ^ 63)) ∧
    (∀ v : Int, evalPrefixExpression (str "-") (Object.Integer v)
        = Res.ok (Object.Integer (wrap64 (-v)))) ∧
    (∀ (o : Object) (t : GoString), o.Type = some t → t ≠ INTEGER_OBJ →
      evalPrefixExpression (str "-") o
        = Res.ok (Object.Error (str "unknown operator: -" ++ t))) ∧
    (∀ (fuel : Nat) (tok : Token) (right : Expression) (env : Nat) (h h1 : Heap)
        (o : Object),
      Eval fuel (Node.Expression right) env h = Res.ok (o, h1) → isError o = false →
      Eval (fuel + 1) (Node.Expression (Expression.PrefixExpression tok (str "-") right)) env h
        = match evalPrefixExpression (str "-") o with
          | .ok v => .ok (v, h1)
          | .panic => .panic
          | .outOfFuel => .outOfFuel) := by
  have hneg : ∀ v : Int, evalPrefixExpression (str "-") (Object.Integer v)
      = Res.ok (Object.Integer (wrap64 (-v))) := by
    intro v
    simp +decide [evalPrefixExpression, evalMinusPrefixOperatorExpression]
  refine ⟨?_, ?_, hneg, ?_, ?_⟩
  · intro v h1 h2
    rw [hneg v]
    have hw : wrap64 (-v) = -v := by
      unfold wrap64
      omega
    rw [hw]
  · rw [hneg]
    have hw : wrap64 (-(-2 ^ 63)) = -2 ^ 63 := by
      unfold wrap64
      omega
    rw [hw]
  · intro o t ht hne
    cases o <;> simp only [Object.Type, Option.some.injEq, reduceCtorEq] at ht <;> subst ht <;>
      simp_all +decide [evalPrefixExpression, evalMinusPrefixOperatorExpression, Object.Type,
        newError, INTEGER_OBJ, STRING_OBJ, BOOLEAN_OBJ, NULL_OBJ, FUNCTION_OBJ, RETURN_OBJ,
        ERROR_OBJ]
  · intro fuel tok right env h h1 o hr he
    simp only [Eval, EvalStep, evalExpression, hr, he, Bool.false_eq_true, if_false]
    cases evalPrefixExpression (str "-") o <;> rfl

set_option maxRecDepth 100000 in
/-- Witness of C14 amended: `-true` is the Error "unknown operator: -BOOLEAN", also as a
source text, and the source `-5` evaluates to Integer(-5). -/
theorem minus_requires_integer_witness :
    evalPrefixExpression (str "-") (Object.Integer 5) = Res.ok (Object.Integer (-5)) ∧
    evalPrefixExpression (str "-") (Object.Boolean true)
      = Res.ok (Object.Error (str "unknown operator: -BOOLEAN")) ∧
    (∃ h, run 10 (str "-true")
      = some (Res.ok (Object.Error (str "unknown operator: -BOOLEAN"), h))) ∧
    ∃ h, run 10 (str "-5") = some (Res.ok (Object.Integer (-5), h)) :=
  ⟨minus_requires_integer.1 5 (by decide) (by decide),
   minus_requires_integer.2.2.2.1 (Object.Boolean true) BOOLEAN_OBJ rfl (by decide),
   ⟨_, rfl⟩, ⟨_, rfl⟩⟩

/-! ## Which environments an evaluation changes -/

theorem Heap.frame_refl (skip : Option Nat) (h : Heap) : Heap.frame skip h h :=
  ⟨Nat.le_refl _, fun _ _ _ => rfl⟩

theorem Heap.frame_trans (skip : Option Nat) (h h1 h2 : Heap) (a : Heap.frame skip h h1)
    (b : Heap.frame skip h1 h2) : Heap.frame skip h h2 :=
  ⟨Nat.le_trans a.1 b.1, fun i hi hs =>
    (b.2 i (Nat.lt_of_lt_of_le hi a.1) hs).trans (a.2 i hi hs)⟩

theorem Heap.frame_of_none (skip : Option Nat) (h h1 : Heap) (a : Heap.frame none h h1) :
    Heap.frame skip h h1 :=
  ⟨a.1, fun i hi _ => a.2 i hi (by simp)⟩

theorem Heap.frame_Set (h : Heap) (env : Nat) (name : GoString) (val : Object) :
    Heap.frame (some env) h (h.Set env name val) := by
  unfold Heap.Set
  cases he : h.envs[env]? with
  | none => exact Heap.frame_refl _ _
  | some e =>
    refine ⟨by simp, fun i _ hs => ?_⟩
    have hne : env ≠ i := fun hc => hs (by rw [hc])
    simp [List.getElem?_set_ne hne]

theorem Heap.frame_extendFunctionEnv (parameters : List Identifier) (fnEnv : Nat)
    (args : List Object) (h : Heap) :
    Heap.frame none h (extendFunctionEnv parameters fnEnv args h).2 := by
  rw [extendFunctionEnv_eq]
  refine ⟨by simp, fun i hi _ => ?_⟩
  simp [List.getElem?_append_left hi]

/-- An evaluator that changes no environment but the one it may bind names in. -/
theorem evalProgramLoop_frame (ev : EvalFn) (env : Nat)
    (hev : ∀ node env h v h1, ev node env h = Res.ok (v, h1) →
      Heap.frame (node.bindsIn env) h h1) :
    ∀ (stmts : List Statement) (r : Object) (h : Heap) (v : Object) (h1 : Heap),
      evalProgramLoop ev env stmts r h = Res.ok (v, h1) → Heap.frame (some env) h h1 := by
  intro stmts
  induction stmts with
  | nil =>
    intro r h v h1 hres
    simp only [evalProgramLoop, Res.ok.injEq, Prod.mk.injEq] at hres
    rw [← hres.2]
    exact Heap.frame_refl _ _
  | cons s rest ih =>
    intro r h v h1 hres
    simp only [evalProgramLoop] at hres
    cases hs : ev (Node.Statement s) env h with
    | panic => simp [hs] at hres
    | outOfFuel => simp [hs] at hres
    | ok p =>
      obtain ⟨res, h'⟩ := p
      have hf := hev _ _ _ _ _ hs
      simp only [hs] at hres
      cases res <;> simp only [Res.ok.injEq, Prod.mk.injEq] at hres <;>
        first
        | (rw [← hres.2]; exact hf)
        | exact Heap.frame_trans _ _ _ _ hf (ih _ _ _ _ hres)

theorem evalBlockStatementLoop_frame (ev : EvalFn) (env : Nat)
    (hev : ∀ node env h v h1, ev node env h = Res.ok (v, h1) →
      Heap.frame (node.bindsIn env) h h1) :
    ∀ (stmts : List Statement) (r : Object) (h : Heap) (v : Object) (h1 : Heap),
      evalBlockStatementLoop ev env stmts r h = Res.ok (v, h1) →
      Heap.frame (some env) h h1 := by
  intro stmts
  induction stmts with
  | nil =>
    intro r h v h1 hres
    simp only [evalBlockStatementLoop, Res.ok.injEq, Prod.mk.injEq] at hres
    rw [← hres.2]
    exact Heap.frame_refl _ _
  | cons s rest ih =>
    intro r h v h1 hres
    simp only [evalBlockStatementLoop] at hres
    cases hs : ev (Node.Statement s) env h with
    | panic => simp [hs] at hres
    | outOfFuel => simp [hs] at hres
    | ok p =>
      obtain ⟨res, h'⟩ := p
      have hf := hev _ _ _ _ _ hs
      simp only [hs] at hres
      cases res <;> simp only [Res.ok.injEq, Prod.mk.injEq] at hres <;>
        first
        | (rw [← hres.2]; exact hf)
        | exact Heap.frame_trans _ _ _ _ hf (ih _ _ _ _ hres)

theorem evalExpressionsLoop_frame (ev : EvalFn) (env : Nat)
    (hev : ∀ node env h v h1, ev node env h = Res.ok (v, h1) →
      Heap.frame (node.bindsIn env) h h1) :
    ∀ (exps : List Expression) (acc : List Object) (h : Heap) (vs : List Object) (h1 : Heap),
      evalExpressionsLoop ev env exps acc h = Res.ok (vs, h1) → Heap.frame none h h1 := by
  intro exps
  induction exps with
  | nil =>
    intro acc h vs h1 hres
    simp only [evalExpressionsLoop, Res.ok.injEq, Prod.mk.injEq] at hres
    rw [← hres.2]
    exact Heap.frame_refl _ _
  | cons e rest ih =>
    intro acc h vs h1 hres
    simp only [evalExpressionsLoop] at hres
    cases hs : ev (Node.Expression e) env h with
    | panic => simp [hs] at hres
    | outOfFuel => simp [hs] at hres
    | ok p =>
      obtain ⟨res, h'⟩ := p
      have hf : Heap.frame none h h' := hev _ _ _ _ _ hs
      simp only [hs] at hres
      by_cases he : isError res = true
      · simp only [he, if_true, Res.ok.injEq, Prod.mk.injEq] at hres
        rw [← hres.2]
        exact hf
      · simp only [he, Bool.false_eq_true, if_false] at hres
        exact Heap.frame_trans _ _ _ _ hf (ih _ _ _ _ hres)
theorem applyFunction_frame (ev : EvalFn)
    (hev : ∀ node env h v h1, ev node env h = Res.ok (v, h1) →
      Heap.frame (node.bindsIn env) h h1)
    (fn : Object) (args : List Object) (h : Heap) (v : Object) (h1 : Heap)
    (hres : applyFunction ev fn args h = Res.ok (v, h1)) : Heap.frame none h h1 := by
  cases fn with
  | Function addr parameters body fnEnv =>
    simp only [applyFunction] at hres
    cases hb : ev (Node.BlockStatement body) (extendFunctionEnv parameters fnEnv args h).1
        (extendFunctionEnv parameters fnEnv args h).2 with
    | panic => simp [hb] at hres
    | outOfFuel => simp [hb] at hres
    | ok p =>
      obtain ⟨res, h'⟩ := p
      simp only [hb, Res.ok.injEq, Prod.mk.injEq] at hres
      have hf := hev _ _ _ _ _ hb
      have hx := Heap.frame_extendFunctionEnv parameters fnEnv args h
      rw [← hres.2]
      refine ⟨Nat.le_trans hx.1 hf.1, fun i hi _ => ?_⟩
      have h1' : (extendFunctionEnv parameters fnEnv args h).1 = h.envs.length := by
        rw [extendFunctionEnv_eq]
      have hne : (Node.bindsIn (Node.BlockStatement body)
          (extendFunctionEnv parameters fnEnv args h).1) ≠ some i := by
        simp only [Node.bindsIn, h1', ne_eq, Option.some.injEq]
        omega
      exact (hf.2 i (Nat.lt_of_lt_of_le hi hx.1) hne).trans (hx.2 i hi (by simp))
  | nil | Integer _ | Boolean _ | String _ | Null | ReturnValue _ | Error _ =>
    simp only [applyFunction, Res.ok.injEq, Prod.mk.injEq] at hres
    rw [← hres.2]
    exact Heap.frame_refl _ _

theorem evalStatement_frame (ev : EvalFn)
    (hev : ∀ node env h v h1, ev node env h = Res.ok (v, h1) →
      Heap.frame (node.bindsIn env) h h1)
    (stmt : Statement) (env : Nat) (h : Heap) (v : Object) (h1 : Heap)
    (hres : evalStatement ev stmt env h = Res.ok (v, h1)) : Heap.frame (some env) h h1 := by
  cases stmt with
  | ExpressionStatement tok expression =>
    exact Heap.frame_of_none _ _ _ (hev _ _ _ _ _ hres)
  | LetStatement tok name value =>
    simp only [evalStatement] at hres
    cases hv : ev (Node.Expression value) env h with
    | panic => simp [hv] at hres
    | outOfFuel => simp [hv] at hres
    | ok p =>
      obtain ⟨val, h'⟩ := p
      have hf : Heap.frame none h h' := hev _ _ _ _ _ hv
      simp only [hv] at hres
      by_cases he : isError val = true
      · simp only [he, if_true, Res.ok.injEq, Prod.mk.injEq] at hres
        rw [← hres.2]
        exact Heap.frame_of_none _ _ _ hf
      · simp only [he, Bool.false_eq_true, if_false, Res.ok.injEq, Prod.mk.injEq] at hres
        rw [← hres.2]
        exact Heap.frame_trans _ _ _ _ (Heap.frame_of_none _ _ _ hf) (Heap.frame_Set _ _ _ _)
  | ReturnStatement tok returnValue =>
    simp only [evalStatement] at hres
    cases hv : ev (Node.Expression returnValue) env h with
    | panic => simp [hv] at hres
    | outOfFuel => simp [hv] at hres
    | ok p =>
      obtain ⟨val, h'⟩ := p
      have hf : Heap.frame none h h' := hev _ _ _ _ _ hv
      simp only [hv] at hres
      by_cases he : isError val = true
      · simp only [he, if_true, Res.ok.injEq, Prod.mk.injEq] at hres
        rw [← hres.2]
        exact Heap.frame_of_none _ _ _ hf
      · simp only [he, Bool.false_eq_true, if_false, Res.ok.injEq, Prod.mk.injEq] at hres
        rw [← hres.2]
        exact Heap.frame_of_none _ _ _ hf
  | FunctionStatement tok name parameters body =>
    simp only [evalStatement, Res.ok.injEq, Prod.mk.injEq] at hres
    rw [← hres.2]
    exact Heap.frame_Set ⟨h.envs, h.nextAddr + 1⟩ env _ _
  | IfStatement tok condition consequence alternative =>
    simp only [evalStatement, evalIfExpression] at hres
    cases hc : ev (Node.Expression condition) env h with
    | panic => simp [hc] at hres
    | outOfFuel => simp [hc] at hres
    | ok p =>
      obtain ⟨c, h'⟩ := p
      have hf : Heap.frame (some env) h h' := Heap.frame_of_none _ _ _ (hev _ _ _ _ _ hc)
      simp only [hc] at hres
      by_cases he : isError c = true
      · simp only [he, if_true, Res.ok.injEq, Prod.mk.injEq] at hres
        rw [← hres.2]
        exact hf
      · simp only [he, Bool.false_eq_true, if_false] at hres
        by_cases ht : isTruthy c = true
        · simp only [ht, if_true] at hres
          exact Heap.frame_trans _ _ _ _ hf (hev _ _ _ _ _ hres)
        · simp only [ht, Bool.false_eq_true, if_false] at hres
          cases alternative with
          | none =>
            simp only [Res.ok.injEq, Prod.mk.injEq] at hres
            rw [← hres.2]
            exact hf
          | some alt =>
            exact Heap.frame_trans _ _ _ _ hf (hev _ _ _ _ _ hres)
  | nilLetStatement => simp [evalStatement] at hres
  | nilFunctionStatement => simp [evalStatement] at hres
  | nilIfStatement => simp [evalStatement] at hres

theorem evalExpression_frame (ev : EvalFn)
    (hev : ∀ node env h v h1, ev node env h = Res.ok (v, h1) →
      Heap.frame (node.bindsIn env) h h1)
    (exp : Expression) (env : Nat) (h : Heap) (v : Object) (h1 : Heap)
    (hres : evalExpression ev exp env h = Res.ok (v, h1)) : Heap.frame none h h1 := by
  cases exp with
  | nil =>
    simp only [evalExpression, Res.ok.injEq, Prod.mk.injEq] at hres
    rw [← hres.2]; exact Heap.frame_refl _ _
  | Identifier tok value =>
    simp only [evalExpression, Res.ok.injEq, Prod.mk.injEq] at hres
    rw [← hres.2]; exact Heap.frame_refl _ _
  | IntegerLiteral tok value =>
    simp only [evalExpression, Res.ok.injEq, Prod.mk.injEq] at hres
    rw [← hres.2]; exact Heap.frame_refl _ _
  | StringLiteral tok value =>
    simp only [evalExpression, Res.ok.injEq, Prod.mk.injEq] at hres
    rw [← hres.2]; exact Heap.frame_refl _ _
  | BooleanLiteral tok value =>
    simp only [evalExpression, Res.ok.injEq, Prod.mk.injEq] at hres
    rw [← hres.2]; exact Heap.frame_refl _ _
  | PrefixExpression tok operator right =>
    simp only [evalExpression] at hres
    cases hr : ev (Node.Expression right) env h with
    | panic => simp [hr] at hres
    | outOfFuel => simp [hr] at hres
    | ok p =>
      obtain ⟨r, h'⟩ := p
      have hf : Heap.frame none h h' := hev _ _ _ _ _ hr
      simp only [hr] at hres
      by_cases he : isError r = true
      · simp only [he, if_true, Res.ok.injEq, Prod.mk.injEq] at hres
        rw [← hres.2]; exact hf
      · simp only [he, Bool.false_eq_true, if_false] at hres
        cases hp : evalPrefixExpression operator r with
        | panic => simp [hp] at hres
        | outOfFuel => simp [hp] at hres
        | ok w =>
          simp only [hp, Res.ok.injEq, Prod.mk.injEq] at hres
          rw [← hres.2]; exact hf
  | InfixExpression tok left operator right =>
    simp only [evalExpression] at hres
    cases hl : ev (Node.Expression left) env h with
    | panic => simp [hl] at hres
    | outOfFuel => simp [hl] at hres
    | ok p =>
      obtain ⟨l, h'⟩ := p
      have hf : Heap.frame none h h' := hev _ _ _ _ _ hl
      simp only [hl] at hres
      by_cases he : isError l = true
      · simp only [he, if_true, Res.ok.injEq, Prod.mk.injEq] at hres
        rw [← hres.2]; exact hf
      · simp only [he, Bool.false_eq_true, if_false] at hres
        cases hr : ev (Node.Expression right) env h' with
        | panic => simp [hr] at hres
        | outOfFuel => simp [hr] at hres
        | ok q =>
          obtain ⟨r, h''⟩ := q
          have hf2 : Heap.frame none h' h'' := hev _ _ _ _ _ hr
          simp only [hr] at hres
          by_cases her : isError r = true
          · simp only [her, if_true, Res.ok.injEq, Prod.mk.injEq] at hres
            rw [← hres.2]; exact Heap.frame_trans _ _ _ _ hf hf2
          · simp only [her, Bool.false_eq_true, if_false] at hres
            cases hp : evalInfixExpression operator l r with
            | panic => simp [hp] at hres
            | outOfFuel => simp [hp] at hres
            | ok w =>
              simp only [hp, Res.ok.injEq, Prod.mk.injEq] at hres
              rw [← hres.2]; exact Heap.frame_trans _ _ _ _ hf hf2
  | CallExpression tok function arguments =>
    simp only [evalExpression] at hres
    cases hfn : ev (Node.Expression function) env h with
    | panic => simp [hfn] at hres
    | outOfFuel => simp [hfn] at hres
    | ok p =>
      obtain ⟨fn, h'⟩ := p
      have hf : Heap.frame none h h' := hev _ _ _ _ _ hfn
      simp only [hfn] at hres
      by_cases he : isError fn = true
      · simp only [he, if_true, Res.ok.injEq, Prod.mk.injEq] at hres
        rw [← hres.2]; exact hf
      · simp only [he, Bool.false_eq_true, if_false] at hres
        cases ha : evalExpressions ev arguments env h' with
        | panic => simp [ha] at hres
        | outOfFuel => simp [ha] at hres
        | ok q =>
          obtain ⟨args, h''⟩ := q
          have hf2 : Heap.frame none h' h'' := evalExpressionsLoop_frame ev env hev _ _ _ _ _ ha
          have hf3 := Heap.frame_trans _ _ _ _ hf hf2
          simp only [ha] at hres
          have happ : ∀ r, applyFunction ev fn args h'' = Res.ok (v, r) → r = h1 →
              Heap.frame none h h1 := fun r hr e =>
            e ▸ Heap.frame_trans _ _ _ _ hf3 (applyFunction_frame ev hev _ _ _ _ _ hr)
          split at hres
          · split at hres
            · simp only [Res.ok.injEq, Prod.mk.injEq] at hres
              rw [← hres.2]; exact hf3
            · exact happ _ hres rfl
          · exact happ _ hres rfl

/-- The evaluation of an expression leaves every environment that existed before it
unchanged; the evaluation of a program, a statement or a block in `env` leaves every
environment but `env` unchanged. -/
theorem Eval_frame :
    ∀ (fuel : Nat) (node : Node) (env : Nat) (h : Heap) (v : Object) (h1 : Heap),
      Eval fuel node env h = Res.ok (v, h1) → Heap.frame (node.bindsIn env) h h1 := by
  intro fuel
  induction fuel with
  | zero => intro node env h v h1 hres; simp [Eval] at hres
  | succ fuel ih =>
    intro node env h v h1 hres
    cases node with
    | Program program => exact evalProgramLoop_frame _ _ ih _ _ _ _ _ hres
    | Statement stmt => exact evalStatement_frame _ ih _ _ _ _ _ hres
    | BlockStatement block => exact evalBlockStatementLoop_frame _ _ ih _ _ _ _ _ hres
    | Expression exp => exact evalExpression_frame _ ih _ _ _ _ _ hres

/-! ## Let statements -/

/-- C15. A let statement in an environment `env`, whose value expression evaluates to
`val`: when `val` is an Error the statement evaluates to `val` and the environment `env` is
as it was before the statement; otherwise the statement evaluates to Null and the
environment `env` is the one from before the statement with the binding of the name to
`val` put in front, so that the name looks up to `val`. -/
theorem let_statement_binds_or_propagates (fuel : Nat) (tok : Token) (name : Identifier)
    (value : Expression) (env : Nat) (h h1 : Heap) (val : Object) (e : Environment)
    (henv : h.envs[env]? = some e)
    (hval : Eval fuel (Node.Expression value) env h = Res.ok (val, h1)) :
    (isError val = true →
      Eval (fuel + 1) (Node.Statement (Statement.LetStatement tok name value)) env h
        = Res.ok (val, h1) ∧ h1.envs[env]? = some e) ∧
    (isError val = false →
      ∃ h2, Eval (fuel + 1) (Node.Statement (Statement.LetStatement tok name value)) env h
          = Res.ok (Object.Null, h2) ∧
        h2.envs[env]? = some ⟨(name.Value, val) :: e.store, e.outer⟩ ∧
        h2.Get env name.Value = some val) := by
  have hlt : env < h.envs.length := by
    rcases Nat.lt_or_ge env h.envs.length with hl | hl
    · exact hl
    · rw [List.getElem?_eq_none hl] at henv
      cases henv
  have hf : Heap.frame none h h1 := Eval_frame fuel _ env h val h1 hval
  have he1 : h1.envs[env]? = some e := (hf.2 env hlt (by simp)).trans henv
  have hlt1 : env < h1.envs.length := Nat.lt_of_lt_of_le hlt hf.1
  constructor
  · intro herr
    refine ⟨?_, he1⟩
    simp [Eval, EvalStep, evalStatement, hval, herr]
  · intro herr
    have hset : (h1.Set env name.Value val).envs[env]?
        = some ⟨(name.Value, val) :: e.store, e.outer⟩ := by
      rw [Heap.Set_of_get h1 env _ _ e he1]
      exact List.getElem?_set_self hlt1
    refine ⟨h1.Set env name.Value val, ?_, hset, ?_⟩
    · simp [Eval, EvalStep, evalStatement, hval, herr, NULL]
    · apply Heap.Get_of_store _ env _ _ _ hset
      simp [storeLookup]

set_option maxRecDepth 100000 in
/-- Witness of C15: in the fresh root environment `let x = 5;` evaluates to Null and binds
`x` to Integer(5), and `let x = y;` evaluates to the Error "identifier not found: y" and
leaves the environment empty. -/
theorem let_statement_binds_or_propagates_witness :
    (∃ h2, Eval 2 (Node.Statement (Statement.LetStatement Token.zero ⟨Token.zero, str "x"⟩
          (Expression.IntegerLiteral Token.zero 5))) 0 (NewEnvironment Heap.empty).2
        = Res.ok (Object.Null, h2) ∧
      h2.envs[0]? = some ⟨[(str "x", Object.Integer 5)], none⟩ ∧
      h2.Get 0 (str "x") = some (Object.Integer 5)) ∧
    (Eval 2 (Node.Statement (Statement.LetStatement Token.zero ⟨Token.zero, str "x"⟩
          (Expression.Identifier Token.zero (str "y")))) 0 (NewEnvironment Heap.empty).2
        = Res.ok (Object.Error (str "identifier not found: y"), (NewEnvironment Heap.empty).2) ∧
      (NewEnvironment Heap.empty).2.envs[0]? = some ⟨[], none⟩) ∧
    (∃ h, run 10 (str "let x = 5;") = some (Res.ok (Object.Null, h))) ∧
    ∃ h, run 10 (str "let x = y;")
      = some (Res.ok (Object.Error (str "identifier not found: y"), h)) :=
  ⟨(let_statement_binds_or_propagates 1 Token.zero ⟨Token.zero, str "x"⟩
      (Expression.IntegerLiteral Token.zero 5) 0 (NewEnvironment Heap.empty).2
      (NewEnvironment Heap.empty).2 (Object.Integer 5) ⟨[], none⟩ rfl rfl).2 rfl,
   (let_statement_binds_or_propagates 1 Token.zero ⟨Token.zero, str "x"⟩
      (Expression.Identifier Token.zero (str "y")) 0 (NewEnvironment Heap.empty).2
      (NewEnvironment Heap.empty).2 (Object.Error (str "identifier not found: y")) ⟨[], none⟩
      rfl rfl).1 rfl,
   ⟨_, rfl⟩, ⟨_, rfl⟩⟩

/-! ## Absent operands and empty bodies -/

set_option maxRecDepth 100000 in
/-- C16. A return statement with no operand does not evaluate to ReturnValue(Null): its
absent operand is the nil expression, which `Eval` answers with the Error
"unknown node type: <nil>", and the statement evaluates to that Error. The source
`return;` parses with no errors to that statement and evaluates to the Error, and so does
`func f() { return; } f();`. -/
theorem return_without_operand_is_an_error :
    (∀ (fuel : Nat) (tok : Token) (env : Nat) (h : Heap),
      Eval (fuel + 2) (Node.Statement (Statement.ReturnStatement tok Expression.nil)) env h
        = Res.ok (Object.Error (str "unknown node type: <nil>"), h)) ∧
    (∃ p, ParseProgram (NewParser (New (str "return;")))
        = some (⟨[Statement.ReturnStatement ⟨.RETURN, str "return", 1, 1⟩ Expression.nil]⟩, p) ∧
      p.errors = []) ∧
    (∃ h, run 10 (str "return;")
      = some (Res.ok (Object.Error (str "unknown node type: <nil>"), h))) ∧
    ∃ h, run 10 (str "func f() \x7b return; \x7d f();")
      = some (Res.ok (Object.Error (str "unknown node type: <nil>"), h)) :=
  ⟨fun _ _ _ _ => rfl, ⟨_, rfl, rfl⟩, ⟨_, rfl⟩, ⟨_, rfl⟩⟩

set_option maxRecDepth 100000 in
/-- C17. `Eval` of a program with no statements returns the nil object; the empty source
text parses with no errors to that program, so its evaluation is nil; the call of a
function with an empty body evaluates to nil as well, and an operator applied to such a
call faults. -/
theorem eval_of_empty_program_is_nil :
    (∀ (fuel : Nat) (env : Nat) (h : Heap),
      Eval (fuel + 1) (Node.Program ⟨[]⟩) env h = Res.ok (Object.nil, h)) ∧
    (∃ p, ParseProgram (NewParser (New [])) = some (⟨[]⟩, p) ∧ p.errors = []) ∧
    run 10 [] = some (Res.ok (Object.nil, (NewEnvironment Heap.empty).2)) ∧
    (∃ h, run 10 (str "func f() \x7b\x7d f();") = some (Res.ok (Object.nil, h))) ∧
    run 10 (str "func f() \x7b\x7d f() + 1;") = some Res.panic :=
  ⟨fun _ _ _ => rfl, ⟨_, rfl, rfl⟩, rfl, ⟨_, rfl⟩, rfl⟩

/-! ## ReturnValue stays inside the evaluator -/

theorem storeLookup_mem (name : GoString) :
    ∀ (store : List (GoString × Object)) (v : Object),
      storeLookup name store = some v → (name, v) ∈ store := by
  intro store
  induction store with
  | nil => intro v hv; simp [storeLookup] at hv
  | cons kv rest ih =>
    intro v hv
    obtain ⟨k, w⟩ := kv
    simp only [storeLookup] at hv
    by_cases hk : k = name
    · simp only [hk, if_true, Option.some.injEq] at hv
      rw [hk, hv]
      exact List.mem_cons_self _ _
    · simp only [hk, if_false] at hv
      exact List.mem_cons_of_mem _ (ih v hv)

theorem Heap.GetLoop_mem (h : Heap) (name : GoString) :
    ∀ (fuel env : Nat) (v : Object), h.GetLoop name fuel env = some v →
      ∃ e ∈ h.envs, (name, v) ∈ e.store := by
  intro fuel
  induction fuel with
  | zero => intro env v hv; simp [Heap.GetLoop] at hv
  | succ f ih =>
    intro env v hv
    simp only [Heap.GetLoop] at hv
    cases he : h.envs[env]? with
    | none => simp [he] at hv
    | some e =>
      simp only [he] at hv
      cases hs : storeLookup name e.store with
      | some w =>
        simp only [hs, Option.some.injEq] at hv
        subst hv
        exact ⟨e, List.getElem?_mem he, storeLookup_mem name _ _ hs⟩
      | none =>
        simp only [hs] at hv
        cases ho : e.outer with
        | none => simp [ho] at hv
        | some o =>
          simp only [ho] at hv
          exact ih o v hv

theorem Heap.noReturnValue_Get (h : Heap) (hn : h.noReturnValue) (env : Nat) (name : GoString)
    (v : Object) (hv : h.Get env name = some v) : v.isReturnValue = false := by
  obtain ⟨e, he, hm⟩ := Heap.GetLoop_mem h name _ _ _ hv
  exact hn e he _ hm

theorem Heap.noReturnValue_Set (h : Heap) (hn : h.noReturnValue) (env : Nat) (name : GoString)
    (val : Object) (hval : val.isReturnValue = false) : (h.Set env name val).noReturnValue := by
  unfold Heap.Set
  cases he : h.envs[env]? with
  | none => exact hn
  | some e =>
    intro e' he' kv hkv
    rcases List.mem_or_eq_of_mem_set he' with hm | rfl
    · exact hn e' hm kv hkv
    · rcases List.mem_cons.mp hkv with rfl | hkv
      · exact hval
      · exact hn e (List.getElem?_mem he) kv hkv

theorem parameterBindings_noReturnValue (args : List Object)
    (hargs : ∀ a ∈ args, a.isReturnValue = false) :
    ∀ (ps : List Identifier) (idx : Nat), ∀ kv ∈ parameterBindings args idx ps,
      kv.2.isReturnValue = false := by
  intro ps
  induction ps with
  | nil => intro idx kv hkv; simp [parameterBindings] at hkv
  | cons p ps ih =>
    intro idx kv hkv
    simp only [parameterBindings, List.mem_cons] at hkv
    rcases hkv with rfl | hkv
    · simp only [argumentFor]
      by_cases hi : idx ≥ args.length
      · simp [hi, NULL, Object.isReturnValue]
      · simp only [hi, if_false]
        have hlt : idx < args.length := by omega
        rw [List.getD_eq_getElem _ _ hlt]
        exact hargs _ (List.getElem_mem _)
    · exact ih (idx + 1) kv hkv

theorem Heap.noReturnValue_extendFunctionEnv (parameters : List Identifier) (fnEnv : Nat)
    (args : List Object) (h : Heap) (hn : h.noReturnValue)
    (hargs : ∀ a ∈ args, a.isReturnValue = false) :
    (extendFunctionEnv parameters fnEnv args h).2.noReturnValue := by
  rw [extendFunctionEnv_eq]
  intro e he kv hkv
  rcases List.mem_append.mp he with hm | hm
  · exact hn e hm kv hkv
  · rw [List.mem_singleton.mp hm] at hkv
    exact parameterBindings_noReturnValue args hargs parameters 0 kv (List.mem_reverse.mp hkv)

theorem noReturnValue_ite {c : Prop} [Decidable c] (a b : Res Object)
    (ha : ∀ v, a = Res.ok v → v.isReturnValue = false)
    (hb : ∀ v, b = Res.ok v → v.isReturnValue = false) :
    ∀ v, (if c then a else b) = Res.ok v → v.isReturnValue = false := by
  split
  · exact ha
  · exact hb

theorem noReturnValue_ok (w : Object) (hw : w.isReturnValue = false) :
    ∀ v, Res.ok w = Res.ok v → v.isReturnValue = false := by
  intro v hv
  cases hv
  exact hw

theorem noReturnValue_panic : ∀ v, (Res.panic : Res Object) = Res.ok v →
    v.isReturnValue = false := by
  intro v hv
  cases hv

theorem noReturnValue_bool (b : Bool) : (nativeBoolToPyBoolean b).isReturnValue = false := by
  cases b <;> rfl

theorem evalPrefixExpression_noReturnValue (operator : GoString) (right : Object) :
    ∀ v, evalPrefixExpression operator right = Res.ok v → v.isReturnValue = false := by
  unfold evalPrefixExpression
  apply noReturnValue_ite
  · apply noReturnValue_ok
    cases right <;> try rfl
    rename_i b; cases b <;> rfl
  · apply noReturnValue_ite
    · cases right <;> first | exact noReturnValue_panic | exact noReturnValue_ok _ rfl
    · cases right <;> first | exact noReturnValue_panic | exact noReturnValue_ok _ rfl

theorem evalIntegerInfixExpression_noReturnValue (operator : GoString) (left right : Object) :
    ∀ v, evalIntegerInfixExpression operator left right = Res.ok v →
      v.isReturnValue = false := by
  cases left <;> cases right <;> try exact noReturnValue_panic
  rename_i a b
  unfold evalIntegerInfixExpression
  repeat' apply noReturnValue_ite
  all_goals first
    | exact noReturnValue_ok _ rfl
    | exact noReturnValue_ok _ (noReturnValue_bool _)
    | (unfold goDiv; split <;> first | exact noReturnValue_panic | exact noReturnValue_ok _ rfl)

theorem evalStringInfixExpression_noReturnValue (operator : GoString) (left right : Object) :
    ∀ v, evalStringInfixExpression operator left right = Res.ok v →
      v.isReturnValue = false := by
  cases left <;> cases right <;> try exact noReturnValue_panic
  rename_i a b
  unfold evalStringInfixExpression
  repeat' apply noReturnValue_ite
  all_goals first
    | exact noReturnValue_ok _ rfl
    | exact noReturnValue_ok _ (noReturnValue_bool _)

theorem evalInfixExpression_noReturnValue (operator : GoString) (left right : Object) :
    ∀ v, evalInfixExpression operator left right = Res.ok v → v.isReturnValue = false := by
  have htail : ∀ lt : GoString, ∀ v,
      (if operator = str "==" then Res.ok (nativeBoolToPyBoolean (identical left right))
        else if operator = str "!=" then
          Res.ok (nativeBoolToPyBoolean (!identical left right))
        else if operator = str "&&" then Res.ok (evalLogicalAndExpression left right)
        else if operator = str "||" then Res.ok (evalLogicalOrExpression left right)
        else
          match right.Type with
          | none => Res.panic
          | some rt =>
            if lt ≠ rt then
              Res.ok (newError
                (str "type mismatch: " ++ lt ++ str " " ++ operator ++ str " " ++ rt))
            else
              Res.ok (newError
                (str "unknown operator: " ++ lt ++ str " " ++ operator ++ str " " ++ rt)))
        = Res.ok v → v.isReturnValue = false := by
    intro lt
    repeat' apply noReturnValue_ite
    · exact noReturnValue_ok _ (noReturnValue_bool _)
    · exact noReturnValue_ok _ (noReturnValue_bool _)
    · apply noReturnValue_ok
      unfold evalLogicalAndExpression
      split
      · rfl
      · exact noReturnValue_bool _
    · apply noReturnValue_ok
      unfold evalLogicalOrExpression
      split
      · rfl
      · exact noReturnValue_bool _
    · cases right.Type with
      | none => exact noReturnValue_panic
      | some rt =>
        apply noReturnValue_ite
        · exact noReturnValue_ok _ rfl
        · exact noReturnValue_ok _ rfl
  unfold evalInfixExpression
  cases left.Type with
  | none => exact noReturnValue_panic
  | some lt =>
    dsimp only
    cases bothOfType INTEGER_OBJ lt right with
    | panic => exact noReturnValue_panic
    | outOfFuel => intro v hv; cases hv
    | ok b =>
      cases b with
      | true => exact evalIntegerInfixExpression_noReturnValue _ _ _
      | false =>
        dsimp only
        cases bothOfType STRING_OBJ lt right with
        | panic => exact noReturnValue_panic
        | outOfFuel => intro v hv; cases hv
        | ok b =>
          cases b with
          | true => exact evalStringInfixExpression_noReturnValue _ _ _
          | false => exact htail lt

theorem evalProgramLoop_noReturnValue (ev : EvalFn) (env : Nat)
    (hev : ∀ node env h v h1, h.noReturnValue → ev node env h = Res.ok (v, h1) →
      h1.noReturnValue ∧ node.yields v = true) :
    ∀ (stmts : List Statement) (r : Object) (h : Heap) (v : Object) (h1 : Heap),
      h.noReturnValue → r.isReturnValue = false →
      evalProgramLoop ev env stmts r h = Res.ok (v, h1) →
      h1.noReturnValue ∧ v.isReturnValue = false := by
  intro stmts
  induction stmts with
  | nil =>
    intro r h v h1 hn hr hres
    simp only [evalProgramLoop, Res.ok.injEq, Prod.mk.injEq] at hres
    rw [← hres.1, ← hres.2]
    exact ⟨hn, hr⟩
  | cons s rest ih =>
    intro r h v h1 hn hr hres
    simp only [evalProgramLoop] at hres
    cases hs : ev (Node.Statement s) env h with
    | panic => simp [hs] at hres
    | outOfFuel => simp [hs] at hres
    | ok p =>
      obtain ⟨res, h'⟩ := p
      obtain ⟨hn', hy⟩ := hev _ _ _ _ _ hn hs
      simp only [Node.yields, Bool.not_eq_true'] at hy
      simp only [hs] at hres
      cases res with
      | ReturnValue value =>
        simp only [Res.ok.injEq, Prod.mk.injEq] at hres
        rw [← hres.1, ← hres.2]
        exact ⟨hn', hy⟩
      | Error message =>
        simp only [Res.ok.injEq, Prod.mk.injEq] at hres
        rw [← hres.1, ← hres.2]
        exact ⟨hn', rfl⟩
      | nil => refine ih _ _ _ _ hn' ?_ hres; rfl
      | Integer _ => refine ih _ _ _ _ hn' ?_ hres; rfl
      | Boolean _ => refine ih _ _ _ _ hn' ?_ hres; rfl
      | String _ => refine ih _ _ _ _ hn' ?_ hres; rfl
      | Null => refine ih _ _ _ _ hn' ?_ hres; rfl
      | Function _ _ _ _ => refine ih _ _ _ _ hn' ?_ hres; rfl

theorem evalBlockStatementLoop_noReturnValue (ev : EvalFn) (env : Nat)
    (hev : ∀ node env h v h1, h.noReturnValue → ev node env h = Res.ok (v, h1) →
      h1.noReturnValue ∧ node.yields v = true) :
    ∀ (stmts : List Statement) (r : Object) (h : Heap) (v : Object) (h1 : Heap),
      h.noReturnValue → (unwrapReturnValue r).isReturnValue = false →
      evalBlockStatementLoop ev env stmts r h = Res.ok (v, h1) →
      h1.noReturnValue ∧ (unwrapReturnValue v).isReturnValue = false := by
  intro stmts
  induction stmts with
  | nil =>
    intro r h v h1 hn hr hres
    simp only [evalBlockStatementLoop, Res.ok.injEq, Prod.mk.injEq] at hres
    rw [← hres.1, ← hres.2]
    exact ⟨hn, hr⟩
  | cons s rest ih =>
    intro r h v h1 hn hr hres
    simp only [evalBlockStatementLoop] at hres
    cases hs : ev (Node.Statement s) env h with
    | panic => simp [hs] at hres
    | outOfFuel => simp [hs] at hres
    | ok p =>
      obtain ⟨res, h'⟩ := p
      obtain ⟨hn', hy⟩ := hev _ _ _ _ _ hn hs
      simp only [Node.yields, Bool.not_eq_true'] at hy
      simp only [hs] at hres
      cases res with
      | ReturnValue value =>
        simp only [Res.ok.injEq, Prod.mk.injEq] at hres
        rw [← hres.1, ← hres.2]
        exact ⟨hn', hy⟩
      | Error message =>
        simp only [Res.ok.injEq, Prod.mk.injEq] at hres
        rw [← hres.1, ← hres.2]
        exact ⟨hn', rfl⟩
      | nil => refine ih _ _ _ _ hn' ?_ hres; rfl
      | Integer _ => refine ih _ _ _ _ hn' ?_ hres; rfl
      | Boolean _ => refine ih _ _ _ _ hn' ?_ hres; rfl
      | String _ => refine ih _ _ _ _ hn' ?_ hres; rfl
      | Null => refine ih _ _ _ _ hn' ?_ hres; rfl
      | Function _ _ _ _ => refine ih _ _ _ _ hn' ?_ hres; rfl

theorem evalExpressionsLoop_noReturnValue (ev : EvalFn) (env : Nat)
    (hev : ∀ node env h v h1, h.noReturnValue → ev node env h = Res.ok (v, h1) →
      h1.noReturnValue ∧ node.yields v = true) :
    ∀ (exps : List Expression) (acc : List Object) (h : Heap) (vs : List Object) (h1 : Heap),
      h.noReturnValue → (∀ a ∈ acc, a.isReturnValue = false) →
      evalExpressionsLoop ev env exps acc h = Res.ok (vs, h1) →
      h1.noReturnValue ∧ ∀ a ∈ vs, a.isReturnValue = false := by
  intro exps
  induction exps with
  | nil =>
    intro acc h vs h1 hn hacc hres
    simp only [evalExpressionsLoop, Res.ok.injEq, Prod.mk.injEq] at hres
    rw [← hres.1, ← hres.2]
    exact ⟨hn, hacc⟩
  | cons e rest ih =>
    intro acc h vs h1 hn hacc hres
    simp only [evalExpressionsLoop] at hres
    cases hs : ev (Node.Expression e) env h with
    | panic => simp [hs] at hres
    | outOfFuel => simp [hs] at hres
    | ok p =>
      obtain ⟨res, h'⟩ := p
      obtain ⟨hn', hy⟩ := hev _ _ _ _ _ hn hs
      simp only [Node.yields, Bool.not_eq_true'] at hy
      simp only [hs] at hres
      by_cases he : isError res = true
      · simp only [he, if_true, Res.ok.injEq, Prod.mk.injEq] at hres
        rw [← hres.1, ← hres.2]
        refine ⟨hn', fun a ha => ?_⟩
        rw [List.mem_singleton.mp ha]
        exact hy
      · simp only [he, Bool.false_eq_true, if_false] at hres
        refine ih _ _ _ _ hn' (fun a ha => ?_) hres
        rcases List.mem_append.mp ha with hm | hm
        · exact hacc a hm
        · rw [List.mem_singleton.mp hm]
          exact hy

theorem applyFunction_noReturnValue (ev : EvalFn)
    (hev : ∀ node env h v h1, h.noReturnValue → ev node env h = Res.ok (v, h1) →
      h1.noReturnValue ∧ node.yields v = true)
    (fn : Object) (args : List Object) (h : Heap) (v : Object) (h1 : Heap)
    (hn : h.noReturnValue) (hargs : ∀ a ∈ args, a.isReturnValue = false)
    (hres : applyFunction ev fn args h = Res.ok (v, h1)) :
    h1.noReturnValue ∧ v.isReturnValue = false := by
  cases fn with
  | Function addr parameters body fnEnv =>
    simp only [applyFunction] at hres
    cases hb : ev (Node.BlockStatement body) (extendFunctionEnv parameters fnEnv args h).1
        (extendFunctionEnv parameters fnEnv args h).2 with
    | panic => simp [hb] at hres
    | outOfFuel => simp [hb] at hres
    | ok p =>
      obtain ⟨res, h'⟩ := p
      simp only [hb, Res.ok.injEq, Prod.mk.injEq] at hres
      obtain ⟨hn', hy⟩ := hev _ _ _ _ _
        (Heap.noReturnValue_extendFunctionEnv parameters fnEnv args h hn hargs) hb
      simp only [Node.yields, Bool.not_eq_true'] at hy
      rw [← hres.1, ← hres.2]
      exact ⟨hn', hy⟩
  | nil | Integer _ | Boolean _ | String _ | Null | ReturnValue _ | Error _ =>
    simp only [applyFunction, Res.ok.injEq, Prod.mk.injEq] at hres
    rw [← hres.1, ← hres.2]
    exact ⟨hn, rfl⟩

theorem evalStatement_noReturnValue (ev : EvalFn)
    (hev : ∀ node env h v h1, h.noReturnValue → ev node env h = Res.ok (v, h1) →
      h1.noReturnValue ∧ node.yields v = true)
    (stmt : Statement) (env : Nat) (h : Heap) (v : Object) (h1 : Heap) (hn : h.noReturnValue)
    (hres : evalStatement ev stmt env h = Res.ok (v, h1)) :
    h1.noReturnValue ∧ (unwrapReturnValue v).isReturnValue = false := by
  cases stmt with
  | ExpressionStatement tok expression =>
    obtain ⟨hn', hy⟩ := hev _ _ _ _ _ hn hres
    simp only [Node.yields, Bool.not_eq_true'] at hy
    refine ⟨hn', ?_⟩
    cases v <;> first | rfl | cases hy
  | LetStatement tok name value =>
    simp only [evalStatement] at hres
    cases hv : ev (Node.Expression value) env h with
    | panic => simp [hv] at hres
    | outOfFuel => simp [hv] at hres
    | ok p =>
      obtain ⟨val, h'⟩ := p
      obtain ⟨hn', hy⟩ := hev _ _ _ _ _ hn hv
      simp only [Node.yields, Bool.not_eq_true'] at hy
      simp only [hv] at hres
      by_cases he : isError val = true
      · simp only [he, if_true, Res.ok.injEq, Prod.mk.injEq] at hres
        rw [← hres.1, ← hres.2]
        refine ⟨hn', ?_⟩
        cases val <;> first | rfl | cases he
      · simp only [he, Bool.false_eq_true, if_false, Res.ok.injEq, Prod.mk.injEq] at hres
        rw [← hres.1, ← hres.2]
        exact ⟨Heap.noReturnValue_Set _ hn' _ _ _ hy, rfl⟩
  | ReturnStatement tok returnValue =>
    simp only [evalStatement] at hres
    cases hv : ev (Node.Expression returnValue) env h with
    | panic => simp [hv] at hres
    | outOfFuel => simp [hv] at hres
    | ok p =>
      obtain ⟨val, h'⟩ := p
      obtain ⟨hn', hy⟩ := hev _ _ _ _ _ hn hv
      simp only [Node.yields, Bool.not_eq_true'] at hy
      simp only [hv] at hres
      by_cases he : isError val = true
      · simp only [he, if_true, Res.ok.injEq, Prod.mk.injEq] at hres
        rw [← hres.1, ← hres.2]
        refine ⟨hn', ?_⟩
        cases val <;> first | rfl | cases he
      · simp only [he, Bool.false_eq_true, if_false, Res.ok.injEq, Prod.mk.injEq] at hres
        rw [← hres.1, ← hres.2]
        exact ⟨hn', hy⟩
  | FunctionStatement tok name parameters body =>
    simp only [evalStatement, Res.ok.injEq, Prod.mk.injEq] at hres
    rw [← hres.1, ← hres.2]
    exact ⟨Heap.noReturnValue_Set ⟨h.envs, h.nextAddr + 1⟩ hn _ _ _ rfl, rfl⟩
  | IfStatement tok condition consequence alternative =>
    simp only [evalStatement, evalIfExpression] at hres
    cases hc : ev (Node.Expression condition) env h with
    | panic => simp [hc] at hres
    | outOfFuel => simp [hc] at hres
    | ok p =>
      obtain ⟨c, h'⟩ := p
      obtain ⟨hn', hy⟩ := hev _ _ _ _ _ hn hc
      simp only [hc] at hres
      by_cases he : isError c = true
      · simp only [he, if_true, Res.ok.injEq, Prod.mk.injEq] at hres
        rw [← hres.1, ← hres.2]
        refine ⟨hn', ?_⟩
        cases c <;> first | rfl | cases he
      · simp only [he, Bool.false_eq_true, if_false] at hres
        by_cases ht : isTruthy c = true
        · simp only [ht, if_true] at hres
          obtain ⟨hn2, hy2⟩ := hev _ _ _ _ _ hn' hres
          simp only [Node.yields, Bool.not_eq_true'] at hy2
          exact ⟨hn2, hy2⟩
        · simp only [ht, Bool.false_eq_true, if_false] at hres
          cases alternative with
          | none =>
            simp only [Res.ok.injEq, Prod.mk.injEq] at hres
            rw [← hres.1, ← hres.2]
            exact ⟨hn', rfl⟩
          | some alt =>
            obtain ⟨hn2, hy2⟩ := hev _ _ _ _ _ hn' hres
            simp only [Node.yields, Bool.not_eq_true'] at hy2
            exact ⟨hn2, hy2⟩
  | nilLetStatement => simp [evalStatement] at hres
  | nilFunctionStatement => simp [evalStatement] at hres
  | nilIfStatement => simp [evalStatement] at hres

theorem evalExpression_noReturnValue (ev : EvalFn)
    (hev : ∀ node env h v h1, h.noReturnValue → ev node env h = Res.ok (v, h1) →
      h1.noReturnValue ∧ node.yields v = true)
    (exp : Expression) (env : Nat) (h : Heap) (v : Object) (h1 : Heap) (hn : h.noReturnValue)
    (hres : evalExpression ev exp env h = Res.ok (v, h1)) :
    h1.noReturnValue ∧ v.isReturnValue = false := by
  cases exp with
  | nil =>
    simp only [evalExpression, Res.ok.injEq, Prod.mk.injEq] at hres
    rw [← hres.1, ← hres.2]; exact ⟨hn, rfl⟩
  | Identifier tok value =>
    simp only [evalExpression, Res.ok.injEq, Prod.mk.injEq] at hres
    rw [← hres.1, ← hres.2]
    refine ⟨hn, ?_⟩
    unfold evalIdentifier
    cases hg : h.Get env value with
    | none => rfl
    | some w => exact Heap.noReturnValue_Get h hn env value w hg
  | IntegerLiteral tok value =>
    simp only [evalExpression, Res.ok.injEq, Prod.mk.injEq] at hres
    rw [← hres.1, ← hres.2]; exact ⟨hn, rfl⟩
  | StringLiteral tok value =>
    simp only [evalExpression, Res.ok.injEq, Prod.mk.injEq] at hres
    rw [← hres.1, ← hres.2]; exact ⟨hn, rfl⟩
  | BooleanLiteral tok value =>
    simp only [evalExpression, Res.ok.injEq, Prod.mk.injEq] at hres
    rw [← hres.1, ← hres.2]; exact ⟨hn, noReturnValue_bool _⟩
  | PrefixExpression tok operator right =>
    simp only [evalExpression] at hres
    cases hr : ev (Node.Expression right) env h with
    | panic => simp [hr] at hres
    | outOfFuel => simp [hr] at hres
    | ok p =>
      obtain ⟨r, h'⟩ := p
      obtain ⟨hn', hy⟩ := hev _ _ _ _ _ hn hr
      simp only [Node.yields, Bool.not_eq_true'] at hy
      simp only [hr] at hres
      by_cases he : isError r = true
      · simp only [he, if_true, Res.ok.injEq, Prod.mk.injEq] at hres
        rw [← hres.1, ← hres.2]; exact ⟨hn', hy⟩
      · simp only [he, Bool.false_eq_true, if_false] at hres
        cases hp : evalPrefixExpression operator r with
        | panic => simp [hp] at hres
        | outOfFuel => simp [hp] at hres
        | ok w =>
          simp only [hp, Res.ok.injEq, Prod.mk.injEq] at hres
          rw [← hres.1, ← hres.2]
          exact ⟨hn', evalPrefixExpression_noReturnValue _ _ _ hp⟩
  | InfixExpression tok left operator right =>
    simp only [evalExpression] at hres
    cases hl : ev (Node.Expression left) env h with
    | panic => simp [hl] at hres
    | outOfFuel => simp [hl] at hres
    | ok p =>
      obtain ⟨l, h'⟩ := p
      obtain ⟨hn', hy⟩ := hev _ _ _ _ _ hn hl
      simp only [Node.yields, Bool.not_eq_true'] at hy
      simp only [hl] at hres
      by_cases he : isError l = true
      · simp only [he, if_true, Res.ok.injEq, Prod.mk.injEq] at hres
        rw [← hres.1, ← hres.2]; exact ⟨hn', hy⟩
      · simp only [he, Bool.false_eq_true, if_false] at hres
        cases hr : ev (Node.Expression right) env h' with
        | panic => simp [hr] at hres
        | outOfFuel => simp [hr] at hres
        | ok q =>
          obtain ⟨r, h''⟩ := q
          obtain ⟨hn2, hy2⟩ := hev _ _ _ _ _ hn' hr
          simp only [Node.yields, Bool.not_eq_true'] at hy2
          simp only [hr] at hres
          by_cases her : isError r = true
          · simp only [her, if_true, Res.ok.injEq, Prod.mk.injEq] at hres
            rw [← hres.1, ← hres.2]; exact ⟨hn2, hy2⟩
          · simp only [her, Bool.false_eq_true, if_false] at hres
            cases hp : evalInfixExpression operator l r with
            | panic => simp [hp] at hres
            | outOfFuel => simp [hp] at hres
            | ok w =>
              simp only [hp, Res.ok.injEq, Prod.mk.injEq] at hres
              rw [← hres.1, ← hres.2]
              exact ⟨hn2, evalInfixExpression_noReturnValue _ _ _ _ hp⟩
  | CallExpression tok function arguments =>
    simp only [evalExpression] at hres
    cases hfn : ev (Node.Expression function) env h with
    | panic => simp [hfn] at hres
    | outOfFuel => simp [hfn] at hres
    | ok p =>
      obtain ⟨fn, h'⟩ := p
      obtain ⟨hn', hy⟩ := hev _ _ _ _ _ hn hfn
      simp only [Node.yields, Bool.not_eq_true'] at hy
      simp only [hfn] at hres
      by_cases he : isError fn = true
      · simp only [he, if_true, Res.ok.injEq, Prod.mk.injEq] at hres
        rw [← hres.1, ← hres.2]; exact ⟨hn', hy⟩
      · simp only [he, Bool.false_eq_true, if_false] at hres
        cases ha : evalExpressions ev arguments env h' with
        | panic => simp [ha] at hres
        | outOfFuel => simp [ha] at hres
        | ok q =>
          obtain ⟨args, h''⟩ := q
          obtain ⟨hn2, hargs⟩ := evalExpressionsLoop_noReturnValue ev env hev _ _ _ _ _ hn'
            (fun a ha => by cases ha) ha
          simp only [ha] at hres
          split at hres
          · split at hres
            · simp only [Res.ok.injEq, Prod.mk.injEq] at hres
              rw [← hres.1, ← hres.2]
              exact ⟨hn2, hargs _ (List.mem_singleton.mpr rfl)⟩
            · exact applyFunction_noReturnValue ev hev _ _ _ _ _ hn2 hargs hres
          · exact applyFunction_noReturnValue ev hev _ _ _ _ _ hn2 hargs hres

/-- In a heap that binds no name to a ReturnValue, `Eval` of an expression or of a program
yields no ReturnValue, `Eval` of a statement or of a block yields at most one wrapper, and
the heap it leaves binds no name to a ReturnValue either. -/
theorem Eval_noReturnValue :
    ∀ (fuel : Nat) (node : Node) (env : Nat) (h : Heap) (v : Object) (h1 : Heap),
      h.noReturnValue → Eval fuel node env h = Res.ok (v, h1) →
      h1.noReturnValue ∧ node.yields v = true := by
  intro fuel
  induction fuel with
  | zero => intro node env h v h1 _ hres; simp [Eval] at hres
  | succ fuel ih =>
    intro node env h v h1 hn hres
    cases node with
    | Program program =>
      have := evalProgramLoop_noReturnValue _ _ ih _ Object.nil _ _ _ hn rfl hres
      simpa [Node.yields] using this
    | Statement stmt =>
      have := evalStatement_noReturnValue _ ih _ _ _ _ _ hn hres
      simpa [Node.yields] using this
    | BlockStatement block =>
      have := evalBlockStatementLoop_noReturnValue _ _ ih _ Object.nil _ _ _ hn rfl hres
      simpa [Node.yields] using this
    | Expression exp =>
      have := evalExpression_noReturnValue _ ih _ _ _ _ _ hn hres
      simpa [Node.yields] using this

theorem Heap.noReturnValue_fresh : (NewEnvironment Heap.empty).2.noReturnValue := by
  intro e he kv hkv
  simp only [NewEnvironment, Heap.empty, List.nil_append, List.mem_singleton] at he
  subst he
  cases hkv

/-- C18. The result of `Eval` on a program in the fresh root environment is never a
ReturnValue, and so is the result of lexing, parsing and evaluating a source text; in a
heap that binds no name to a ReturnValue (as the fresh one, and every heap an evaluation
leaves behind) no call expression evaluates to a ReturnValue; and a top-level
`return e;` reached with no Error and no ReturnValue before it ends the program with the
object that `e` evaluates to, not wrapped. -/
theorem return_value_is_never_observable :
    (∀ (fuel : Nat) (program : Program) (v : Object) (h : Heap),
      Eval fuel (Node.Program program) (NewEnvironment Heap.empty).1
          (NewEnvironment Heap.empty).2 = Res.ok (v, h) →
      v.isReturnValue = false) ∧
    (∀ (fuel : Nat) (code : GoString) (v : Object) (h : Heap),
      run fuel code = some (Res.ok (v, h)) → v.isReturnValue = false) ∧
    (NewEnvironment Heap.empty).2.noReturnValue ∧
    (∀ (fuel : Nat) (node : Node) (env : Nat) (h : Heap) (v : Object) (h1 : Heap),
      h.noReturnValue → Eval fuel node env h = Res.ok (v, h1) → h1.noReturnValue) ∧
    (∀ (fuel : Nat) (tok : Token) (function : Expression) (arguments : List Expression)
        (env : Nat) (h : Heap) (v : Object) (h1 : Heap),
      h.noReturnValue →
      Eval fuel (Node.Expression (Expression.CallExpression tok function arguments)) env h
        = Res.ok (v, h1) →
      v.isReturnValue = false) ∧
    (∀ (fuel : Nat) (pre post : List Statement) (tok : Token) (e : Expression) (env : Nat)
        (h h1 h2 : Heap) (v : Object),
      passThrough (Eval (fuel + 1)) env pre h = some h1 →
      Eval fuel (Node.Expression e) env h1 = Res.ok (v, h2) →
      Eval (fuel + 2) (Node.Program ⟨pre ++ Statement.ReturnStatement tok e :: post⟩) env h
        = Res.ok (v, h2)) := by
  have hprog : ∀ (fuel : Nat) (program : Program) (v : Object) (h : Heap),
      Eval fuel (Node.Program program) (NewEnvironment Heap.empty).1
          (NewEnvironment Heap.empty).2 = Res.ok (v, h) →
      v.isReturnValue = false := by
    intro fuel program v h hres
    have := (Eval_noReturnValue fuel _ _ _ _ _ Heap.noReturnValue_fresh hres).2
    simpa [Node.yields] using this
  refine ⟨hprog, ?_, Heap.noReturnValue_fresh, ?_, ?_, ?_⟩
  · intro fuel code v h hrun
    unfold run at hrun
    cases hp : ParseProgram (NewParser (New code)) with
    | none => simp [hp] at hrun
    | some pp =>
      obtain ⟨program, p⟩ := pp
      simp only [hp] at hrun
      split at hrun
      · cases hrun
      · exact hprog fuel program v h (Option.some.inj hrun)
  · intro fuel node env h v h1 hn hres
    exact (Eval_noReturnValue fuel _ _ _ _ _ hn hres).1
  · intro fuel tok function arguments env h v h1 hn hres
    have := (Eval_noReturnValue fuel _ _ _ _ _ hn hres).2
    simpa [Node.yields] using this
  · intro fuel pre post tok e env h h1 h2 v hpre hev
    obtain ⟨r1, hr1⟩ := passThrough_evalProgramLoop (Eval (fuel + 1)) env pre
      (Statement.ReturnStatement tok e :: post) h h1 Object.nil hpre
    have hs : Eval (fuel + 1) (Node.Statement (Statement.ReturnStatement tok e)) env h1
        = if isError v then Res.ok (v, h2) else Res.ok (Object.ReturnValue v, h2) := by
      simp only [Eval, EvalStep, evalStatement, hev]
    have e2 : Eval (fuel + 2) = EvalStep (Eval (fuel + 1)) := rfl
    rw [e2]
    simp only [EvalStep, evalProgram, hr1, evalProgramLoop, hs]
    cases v <;> simp [isError]

set_option maxRecDepth 100000 in
/-- Witness of C18: `return 5; 6;` ends with Integer(5), and the result of
`func f() { return 1; } f();`, Integer(1), is no ReturnValue. -/
theorem return_value_is_never_observable_witness :
    (∃ h, run 10 (str "return 5; 6;") = some (Res.ok (Object.Integer 5, h))) ∧
    (∃ h, run 10 (str "func f() \x7b return 1; \x7d f();")
      = some (Res.ok (Object.Integer 1, h))) ∧
    (Object.Integer 1).isReturnValue = false :=
  ⟨⟨_, congrArg some (return_value_is_never_observable.2.2.2.2.2 8 []
      ((statementsOf (str "return 5; 6;")).drop 1) ⟨.RETURN, str "return", 1, 1⟩
      (Expression.IntegerLiteral ⟨.INT, str "5", 1, 8⟩ 5) 0 (NewEnvironment Heap.empty).2
      (NewEnvironment Heap.empty).2 (NewEnvironment Heap.empty).2 (Object.Integer 5) rfl rfl)⟩,
   ⟨_, rfl⟩,
   return_value_is_never_observable.2.1 10 (str "func f() \x7b return 1; \x7d f();")
     (Object.Integer 1) _ rfl⟩

/-! ## The tokens of the block and call examples -/

/-- An opening parenthesis with an integer literal right behind it: the two tokens, and
the lexer goes on from the text behind the literal. -/
theorem take_lparen_digits (ds pre post : GoString) (d line col : Nat)
    (hd : isDigit d = true) (hds : ∀ x ∈ ds, isDigit x = true)
    (hpost : isDigit (post.getD 0 0) = false) (h10 : post.getD 0 0 ≠ 10) :
    Lexer.take 2 ⟨pre ++ 40 :: d :: (ds ++ post), pre.length, pre.length + 1, 40, line, col⟩ =
      ([⟨.LPAREN, [40], line, col⟩, ⟨.INT, d :: ds, line, col + 1⟩],
        Lexer.shift (pre ++ 40 :: d :: ds)
          ⟨post, 0, 1, post.getD 0 0, line, col + ds.length + 2⟩) := by
  have hb : 48 ≤ d ∧ d ≤ 57 := by simpa [isDigit] using hd
  have hin : pre ++ 40 :: d :: (ds ++ post) = (pre ++ [40]) ++ d :: (ds ++ post) := by
    simp only [List.append_assoc, List.singleton_append]
  have hrc : Lexer.readChar
      ⟨pre ++ 40 :: d :: (ds ++ post), pre.length, pre.length + 1, 40, line, col⟩ =
      ⟨(pre ++ [40]) ++ d :: (ds ++ post), (pre ++ [40]).length, (pre ++ [40]).length + 1, d,
        line, col + 1⟩ := by
    rw [readChar_mk _ _ _ _ _ _ d (getD_append_add pre (40 :: d :: (ds ++ post)) 1)
      (by omega), hin]
    simp only [List.length_append, List.length_singleton]
  have h1 : Lexer.take 1
      ⟨pre ++ 40 :: d :: (ds ++ post), pre.length, pre.length + 1, 40, line, col⟩ =
      ([⟨.LPAREN, [40], line, col⟩],
        ⟨(pre ++ [40]) ++ d :: (ds ++ post), (pre ++ [40]).length, (pre ++ [40]).length + 1, d,
          line, col + 1⟩) := by
    apply Lexer.take_one
    rw [NextToken_lparen, hrc]
  have h2 := Lexer.take_one _ _ _
    (NextToken_digits ds (pre ++ [40]) post d line (col + 1) hd hds hpost h10)
  have h3 := Lexer.take_append 1 1 _ _ _ _ _ h1 h2
  rw [h3]
  simp only [Lexer.shift, List.length_append, List.length_cons, List.length_singleton,
    List.append_assoc, List.singleton_append, List.cons_append, Prod.mk.injEq,
    Lexer.mk.injEq, true_and, and_true, List.nil_append, List.length_nil]
  omega

theorem branchSource_eq (n : GoString) :
    branchSource n = branchStart (n ++ str "; \x7d x;") := rfl

theorem callerSource_eq (a b : GoString) :
    callerSource a b = scopingStart (a ++ callerMiddle (b ++ str "); x;")) := rfl

set_option maxRecDepth 100000 in
set_option maxHeartbeats 4000000 in
theorem take_branchStart (rest : GoString) :
    Lexer.take 8 (New (branchStart rest)) =
      ([⟨.IF, str "if", 1, 1⟩,
        ⟨.LPAREN, str "(", 1, 4⟩,
        ⟨.TRUE, str "true", 1, 5⟩,
        ⟨.RPAREN, str ")", 1, 9⟩,
        ⟨.LBRACE, str "\x7b", 1, 11⟩,
        ⟨.LET, str "let", 1, 13⟩,
        ⟨.IDENT, str "x", 1, 17⟩,
        ⟨.ASSIGN, str "=", 1, 19⟩],
        ⟨branchStart rest, 19, 20, 32, 1, 20⟩) := rfl

set_option maxRecDepth 100000 in
set_option maxHeartbeats 4000000 in
theorem take_branchEnd (line c : Nat) :
    Lexer.take 5 ⟨str "; \x7d x;", 0, 1, 59, line, c⟩ =
      ([⟨.SEMICOLON, str ";", line, c⟩,
        ⟨.RBRACE, str "\x7d", line, c + 2⟩,
        ⟨.IDENT, str "x", line, c + 4⟩,
        ⟨.SEMICOLON, str ";", line, c + 5⟩,
        ⟨.EOF, [], line, c + 6⟩],
        ⟨str "; \x7d x;", 7, 8, 0, line, c + 7⟩) := rfl

set_option maxRecDepth 100000 in
set_option maxHeartbeats 4000000 in
theorem take_callerMiddle (rest : GoString) (line c : Nat) :
    Lexer.take 17 ⟨callerMiddle rest, 0, 1, 59, line, c⟩ =
      ([⟨.SEMICOLON, str ";", line, c⟩,
        ⟨.FUNCTION, str "func", line, c + 2⟩,
        ⟨.IDENT, str "f", line, c + 7⟩,
        ⟨.LPAREN, str "(", line, c + 8⟩,
        ⟨.IDENT, str "x", line, c + 9⟩,
        ⟨.RPAREN, str ")", line, c + 10⟩,
        ⟨.LBRACE, str "\x7b", line, c + 12⟩,
        ⟨.LET, str "let", line, c + 14⟩,
        ⟨.IDENT, str "y", line, c + 18⟩,
        ⟨.ASSIGN, str "=", line, c + 20⟩,
        ⟨.INT, str "2", line, c + 22⟩,
        ⟨.SEMICOLON, str ";", line, c + 23⟩,
        ⟨.RETURN, str "return", line, c + 25⟩,
        ⟨.IDENT, str "x", line, c + 32⟩,
        ⟨.SEMICOLON, str ";", line, c + 33⟩,
        ⟨.RBRACE, str "\x7d", line, c + 35⟩,
        ⟨.IDENT, str "f", line, c + 37⟩],
        ⟨callerMiddle rest, 38, 39, 40, line, c + 38⟩) := rfl

set_option maxRecDepth 100000 in
set_option maxHeartbeats 4000000 in
theorem take_callerEnd (line c : Nat) :
    Lexer.take 5 ⟨str "); x;", 0, 1, 41, line, c⟩ =
      ([⟨.RPAREN, str ")", line, c⟩,
        ⟨.SEMICOLON, str ";", line, c + 1⟩,
        ⟨.IDENT, str "x", line, c + 3⟩,
        ⟨.SEMICOLON, str ";", line, c + 4⟩,
        ⟨.EOF, [], line, c + 5⟩],
        ⟨str "); x;", 6, 7, 0, line, c + 6⟩) := rfl


/-- The 14 tokens of `branchSource` for a literal that is a run of digits: their kinds and
their texts. -/
theorem lex_branchSource (d : Nat) (ds : GoString)
    (hd : isDigit d = true) (hds : ∀ x ∈ ds, isDigit x = true) :
    (List.range 14).map (fun k => (Lexer.tokenAt k (New (branchSource (d :: ds)))).Typ) =
      [.IF, .LPAREN, .TRUE, .RPAREN, .LBRACE, .LET, .IDENT, .ASSIGN, .INT, .SEMICOLON,
        .RBRACE, .IDENT, .SEMICOLON, .EOF] ∧
    (List.range 14).map (fun k => (Lexer.tokenAt k (New (branchSource (d :: ds)))).Literal) =
      [str "if", str "(", str "true", str ")", str "\x7b", str "let", str "x", str "=",
        d :: ds, str ";", str "\x7d", str "x", str ";", []] := by
  have h0 := take_branchStart (d :: (ds ++ str "; \x7d x;"))
  have hA := NextToken_space_digits ds ((branchStart []).take 19) (str "; \x7d x;") d 1 20
    hd hds rfl (by decide)
  have hwfE : Lexer.wf ⟨str "; \x7d x;", 0, 1, 59, 1, 20 + ds.length + 2⟩ := ⟨rfl, rfl⟩
  have hB := Lexer.take_shift ((branchStart []).take 19 ++ 32 :: d :: ds) 5 _ _ _ hwfE
    (take_branchEnd 1 (20 + ds.length + 2))
  have h1 := Lexer.take_append 8 1 _ _ _ _ _ h0 (Lexer.take_one _ _ _ hA)
  have h2 := Lexer.take_append (8 + 1) 5 _ _ _ _ _ h1 hB
  have h3 : Lexer.take 14 (New (branchSource (d :: ds))) = _ := h2
  rw [Lexer.take_eq] at h3
  have hlist := (Prod.mk.inj h3).1
  constructor
  · have := congrArg (List.map Token.Typ) hlist
    rw [List.map_map] at this
    exact this
  · have := congrArg (List.map Token.Literal) hlist
    rw [List.map_map] at this
    exact this

/-- The 28 tokens of `callerSource` for two literals that are runs of digits: their kinds
and their texts. -/
theorem lex_callerSource (d1 d2 : Nat) (ds1 ds2 : GoString)
    (hd1 : isDigit d1 = true) (hds1 : ∀ x ∈ ds1, isDigit x = true)
    (hd2 : isDigit d2 = true) (hds2 : ∀ x ∈ ds2, isDigit x = true) :
    (List.range 28).map
        (fun k => (Lexer.tokenAt k (New (callerSource (d1 :: ds1) (d2 :: ds2)))).Typ) =
      [.LET, .IDENT, .ASSIGN, .INT, .SEMICOLON, .FUNCTION, .IDENT, .LPAREN, .IDENT, .RPAREN,
        .LBRACE, .LET, .IDENT, .ASSIGN, .INT, .SEMICOLON, .RETURN, .IDENT, .SEMICOLON,
        .RBRACE, .IDENT, .LPAREN, .INT, .RPAREN, .SEMICOLON, .IDENT, .SEMICOLON, .EOF] ∧
    (List.range 28).map
        (fun k => (Lexer.tokenAt k (New (callerSource (d1 :: ds1) (d2 :: ds2)))).Literal) =
      [str "let", str "x", str "=", d1 :: ds1, str ";", str "func", str "f", str "(", str "x",
        str ")", str "\x7b", str "let", str "y", str "=", str "2", str ";", str "return",
        str "x", str ";", str "\x7d", str "f", str "(", d2 :: ds2, str ")", str ";", str "x",
        str ";", []] := by
  have h0 := take_scopingStart (d1 :: (ds1 ++ callerMiddle (d2 :: (ds2 ++ str "); x;"))))
  have hA := NextToken_space_digits ds1 [108, 101, 116, 32, 120, 32, 61]
    (callerMiddle (d2 :: (ds2 ++ str "); x;"))) d1 1 8 hd1 hds1 rfl
    (by show (59 : Nat) ≠ 10; decide)
  have hB := Lexer.take_shift ([108, 101, 116, 32, 120, 32, 61] ++ 32 :: d1 :: ds1) 17 _ _ _
    ⟨rfl, rfl⟩ (take_callerMiddle (d2 :: (ds2 ++ str "); x;")) 1 (8 + ds1.length + 2))
  have hC := take_lparen_digits ds2 ((callerMiddle []).take 38) (str "); x;") d2 1
    (8 + ds1.length + 2 + 38) hd2 hds2 rfl (by decide)
  have hwfM : Lexer.wf ⟨callerMiddle (d2 :: (ds2 ++ str "); x;")), 38, 39, 40, 1,
      8 + ds1.length + 2 + 38⟩ := ⟨rfl, rfl⟩
  have hC' := Lexer.take_shift ([108, 101, 116, 32, 120, 32, 61] ++ 32 :: d1 :: ds1) 2
    ⟨callerMiddle (d2 :: (ds2 ++ str "); x;")), 38, 39, 40, 1, 8 + ds1.length + 2 + 38⟩
    _ _ hwfM hC
  have hwfE : Lexer.wf ⟨str "); x;", 0, 1, 41, 1,
      8 + ds1.length + 2 + 38 + ds2.length + 2⟩ := ⟨rfl, rfl⟩
  have hD := Lexer.take_shift ([108, 101, 116, 32, 120, 32, 61] ++ 32 :: d1 :: ds1) 5 _ _ _
    (Lexer.wf_shift _ _ hwfE)
    (Lexer.take_shift ((callerMiddle []).take 38 ++ 40 :: d2 :: ds2) 5 _ _ _ hwfE
      (take_callerEnd 1 (8 + ds1.length + 2 + 38 + ds2.length + 2)))
  have h1 := Lexer.take_append 3 1 _ _ _ _ _ h0 (Lexer.take_one _ _ _ hA)
  have h2 := Lexer.take_append (3 + 1) 17 _ _ _ _ _ h1 hB
  have h3 := Lexer.take_append (3 + 1 + 17) 2 _ _ _ _ _ h2 hC'
  have h4 := Lexer.take_append (3 + 1 + 17 + 2) 5 _ _ _ _ _ h3 hD
  have h5 : Lexer.take 28 (New (callerSource (d1 :: ds1) (d2 :: ds2))) = _ := h4
  rw [Lexer.take_eq] at h5
  have hlist := (Prod.mk.inj h5).1
  constructor
  · have := congrArg (List.map Token.Typ) hlist
    rw [List.map_map] at this
    exact this
  · have := congrArg (List.map Token.Literal) hlist
    rw [List.map_map] at this
    exact this

/-! ## Blocks and calls -/

/-- Parsing of the block example from any lexer that yields its 14 tokens. -/
theorem parse_branchProgram (L : Nat → Lexer) (T : Nat → Token) (n : Int) (m : Nat)
    (hnext : ∀ k, (L k).NextToken = (T k, L (k + 1)))
    (htypes : (List.range 14).map (fun k => (T k).Typ) =
      [.IF, .LPAREN, .TRUE, .RPAREN, .LBRACE, .LET, .IDENT, .ASSIGN, .INT, .SEMICOLON,
        .RBRACE, .IDENT, .SEMICOLON, .EOF])
    (hlits : [6, 11].map (fun k => (T k).Literal) = [str "x", str "x"])
    (hn : ParseInt (T 8).Literal = some n) :
    ∃ p, ParseProgramFuel (m + 6) (NewParser (L 0)) = some (branchProgram T n, p) ∧
      p.errors = [] := by
  simp only [List.range_succ, List.range_zero, List.nil_append, List.cons_append,
    List.map_cons, List.map_nil, List.cons.injEq, and_true] at htypes hlits
  obtain ⟨h0, h1, h2, h3, h4, h5, h6, h7, h8, h9, h10, h11, h12, h13⟩ := htypes
  obtain ⟨l6, l11⟩ := hlits
  simp [ParseProgramFuel, ParseProgramLoop, NewParser, Parser.nextToken, hnext, parseFns,
    parseStatementStep, parseExpressionStatement, parseExpressionStep, prefixParseFns,
    infixParseFns, parseExpressionLoop, parseIdentifier, parseIntegerLiteral,
    parseBooleanLiteral, parseIfStatement, parseBlockStatement, parseBlockStatementLoop,
    parseLetStatement, Parser.peekTokenIs, Parser.curTokenIs, Parser.peekPrecedence,
    Parser.curPrecedence, Parser.expectPeek, precedences, h0, h1, h2, h3, h4, h5, h6, h7, h8,
    h9, h10, h11, h12, h13, l6, l11, hn, LOWEST, CALL, branchProgram]

/-- Parsing of the call example from any lexer that yields its 28 tokens. -/
theorem parse_callerProgram (L : Nat → Lexer) (T : Nat → Token) (a b : Int) (m : Nat)
    (hnext : ∀ k, (L k).NextToken = (T k, L (k + 1)))
    (htypes : (List.range 28).map (fun k => (T k).Typ) =
      [.LET, .IDENT, .ASSIGN, .INT, .SEMICOLON, .FUNCTION, .IDENT, .LPAREN, .IDENT, .RPAREN,
        .LBRACE, .LET, .IDENT, .ASSIGN, .INT, .SEMICOLON, .RETURN, .IDENT, .SEMICOLON,
        .RBRACE, .IDENT, .LPAREN, .INT, .RPAREN, .SEMICOLON, .IDENT, .SEMICOLON, .EOF])
    (hlits : [1, 6, 8, 12, 14, 17, 20, 25].map (fun k => (T k).Literal) =
      [str "x", str "f", str "x", str "y", str "2", str "x", str "f", str "x"])
    (ha : ParseInt (T 3).Literal = some a) (hb : ParseInt (T 22).Literal = some b) :
    ∃ p, ParseProgramFuel (m + 6) (NewParser (L 0)) = some (callerProgram T a b, p) ∧
      p.errors = [] := by
  simp only [List.range_succ, List.range_zero, List.nil_append, List.cons_append,
    List.map_cons, List.map_nil, List.cons.injEq, and_true] at htypes hlits
  obtain ⟨h0, h1, h2, h3, h4, h5, h6, h7, h8, h9, h10, h11, h12, h13, h14, h15, h16, h17,
    h18, h19, h20, h21, h22, h23, h24, h25, h26, h27⟩ := htypes
  obtain ⟨l1, l6, l8, l12, l14, l17, l20, l25⟩ := hlits
  have h2lit : ParseInt (str "2") = some 2 := rfl
  simp [ParseProgramFuel, ParseProgramLoop, NewParser, Parser.nextToken, hnext, parseFns,
    parseStatementStep, parseExpressionStatement, parseExpressionStep, prefixParseFns,
    infixParseFns, parseExpressionLoop, parseIdentifier, parseIntegerLiteral,
    parseCallExpression, parseExpressionList, parseExpressionListLoop,
    parseFunctionStatement, parseFunctionParameters, parseFunctionParametersLoop,
    parseBlockStatement, parseBlockStatementLoop, parseReturnStatement, parseLetStatement,
    Parser.peekTokenIs, Parser.curTokenIs, Parser.peekPrecedence, Parser.curPrecedence,
    Parser.expectPeek, precedences, h0, h1, h2, h3, h4, h5, h6, h7, h8, h9, h10, h11, h12,
    h13, h14, h15, h16, h17, h18, h19, h20, h21, h22, h23, h24, h25, h26, h27, l1, l6, l8,
    l12, l14, l17, l20, l25, ha, hb, h2lit, LOWEST, CALL, callerProgram]

set_option maxRecDepth 100000 in
set_option maxHeartbeats 4000000 in
/-- Evaluation of the block example: the `let` in the branch binds `x` in the root
environment, where the statement after the if statement finds it. -/
theorem eval_branchProgram (T : Nat → Token) (n : Int) (m : Nat) :
    ∃ h, Eval (m + 5) (Node.Program (branchProgram T n)) (NewEnvironment Heap.empty).1
      (NewEnvironment Heap.empty).2 = Res.ok (Object.Integer n, h) :=
  ⟨_, rfl⟩

set_option maxRecDepth 100000 in
set_option maxHeartbeats 4000000 in
/-- Evaluation of the call example: after the call the root environment still binds `x`
to the first literal and binds no `y`. -/
theorem eval_callerProgram (T : Nat → Token) (a b : Int) (m : Nat) :
    ∃ h, Eval (m + 6) (Node.Program (callerProgram T a b)) (NewEnvironment Heap.empty).1
        (NewEnvironment Heap.empty).2 = Res.ok (Object.Integer a, h) ∧
      h.Get 0 (str "y") = none ∧ h.Get 1 (str "y") = some (Object.Integer 2) ∧
      h.Get 1 (str "x") = some (Object.Integer b) :=
  ⟨_, rfl, rfl, rfl, rfl⟩

theorem Heap.Get_Set_self (h : Heap) (env : Nat) (name : GoString) (val : Object)
    (hlt : env < h.envs.length) : (h.Set env name val).Get env name = some val := by
  obtain ⟨e, he⟩ : ∃ e, h.envs[env]? = some e := ⟨h.envs[env], List.getElem?_eq_getElem hlt⟩
  apply Heap.Get_of_store _ env _ ⟨(name, val) :: e.store, e.outer⟩
  · rw [Heap.Set_of_get h env _ _ e he]
    exact List.getElem?_set_self hlt
  · simp [storeLookup]

/-- Lexing, parsing and evaluating the block example with a literal that `ParseInt` reads
as `n`. -/
theorem run_branchSource (lit : GoString) (n : Int) (fuel : Nat)
    (hn : ParseInt lit = some n) (hfuel : 5 ≤ fuel) :
    ∃ h, run fuel (branchSource lit) = some (Res.ok (Object.Integer n, h)) := by
  obtain ⟨d, ds, rfl, hd, hds⟩ := ParseInt_digits lit n hn
  obtain ⟨htypes, hlits⟩ := lex_branchSource d ds hd hds
  have hl := hlits
  simp only [List.range_succ, List.range_zero, List.nil_append, List.cons_append,
    List.map_cons, List.map_nil, List.cons.injEq, and_true] at hl
  obtain ⟨-, -, -, -, -, -, l6, -, l8, -, -, l11, -, -⟩ := hl
  obtain ⟨p, hp, herr⟩ := parse_branchProgram
    (fun k => Lexer.advance k (New (branchSource (d :: ds))))
    (fun k => Lexer.tokenAt k (New (branchSource (d :: ds)))) n
    (2 * (NewParser (New (branchSource (d :: ds)))).l.input.length + 2)
    (fun _ => rfl) htypes
    (by simp only [List.map_cons, List.map_nil, l6, l11])
    (by rw [l8]; exact hn)
  have hp' : ParseProgram (NewParser (New (branchSource (d :: ds))))
      = some (branchProgram (fun k => Lexer.tokenAt k (New (branchSource (d :: ds)))) n, p) :=
    hp
  obtain ⟨m, rfl⟩ : ∃ m, fuel = m + 5 := ⟨fuel - 5, by omega⟩
  obtain ⟨h, heval⟩ := eval_branchProgram
    (fun k => Lexer.tokenAt k (New (branchSource (d :: ds)))) n m
  refine ⟨h, ?_⟩
  unfold run
  rw [hp']
  simp only [herr, List.length_nil, gt_iff_lt, Nat.lt_irrefl, if_false]
  rw [heval]

/-- Lexing, parsing and evaluating the call example with two literals that `ParseInt`
reads as `a` and `b`. -/
theorem run_callerSource (la lb : GoString) (a b : Int) (fuel : Nat)
    (ha : ParseInt la = some a) (hb : ParseInt lb = some b) (hfuel : 6 ≤ fuel) :
    ∃ h, run fuel (callerSource la lb) = some (Res.ok (Object.Integer a, h)) ∧
      h.Get 0 (str "y") = none := by
  obtain ⟨d1, ds1, rfl, hd1, hds1⟩ := ParseInt_digits la a ha
  obtain ⟨d2, ds2, rfl, hd2, hds2⟩ := ParseInt_digits lb b hb
  obtain ⟨htypes, hlits⟩ := lex_callerSource d1 d2 ds1 ds2 hd1 hds1 hd2 hds2
  have hl := hlits
  simp only [List.range_succ, List.range_zero, List.nil_append, List.cons_append,
    List.map_cons, List.map_nil, List.cons.injEq, and_true] at hl
  obtain ⟨-, l1, -, l3, -, -, l6, -, l8, -, -, -, l12, -, l14, -, -, l17, -, -, l20, -, l22,
    -, -, l25, -, -⟩ := hl
  obtain ⟨p, hp, herr⟩ := parse_callerProgram
    (fun k => Lexer.advance k (New (callerSource (d1 :: ds1) (d2 :: ds2))))
    (fun k => Lexer.tokenAt k (New (callerSource (d1 :: ds1) (d2 :: ds2)))) a b
    (2 * (NewParser (New (callerSource (d1 :: ds1) (d2 :: ds2)))).l.input.length + 2)
    (fun _ => rfl) htypes
    (by simp only [List.map_cons, List.map_nil, l1, l6, l8, l12, l14, l17, l20, l25])
    (by rw [l3]; exact ha) (by rw [l22]; exact hb)
  have hp' : ParseProgram (NewParser (New (callerSource (d1 :: ds1) (d2 :: ds2))))
      = some (callerProgram
          (fun k => Lexer.tokenAt k (New (callerSource (d1 :: ds1) (d2 :: ds2)))) a b, p) := hp
  obtain ⟨m, rfl⟩ : ∃ m, fuel = m + 6 := ⟨fuel - 6, by omega⟩
  obtain ⟨h, heval, hy, -, -⟩ := eval_callerProgram
    (fun k => Lexer.tokenAt k (New (callerSource (d1 :: ds1) (d2 :: ds2)))) a b m
  refine ⟨h, ?_, hy⟩
  unfold run
  rw [hp']
  simp only [herr, List.length_nil, gt_iff_lt, Nat.lt_irrefl, if_false]
  rw [heval]

/-- C19. A block is evaluated in the environment of the statement that holds it: when the
condition of an if statement evaluates to a truthy object and the consequence block is a
single `let` whose value evaluates to a non-Error object `v`, the if statement binds the
name to `v` in the environment it is evaluated in; and for every integer literal, read by
`ParseInt` as `n`, lexing, parsing and evaluating the source
`if (true) { let x = n; } x;` in a fresh root environment, with any fuel from 5 on,
yields Integer(n). -/
theorem block_binds_in_enclosing_environment :
    (∀ (fuel : Nat) (block : BlockStatement) (env : Nat) (h : Heap),
      Eval (fuel + 1) (Node.BlockStatement block) env h
        = evalBlockStatementLoop (Eval fuel) env block.Statements Object.nil h) ∧
    (∀ (fuel : Nat) (tok tokb tokl : Token) (condition value : Expression)
        (name : Identifier) (alternative : Option BlockStatement) (env : Nat)
        (h h1 h2 : Heap) (c v : Object),
      env < h.envs.length →
      Eval (fuel + 2) (Node.Expression condition) env h = Res.ok (c, h1) →
      isError c = false → isTruthy c = true →
      Eval fuel (Node.Expression value) env h1 = Res.ok (v, h2) → isError v = false →
      Eval (fuel + 3) (Node.Statement (Statement.IfStatement tok condition
          (BlockStatement.mk tokb [Statement.LetStatement tokl name value]) alternative))
          env h
        = Res.ok (Object.Null, h2.Set env name.Value v) ∧
      (h2.Set env name.Value v).Get env name.Value = some v) ∧
    (∀ (lit : GoString) (n : Int) (fuel : Nat), ParseInt lit = some n → 5 ≤ fuel →
      ∃ h, run fuel (branchSource lit) = some (Res.ok (Object.Integer n, h))) := by
  refine ⟨fun _ _ _ _ => rfl, ?_, fun lit n fuel hn hf => run_branchSource lit n fuel hn hf⟩
  intro fuel tok tokb tokl condition value name alternative env h h1 h2 c v henv hc hce hct
    hv hve
  have hf1 : Heap.frame none h h1 := Eval_frame _ _ env h c h1 hc
  have hf2 : Heap.frame none h1 h2 := Eval_frame _ _ env h1 v h2 hv
  have hlt : env < h2.envs.length := Nat.lt_of_lt_of_le henv (Nat.le_trans hf1.1 hf2.1)
  refine ⟨?_, Heap.Get_Set_self h2 env _ _ hlt⟩
  have hlet : Eval (fuel + 1) (Node.Statement (Statement.LetStatement tokl name value)) env h1
      = Res.ok (Object.Null, h2.Set env name.Value v) := by
    simp [Eval, EvalStep, evalStatement, hv, hve, NULL]
  have hblock : Eval (fuel + 2) (Node.BlockStatement
      (BlockStatement.mk tokb [Statement.LetStatement tokl name value])) env h1
      = Res.ok (Object.Null, h2.Set env name.Value v) := by
    have e2 : Eval (fuel + 2) = EvalStep (Eval (fuel + 1)) := rfl
    rw [e2]
    simp only [EvalStep, evalBlockStatement, BlockStatement.Statements,
      evalBlockStatementLoop, hlet]
  have e3 : Eval (fuel + 3) = EvalStep (Eval (fuel + 2)) := rfl
  rw [e3]
  simp only [EvalStep, evalStatement, evalIfExpression, hc, hce, hct, Bool.false_eq_true,
    if_false, if_true, hblock]

/-- Witness of C19: the source with the literal 7,
`if (true) { let x = 7; } x;`, evaluates to Integer(7). -/
theorem block_binds_in_enclosing_environment_witness :
    branchSource (str "7") = str "if (true) \x7b let x = 7; \x7d x;" ∧
    ParseInt (str "7") = some 7 ∧
    ∃ h, run 5 (branchSource (str "7")) = some (Res.ok (Object.Integer 7, h)) :=
  ⟨rfl, rfl,
   block_binds_in_enclosing_environment.2.2 (str "7") 7 5 rfl (Nat.le_refl 5)⟩

/-- C20. The evaluation of a call expression leaves every environment that existed before
the call unchanged: the parameters are bound in an environment made for the call, and the
body is evaluated in it. For all integer literals, read by `ParseInt` as `a` and `b`,
lexing, parsing and evaluating the source
`let x = a; func f(x) { let y = 2; return x; } f(b); x;` in a fresh root environment, with
any fuel from 6 on, yields Integer(a), and the root environment binds no `y` afterwards. -/
theorem call_leaves_caller_bindings :
    (∀ (fuel : Nat) (tok : Token) (function : Expression) (arguments : List Expression)
        (env : Nat) (h : Heap) (v : Object) (h1 : Heap),
      Eval fuel (Node.Expression (Expression.CallExpression tok function arguments)) env h
        = Res.ok (v, h1) →
      ∀ i, i < h.envs.length → h1.envs[i]? = h.envs[i]?) ∧
    (∀ (parameters : List Identifier) (fnEnv : Nat) (args : List Object) (h : Heap),
      (extendFunctionEnv parameters fnEnv args h).1 = h.envs.length ∧
      ∀ i, i < h.envs.length →
        (extendFunctionEnv parameters fnEnv args h).2.envs[i]? = h.envs[i]?) ∧
    (∀ (la lb : GoString) (a b : Int) (fuel : Nat),
      ParseInt la = some a → ParseInt lb = some b → 6 ≤ fuel →
      ∃ h, run fuel (callerSource la lb) = some (Res.ok (Object.Integer a, h)) ∧
        h.Get 0 (str "y") = none) := by
  refine ⟨?_, ?_, fun la lb a b fuel ha hb hf => run_callerSource la lb a b fuel ha hb hf⟩
  · intro fuel tok function arguments env h v h1 hres i hi
    exact (Eval_frame fuel _ env h v h1 hres).2 i hi (by simp [Node.bindsIn])
  · intro parameters fnEnv args h
    refine ⟨by rw [extendFunctionEnv_eq], fun i hi => ?_⟩
    exact (Heap.frame_extendFunctionEnv parameters fnEnv args h).2 i hi (by simp)

/-- Witness of C20: the source with the literals 1 and 3,
`let x = 1; func f(x) { let y = 2; return x; } f(3); x;`, evaluates to Integer(1) and
leaves `y` unbound in the root environment. -/
theorem call_leaves_caller_bindings_witness :
    callerSource (str "1") (str "3")
      = str "let x = 1; func f(x) \x7b let y = 2; return x; \x7d f(3); x;" ∧
    ParseInt (str "1") = some 1 ∧ ParseInt (str "3") = some 3 ∧
    ∃ h, run 6 (callerSource (str "1") (str "3")) = some (Res.ok (Object.Integer 1, h)) ∧
      h.Get 0 (str "y") = none :=
  ⟨rfl, rfl, rfl,
   call_leaves_caller_bindings.2.2 (str "1") (str "3") 1 3 6 rfl rfl (Nat.le_refl 6)⟩


/-! ## Renderings of parsed expressions -/

/-- C21, as stated, fails: the rendering of the source `a + b * c` is not
`((a + (b * c)));`. -/
theorem sum_product_rendering_is_not_doubly_parenthesised :
    parseAndRender (str "a + b * c") ≠ some (some (str "((a + (b * c)));"), []) := by
  decide

/-- C21, amended. Parsing the source `a + b * c` produces no errors and `Program.String()`
of the result is exactly `(a + (b * c));`: one pair of parentheses for each infix
expression and the semicolon of the expression statement. -/
theorem sum_product_rendering :
    parseAndRender (str "a + b * c") = some (some (str "(a + (b * c));"), []) := by
  decide


/-! ## The lexer between two texts -/

theorem Lexer.between_eq_shift (pre post : GoString) (line col : Nat) :
    Lexer.between pre post line col = Lexer.shift pre ⟨post, 0, 1, post.getD 0 0, line, col⟩ :=
  rfl

theorem Lexer.between_wf (pre post : GoString) (line col : Nat) :
    (Lexer.between pre post line col).wf := by
  rw [Lexer.between_eq_shift]
  exact Lexer.wf_shift _ _ ⟨rfl, rfl⟩

theorem New_between (src : GoString) (h10 : src.getD 0 0 ≠ 10) :
    New src = Lexer.between [] src 1 1 := by
  unfold New
  rw [readChar_mk _ _ _ _ _ _ _ rfl h10]
  rfl

/-- A token read from the front of a text is read in the same way behind a text `pre`. -/
theorem Lexer.NextToken_between (pre seg post : GoString) (c line col line1 col1 : Nat)
    (tok : Token) (hc : (seg ++ post).getD 0 0 = c)
    (h : Lexer.NextToken ⟨seg ++ post, 0, 1, c, line, col⟩ =
      (tok, ⟨seg ++ post, seg.length, seg.length + 1, post.getD 0 0, line1, col1⟩)) :
    (Lexer.between pre (seg ++ post) line col).NextToken =
      (tok, Lexer.between (pre ++ seg) post line1 col1) := by
  subst hc
  rw [Lexer.between_eq_shift, Lexer.NextToken_shift _ _ ⟨rfl, rfl⟩, h]
  simp only [Lexer.shiftResult, Lexer.shift, Lexer.between, List.append_assoc,
    List.length_append, Nat.add_assoc]

theorem Lexer.NextToken_between_space (pre post : GoString) (line col : Nat)
    (h10 : post.getD 0 0 ≠ 10) :
    (Lexer.between pre (32 :: post) line col).NextToken =
      (Lexer.between (pre ++ [32]) post line (col + 1)).NextToken := by
  rw [Lexer.NextToken_skip (Lexer.between pre (32 :: post) line col)
    (Lexer.between_wf _ _ _ _) rfl]
  congr 1
  have hget : (pre ++ 32 :: post).getD (pre.length + 1) 0 = post.getD 0 0 :=
    getD_append_add pre (32 :: post) 1
  show Lexer.readChar ⟨pre ++ 32 :: post, pre.length, pre.length + 1, _, line, col⟩ = _
  rw [readChar_mk _ _ _ _ _ _ _ hget h10]
  simp only [Lexer.between, List.append_assoc, List.singleton_append, List.length_append,
    List.length_singleton]

theorem readIdentifierLoop_run :
    ∀ (xs pre post : GoString) (x line col fuel : Nat),
      isIdentByte x = true → (∀ y ∈ xs, isIdentByte y = true) →
      isIdentByte (post.getD 0 0) = false → post.getD 0 0 ≠ 10 → xs.length + 1 ≤ fuel →
      Lexer.readIdentifierLoop fuel ⟨pre ++ x :: (xs ++ post), pre.length, pre.length + 1, x,
          line, col⟩ =
        ⟨pre ++ x :: (xs ++ post), pre.length + xs.length + 1, pre.length + xs.length + 2,
          post.getD 0 0, line, col + xs.length + 1⟩ := by
  intro xs
  induction xs with
  | nil =>
    intro pre post x line col fuel hx _ hpost h10 hfuel
    obtain ⟨f, rfl⟩ : ∃ f, fuel = f + 1 := ⟨fuel - 1, by simp at hfuel; omega⟩
    have hget : (pre ++ x :: ([] ++ post)).getD (pre.length + 1) 0 = post.getD 0 0 := by
      have := getD_append_add (pre ++ [x]) post 0
      simpa using this
    have hx' : (isLetter x || isDigit x) = true := hx
    have hpost' : (isLetter (post.getD 0 0) || isDigit (post.getD 0 0)) = false := hpost
    simp only [Lexer.readIdentifierLoop, hx', if_true]
    rw [readChar_mk _ _ _ _ _ _ _ hget h10]
    cases f with
    | zero => rfl
    | succ f =>
      simp only [Lexer.readIdentifierLoop, hpost', Bool.false_eq_true, if_false]
      rfl
  | cons x' xs ih =>
    intro pre post x line col fuel hx hxs hpost h10 hfuel
    obtain ⟨f, rfl⟩ : ∃ f, fuel = f + 1 := ⟨fuel - 1, by simp at hfuel; omega⟩
    have hx1 : isIdentByte x' = true := hxs x' (List.mem_cons_self _ _)
    have hx10 : x' ≠ 10 := by
      intro h; subst h; simp [isIdentByte, isLetter, isDigit] at hx1
    have hget : (pre ++ x :: (x' :: xs ++ post)).getD (pre.length + 1) 0 = x' := by
      have := getD_append_add (pre ++ [x]) (x' :: xs ++ post) 0
      simpa using this
    have hx' : (isLetter x || isDigit x) = true := hx
    simp only [Lexer.readIdentifierLoop, hx', if_true]
    rw [readChar_mk _ _ _ _ _ _ _ hget hx10]
    have hin : pre ++ x :: (x' :: xs ++ post) = (pre ++ [x]) ++ x' :: (xs ++ post) := by simp
    have := ih (pre ++ [x]) post x' line (col + 1) f hx1
      (fun y hy => hxs y (List.mem_cons_of_mem _ hy)) hpost h10
      (by simp at hfuel ⊢; omega)
    simp only [List.length_append, List.length_singleton] at this
    rw [hin, this]
    simp only [List.length_cons, Lexer.mk.injEq, true_and]
    omega

/-- A word: the token is the run of letters and digits, with the kind that the keyword
table gives it, and the lexer stands behind the word. -/
theorem NextToken_word (xs pre post : GoString) (x line col : Nat)
    (hx : isLetter x = true) (hxs : ∀ y ∈ xs, isIdentByte y = true)
    (hpost : isIdentByte (post.getD 0 0) = false) (h10 : post.getD 0 0 ≠ 10) :
    (Lexer.between pre (x :: xs ++ post) line col).NextToken =
      (⟨LookupIdent (x :: xs), x :: xs, line, col⟩,
        Lexer.between (pre ++ x :: xs) post line (col + xs.length + 1)) := by
  have hb : (97 ≤ x ∧ x ≤ 122) ∨ (65 ≤ x ∧ x ≤ 90) ∨ x = 95 := by
    simpa [isLetter, or_assoc] using hx
  have hws : isWhitespace x = false := by
    simp only [isWhitespace, Bool.or_eq_false_iff, decide_eq_false_iff_not]
    omega
  have hib : isIdentByte x = true := by simp [isIdentByte, hx]
  have hloop := readIdentifierLoop_run xs pre post x line col
    ((pre ++ x :: (xs ++ post)).length + 1) hib hxs hpost h10 (by simp; omega)
  have hsl : slice (pre ++ x :: (xs ++ post)) pre.length (pre.length + xs.length + 1)
      = x :: xs := by
    have := slice_middle pre (x :: xs) post
    simpa [Nat.add_assoc] using this
  have n61 : ¬ x = 61 := by omega
  have n43 : ¬ x = 43 := by omega
  have n45 : ¬ x = 45 := by omega
  have n42 : ¬ x = 42 := by omega
  have n47 : ¬ x = 47 := by omega
  have n33 : ¬ x = 33 := by omega
  have n60 : ¬ x = 60 := by omega
  have n62 : ¬ x = 62 := by omega
  have n38 : ¬ x = 38 := by omega
  have n124 : ¬ x = 124 := by omega
  have n44 : ¬ x = 44 := by omega
  have n59 : ¬ x = 59 := by omega
  have n40 : ¬ x = 40 := by omega
  have n41 : ¬ x = 41 := by omega
  have n123 : ¬ x = 123 := by omega
  have n125 : ¬ x = 125 := by omega
  have n34 : ¬ x = 34 := by omega
  have n0 : ¬ x = 0 := by omega
  have hform : Lexer.between pre (x :: xs ++ post) line col =
      ⟨pre ++ x :: (xs ++ post), pre.length, pre.length + 1, x, line, col⟩ := rfl
  rw [hform]
  simp only [Lexer.NextToken, Lexer.NextTokenAux, Lexer.tokenSwitch, Lexer.skipWhitespace,
    Lexer.skipWhitespaceLoop, hws, Bool.false_eq_true, if_false, Lexer.readIdentifier, hloop,
    hsl, hx, if_true, ↓reduceIte, n61, n43, n45, n42, n47, n33, n60, n62, n38, n124,
    n44, n59, n40, n41, n123, n125, n34, n0]
  simp only [Lexer.between, List.append_assoc, List.cons_append, List.length_append,
    List.length_cons, Prod.mk.injEq, Lexer.mk.injEq, true_and, and_true]
  omega

theorem space_ne_newline (post : GoString) : (32 :: post).getD 0 0 ≠ 10 := by
  show (32 : Nat) ≠ 10
  decide

theorem isIdentifier_cons (a : GoString) (ha : isIdentifier a = true) :
    ∃ x xs, a = x :: xs ∧ isLetter x = true ∧ (∀ y ∈ xs, isIdentByte y = true) ∧
      LookupIdent (x :: xs) = .IDENT := by
  cases a with
  | nil => simp [isIdentifier] at ha
  | cons x xs =>
    simp only [isIdentifier, Bool.and_eq_true, List.all_eq_true, decide_eq_true_eq] at ha
    exact ⟨x, xs, rfl, ha.1.1, ha.1.2, ha.2⟩

theorem isLetter_ne_newline (x : Nat) (hx : isLetter x = true) : x ≠ 10 := by
  intro h; subst h; simp [isLetter] at hx

/-- An identifier: the token is its text, and the lexer stands behind it. -/
theorem NextToken_identifier (a pre post : GoString) (line col : Nat)
    (ha : isIdentifier a = true)
    (hpost : isIdentByte (post.getD 0 0) = false) (h10 : post.getD 0 0 ≠ 10) :
    (Lexer.between pre (a ++ post) line col).NextToken =
      (⟨.IDENT, a, line, col⟩, Lexer.between (pre ++ a) post line (col + a.length)) := by
  obtain ⟨x, xs, rfl, hx, hxs, hk⟩ := isIdentifier_cons a ha
  rw [NextToken_word xs pre post x line col hx hxs hpost h10, hk]
  rfl

/-- An identifier after one space. -/
theorem NextToken_space_identifier (a pre post : GoString) (line col : Nat)
    (ha : isIdentifier a = true)
    (hpost : isIdentByte (post.getD 0 0) = false) (h10 : post.getD 0 0 ≠ 10) :
    (Lexer.between pre (32 :: (a ++ post)) line col).NextToken =
      (⟨.IDENT, a, line, col + 1⟩,
        Lexer.between (pre ++ [32] ++ a) post line (col + 1 + a.length)) := by
  have h : (a ++ post).getD 0 0 ≠ 10 := by
    obtain ⟨x, xs, rfl, hx, -, -⟩ := isIdentifier_cons a ha
    exact isLetter_ne_newline x hx
  rw [Lexer.NextToken_between_space pre (a ++ post) line col h,
    NextToken_identifier a (pre ++ [32]) post line (col + 1) ha hpost h10]

set_option maxRecDepth 100000 in
/-- A binary operator between two spaces, read from the front of a text. -/
theorem NextToken_operator_front (op : TokenType) (hop : op ∈ binaryOperators)
    (post : GoString) (line col : Nat) :
    (op.String ++ 32 :: post).getD 0 0 ≠ 10 ∧
    Lexer.NextToken ⟨op.String ++ 32 :: post, 0, 1, (op.String ++ 32 :: post).getD 0 0,
        line, col⟩ =
      (⟨op, op.String, line, col⟩,
        ⟨op.String ++ 32 :: post, op.String.length, op.String.length + 1,
          (32 :: post).getD 0 0, line, col + op.String.length⟩) := by
  simp only [binaryOperators, List.mem_cons, List.mem_nil_iff, or_false] at hop
  rcases hop with rfl | rfl | rfl | rfl | rfl | rfl | rfl | rfl | rfl | rfl | rfl | rfl <;>
    exact ⟨Nat.ne_of_beq_eq_false rfl, rfl⟩

/-- A binary operator after one space and before another. -/
theorem NextToken_space_operator (op : TokenType) (hop : op ∈ binaryOperators)
    (pre post : GoString) (line col : Nat) :
    (Lexer.between pre (32 :: (op.String ++ 32 :: post)) line col).NextToken =
      (⟨op, op.String, line, col + 1⟩,
        Lexer.between (pre ++ [32] ++ op.String) (32 :: post) line
          (col + 1 + op.String.length)) := by
  obtain ⟨h10, h⟩ := NextToken_operator_front op hop post line (col + 1)
  rw [Lexer.NextToken_between_space pre (op.String ++ 32 :: post) line col h10]
  exact Lexer.NextToken_between (pre ++ [32]) op.String (32 :: post) _ line (col + 1) line
    (col + 1 + op.String.length) _ rfl h

theorem NextToken_between_end (pre : GoString) (line col : Nat) :
    (Lexer.between pre [] line col).NextToken =
      (⟨.EOF, [], line, col⟩, Lexer.readChar (Lexer.between pre [] line col)) :=
  NextToken_eof _ _ _ _ _

theorem isIdentifier_head (a post : GoString) (ha : isIdentifier a = true) :
    (a ++ post).getD 0 0 ≠ 10 := by
  obtain ⟨x, xs, rfl, hx, -, -⟩ := isIdentifier_cons a ha
  exact isLetter_ne_newline x hx

/-- The six tokens of the source `a op1 b op2 c`. -/
theorem take_infixSource (a b c : GoString) (op1 op2 : TokenType)
    (ha : isIdentifier a = true) (hb : isIdentifier b = true) (hc : isIdentifier c = true)
    (h1 : op1 ∈ binaryOperators) (h2 : op2 ∈ binaryOperators) :
    ∃ c1 c2 c3 c4 c5 l,
      Lexer.take 6 (New (infixSource a op1 b op2 c)) =
        ([⟨.IDENT, a, 1, 1⟩, ⟨op1, op1.String, 1, c1⟩, ⟨.IDENT, b, 1, c2⟩,
          ⟨op2, op2.String, 1, c3⟩, ⟨.IDENT, c, 1, c4⟩, ⟨.EOF, [], 1, c5⟩], l) := by
  have s0 : New (infixSource a op1 b op2 c) =
      Lexer.between [] (a ++ 32 :: (op1.String ++ 32 :: (b ++ 32 ::
        (op2.String ++ 32 :: (c ++ []))))) 1 1 := by
    rw [List.append_nil]
    exact New_between _ (isIdentifier_head a _ ha)
  have t0 := NextToken_identifier a [] (32 :: (op1.String ++ 32 :: (b ++ 32 ::
    (op2.String ++ 32 :: (c ++ []))))) 1 1 ha rfl (space_ne_newline _)
  have t1 := NextToken_space_operator op1 h1 ([] ++ a)
    (b ++ 32 :: (op2.String ++ 32 :: (c ++ []))) 1 (1 + a.length)
  have t2 := NextToken_space_identifier b ([] ++ a ++ [32] ++ op1.String)
    (32 :: (op2.String ++ 32 :: (c ++ []))) 1 (1 + a.length + 1 + op1.String.length) hb rfl
    (space_ne_newline _)
  have t3 := NextToken_space_operator op2 h2 ([] ++ a ++ [32] ++ op1.String ++ [32] ++ b)
    (c ++ []) 1 (1 + a.length + 1 + op1.String.length + 1 + b.length)
  have t4 := NextToken_space_identifier c
    ([] ++ a ++ [32] ++ op1.String ++ [32] ++ b ++ [32] ++ op2.String) [] 1
    (1 + a.length + 1 + op1.String.length + 1 + b.length + 1 + op2.String.length) hc rfl
    (Nat.ne_of_beq_eq_false rfl)
  have t5 := NextToken_between_end
    ([] ++ a ++ [32] ++ op1.String ++ [32] ++ b ++ [32] ++ op2.String ++ [32] ++ c) 1
    (1 + a.length + 1 + op1.String.length + 1 + b.length + 1 + op2.String.length + 1 +
      c.length)
  exact ⟨_, _, _, _, _, _, by rw [s0]; simp only [Lexer.take, t0, t1, t2, t3, t4, t5]; rfl⟩

/-! ## Precedence and associativity -/

theorem binaryOperator_rules (op : TokenType) (hop : op ∈ binaryOperators) :
    ∃ n, precedences op = some n ∧ 1 < n ∧ n < 8 ∧
      (∀ f r, infixParseFns f r op = some (parseInfixExpression r)) ∧
      op ≠ .SEMICOLON := by
  simp only [binaryOperators, List.mem_cons, List.mem_nil_iff, or_false] at hop
  rcases hop with rfl | rfl | rfl | rfl | rfl | rfl | rfl | rfl | rfl | rfl | rfl | rfl <;>
    exact ⟨_, rfl, by decide, by decide, fun _ _ => rfl, by decide⟩

/-- The level of an operator in `binaryLevels` is its entry in `precedences`, counted
from LOGICAL_OR. -/
theorem binaryLevels_precedence (i : Nat) (op : TokenType)
    (hop : op ∈ binaryLevels.getD i []) :
    precedences op = some (i + 2) ∧ op ∈ binaryOperators := by
  match i with
  | 0 | 1 | 2 | 3 | 4 | 5 =>
    simp only [binaryLevels, List.getD_cons_zero, List.getD_cons_succ, List.mem_cons,
      List.mem_nil_iff, or_false] at hop
    rcases hop with rfl | rfl | rfl | rfl <;> exact ⟨rfl, by decide⟩
  | n + 6 =>
    simp [binaryLevels] at hop


/-! ## The parser along the token stream -/

theorem parseFns_parseExpression (fuel : Nat) :
    (parseFns (fuel + 1)).parseExpression = parseExpressionStep (fuel + 1) (parseFns fuel) :=
  rfl

theorem parseFns_parseStatement (fuel : Nat) :
    (parseFns (fuel + 1)).parseStatement = parseStatementStep (fuel + 1) (parseFns fuel) :=
  rfl

theorem NewParser_atToken (l0 : Lexer) : NewParser l0 = Parser.atToken l0 0 [] := rfl

theorem Parser.nextToken_atToken (l0 : Lexer) (k : Nat) (errs : List GoString) :
    (Parser.atToken l0 k errs).nextToken = Parser.atToken l0 (k + 1) errs := rfl

theorem Parser.curToken_atToken (l0 : Lexer) (k : Nat) (errs : List GoString) :
    (Parser.atToken l0 k errs).curToken = Lexer.tokenAt k l0 := rfl

theorem Parser.peekToken_atToken (l0 : Lexer) (k : Nat) (errs : List GoString) :
    (Parser.atToken l0 k errs).peekToken = Lexer.tokenAt (k + 1) l0 := rfl

theorem Parser.errors_atToken (l0 : Lexer) (k : Nat) (errs : List GoString) :
    (Parser.atToken l0 k errs).errors = errs := rfl

theorem Parser.expectPeek_atToken_true (l0 : Lexer) (k : Nat) (errs : List GoString)
    (t : TokenType) (h : (Lexer.tokenAt (k + 1) l0).Typ = t) :
    (Parser.atToken l0 k errs).expectPeek t = (true, Parser.atToken l0 (k + 1) errs) := by
  simp only [Parser.expectPeek, Parser.peekTokenIs, Parser.peekToken_atToken, h,
    decide_True, if_true, Parser.nextToken_atToken]

theorem Parser.expectPeek_atToken_false (l0 : Lexer) (k : Nat) (errs : List GoString)
    (t : TokenType) (h : (Lexer.tokenAt (k + 1) l0).Typ ≠ t) :
    (Parser.atToken l0 k errs).expectPeek t =
      (false, Parser.atToken l0 k (errs ++
        [str "expected next token to be " ++ t.String ++ str ", got " ++
          (Lexer.tokenAt (k + 1) l0).Typ.String ++ str " instead"])) := by
  simp only [Parser.expectPeek, Parser.peekTokenIs, Parser.peekToken_atToken, h,
    decide_False, Bool.false_eq_true, if_false]
  rfl

/-- The loop of `parseExpression` stops before a token that does not bind tighter than
the bound. -/
theorem parseExpressionLoop_stop (lfuel : Nat) (r : ParseFns) (precedence fuel : Nat)
    (leftExp : Expression) (l0 : Lexer) (k : Nat) (errs : List GoString)
    (h : ¬ precedence < (Parser.atToken l0 k errs).peekPrecedence) :
    parseExpressionLoop lfuel r precedence (fuel + 1) leftExp (Parser.atToken l0 k errs) =
      some (leftExp, Parser.atToken l0 k errs) := by
  simp only [parseExpressionLoop, h, decide_False, Bool.and_false, Bool.false_eq_true,
    if_false]

/-- One round of the loop of `parseExpression` on a binary operator that binds tighter
than the bound: the right operand is parsed with the operator's precedence as bound. -/
theorem parseExpressionLoop_infix_step (lfuel : Nat) (r : ParseFns) (precedence fuel n : Nat)
    (leftExp right : Expression) (l0 : Lexer) (k : Nat) (errs : List GoString) (p : Parser)
    (hp : precedences (Lexer.tokenAt (k + 1) l0).Typ = some n)
    (hi : infixParseFns lfuel r (Lexer.tokenAt (k + 1) l0).Typ = some (parseInfixExpression r))
    (hs : (Lexer.tokenAt (k + 1) l0).Typ ≠ .SEMICOLON) (hlt : precedence < n)
    (hr : r.parseExpression n (Parser.atToken l0 (k + 2) errs) = some (right, p)) :
    parseExpressionLoop lfuel r precedence (fuel + 1) leftExp (Parser.atToken l0 k errs) =
      parseExpressionLoop lfuel r precedence fuel
        (Expression.InfixExpression (Lexer.tokenAt (k + 1) l0) leftExp
          (Lexer.tokenAt (k + 1) l0).Literal right) p := by
  simp only [parseExpressionLoop, Parser.peekTokenIs, Parser.peekPrecedence,
    Parser.peekToken_atToken, hp, hs, hi, hlt, decide_False, decide_True, Bool.not_false,
    Bool.and_self, if_true, parseInfixExpression, Parser.nextToken_atToken,
    Parser.curPrecedence, Parser.curToken_atToken, hr]

theorem peekPrecedence_of_some (l0 : Lexer) (k : Nat) (errs : List GoString) (n : Nat)
    (hp : precedences (Lexer.tokenAt (k + 1) l0).Typ = some n) :
    (Parser.atToken l0 k errs).peekPrecedence = n := by
  simp only [Parser.peekPrecedence, Parser.peekToken_atToken, hp]

theorem peekPrecedence_of_none (l0 : Lexer) (k : Nat) (errs : List GoString)
    (hp : precedences (Lexer.tokenAt (k + 1) l0).Typ = none) :
    (Parser.atToken l0 k errs).peekPrecedence = 1 := by
  simp only [Parser.peekPrecedence, Parser.peekToken_atToken, hp, LOWEST]

/-- An identifier before a token that does not bind tighter than the bound is the whole
expression. -/
theorem parseExpressionStep_identifier (fuel : Nat) (r : ParseFns) (precedence : Nat)
    (l0 : Lexer) (k : Nat) (errs : List GoString)
    (hk : (Lexer.tokenAt k l0).Typ = .IDENT)
    (h : ¬ precedence < (Parser.atToken l0 k errs).peekPrecedence) :
    parseExpressionStep (fuel + 1) r precedence (Parser.atToken l0 k errs) =
      some (Expression.Identifier (Lexer.tokenAt k l0) (Lexer.tokenAt k l0).Literal,
        Parser.atToken l0 k errs) := by
  simp only [parseExpressionStep, Parser.curToken_atToken, hk, prefixParseFns,
    parseIdentifier]
  exact parseExpressionLoop_stop _ _ _ _ _ _ _ _ h

/-- A program that is one expression statement: the expression is followed by the end of
the input. -/
theorem ParseProgramFuel_expression (fuel : Nat) (l0 : Lexer) (k : Nat) (e : Expression)
    (errs : List GoString)
    (h0 : prefixParseFns (parseFns fuel) (Lexer.tokenAt 0 l0).Typ ≠ none)
    (he : parseExpressionStep (fuel + 1) (parseFns fuel) LOWEST (Parser.atToken l0 0 []) =
      some (e, Parser.atToken l0 k errs))
    (hk : (Lexer.tokenAt (k + 1) l0).Typ = .EOF) :
    ParseProgramFuel (fuel + 2) (NewParser l0) =
      some (⟨[Statement.ExpressionStatement (Lexer.tokenAt 0 l0) e]⟩,
        Parser.atToken l0 (k + 1) errs) := by
  have hs : parseStatementStep (fuel + 2) (parseFns (fuel + 1)) (Parser.atToken l0 0 []) =
      some (Statement.ExpressionStatement (Lexer.tokenAt 0 l0) e,
        Parser.atToken l0 k errs) := by
    have hexp : parseExpressionStatement (parseFns (fuel + 1)) (Parser.atToken l0 0 []) =
        some (Statement.ExpressionStatement (Lexer.tokenAt 0 l0) e,
          Parser.atToken l0 k errs) := by
      simp only [parseExpressionStatement, parseFns_parseExpression, he, Parser.peekTokenIs,
        Parser.peekToken_atToken, hk, Parser.curToken_atToken]
      rfl
    unfold parseStatementStep
    rw [Parser.curToken_atToken]
    cases ht : (Lexer.tokenAt 0 l0).Typ <;>
      first
      | (rw [ht] at h0; exact absurd rfl h0)
      | exact hexp
  have h0' : (Lexer.tokenAt 0 l0).Typ ≠ .EOF := by
    intro ht; rw [ht] at h0; exact h0 rfl
  rw [NewParser_atToken]
  unfold ParseProgramFuel
  have e1 : fuel + 2 = (fuel + 1) + 1 := rfl
  have hloop : ParseProgramLoop (parseFns (fuel + 2)) (fuel + 2) [] (Parser.atToken l0 0 []) =
      some ([Statement.ExpressionStatement (Lexer.tokenAt 0 l0) e],
        Parser.atToken l0 (k + 1) errs) := by
    rw [e1, ParseProgramLoop]
    simp only [Parser.curToken_atToken, h0', ne_eq, not_false_eq_true, if_true]
    rw [parseFns_parseStatement, hs]
    simp only [Parser.nextToken_atToken, List.nil_append]
    rw [ParseProgramLoop]
    simp only [Parser.curToken_atToken, hk, ne_eq, not_true_eq_false, if_false]
  rw [hloop]

/-- Parsing of `a op1 b op2 c` when `op2` does not bind tighter than `op1`: the first
operator takes `b`. -/
theorem parse_infix_left (l0 : Lexer) (fuel n1 n2 : Nat) (op1 op2 : TokenType)
    (h1 : op1 ∈ binaryOperators) (h2 : op2 ∈ binaryOperators)
    (hp1 : precedences op1 = some n1) (hp2 : precedences op2 = some n2) (hle : n2 ≤ n1)
    (ht0 : (Lexer.tokenAt 0 l0).Typ = .IDENT) (ht1 : (Lexer.tokenAt 1 l0).Typ = op1)
    (ht2 : (Lexer.tokenAt 2 l0).Typ = .IDENT) (ht3 : (Lexer.tokenAt 3 l0).Typ = op2)
    (ht4 : (Lexer.tokenAt 4 l0).Typ = .IDENT) (ht5 : (Lexer.tokenAt 5 l0).Typ = .EOF) :
    ParseProgramFuel (fuel + 4) (NewParser l0) =
      some (⟨[Statement.ExpressionStatement (Lexer.tokenAt 0 l0)
        (Expression.InfixExpression (Lexer.tokenAt 3 l0)
          (Expression.InfixExpression (Lexer.tokenAt 1 l0)
            (Expression.Identifier (Lexer.tokenAt 0 l0) (Lexer.tokenAt 0 l0).Literal)
            (Lexer.tokenAt 1 l0).Literal
            (Expression.Identifier (Lexer.tokenAt 2 l0) (Lexer.tokenAt 2 l0).Literal))
          (Lexer.tokenAt 3 l0).Literal
          (Expression.Identifier (Lexer.tokenAt 4 l0) (Lexer.tokenAt 4 l0).Literal))]⟩,
        Parser.atToken l0 5 []) := by
  obtain ⟨m1, hm1, hl1, -, hi1, hs1⟩ := binaryOperator_rules op1 h1
  obtain ⟨m2, hm2, hl2, -, hi2, hs2⟩ := binaryOperator_rules op2 h2
  obtain rfl : m1 = n1 := Option.some.inj (hm1.symm.trans hp1)
  obtain rfl : m2 = n2 := Option.some.inj (hm2.symm.trans hp2)
  rw [← ht1] at hp1 hi1 hs1
  rw [← ht3] at hp2 hi2 hs2
  have hpe : precedences (Lexer.tokenAt 5 l0).Typ = none := by rw [ht5]; rfl
  have hb : (parseFns (fuel + 2)).parseExpression m1 (Parser.atToken l0 2 []) =
      some (Expression.Identifier (Lexer.tokenAt 2 l0) (Lexer.tokenAt 2 l0).Literal,
        Parser.atToken l0 2 []) := by
    rw [parseFns_parseExpression]
    apply parseExpressionStep_identifier _ _ _ _ _ _ ht2
    rw [peekPrecedence_of_some l0 2 [] m2 hp2]
    omega
  have hc : (parseFns (fuel + 2)).parseExpression m2 (Parser.atToken l0 4 []) =
      some (Expression.Identifier (Lexer.tokenAt 4 l0) (Lexer.tokenAt 4 l0).Literal,
        Parser.atToken l0 4 []) := by
    rw [parseFns_parseExpression]
    apply parseExpressionStep_identifier _ _ _ _ _ _ ht4
    rw [peekPrecedence_of_none l0 4 [] hpe]
    omega
  apply ParseProgramFuel_expression (fuel + 2) l0 4 _ []
  · rw [ht0]; exact fun h => Option.noConfusion h
  · simp only [parseExpressionStep, Parser.curToken_atToken, ht0, prefixParseFns,
      parseIdentifier]
    rw [parseExpressionLoop_infix_step _ _ LOWEST _ m1 _ _ l0 0 [] _ hp1 (hi1 _ _) hs1 hl1 hb,
      parseExpressionLoop_infix_step _ _ LOWEST _ m2 _ _ l0 2 [] _ hp2 (hi2 _ _) hs2 hl2 hc]
    apply parseExpressionLoop_stop
    rw [peekPrecedence_of_none l0 4 [] hpe]
    exact Nat.lt_irrefl 1
  · exact ht5

/-- Parsing of `a op1 b op2 c` when `op2` binds tighter than `op1`: the second operator
takes `b`. -/
theorem parse_infix_right (l0 : Lexer) (fuel n1 n2 : Nat) (op1 op2 : TokenType)
    (h1 : op1 ∈ binaryOperators) (h2 : op2 ∈ binaryOperators)
    (hp1 : precedences op1 = some n1) (hp2 : precedences op2 = some n2) (hlt : n1 < n2)
    (ht0 : (Lexer.tokenAt 0 l0).Typ = .IDENT) (ht1 : (Lexer.tokenAt 1 l0).Typ = op1)
    (ht2 : (Lexer.tokenAt 2 l0).Typ = .IDENT) (ht3 : (Lexer.tokenAt 3 l0).Typ = op2)
    (ht4 : (Lexer.tokenAt 4 l0).Typ = .IDENT) (ht5 : (Lexer.tokenAt 5 l0).Typ = .EOF) :
    ParseProgramFuel (fuel + 4) (NewParser l0) =
      some (⟨[Statement.ExpressionStatement (Lexer.tokenAt 0 l0)
        (Expression.InfixExpression (Lexer.tokenAt 1 l0)
          (Expression.Identifier (Lexer.tokenAt 0 l0) (Lexer.tokenAt 0 l0).Literal)
          (Lexer.tokenAt 1 l0).Literal
          (Expression.InfixExpression (Lexer.tokenAt 3 l0)
            (Expression.Identifier (Lexer.tokenAt 2 l0) (Lexer.tokenAt 2 l0).Literal)
            (Lexer.tokenAt 3 l0).Literal
            (Expression.Identifier (Lexer.tokenAt 4 l0) (Lexer.tokenAt 4 l0).Literal)))]⟩,
        Parser.atToken l0 5 []) := by
  obtain ⟨m1, hm1, hl1, -, hi1, hs1⟩ := binaryOperator_rules op1 h1
  obtain ⟨m2, hm2, hl2, -, hi2, hs2⟩ := binaryOperator_rules op2 h2
  obtain rfl : m1 = n1 := Option.some.inj (hm1.symm.trans hp1)
  obtain rfl : m2 = n2 := Option.some.inj (hm2.symm.trans hp2)
  rw [← ht1] at hp1 hi1 hs1
  rw [← ht3] at hp2 hi2 hs2
  have hpe : precedences (Lexer.tokenAt 5 l0).Typ = none := by rw [ht5]; rfl
  have hc : (parseFns (fuel + 1)).parseExpression m2 (Parser.atToken l0 4 []) =
      some (Expression.Identifier (Lexer.tokenAt 4 l0) (Lexer.tokenAt 4 l0).Literal,
        Parser.atToken l0 4 []) := by
    rw [parseFns_parseExpression]
    apply parseExpressionStep_identifier _ _ _ _ _ _ ht4
    rw [peekPrecedence_of_none l0 4 [] hpe]
    omega
  have hb : (parseFns (fuel + 2)).parseExpression m1 (Parser.atToken l0 2 []) =
      some (Expression.InfixExpression (Lexer.tokenAt 3 l0)
          (Expression.Identifier (Lexer.tokenAt 2 l0) (Lexer.tokenAt 2 l0).Literal)
          (Lexer.tokenAt 3 l0).Literal
          (Expression.Identifier (Lexer.tokenAt 4 l0) (Lexer.tokenAt 4 l0).Literal),
        Parser.atToken l0 4 []) := by
    rw [parseFns_parseExpression]
    simp only [parseExpressionStep, Parser.curToken_atToken, ht2, prefixParseFns,
      parseIdentifier]
    rw [parseExpressionLoop_infix_step _ _ _ _ m2 _ _ l0 2 [] _ hp2 (hi2 _ _) hs2 hlt hc]
    apply parseExpressionLoop_stop
    rw [peekPrecedence_of_none l0 4 [] hpe]
    omega
  apply ParseProgramFuel_expression (fuel + 2) l0 4 _ []
  · rw [ht0]; exact fun h => Option.noConfusion h
  · simp only [parseExpressionStep, Parser.curToken_atToken, ht0, prefixParseFns,
      parseIdentifier]
    rw [parseExpressionLoop_infix_step _ _ LOWEST _ m1 _ _ l0 0 [] _ hp1 (hi1 _ _) hs1 hl1 hb]
    apply parseExpressionLoop_stop
    rw [peekPrecedence_of_none l0 4 [] hpe]
    exact Nat.lt_irrefl 1
  · exact ht5

/-- The six tokens of the source `a op1 b op2 c`, one by one. -/
theorem tokens_infixSource (a b c : GoString) (op1 op2 : TokenType)
    (ha : isIdentifier a = true) (hb : isIdentifier b = true) (hc : isIdentifier c = true)
    (h1 : op1 ∈ binaryOperators) (h2 : op2 ∈ binaryOperators) :
    ∃ c1 c2 c3 c4 c5,
      Lexer.tokenAt 0 (New (infixSource a op1 b op2 c)) = ⟨.IDENT, a, 1, 1⟩ ∧
      Lexer.tokenAt 1 (New (infixSource a op1 b op2 c)) = ⟨op1, op1.String, 1, c1⟩ ∧
      Lexer.tokenAt 2 (New (infixSource a op1 b op2 c)) = ⟨.IDENT, b, 1, c2⟩ ∧
      Lexer.tokenAt 3 (New (infixSource a op1 b op2 c)) = ⟨op2, op2.String, 1, c3⟩ ∧
      Lexer.tokenAt 4 (New (infixSource a op1 b op2 c)) = ⟨.IDENT, c, 1, c4⟩ ∧
      Lexer.tokenAt 5 (New (infixSource a op1 b op2 c)) = ⟨.EOF, [], 1, c5⟩ := by
  obtain ⟨c1, c2, c3, c4, c5, l, h⟩ := take_infixSource a b c op1 op2 ha hb hc h1 h2
  rw [Lexer.take_eq] at h
  have hlist := (Prod.mk.inj h).1
  simp only [List.range_succ, List.range_zero, List.nil_append, List.cons_append,
    List.map_cons, List.map_nil, List.cons.injEq, and_true] at hlist
  exact ⟨c1, c2, c3, c4, c5, hlist⟩

theorem render_infix_left (t0 t1 t3 ta tb tc : Token) (a o1 b o2 c : GoString) :
    Program.String ⟨[Statement.ExpressionStatement t0
      (Expression.InfixExpression t3
        (Expression.InfixExpression t1 (Expression.Identifier ta a) o1
          (Expression.Identifier tb b)) o2 (Expression.Identifier tc c))]⟩ =
      some (str "((" ++ a ++ str " " ++ o1 ++ str " " ++ b ++ str ") " ++ o2 ++ str " " ++ c ++
        str ");") := by
  have e1 : str "((" = str "(" ++ str "(" := rfl
  have e2 : str ") " = str ")" ++ str " " := rfl
  have e3 : str ");" = str ")" ++ str ";" := rfl
  simp only [Program.String, Statement.StringAll, Statement.String, Expression.String, e1, e2,
    e3, List.append_assoc, List.append_nil]

theorem render_infix_right (t0 t1 t3 ta tb tc : Token) (a o1 b o2 c : GoString) :
    Program.String ⟨[Statement.ExpressionStatement t0
      (Expression.InfixExpression t1 (Expression.Identifier ta a) o1
        (Expression.InfixExpression t3 (Expression.Identifier tb b) o2
          (Expression.Identifier tc c)))]⟩ =
      some (str "(" ++ a ++ str " " ++ o1 ++ str " (" ++ b ++ str " " ++ o2 ++ str " " ++ c ++
        str "));") := by
  have e1 : str " (" = str " " ++ str "(" := rfl
  have e3 : str "));" = str ")" ++ (str ")" ++ str ";") := rfl
  simp only [Program.String, Statement.StringAll, Statement.String, Expression.String, e1,
    e3, List.append_assoc, List.append_nil]

/-- The source `a op1 b op2 c` when `op2` does not bind tighter than `op1`. -/
theorem parseAndRender_infix_left (a b c : GoString) (op1 op2 : TokenType) (n1 n2 : Nat)
    (ha : isIdentifier a = true) (hb : isIdentifier b = true) (hc : isIdentifier c = true)
    (h1 : op1 ∈ binaryOperators) (h2 : op2 ∈ binaryOperators)
    (hp1 : precedences op1 = some n1) (hp2 : precedences op2 = some n2) (hle : n2 ≤ n1) :
    parseAndRender (infixSource a op1 b op2 c) =
      some (some (str "((" ++ a ++ str " " ++ op1.String ++ str " " ++ b ++ str ") " ++
        op2.String ++ str " " ++ c ++ str ");"), []) := by
  obtain ⟨c1, c2, c3, c4, c5, t0, t1, t2, t3, t4, t5⟩ :=
    tokens_infixSource a b c op1 op2 ha hb hc h1 h2
  have hp := parse_infix_left (New (infixSource a op1 b op2 c))
    (2 * (NewParser (New (infixSource a op1 b op2 c))).l.input.length + 4) n1 n2 op1 op2
    h1 h2 hp1 hp2 hle (by rw [t0]) (by rw [t1]) (by rw [t2]) (by rw [t3]) (by rw [t4])
    (by rw [t5])
  have hp' : ParseProgram (NewParser (New (infixSource a op1 b op2 c))) = _ := hp
  unfold parseAndRender
  rw [hp']
  simp only [render_infix_left, t0, t1, t2, t3, t4, Parser.errors_atToken]

/-- The source `a op1 b op2 c` when `op2` binds tighter than `op1`. -/
theorem parseAndRender_infix_right (a b c : GoString) (op1 op2 : TokenType) (n1 n2 : Nat)
    (ha : isIdentifier a = true) (hb : isIdentifier b = true) (hc : isIdentifier c = true)
    (h1 : op1 ∈ binaryOperators) (h2 : op2 ∈ binaryOperators)
    (hp1 : precedences op1 = some n1) (hp2 : precedences op2 = some n2) (hlt : n1 < n2) :
    parseAndRender (infixSource a op1 b op2 c) =
      some (some (str "(" ++ a ++ str " " ++ op1.String ++ str " (" ++ b ++ str " " ++
        op2.String ++ str " " ++ c ++ str "));"), []) := by
  obtain ⟨c1, c2, c3, c4, c5, t0, t1, t2, t3, t4, t5⟩ :=
    tokens_infixSource a b c op1 op2 ha hb hc h1 h2
  have hp := parse_infix_right (New (infixSource a op1 b op2 c))
    (2 * (NewParser (New (infixSource a op1 b op2 c))).l.input.length + 4) n1 n2 op1 op2
    h1 h2 hp1 hp2 hlt (by rw [t0]) (by rw [t1]) (by rw [t2]) (by rw [t3]) (by rw [t4])
    (by rw [t5])
  have hp' : ParseProgram (NewParser (New (infixSource a op1 b op2 c))) = _ := hp
  unfold parseAndRender
  rw [hp']
  simp only [render_infix_right, t0, t1, t2, t3, t4, Parser.errors_atToken]

/-- C22. Binary operators are left-associative: for two binary operators `op1` and `op2`
of one level of `binaryLevels` and identifiers `a`, `b`, `c`, the source `a op1 b op2 c`
parses without errors and renders as `((a op1 b) op2 c);`. -/
theorem binary_operators_are_left_associative :
    ∀ level ∈ binaryLevels, ∀ op1 ∈ level, ∀ op2 ∈ level, ∀ a b c : GoString,
      isIdentifier a = true → isIdentifier b = true → isIdentifier c = true →
      parseAndRender (infixSource a op1 b op2 c) =
        some (some (str "((" ++ a ++ str " " ++ op1.String ++ str " " ++ b ++ str ") " ++
          op2.String ++ str " " ++ c ++ str ");"), []) := by
  intro level hlevel op1 h1 op2 h2 a b c ha hb hc
  obtain ⟨i, hi, rfl⟩ := List.getElem_of_mem hlevel
  have hget : binaryLevels.getD i [] = binaryLevels[i] := by
    rw [List.getD_eq_getElem?_getD, List.getElem?_eq_getElem hi]
    rfl
  rw [← hget] at h1 h2
  obtain ⟨hp1, hb1⟩ := binaryLevels_precedence i op1 h1
  obtain ⟨hp2, hb2⟩ := binaryLevels_precedence i op2 h2
  exact parseAndRender_infix_left a b c op1 op2 _ _ ha hb hc hb1 hb2 hp1 hp2 (Nat.le_refl _)

theorem binary_operators_are_left_associative_witness :
    parseAndRender (str "a + b + c") = some (some (str "((a + b) + c);"), []) :=
  binary_operators_are_left_associative [.PLUS, .MINUS] (by decide) .PLUS (by decide) .PLUS
    (by decide) (str "a") (str "b") (str "c") rfl rfl rfl

/-- C23. Higher precedence binds tighter: for a binary operator `op1` and a binary operator
`op2` of a higher level of `binaryLevels`, and identifiers `a`, `b`, `c`, the source
`a op1 b op2 c` parses without errors and renders as `(a op1 (b op2 c));`, and the source
`a op2 b op1 c` as `((a op2 b) op1 c);`. With the keywords `true` and `false` as operands,
`true && false || true` renders as `((true && false) || true);`. -/
theorem higher_precedence_binds_tighter :
    (∀ i j : Nat, i < j → ∀ op1 ∈ binaryLevels.getD i [], ∀ op2 ∈ binaryLevels.getD j [],
      ∀ a b c : GoString,
        isIdentifier a = true → isIdentifier b = true → isIdentifier c = true →
        parseAndRender (infixSource a op1 b op2 c) =
          some (some (str "(" ++ a ++ str " " ++ op1.String ++ str " (" ++ b ++ str " " ++
            op2.String ++ str " " ++ c ++ str "));"), []) ∧
        parseAndRender (infixSource a op2 b op1 c) =
          some (some (str "((" ++ a ++ str " " ++ op2.String ++ str " " ++ b ++ str ") " ++
            op1.String ++ str " " ++ c ++ str ");"), [])) ∧
    parseAndRender (str "true && false || true") =
      some (some (str "((true && false) || true);"), []) := by
  refine ⟨?_, by decide⟩
  intro i j hij op1 h1 op2 h2 a b c ha hb hc
  obtain ⟨hp1, hb1⟩ := binaryLevels_precedence i op1 h1
  obtain ⟨hp2, hb2⟩ := binaryLevels_precedence j op2 h2
  exact ⟨parseAndRender_infix_right a b c op1 op2 _ _ ha hb hc hb1 hb2 hp1 hp2 (by omega),
    parseAndRender_infix_left a b c op2 op1 _ _ ha hb hc hb2 hb1 hp2 hp1 (by omega)⟩

theorem higher_precedence_binds_tighter_witness :
    parseAndRender (str "a + b / c") = some (some (str "(a + (b / c));"), []) ∧
    parseAndRender (str "a / b + c") = some (some (str "((a / b) + c);"), []) :=
  higher_precedence_binds_tighter.1 4 5 (by decide) .PLUS (by decide) .DIVIDE (by decide)
    (str "a") (str "b") (str "c") rfl rfl rfl

theorem NextToken_minus (inp : GoString) (p rp line col : Nat) :
    Lexer.NextToken ⟨inp, p, rp, 45, line, col⟩ =
      (⟨.MINUS, [45], line, col⟩, Lexer.readChar ⟨inp, p, rp, 45, line, col⟩) := rfl

theorem NextToken_bang (inp : GoString) (p rp line col : Nat)
    (h : Lexer.peekChar ⟨inp, p, rp, 33, line, col⟩ ≠ 61) :
    Lexer.NextToken ⟨inp, p, rp, 33, line, col⟩ =
      (⟨.NOT, [33], line, col⟩, Lexer.readChar ⟨inp, p, rp, 33, line, col⟩) := by
  have e : Lexer.NextToken ⟨inp, p, rp, 33, line, col⟩ =
      Lexer.twoCharToken ⟨inp, p, rp, 33, line, col⟩ 61 .NOT_EQ .NOT line col := rfl
  rw [e, Lexer.twoCharToken, if_neg h]
  rfl

theorem peekChar_front (c : Nat) (post : GoString) (p ch line col : Nat) :
    Lexer.peekChar ⟨c :: post, p, 1, ch, line, col⟩ = post.getD 0 0 := by
  cases post <;> rfl

/-- A prefix operator read from the front of a text, when the next byte is neither `=`
nor a line feed. -/
theorem NextToken_prefix_front (p : TokenType) (hp : p ∈ prefixOperators) (post : GoString)
    (h61 : post.getD 0 0 ≠ 61) (h10 : post.getD 0 0 ≠ 10) (line col : Nat) :
    (p.String ++ post).getD 0 0 ≠ 10 ∧
    Lexer.NextToken ⟨p.String ++ post, 0, 1, (p.String ++ post).getD 0 0, line, col⟩ =
      (⟨p, p.String, line, col⟩,
        ⟨p.String ++ post, p.String.length, p.String.length + 1, post.getD 0 0,
          line, col + 1⟩) := by
  simp only [prefixOperators, List.mem_cons, List.mem_nil_iff, or_false] at hp
  rcases hp with rfl | rfl
  · refine ⟨Nat.ne_of_beq_eq_false rfl, ?_⟩
    show Lexer.NextToken ⟨33 :: post, 0, 1, 33, line, col⟩ = _
    rw [NextToken_bang _ _ _ _ _ (by rw [peekChar_front]; exact h61),
      readChar_mk (33 :: post) 0 1 33 line col (post.getD 0 0) rfl h10]
    rfl
  · refine ⟨Nat.ne_of_beq_eq_false rfl, ?_⟩
    show Lexer.NextToken ⟨45 :: post, 0, 1, 45, line, col⟩ = _
    rw [NextToken_minus, readChar_mk (45 :: post) 0 1 45 line col (post.getD 0 0) rfl h10]
    rfl

theorem isLetter_ne_equals (x : Nat) (hx : isLetter x = true) : x ≠ 61 := by
  intro h; subst h; simp [isLetter] at hx

/-- The five tokens of the source `pa op b`. -/
theorem tokens_prefixSource (a b : GoString) (p op : TokenType)
    (ha : isIdentifier a = true) (hb : isIdentifier b = true)
    (hp : p ∈ prefixOperators) (hop : op ∈ binaryOperators) :
    ∃ c1 c2 c3 c4,
      Lexer.tokenAt 0 (New (prefixSource p a op b)) = ⟨p, p.String, 1, 1⟩ ∧
      Lexer.tokenAt 1 (New (prefixSource p a op b)) = ⟨.IDENT, a, 1, c1⟩ ∧
      Lexer.tokenAt 2 (New (prefixSource p a op b)) = ⟨op, op.String, 1, c2⟩ ∧
      Lexer.tokenAt 3 (New (prefixSource p a op b)) = ⟨.IDENT, b, 1, c3⟩ ∧
      Lexer.tokenAt 4 (New (prefixSource p a op b)) = ⟨.EOF, [], 1, c4⟩ := by
  have hhead : (a ++ 32 :: (op.String ++ 32 :: (b ++ []))).getD 0 0 ≠ 10 ∧
      (a ++ 32 :: (op.String ++ 32 :: (b ++ []))).getD 0 0 ≠ 61 := by
    obtain ⟨x, xs, rfl, hx, -, -⟩ := isIdentifier_cons a ha
    exact ⟨isLetter_ne_newline x hx, isLetter_ne_equals x hx⟩
  obtain ⟨h10, hfront⟩ := NextToken_prefix_front p hp
    (a ++ 32 :: (op.String ++ 32 :: (b ++ []))) hhead.2 hhead.1 1 1
  have s0 : New (prefixSource p a op b) =
      Lexer.between [] (p.String ++ (a ++ 32 :: (op.String ++ 32 :: (b ++ [])))) 1 1 := by
    have e : prefixSource p a op b =
        p.String ++ (a ++ 32 :: (op.String ++ 32 :: (b ++ []))) := by
      rw [List.append_nil]
      rfl
    rw [e]
    exact New_between _ h10
  have t0 := Lexer.NextToken_between [] p.String
    (a ++ 32 :: (op.String ++ 32 :: (b ++ []))) _ 1 1 1 (1 + 1) _ rfl hfront
  have t1 := NextToken_identifier a ([] ++ p.String)
    (32 :: (op.String ++ 32 :: (b ++ []))) 1 (1 + 1) ha rfl (space_ne_newline _)
  have t2 := NextToken_space_operator op hop ([] ++ p.String ++ a) (b ++ []) 1
    (1 + 1 + a.length)
  have t3 := NextToken_space_identifier b ([] ++ p.String ++ a ++ [32] ++ op.String) [] 1
    (1 + 1 + a.length + 1 + op.String.length) hb rfl (Nat.ne_of_beq_eq_false rfl)
  have t4 := NextToken_between_end
    ([] ++ p.String ++ a ++ [32] ++ op.String ++ [32] ++ b) 1
    (1 + 1 + a.length + 1 + op.String.length + 1 + b.length)
  have h : ∃ c1 c2 c3 c4 l, Lexer.take 5 (New (prefixSource p a op b)) =
      ([⟨p, p.String, 1, 1⟩, ⟨.IDENT, a, 1, c1⟩, ⟨op, op.String, 1, c2⟩,
        ⟨.IDENT, b, 1, c3⟩, ⟨.EOF, [], 1, c4⟩], l) :=
    ⟨_, _, _, _, _, by rw [s0]; simp only [Lexer.take, t0, t1, t2, t3, t4]; rfl⟩
  obtain ⟨c1, c2, c3, c4, l, h⟩ := h
  rw [Lexer.take_eq] at h
  have hlist := (Prod.mk.inj h).1
  simp only [List.range_succ, List.range_zero, List.nil_append, List.cons_append,
    List.map_cons, List.map_nil, List.cons.injEq, and_true] at hlist
  exact ⟨_, _, _, _, hlist⟩

/-- Parsing of `pa op b`: the prefix operator takes `a` alone. -/
theorem parse_prefix_infix_source (l0 : Lexer) (fuel : Nat) (p op : TokenType)
    (hp : p ∈ prefixOperators) (hop : op ∈ binaryOperators)
    (ht0 : (Lexer.tokenAt 0 l0).Typ = p) (ht1 : (Lexer.tokenAt 1 l0).Typ = .IDENT)
    (ht2 : (Lexer.tokenAt 2 l0).Typ = op) (ht3 : (Lexer.tokenAt 3 l0).Typ = .IDENT)
    (ht4 : (Lexer.tokenAt 4 l0).Typ = .EOF) :
    ParseProgramFuel (fuel + 4) (NewParser l0) =
      some (⟨[Statement.ExpressionStatement (Lexer.tokenAt 0 l0)
        (Expression.InfixExpression (Lexer.tokenAt 2 l0)
          (Expression.PrefixExpression (Lexer.tokenAt 0 l0) (Lexer.tokenAt 0 l0).Literal
            (Expression.Identifier (Lexer.tokenAt 1 l0) (Lexer.tokenAt 1 l0).Literal))
          (Lexer.tokenAt 2 l0).Literal
          (Expression.Identifier (Lexer.tokenAt 3 l0) (Lexer.tokenAt 3 l0).Literal))]⟩,
        Parser.atToken l0 4 []) := by
  obtain ⟨n, hn, hl, hu, hi, hs⟩ := binaryOperator_rules op hop
  rw [← ht2] at hn hi hs
  have hpe : precedences (Lexer.tokenAt 4 l0).Typ = none := by rw [ht4]; rfl
  have hpre : ∀ r, prefixParseFns r (Lexer.tokenAt 0 l0).Typ = some (parsePrefixExpression r) := by
    intro r
    rw [ht0]
    simp only [prefixOperators, List.mem_cons, List.mem_nil_iff, or_false] at hp
    rcases hp with rfl | rfl <;> rfl
  have ha : (parseFns (fuel + 2)).parseExpression PREFIX (Parser.atToken l0 1 []) =
      some (Expression.Identifier (Lexer.tokenAt 1 l0) (Lexer.tokenAt 1 l0).Literal,
        Parser.atToken l0 1 []) := by
    rw [parseFns_parseExpression]
    apply parseExpressionStep_identifier _ _ _ _ _ _ ht1
    rw [peekPrecedence_of_some l0 1 [] n hn]
    show ¬ 8 < n
    omega
  have hb : (parseFns (fuel + 2)).parseExpression n (Parser.atToken l0 3 []) =
      some (Expression.Identifier (Lexer.tokenAt 3 l0) (Lexer.tokenAt 3 l0).Literal,
        Parser.atToken l0 3 []) := by
    rw [parseFns_parseExpression]
    apply parseExpressionStep_identifier _ _ _ _ _ _ ht3
    rw [peekPrecedence_of_none l0 3 [] hpe]
    omega
  apply ParseProgramFuel_expression (fuel + 2) l0 3 _ []
  · rw [hpre]; exact fun h => Option.noConfusion h
  · simp only [parseExpressionStep, Parser.curToken_atToken, hpre, parsePrefixExpression,
      Parser.nextToken_atToken, ha]
    rw [parseExpressionLoop_infix_step _ _ LOWEST _ n _ _ l0 1 [] _ hn (hi _ _) hs hl hb]
    apply parseExpressionLoop_stop
    rw [peekPrecedence_of_none l0 3 [] hpe]
    exact Nat.lt_irrefl 1
  · exact ht4

theorem render_prefix_infix_text (t0 t1 t2 ta tb : Token) (p a o b : GoString) :
    Program.String ⟨[Statement.ExpressionStatement t0
      (Expression.InfixExpression t2
        (Expression.PrefixExpression t1 p (Expression.Identifier ta a)) o
        (Expression.Identifier tb b))]⟩ =
      some (str "((" ++ p ++ a ++ str ") " ++ o ++ str " " ++ b ++ str ");") := by
  have e1 : str "((" = str "(" ++ str "(" := rfl
  have e2 : str ") " = str ")" ++ str " " := rfl
  have e3 : str ");" = str ")" ++ str ";" := rfl
  simp only [Program.String, Statement.StringAll, Statement.String, Expression.String, e1, e2,
    e3, List.append_assoc, List.append_nil]

/-- C24. A prefix operator binds tighter than every binary operator: for a prefix operator
`p`, a binary operator `op` and identifiers `a`, `b`, the source `pa op b` parses without
errors and renders as `((pa) op b);`; and `!-a` renders as `(!(-a));`. -/
theorem prefix_operator_binds_tighter :
    (∀ p ∈ prefixOperators, ∀ op ∈ binaryOperators, ∀ a b : GoString,
      isIdentifier a = true → isIdentifier b = true →
      parseAndRender (prefixSource p a op b) =
        some (some (str "((" ++ p.String ++ a ++ str ") " ++ op.String ++ str " " ++ b ++
          str ");"), [])) ∧
    parseAndRender (str "!-a") = some (some (str "(!(-a));"), []) := by
  refine ⟨?_, by decide⟩
  intro p hp op hop a b ha hb
  obtain ⟨c1, c2, c3, c4, t0, t1, t2, t3, t4⟩ := tokens_prefixSource a b p op ha hb hp hop
  have hparse := parse_prefix_infix_source (New (prefixSource p a op b))
    (2 * (NewParser (New (prefixSource p a op b))).l.input.length + 4) p op hp hop
    (by rw [t0]) (by rw [t1]) (by rw [t2]) (by rw [t3]) (by rw [t4])
  have hparse' : ParseProgram (NewParser (New (prefixSource p a op b))) = _ := hparse
  unfold parseAndRender
  rw [hparse']
  simp only [render_prefix_infix_text, t0, t1, t2, t3, Parser.errors_atToken]

theorem prefix_operator_binds_tighter_witness :
    parseAndRender (str "-a * b") = some (some (str "((-a) * b);"), []) :=
  prefix_operator_binds_tighter.1 .MINUS (by decide) .MULTIPLY (by decide) (str "a") (str "b")
    rfl rfl

/-! ## Integer literals -/

/-- A number: the token is the run of digits, and the lexer stands behind it. -/
theorem NextToken_number (ds pre post : GoString) (d line col : Nat)
    (hd : isDigit d = true) (hds : ∀ x ∈ ds, isDigit x = true)
    (hpost : isDigit (post.getD 0 0) = false) (h10 : post.getD 0 0 ≠ 10) :
    (Lexer.between pre (d :: ds ++ post) line col).NextToken =
      (⟨.INT, d :: ds, line, col⟩,
        Lexer.between (pre ++ d :: ds) post line (col + ds.length + 1)) := by
  have hform : Lexer.between pre (d :: ds ++ post) line col =
      ⟨pre ++ d :: (ds ++ post), pre.length, pre.length + 1, d, line, col⟩ := rfl
  rw [hform, NextToken_digits ds pre post d line col hd hds hpost h10]
  simp only [Lexer.between, List.append_assoc, List.cons_append, List.length_append,
    List.length_cons, Prod.mk.injEq, Lexer.mk.injEq, true_and, and_true]
  omega

theorem NextToken_semicolon_front (post : GoString) (h10 : post.getD 0 0 ≠ 10)
    (line col : Nat) :
    Lexer.NextToken ⟨[59] ++ post, 0, 1, 59, line, col⟩ =
      (⟨.SEMICOLON, [59], line, col⟩,
        ⟨[59] ++ post, 1, 2, post.getD 0 0, line, col + 1⟩) := by
  have e : Lexer.NextToken ⟨[59] ++ post, 0, 1, 59, line, col⟩ =
      (⟨.SEMICOLON, [59], line, col⟩, Lexer.readChar ⟨[59] ++ post, 0, 1, 59, line, col⟩) :=
    rfl
  rw [e, readChar_mk ([59] ++ post) 0 1 59 line col (post.getD 0 0) rfl h10]

/-- The three tokens of the source `d;` for a run of digits `d`. -/
theorem tokens_integerSource (d : Nat) (ds : GoString)
    (hd : isDigit d = true) (hds : ∀ x ∈ ds, isDigit x = true) :
    ∃ c1 c2,
      Lexer.tokenAt 0 (New (d :: ds ++ str ";")) = ⟨.INT, d :: ds, 1, 1⟩ ∧
      Lexer.tokenAt 1 (New (d :: ds ++ str ";")) = ⟨.SEMICOLON, str ";", 1, c1⟩ ∧
      Lexer.tokenAt 2 (New (d :: ds ++ str ";")) = ⟨.EOF, [], 1, c2⟩ := by
  have hd10 : (d :: ds ++ [59]).getD 0 0 ≠ 10 := by
    intro h
    have h' : d = 10 := h
    subst h'
    simp [isDigit] at hd
  have s0 : New (d :: ds ++ str ";") = Lexer.between [] (d :: ds ++ [59]) 1 1 :=
    New_between _ hd10
  have t0 := NextToken_number ds [] [59] d 1 1 hd hds rfl (Nat.ne_of_beq_eq_false rfl)
  have t1 : (Lexer.between ([] ++ d :: ds) [59] 1 (1 + ds.length + 1)).NextToken =
      (⟨.SEMICOLON, [59], 1, 1 + ds.length + 1⟩,
        Lexer.between ([] ++ d :: ds ++ [59]) [] 1 (1 + ds.length + 1 + 1)) :=
    Lexer.NextToken_between ([] ++ d :: ds) [59] [] 59 1 (1 + ds.length + 1) 1
      (1 + ds.length + 1 + 1) _ rfl
      (NextToken_semicolon_front [] (Nat.ne_of_beq_eq_false rfl) 1 (1 + ds.length + 1))
  have t2 := NextToken_between_end ([] ++ d :: ds ++ [59]) 1 (1 + ds.length + 1 + 1)
  have h : ∃ c1 c2 l, Lexer.take 3 (New (d :: ds ++ str ";")) =
      ([⟨.INT, d :: ds, 1, 1⟩, ⟨.SEMICOLON, str ";", 1, c1⟩, ⟨.EOF, [], 1, c2⟩], l) :=
    ⟨_, _, _, by rw [s0]; simp only [Lexer.take, t0, t1, t2]; rfl⟩
  obtain ⟨c1, c2, l, h⟩ := h
  rw [Lexer.take_eq] at h
  have hlist := (Prod.mk.inj h).1
  simp only [List.range_succ, List.range_zero, List.nil_append, List.cons_append,
    List.map_cons, List.map_nil, List.cons.injEq, and_true] at hlist
  exact ⟨_, _, hlist⟩

/-- A program that is one expression statement closed by a semicolon. -/
theorem ParseProgramFuel_expression_semicolon (fuel : Nat) (l0 : Lexer) (k : Nat)
    (e : Expression) (errs : List GoString)
    (h0 : prefixParseFns (parseFns fuel) (Lexer.tokenAt 0 l0).Typ ≠ none)
    (he : parseExpressionStep (fuel + 1) (parseFns fuel) LOWEST (Parser.atToken l0 0 []) =
      some (e, Parser.atToken l0 k errs))
    (hk : (Lexer.tokenAt (k + 1) l0).Typ = .SEMICOLON)
    (hk2 : (Lexer.tokenAt (k + 2) l0).Typ = .EOF) :
    ParseProgramFuel (fuel + 2) (NewParser l0) =
      some (⟨[Statement.ExpressionStatement (Lexer.tokenAt 0 l0) e]⟩,
        Parser.atToken l0 (k + 2) errs) := by
  have hs : parseStatementStep (fuel + 2) (parseFns (fuel + 1)) (Parser.atToken l0 0 []) =
      some (Statement.ExpressionStatement (Lexer.tokenAt 0 l0) e,
        Parser.atToken l0 (k + 1) errs) := by
    have hexp : parseExpressionStatement (parseFns (fuel + 1)) (Parser.atToken l0 0 []) =
        some (Statement.ExpressionStatement (Lexer.tokenAt 0 l0) e,
          Parser.atToken l0 (k + 1) errs) := by
      simp only [parseExpressionStatement, parseFns_parseExpression, he, Parser.peekTokenIs,
        Parser.peekToken_atToken, hk, Parser.curToken_atToken, Parser.nextToken_atToken]
      rfl
    unfold parseStatementStep
    rw [Parser.curToken_atToken]
    cases ht : (Lexer.tokenAt 0 l0).Typ <;>
      first
      | (rw [ht] at h0; exact absurd rfl h0)
      | exact hexp
  have h0' : (Lexer.tokenAt 0 l0).Typ ≠ .EOF := by
    intro ht; rw [ht] at h0; exact h0 rfl
  rw [NewParser_atToken]
  unfold ParseProgramFuel
  have e1 : fuel + 2 = (fuel + 1) + 1 := rfl
  have hloop : ParseProgramLoop (parseFns (fuel + 2)) (fuel + 2) [] (Parser.atToken l0 0 []) =
      some ([Statement.ExpressionStatement (Lexer.tokenAt 0 l0) e],
        Parser.atToken l0 (k + 2) errs) := by
    rw [e1, ParseProgramLoop]
    simp only [Parser.curToken_atToken, h0', ne_eq, not_false_eq_true, if_true]
    rw [parseFns_parseStatement, hs]
    simp only [Parser.nextToken_atToken, List.nil_append]
    rw [ParseProgramLoop]
    simp only [Parser.curToken_atToken, hk2, ne_eq, not_true_eq_false, if_false]
  rw [hloop]

/-- An integer literal that `ParseInt` reads, before a token that does not bind tighter
than the bound, is the whole expression. -/
theorem parseExpressionStep_integer (fuel : Nat) (r : ParseFns) (precedence : Nat)
    (l0 : Lexer) (k : Nat) (errs : List GoString) (v : Int)
    (hk : (Lexer.tokenAt k l0).Typ = .INT)
    (hv : ParseInt (Lexer.tokenAt k l0).Literal = some v)
    (h : ¬ precedence < (Parser.atToken l0 k errs).peekPrecedence) :
    parseExpressionStep (fuel + 1) r precedence (Parser.atToken l0 k errs) =
      some (Expression.IntegerLiteral (Lexer.tokenAt k l0) v, Parser.atToken l0 k errs) := by
  simp only [parseExpressionStep, Parser.curToken_atToken, hk, prefixParseFns,
    parseIntegerLiteral, hv]
  exact parseExpressionLoop_stop _ _ _ _ _ _ _ _ h

/-- C25, as stated, fails: the literal `010` is read in base 8, so the source `010;`
holds an IntegerLiteral of value 8, while the base-10 value of `010` is 10. -/
theorem leading_zero_literal_is_read_in_base_eight :
    (ParseProgram (NewParser (New (str "010;")))).map
        (fun r => (r.1.Statements, r.2.errors)) =
      some ([Statement.ExpressionStatement ⟨.INT, str "010", 1, 1⟩
        (Expression.IntegerLiteral ⟨.INT, str "010", 1, 1⟩ 8)], []) ∧
    decimalValue (str "010") = 10 :=
  ⟨rfl, rfl⟩

/-- C25, amended. Integer literals without a leading zero are read in radix 10: for every
non-empty run of ASCII digits `d` that does not start with `0`, or is `0` itself, and
whose base-10 value `v` is at most `2^63 - 1`, parsing the source `d;` produces no errors
and a single expression statement holding an IntegerLiteral whose value is `v` and whose
token is an INT token with the literal `d`. -/
theorem integer_literal_is_decimal (d : Nat) (ds : GoString)
    (hdigits : ∀ x ∈ d :: ds, isDigit x = true) (hlead : d = 48 → ds = [])
    (hrange : decimalValue (d :: ds) ≤ 2 ^ 63 - 1) :
    ∃ tok p, ParseProgram (NewParser (New (d :: ds ++ str ";"))) =
      some (⟨[Statement.ExpressionStatement tok
        (Expression.IntegerLiteral tok (decimalValue (d :: ds) : Int))]⟩, p) ∧
      tok.Typ = .INT ∧ tok.Literal = d :: ds ∧ p.errors = [] := by
  obtain ⟨c1, c2, t0, t1, t2⟩ := tokens_integerSource d ds
    (hdigits d (List.mem_cons_self _ _)) (fun x hx => hdigits x (List.mem_cons_of_mem _ hx))
  have hv := ParseInt_decimal d ds hdigits hlead hrange
  have hps : precedences (Lexer.tokenAt 1 (New (d :: ds ++ str ";"))).Typ = none := by
    rw [t1]; rfl
  have hp := ParseProgramFuel_expression_semicolon
    (2 * (NewParser (New (d :: ds ++ str ";"))).l.input.length + 6) (New (d :: ds ++ str ";"))
    0 (Expression.IntegerLiteral (Lexer.tokenAt 0 (New (d :: ds ++ str ";")))
      (decimalValue (d :: ds) : Int)) []
    (by rw [t0]; exact fun h => Option.noConfusion h)
    (by
      apply parseExpressionStep_integer _ _ _ _ _ _ _ (by rw [t0]) (by rw [t0]; exact hv)
      rw [peekPrecedence_of_none _ 0 [] hps]
      exact Nat.lt_irrefl 1)
    (by rw [t1]) (by rw [t2])
  have hp' : ParseProgram (NewParser (New (d :: ds ++ str ";"))) = _ := hp
  exact ⟨_, _, hp', by rw [t0], by rw [t0], rfl⟩

theorem integer_literal_is_decimal_witness :
    ∃ tok p, ParseProgram (NewParser (New (str "5;"))) =
      some (⟨[Statement.ExpressionStatement tok (Expression.IntegerLiteral tok 5)]⟩, p) ∧
      tok.Typ = .INT ∧ tok.Literal = str "5" ∧ p.errors = [] :=
  integer_literal_is_decimal 53 [] (by decide) (by decide) (by decide)


/-! ## Blocks that are never closed -/

/-- C28. The code does not report a block that is never closed: the sources
`if (x) { y`, `func f() { y` and `if (x) { y } else { z` are parsed with an empty error
list, into statements whose blocks hold what stands before the end of the input. -/
theorem unclosed_block_is_not_reported :
    parseAndRender (str "if (x) \x7b y") = some (some (str "if (x) \x7b y; \x7d"), []) ∧
    parseAndRender (str "func f() \x7b y") = some (some (str "func f() \x7b y; \x7d"), []) ∧
    parseAndRender (str "if (x) \x7b y \x7d else \x7b z") =
      some (some (str "if (x) \x7b y; \x7d else \x7b z; \x7d"), []) := by
  decide

/-! ## The lexer as a reader of bytes -/

theorem Lexer.readChars_succ (n : Nat) (l : Lexer) :
    Lexer.readChars (n + 1) l = Lexer.readChars n l.readChar := rfl

theorem Lexer.readChars_add :
    ∀ (m n : Nat) (l : Lexer),
      Lexer.readChars (m + n) l = Lexer.readChars n (Lexer.readChars m l) := by
  intro m
  induction m with
  | zero => intro n l; rw [Nat.zero_add]; rfl
  | succ m ih =>
    intro n l
    have e : m + 1 + n = (m + n) + 1 := by omega
    rw [e, Lexer.readChars_succ, ih, Lexer.readChars_succ]

theorem Lexer.readChars_succ_last (n : Nat) (l : Lexer) :
    Lexer.readChars (n + 1) l = (Lexer.readChars n l).readChar := by
  rw [Lexer.readChars_add n 1 l]
  rfl

theorem Lexer.readChars_wf : ∀ (n : Nat) (l : Lexer), l.wf → (Lexer.readChars n l).wf := by
  intro n
  induction n with
  | zero => intro l h; exact h
  | succ n ih => intro l _; exact ih _ (Lexer.wf_readChar l)

theorem Lexer.readChars_input :
    ∀ (n : Nat) (l : Lexer), (Lexer.readChars n l).input = l.input := by
  intro n
  induction n with
  | zero => intro l; rfl
  | succ n ih => intro l; rw [Lexer.readChars_succ, ih, Lexer.readChar_input]

theorem Lexer.readChars_position :
    ∀ (n : Nat) (l : Lexer), l.wf → (Lexer.readChars n l).position = l.position + n := by
  intro n
  induction n with
  | zero => intro l _; rfl
  | succ n ih =>
    intro l h
    rw [Lexer.readChars_succ, ih _ (Lexer.wf_readChar l), Lexer.readChar_position, h.1]
    omega

/-- Every loop of the lexer is a number of calls of `readChar`. -/
theorem Lexer.whileLoop_readChars (c : Nat → Bool) :
    ∀ (fuel : Nat) (l : Lexer), ∃ m, m ≤ fuel ∧ (c l.ch = true → 0 < fuel → 0 < m) ∧
      Lexer.whileLoop c fuel l = Lexer.readChars m l := by
  intro fuel
  induction fuel with
  | zero => intro l; exact ⟨0, Nat.le_refl _, fun _ h => absurd h (Nat.lt_irrefl 0), rfl⟩
  | succ f ih =>
    intro l
    by_cases hc : c l.ch = true
    · obtain ⟨m, hm, -, h⟩ := ih l.readChar
      refine ⟨m + 1, by omega, fun _ _ => by omega, ?_⟩
      simp only [Lexer.whileLoop, hc, if_true, h, Lexer.readChars_succ]
    · refine ⟨0, by omega, fun h => absurd h hc, ?_⟩
      simp only [Lexer.whileLoop, hc, Bool.false_eq_true, if_false]
      rfl

theorem Lexer.readStringLoop_readChars :
    ∀ (fuel : Nat) (l : Lexer), ∃ m, (0 < fuel → 0 < m) ∧
      Lexer.readStringLoop fuel l = Lexer.readChars m l := by
  intro fuel
  induction fuel with
  | zero => intro l; exact ⟨0, fun h => absurd h (Nat.lt_irrefl 0), rfl⟩
  | succ f ih =>
    intro l
    rw [Lexer.readStringLoop_succ]
    by_cases hc : l.readChar.ch = 34 ∨ l.readChar.ch = 0
    · rw [if_pos hc]
      exact ⟨1, fun _ => Nat.one_pos, rfl⟩
    · rw [if_neg hc]
      obtain ⟨m, -, h⟩ := ih l.readChar
      exact ⟨m + 1, fun _ => Nat.succ_pos m, by rw [h, Lexer.readChars_succ]⟩

theorem Lexer.twoCharToken_readChars (l : Lexer) (second : Nat) (two one : TokenType)
    (line column : Nat) :
    ((l.twoCharToken second two one line column).1.Typ = two ∨
      (l.twoCharToken second two one line column).1.Typ = one) ∧
    (l.twoCharToken second two one line column).1.Line = line ∧
    (l.twoCharToken second two one line column).1.Column = column ∧
    ((l.twoCharToken second two one line column).2 = Lexer.readChars 1 l ∨
      (l.twoCharToken second two one line column).2 = Lexer.readChars 2 l) := by
  have e : ∀ m : Lexer, m.twoCharToken second two one line column =
      if m.peekChar = second then
        (⟨two, byteToString m.ch ++ byteToString m.readChar.ch, line, column⟩,
          m.readChar.readChar)
      else (newToken one m.ch line column, m.readChar) := by
    intro m
    unfold Lexer.twoCharToken
    cases m.readChar
    rfl
  rw [e]
  by_cases hc : l.peekChar = second
  · rw [if_pos hc]
    exact ⟨Or.inl rfl, rfl, rfl, Or.inr rfl⟩
  · rw [if_neg hc]
    exact ⟨Or.inr rfl, rfl, rfl, Or.inl rfl⟩

theorem LookupIdent_ne_eof (s : GoString) : LookupIdent s ≠ .EOF := by
  unfold LookupIdent
  split_ifs <;> decide

/-- The cases of the `switch` of `NextToken`. -/
theorem Lexer.tokenSwitch_cases (a : Lexer → Token × Lexer) (l : Lexer)
    (Q : Token × Lexer → Prop)
    (h2 : ∀ (second : Nat) (two one : TokenType), l.ch ≠ 0 → two ≠ .EOF → one ≠ .EOF →
      Q (l.twoCharToken second two one l.line l.column))
    (h1 : ∀ t : TokenType, l.ch ≠ 0 → t ≠ .EOF →
      Q (newToken t l.ch l.line l.column, l.readChar))
    (hc : l.ch = 47 → l.peekChar = 47 → Q (a l.skipComment))
    (hs : l.ch = 34 →
      Q (⟨.STRING, l.readString.1, l.line, l.column⟩, l.readString.2.readChar))
    (he : l.ch = 0 → Q (⟨.EOF, [], l.line, l.column⟩, l.readChar))
    (hi : isLetter l.ch = true →
      Q (⟨LookupIdent l.readIdentifier.1, l.readIdentifier.1, l.line, l.column⟩,
        l.readIdentifier.2))
    (hn : l.ch ≠ 0 → isDigit l.ch = true →
      Q (⟨.INT, l.readNumber.1, l.line, l.column⟩, l.readNumber.2)) :
    Q (Lexer.tokenSwitch a l) := by
  rw [Lexer.tokenSwitch_eq]
  by_cases h61 : l.ch = 61
  · rw [if_pos h61]
    exact h2 61 .EQ .ASSIGN (by rw [h61]; decide) (by decide) (by decide)
  rw [if_neg h61]
  by_cases h43 : l.ch = 43
  · rw [if_pos h43]
    exact h1 .PLUS (by rw [h43]; decide) (by decide)
  rw [if_neg h43]
  by_cases h45 : l.ch = 45
  · rw [if_pos h45]
    exact h1 .MINUS (by rw [h45]; decide) (by decide)
  rw [if_neg h45]
  by_cases h42 : l.ch = 42
  · rw [if_pos h42]
    exact h1 .MULTIPLY (by rw [h42]; decide) (by decide)
  rw [if_neg h42]
  by_cases h47 : l.ch = 47
  · rw [if_pos h47]
    by_cases hp : l.peekChar = 47
    · rw [if_pos hp]
      exact hc h47 hp
    · rw [if_neg hp]
      exact h1 .DIVIDE (by rw [h47]; decide) (by decide)
  rw [if_neg h47]
  by_cases h33 : l.ch = 33
  · rw [if_pos h33]
    exact h2 61 .NOT_EQ .NOT (by rw [h33]; decide) (by decide) (by decide)
  rw [if_neg h33]
  by_cases h60 : l.ch = 60
  · rw [if_pos h60]
    exact h2 61 .LTE .LT (by rw [h60]; decide) (by decide) (by decide)
  rw [if_neg h60]
  by_cases h62 : l.ch = 62
  · rw [if_pos h62]
    exact h2 61 .GTE .GT (by rw [h62]; decide) (by decide) (by decide)
  rw [if_neg h62]
  by_cases h38 : l.ch = 38
  · rw [if_pos h38]
    exact h2 38 .AND .ILLEGAL (by rw [h38]; decide) (by decide) (by decide)
  rw [if_neg h38]
  by_cases h124 : l.ch = 124
  · rw [if_pos h124]
    exact h2 124 .OR .ILLEGAL (by rw [h124]; decide) (by decide) (by decide)
  rw [if_neg h124]
  by_cases h44 : l.ch = 44
  · rw [if_pos h44]
    exact h1 .COMMA (by rw [h44]; decide) (by decide)
  rw [if_neg h44]
  by_cases h59 : l.ch = 59
  · rw [if_pos h59]
    exact h1 .SEMICOLON (by rw [h59]; decide) (by decide)
  rw [if_neg h59]
  by_cases h40 : l.ch = 40
  · rw [if_pos h40]
    exact h1 .LPAREN (by rw [h40]; decide) (by decide)
  rw [if_neg h40]
  by_cases h41 : l.ch = 41
  · rw [if_pos h41]
    exact h1 .RPAREN (by rw [h41]; decide) (by decide)
  rw [if_neg h41]
  by_cases h123 : l.ch = 123
  · rw [if_pos h123]
    exact h1 .LBRACE (by rw [h123]; decide) (by decide)
  rw [if_neg h123]
  by_cases h125 : l.ch = 125
  · rw [if_pos h125]
    exact h1 .RBRACE (by rw [h125]; decide) (by decide)
  rw [if_neg h125]
  by_cases h34 : l.ch = 34
  · rw [if_pos h34]
    exact hs h34
  rw [if_neg h34]
  by_cases h0 : l.ch = 0
  · rw [if_pos h0]
    exact he h0
  rw [if_neg h0]
  by_cases hl : isLetter l.ch = true
  · rw [if_pos hl]
    exact hi hl
  rw [if_neg hl]
  by_cases hd : isDigit l.ch = true
  · rw [if_pos hd]
    exact hn h0 hd
  rw [if_neg hd]
  exact h1 .ILLEGAL h0 (by decide)

theorem Lexer.scanned_readChars (l : Lexer) (j m n : Nat) (r : Token × Lexer)
    (h : Lexer.scanned (Lexer.readChars j l) m n r) : Lexer.scanned l (j + m) (j + n) r := by
  unfold Lexer.scanned at h ⊢
  rw [Lexer.readChars_add j m l, Lexer.readChars_add j n l]
  obtain ⟨h1, h2, h3, h4, h5, h6, h7⟩ := h
  exact ⟨by omega, h2, h3, h4, h5, h6, fun h0 => ⟨(h7 h0).1, by have := (h7 h0).2; omega⟩⟩

theorem Lexer.tokenSwitch_comment (a : Lexer → Token × Lexer) (l : Lexer)
    (h47 : l.ch = 47) (hp : l.peekChar = 47) :
    Lexer.tokenSwitch a l = a l.skipComment := by
  rw [Lexer.tokenSwitch_eq]
  simp only [h47, hp, if_true, Nat.reduceEqDiff, if_false]

/-- The `switch` of `NextToken` on a byte that is not whitespace and does not start a
comment: the token is made on this byte and at least one byte is read. -/
theorem Lexer.tokenSwitch_scanned (a : Lexer → Token × Lexer) (l : Lexer)
    (hws : isWhitespace l.ch = false) (hcm : ¬ (l.ch = 47 ∧ l.peekChar = 47)) :
    ∃ n, Lexer.scanned l 0 n (Lexer.tokenSwitch a l) := by
  apply Lexer.tokenSwitch_cases a l (fun r => ∃ n, Lexer.scanned l 0 n r)
  · intro second two one h0 htwo hone
    obtain ⟨ht, hl, hc, hr⟩ := Lexer.twoCharToken_readChars l second two one l.line l.column
    have hne : (l.twoCharToken second two one l.line l.column).1.Typ ≠ .EOF := by
      rcases ht with ht | ht <;> rw [ht] <;> assumption
    rcases hr with hr | hr
    · exact ⟨1, Nat.one_pos, hr, hl, hc, hws, ⟨fun h => absurd h hne, fun h => absurd h h0⟩,
        fun h => absurd h h0⟩
    · exact ⟨2, by omega, hr, hl, hc, hws, ⟨fun h => absurd h hne, fun h => absurd h h0⟩,
        fun h => absurd h h0⟩
  · intro t h0 ht
    exact ⟨1, Nat.one_pos, rfl, rfl, rfl, hws, ⟨fun h => absurd h ht, fun h => absurd h h0⟩,
      fun h => absurd h h0⟩
  · intro h47 hp
    exact absurd ⟨h47, hp⟩ hcm
  · intro h34
    have h0 : l.ch ≠ 0 := by rw [h34]; decide
    obtain ⟨m, -, hm⟩ := Lexer.readStringLoop_readChars (l.input.length + 1) l
    refine ⟨m + 1, Nat.succ_pos m, ?_, rfl, rfl, hws,
      ⟨fun h => TokenType.noConfusion h, fun h => absurd h h0⟩, fun h => absurd h h0⟩
    show l.readString.2.readChar = _
    rw [Lexer.readString_eq, hm, Lexer.readChars_succ_last]
  · intro h0
    exact ⟨1, Nat.one_pos, rfl, rfl, rfl, hws, ⟨fun _ => h0, fun _ => rfl⟩,
      fun _ => ⟨rfl, rfl⟩⟩
  · intro hl
    have h0 : l.ch ≠ 0 := by
      intro h; rw [h] at hl; exact absurd hl (by decide)
    obtain ⟨m, -, hpos, hm⟩ := Lexer.whileLoop_readChars
      (fun ch => isLetter ch || isDigit ch) (l.input.length + 1) l
    have hm0 : 0 < m := hpos (by simp only [hl, Bool.true_or]) (Nat.succ_pos _)
    refine ⟨m, hm0, ?_, rfl, rfl, hws,
      ⟨fun h => absurd h (LookupIdent_ne_eof _), fun h => absurd h h0⟩, fun h => absurd h h0⟩
    show l.readIdentifier.2 = _
    rw [Lexer.readIdentifier_eq, hm]
  · intro h0 hd
    obtain ⟨m, -, hpos, hm⟩ := Lexer.whileLoop_readChars isDigit (l.input.length + 1) l
    have hm0 : 0 < m := hpos hd (Nat.succ_pos _)
    refine ⟨m, hm0, ?_, rfl, rfl, hws,
      ⟨fun h => TokenType.noConfusion h, fun h => absurd h h0⟩, fun h => absurd h h0⟩
    show l.readNumber.2 = _
    rw [Lexer.readNumber_eq, hm]

theorem Lexer.skipWhitespace_readChars (l : Lexer) (hwf : l.wf) :
    ∃ j, l.skipWhitespace = Lexer.readChars j l ∧ isWhitespace l.skipWhitespace.ch = false := by
  have hch : isWhitespace l.skipWhitespace.ch = false := by
    simp only [Lexer.skipWhitespace, Lexer.skipWhitespaceLoop_eq]
    exact Lexer.whileLoop_adequate isWhitespace rfl _ l hwf (by omega)
  obtain ⟨j, -, -, hj⟩ := Lexer.whileLoop_readChars isWhitespace (l.input.length + 1) l
  refine ⟨j, ?_, hch⟩
  simp only [Lexer.skipWhitespace, Lexer.skipWhitespaceLoop_eq]
  exact hj

theorem Lexer.skipComment_readChars (l : Lexer) :
    ∃ j, l.skipComment = Lexer.readChars j l := by
  obtain ⟨j, -, -, hj⟩ := Lexer.whileLoop_readChars (fun ch => decide (ch ≠ 10 ∧ ch ≠ 0))
    (l.input.length + 1) l
  refine ⟨j, ?_⟩
  simp only [Lexer.skipComment, Lexer.skipCommentLoop_eq]
  exact hj

theorem Lexer.tokenStartAux_succ (fuel : Nat) (l : Lexer) :
    Lexer.tokenStartAux (fuel + 1) l =
      if l.skipWhitespace.ch = 47 ∧ l.skipWhitespace.peekChar = 47 then
        Lexer.tokenStartAux fuel l.skipWhitespace.skipComment
      else l.skipWhitespace.position := rfl

/-- A call of `NextToken` with enough fuel for its comments, counted in calls of
`readChar`. -/
theorem Lexer.NextTokenAux_scanned :
    ∀ (fuel : Nat) (l : Lexer), l.wf → l.input.length ≤ fuel + l.position →
      ∃ m n, Lexer.scanned l m n (Lexer.NextTokenAux (fuel + 1) l) ∧
        Lexer.tokenStartAux (fuel + 1) l = l.position + m := by
  intro fuel
  induction fuel with
  | zero =>
    intro l hwf hf
    obtain ⟨j, hj, hws⟩ := Lexer.skipWhitespace_readChars l hwf
    have hwf1 := Lexer.skipWhitespace_wf l hwf
    have hge := Lexer.skipWhitespace_position_ge l hwf
    have h0 := Lexer.ch_zero_of_length_le l.skipWhitespace hwf1
      (by rw [Lexer.skipWhitespace_input]; omega)
    have hcm : ¬ (l.skipWhitespace.ch = 47 ∧ l.skipWhitespace.peekChar = 47) := by
      intro h; rw [h0] at h; exact absurd h.1 (by decide)
    obtain ⟨n, hn⟩ := Lexer.tokenSwitch_scanned (Lexer.NextTokenAux 0) l.skipWhitespace hws hcm
    rw [Lexer.NextTokenAux_succ, Lexer.tokenStartAux_succ, if_neg hcm]
    rw [hj] at hn ⊢
    refine ⟨j + 0, j + n, Lexer.scanned_readChars l j 0 n _ hn, ?_⟩
    rw [Lexer.readChars_position j l hwf]
    rfl
  | succ f ih =>
    intro l hwf hf
    obtain ⟨j, hj, hws⟩ := Lexer.skipWhitespace_readChars l hwf
    have hwf1 := Lexer.skipWhitespace_wf l hwf
    have hge := Lexer.skipWhitespace_position_ge l hwf
    rw [Lexer.NextTokenAux_succ, Lexer.tokenStartAux_succ]
    by_cases hcm : l.skipWhitespace.ch = 47 ∧ l.skipWhitespace.peekChar = 47
    · rw [Lexer.tokenSwitch_comment _ _ hcm.1 hcm.2, if_pos hcm]
      obtain ⟨j2, hj2⟩ := Lexer.skipComment_readChars l.skipWhitespace
      have hgt := Lexer.skipComment_position_gt l.skipWhitespace hwf1 hcm.1
      obtain ⟨m, n, hs, hst⟩ := ih l.skipWhitespace.skipComment
        (Lexer.skipComment_wf _ hwf1)
        (by rw [Lexer.skipComment_input, Lexer.skipWhitespace_input]; omega)
      have hpos : l.skipWhitespace.skipComment.position = l.position + (j + j2) := by
        rw [hj2, hj, ← Lexer.readChars_add, Lexer.readChars_position _ l hwf]
      rw [hst, hpos]
      rw [hj2, hj, ← Lexer.readChars_add] at hs
      refine ⟨j + j2 + m, j + j2 + n, ?_, by omega⟩
      rw [hj2, hj, ← Lexer.readChars_add]
      exact Lexer.scanned_readChars l (j + j2) m n _ hs
    · obtain ⟨n, hn⟩ := Lexer.tokenSwitch_scanned (Lexer.NextTokenAux (f + 1))
        l.skipWhitespace hws hcm
      rw [if_neg hcm]
      rw [hj] at hn ⊢
      refine ⟨j + 0, j + n, Lexer.scanned_readChars l j 0 n _ hn, ?_⟩
      rw [Lexer.readChars_position j l hwf]
      rfl

/-- A call of `NextToken`, counted in calls of `readChar`. -/
theorem Lexer.NextToken_scanned (l : Lexer) (hwf : l.wf) :
    ∃ m n, Lexer.scanned l m n l.NextToken ∧ l.tokenStart = l.position + m := by
  rw [Lexer.NextToken_eq]
  exact Lexer.NextTokenAux_scanned l.input.length l hwf (by omega)

theorem Lexer.advance_succ (k : Nat) (l : Lexer) :
    Lexer.advance (k + 1) l = (Lexer.advance k l).NextToken.2 := rfl

theorem Lexer.advance_wf (l : Lexer) (hwf : l.wf) : ∀ k, (Lexer.advance k l).wf := by
  intro k
  induction k with
  | zero => exact hwf
  | succ k ih => exact Lexer.NextToken_wf _ ih

theorem Lexer.NextToken_input (l : Lexer) (hwf : l.wf) : l.NextToken.2.input = l.input := by
  obtain ⟨m, n, hs, -⟩ := Lexer.NextToken_scanned l hwf
  rw [hs.2.1, Lexer.readChars_input]

theorem Lexer.advance_input (l : Lexer) (hwf : l.wf) :
    ∀ k, (Lexer.advance k l).input = l.input := by
  intro k
  induction k with
  | zero => rfl
  | succ k ih => rw [Lexer.advance_succ, Lexer.NextToken_input _ (Lexer.advance_wf l hwf k), ih]

/-- Every call of `NextToken` moves the lexer on by at least one byte. -/
theorem Lexer.NextToken_position (l : Lexer) (hwf : l.wf) :
    l.position + 1 ≤ l.NextToken.2.position := by
  obtain ⟨m, n, hs, -⟩ := Lexer.NextToken_scanned l hwf
  rw [hs.2.1, Lexer.readChars_position n l hwf]
  have := hs.1
  omega

theorem Lexer.advance_position (l : Lexer) (hwf : l.wf) :
    ∀ k, l.position + k ≤ (Lexer.advance k l).position := by
  intro k
  induction k with
  | zero => exact Nat.le_refl _
  | succ k ih =>
    have := Lexer.NextToken_position _ (Lexer.advance_wf l hwf k)
    rw [Lexer.advance_succ]
    omega

/-- At and behind the end of the input, `NextToken` returns an EOF token with an empty
literal. -/
theorem Lexer.NextToken_at_end (l : Lexer) (hwf : l.wf) (hp : l.input.length ≤ l.position) :
    l.NextToken.1.Typ = .EOF ∧ l.NextToken.1.Literal = [] := by
  obtain ⟨m, n, hs, -⟩ := Lexer.NextToken_scanned l hwf
  obtain ⟨-, -, -, -, -, h6, h7⟩ := hs
  have h0 : (Lexer.readChars m l).ch = 0 := by
    apply Lexer.ch_zero_of_length_le _ (Lexer.readChars_wf m l hwf)
    rw [Lexer.readChars_input, Lexer.readChars_position m l hwf]
    omega
  exact ⟨h6.2 h0, (h7 h0).1⟩

/-- From token number `input.length` on, every token of a text is an EOF token. -/
theorem tokenAt_eof_of_length_le (input : GoString) (k : Nat) (hk : input.length ≤ k) :
    (Lexer.tokenAt k (New input)).Typ = .EOF := by
  have hwf := Lexer.advance_wf (New input) (New_wf input) k
  have hpos := Lexer.advance_position (New input) (New_wf input) k
  have hin := Lexer.advance_input (New input) (New_wf input) k
  have hin0 : (New input).input = input := Lexer.readChar_input _
  exact (Lexer.NextToken_at_end _ hwf (by rw [hin, hin0]; omega)).1

/-- In a text without the byte 0, an EOF token is made at the end of the text only. -/
theorem Lexer.NextToken_eof_position (l : Lexer) (hwf : l.wf) (hnul : 0 ∉ l.input)
    (h : l.NextToken.1.Typ = .EOF) :
    l.NextToken.1.Literal = [] ∧ l.input.length < l.NextToken.2.position := by
  obtain ⟨m, n, hs, -⟩ := Lexer.NextToken_scanned l hwf
  obtain ⟨-, h2, -, -, -, h6, h7⟩ := hs
  have h0 := h6.1 h
  obtain ⟨hlit, hn⟩ := h7 h0
  refine ⟨hlit, ?_⟩
  rw [h2, Lexer.readChars_position n l hwf, hn]
  have hwfm := Lexer.readChars_wf m l hwf
  have hch := hwfm.2
  rw [h0, Lexer.readChars_input, Lexer.readChars_position m l hwf] at hch
  by_contra hlt
  have hlt' : l.position + m < l.input.length := by omega
  have hmem : l.input.getD (l.position + m) 0 ∈ l.input := by
    rw [List.getD_eq_getElem?_getD, List.getElem?_eq_getElem hlt']
    exact List.getElem_mem _
  rw [← hch] at hmem
  exact hnul hmem

/-- C29, as stated, fails: in the two-byte text that is the byte 0 followed by `a`, the
first token is an EOF token and the second is the identifier `a`. -/
theorem nul_byte_yields_eof_before_the_end :
    (Lexer.tokenAt 0 (New [0, 97])).Typ = .EOF ∧
    Lexer.tokenAt 1 (New [0, 97]) = ⟨.IDENT, str "a", 1, 2⟩ := by
  decide

/-- C29, amended. End of input is absorbing for the lexer: for every input text without
the byte 0, once a call to `NextToken` has returned a token of kind EOF, every later call
on the same lexer returns a token of kind EOF with an empty literal. -/
theorem end_of_input_is_absorbing (input : GoString) (hnul : 0 ∉ input) (k j : Nat)
    (hk : (Lexer.tokenAt k (New input)).Typ = .EOF) (hkj : k < j) :
    (Lexer.tokenAt j (New input)).Typ = .EOF ∧ (Lexer.tokenAt j (New input)).Literal = [] := by
  have hin0 : (New input).input = input := Lexer.readChar_input _
  have hwfk := Lexer.advance_wf (New input) (New_wf input) k
  have hink := Lexer.advance_input (New input) (New_wf input) k
  have hpos := (Lexer.NextToken_eof_position _ hwfk (by rw [hink, hin0]; exact hnul) hk).2
  rw [hink, hin0] at hpos
  obtain ⟨i, rfl⟩ : ∃ i, j = (k + 1) + i := ⟨j - (k + 1), by omega⟩
  have hwfj := Lexer.advance_wf (New input) (New_wf input) (k + 1 + i)
  have hinj := Lexer.advance_input (New input) (New_wf input) (k + 1 + i)
  have hge : input.length ≤ (Lexer.advance (k + 1 + i) (New input)).position := by
    have hmono : ∀ i, input.length < (Lexer.advance (k + 1 + i) (New input)).position := by
      intro i
      induction i with
      | zero => exact hpos
      | succ i ih =>
        have := Lexer.NextToken_position _
          (Lexer.advance_wf (New input) (New_wf input) (k + 1 + i))
        have e : Lexer.advance (k + 1 + (i + 1)) (New input) =
            (Lexer.advance (k + 1 + i) (New input)).NextToken.2 := rfl
        rw [e]
        omega
    exact Nat.le_of_lt (hmono i)
  exact Lexer.NextToken_at_end _ hwfj (by rw [hinj, hin0]; exact hge)

theorem end_of_input_is_absorbing_witness :
    (Lexer.tokenAt 3 (New (str "a"))).Typ = .EOF ∧
    (Lexer.tokenAt 3 (New (str "a"))).Literal = [] :=
  end_of_input_is_absorbing (str "a") (by decide) 1 3 (by decide) (by decide)

/-! ## Lines and columns -/

theorem count_take_succ (input : GoString) (p : Nat) (hp : p < input.length) :
    (input.take (p + 1)).count 10 =
      (input.take p).count 10 + (if input.getD p 0 = 10 then 1 else 0) := by
  have hg : input.getD p 0 = input[p] := by
    rw [List.getD_eq_getElem?_getD, List.getElem?_eq_getElem hp]
    rfl
  rw [List.take_succ, List.getElem?_eq_getElem hp, hg]
  simp only [Option.toList_some, List.count_append, List.count_cons, List.count_nil,
    Nat.zero_add, beq_iff_eq]

theorem run_take_succ (input : GoString) (p : Nat) (hp : p < input.length) :
    ((input.take (p + 1)).reverse.takeWhile (fun b => b != 10)).length =
      if input.getD p 0 = 10 then 0
      else ((input.take p).reverse.takeWhile (fun b => b != 10)).length + 1 := by
  have hg : input.getD p 0 = input[p] := by
    rw [List.getD_eq_getElem?_getD, List.getElem?_eq_getElem hp]
    rfl
  rw [List.take_succ, List.getElem?_eq_getElem hp, hg]
  simp only [Option.toList_some, List.reverse_append, List.reverse_cons, List.reverse_nil,
    List.nil_append, List.singleton_append, List.takeWhile_cons]
  by_cases h : input[p] = 10
  · simp [h]
  · simp [h]

theorem New_eq (input : GoString) :
    New input = ⟨input, 0, 1, input.getD 0 0, if input.getD 0 0 = 10 then 1 + 1 else 1,
      if input.getD 0 0 = 10 then 0 else 0 + 1⟩ := by
  unfold New
  rw [Lexer.readChar_eq]

theorem New_position (input : GoString) : (New input).position = 0 := by
  rw [New_eq]

theorem New_input (input : GoString) : (New input).input = input := Lexer.readChar_input _

/-- The line and the column of a lexer at a position within the text or at its end: the
line counts the LF bytes up to and including the current byte, and the column counts the
bytes after the last of them. -/
theorem Lexer.readChars_tracked (input : GoString) :
    ∀ j, j ≤ input.length →
      (Lexer.readChars j (New input)).line =
        1 + (input.take j).count 10 +
          (if (Lexer.readChars j (New input)).ch = 10 then 1 else 0) ∧
      (Lexer.readChars j (New input)).column =
        if (Lexer.readChars j (New input)).ch = 10 then 0
        else ((input.take j).reverse.takeWhile (fun b => b != 10)).length + 1 := by
  intro j
  induction j with
  | zero =>
    intro _
    show (New input).line = 1 + (input.take 0).count 10 + (if (New input).ch = 10 then 1 else 0)
      ∧ (New input).column = if (New input).ch = 10 then 0
        else ((input.take 0).reverse.takeWhile (fun b => b != 10)).length + 1
    rw [New_eq]
    by_cases h : input.getD 0 0 = 10
    · simp only [h, if_true, List.take_zero, List.count_nil, and_self]
    · simp only [h, if_false, List.take_zero, List.count_nil, List.reverse_nil,
        List.takeWhile_nil, List.length_nil, and_self]
  | succ j ih =>
    intro hj
    obtain ⟨hl, hc⟩ := ih (by omega)
    have hwf := Lexer.readChars_wf j (New input) (New_wf input)
    have hpos := Lexer.readChars_position j (New input) (New_wf input)
    have hin : (Lexer.readChars j (New input)).input = input := by
      rw [Lexer.readChars_input]; exact New_input input
    rw [New_position, Nat.zero_add] at hpos
    have hch : (Lexer.readChars j (New input)).ch = input.getD j 0 := by
      rw [hwf.2, hin, hpos]
    have hrp : (Lexer.readChars j (New input)).readPosition = j + 1 := by
      rw [hwf.1, hpos]
    rw [hch] at hl hc
    rw [Lexer.readChars_succ_last, Lexer.readChar_eq]
    dsimp only
    rw [hin, hrp, hl, hc, count_take_succ input j (by omega), run_take_succ input j (by omega)]
    constructor
    · split_ifs <;> omega
    · rfl

/-- The position of a token that starts within the text or at its end: its line and its
column are those of the byte at the offset where the token starts. -/
theorem Lexer.token_position (input : GoString) (k : Nat)
    (h : (Lexer.tokenAt k (New input)).Typ = .EOF →
      (Lexer.advance k (New input)).tokenStart ≤ input.length) :
    (Lexer.tokenAt k (New input)).Line =
      lineAt input (Lexer.advance k (New input)).tokenStart ∧
    (Lexer.tokenAt k (New input)).Column =
      columnAt input (Lexer.advance k (New input)).tokenStart := by
  have hwf := Lexer.advance_wf (New input) (New_wf input) k
  have hin : (Lexer.advance k (New input)).input = input := by
    rw [Lexer.advance_input (New input) (New_wf input) k]; exact Lexer.readChar_input _
  obtain ⟨m, n, hs, hst⟩ := Lexer.NextToken_scanned _ hwf
  obtain ⟨-, -, h3, h4, h5, h6, -⟩ := hs
  obtain ⟨j, hj⟩ : ∃ j, Lexer.advance k (New input) = Lexer.readChars j (New input) := by
    clear h hwf hin hst h3 h4 h5 h6
    induction k with
    | zero => exact ⟨0, rfl⟩
    | succ k ih =>
      obtain ⟨j, hj⟩ := ih
      obtain ⟨m, n, hs, -⟩ := Lexer.NextToken_scanned _
        (Lexer.advance_wf (New input) (New_wf input) k)
      refine ⟨j + n, ?_⟩
      rw [Lexer.advance_succ, hs.2.1, hj, ← Lexer.readChars_add]
  have hposj : (Lexer.advance k (New input)).position = j := by
    rw [hj, Lexer.readChars_position j (New input) (New_wf input), New_position]
    exact Nat.zero_add j
  rw [hst, hposj]
  have hrm : Lexer.readChars m (Lexer.advance k (New input)) =
      Lexer.readChars (j + m) (New input) := by
    rw [hj, ← Lexer.readChars_add]
  rw [hrm] at h3 h4 h5 h6
  have hwfm := Lexer.readChars_wf (j + m) (New input) (New_wf input)
  have hposm := Lexer.readChars_position (j + m) (New input) (New_wf input)
  rw [New_position, Nat.zero_add] at hposm
  have hle : j + m ≤ input.length := by
    by_cases he : (Lexer.tokenAt k (New input)).Typ = .EOF
    · have := h he
      rw [hst, hposj] at this
      exact this
    · by_contra hgt
      apply he
      apply h6.2
      apply Lexer.ch_zero_of_length_le _ hwfm
      rw [Lexer.readChars_input, hposm]
      rw [New_input]
      omega
  obtain ⟨hl, hc⟩ := Lexer.readChars_tracked input (j + m) hle
  have h10 : (Lexer.readChars (j + m) (New input)).ch ≠ 10 := by
    intro h10
    rw [h10] at h5
    exact absurd h5 (by decide)
  rw [if_neg h10] at hl hc
  constructor
  · show (Lexer.advance k (New input)).NextToken.1.Line = _
    rw [h3, hl]
    rfl
  · show (Lexer.advance k (New input)).NextToken.1.Column = _
    rw [h4, hc, columnAt]
    omega

/-- C30. The code keeps the positions of the tokens as the claim says, but for the EOF
token behind an unterminated string. Every token that is not an EOF token made behind the
end of the text has the line and the column of the byte at which it starts; in
`let x = 5;` LF `let y = 10;` the first `let` is at line 1, column 1 and the second at
line 2, column 1. In the text `"a`, whose string is never closed, the lexer steps over
the end of the text: the EOF token is made at offset 3 of a text of 2 bytes and has column
4, while the end of the text is at column 3. -/
theorem token_positions :
    (∀ (input : GoString) (k : Nat),
      ((Lexer.tokenAt k (New input)).Typ = .EOF →
        (Lexer.advance k (New input)).tokenStart ≤ input.length) →
      (Lexer.tokenAt k (New input)).Line =
        lineAt input (Lexer.advance k (New input)).tokenStart ∧
      (Lexer.tokenAt k (New input)).Column =
        columnAt input (Lexer.advance k (New input)).tokenStart) ∧
    (Lexer.tokenAt 0 (New (str "let x = 5;\nlet y = 10;")) = ⟨.LET, str "let", 1, 1⟩ ∧
      Lexer.tokenAt 5 (New (str "let x = 5;\nlet y = 10;")) = ⟨.LET, str "let", 2, 1⟩) ∧
    (Lexer.tokenAt 0 (New (str "\"a")) = ⟨.STRING, str "a", 1, 1⟩ ∧
      Lexer.tokenAt 1 (New (str "\"a")) = ⟨.EOF, [], 1, 4⟩ ∧
      (Lexer.advance 1 (New (str "\"a"))).tokenStart = 3 ∧
      (str "\"a").length = 2 ∧ columnAt (str "\"a") 2 = 3) :=
  ⟨Lexer.token_position, by decide, by decide⟩

theorem token_positions_witness :
    ((Lexer.tokenAt 1 (New (str "a\n b"))).Line =
        lineAt (str "a\n b") (Lexer.advance 1 (New (str "a\n b"))).tokenStart ∧
      (Lexer.tokenAt 1 (New (str "a\n b"))).Column =
        columnAt (str "a\n b") (Lexer.advance 1 (New (str "a\n b"))).tokenStart) ∧
    (Lexer.advance 1 (New (str "a\n b"))).tokenStart = 3 ∧
    lineAt (str "a\n b") 3 = 2 ∧ columnAt (str "a\n b") 3 = 2 :=
  ⟨token_positions.1 (str "a\n b") 1 (fun h => absurd h (by decide)), by decide, by decide,
    by decide⟩


/-! ## The parser returns -/

theorem Parser.returnsFrom_some {α : Type} (l0 : Lexer) (k k1 : Nat) (errs more : List GoString)
    (x : α) (h : k ≤ k1) :
    Parser.returnsFrom l0 k errs (some (x, Parser.atToken l0 k1 (errs ++ more))) :=
  ⟨x, k1, more, h, rfl⟩

theorem Parser.returnsFrom_same {α : Type} (l0 : Lexer) (k k1 : Nat) (errs : List GoString)
    (x : α) (h : k ≤ k1) :
    Parser.returnsFrom l0 k errs (some (x, Parser.atToken l0 k1 errs)) :=
  ⟨x, k1, [], h, by rw [List.append_nil]⟩

theorem Parser.returnsFrom_weaken {α : Type} (l0 : Lexer) (k k1 : Nat)
    (errs more : List GoString) (r : Option (α × Parser))
    (h : Parser.returnsFrom l0 k1 (errs ++ more) r) (hk : k ≤ k1) :
    Parser.returnsFrom l0 k errs r := by
  obtain ⟨x, k2, more2, hk2, rfl⟩ := h
  exact ⟨x, k2, more ++ more2, by omega, by rw [List.append_assoc]⟩

theorem Parser.returnsFrom_step {α : Type} (l0 : Lexer) (k k1 : Nat)
    (errs : List GoString) (r : Option (α × Parser))
    (h : Parser.returnsFrom l0 k1 errs r) (hk : k ≤ k1) :
    Parser.returnsFrom l0 k errs r := by
  obtain ⟨x, k2, more2, hk2, rfl⟩ := h
  exact ⟨x, k2, more2, by omega, rfl⟩

theorem Parser.expectPeek_atToken (l0 : Lexer) (k : Nat) (errs : List GoString)
    (t : TokenType) :
    ((Lexer.tokenAt (k + 1) l0).Typ = t ∧
      (Parser.atToken l0 k errs).expectPeek t = (true, Parser.atToken l0 (k + 1) errs)) ∨
    ((Lexer.tokenAt (k + 1) l0).Typ ≠ t ∧
      (Parser.atToken l0 k errs).expectPeek t =
        (false, Parser.atToken l0 k (errs ++
          [str "expected next token to be " ++ t.String ++ str ", got " ++
            (Lexer.tokenAt (k + 1) l0).Typ.String ++ str " instead"]))) := by
  by_cases h : (Lexer.tokenAt (k + 1) l0).Typ = t
  · exact Or.inl ⟨h, Parser.expectPeek_atToken_true l0 k errs t h⟩
  · exact Or.inr ⟨h, Parser.expectPeek_atToken_false l0 k errs t h⟩

theorem Parser.peekTokenIs_atToken (l0 : Lexer) (k : Nat) (errs : List GoString)
    (t : TokenType) :
    (Parser.atToken l0 k errs).peekTokenIs t = decide ((Lexer.tokenAt (k + 1) l0).Typ = t) :=
  rfl

theorem Parser.curTokenIs_atToken (l0 : Lexer) (k : Nat) (errs : List GoString)
    (t : TokenType) :
    (Parser.atToken l0 k errs).curTokenIs t = decide ((Lexer.tokenAt k l0).Typ = t) :=
  rfl

theorem lt_of_not_eof (l0 : Lexer) (n : Nat)
    (hn : ∀ j, n ≤ j → (Lexer.tokenAt j l0).Typ = .EOF) (k : Nat)
    (h : (Lexer.tokenAt k l0).Typ ≠ .EOF) : k < n := by
  by_contra hk
  exact h (hn k (by omega))

theorem parsePrefixExpression_returns (l0 : Lexer) (n fuel : Nat) (r : ParseFns)
    (hr : r.expressionsReturn l0 n fuel) (k : Nat) (errs : List GoString)
    (hk : (n - (k + 1)) + 1 ≤ fuel) :
    Parser.returnsFrom l0 k errs (parsePrefixExpression r (Parser.atToken l0 k errs)) := by
  obtain ⟨x, k1, more, hk1, heq⟩ := hr PREFIX (k + 1) errs hk
  simp only [parsePrefixExpression, Parser.nextToken_atToken, heq]
  exact Parser.returnsFrom_some l0 k k1 errs more _ (by omega)

theorem parseInfixExpression_returns (l0 : Lexer) (n fuel : Nat) (r : ParseFns)
    (hr : r.expressionsReturn l0 n fuel) (left : Expression) (k : Nat) (errs : List GoString)
    (hk : (n - (k + 1)) + 1 ≤ fuel) :
    Parser.returnsFrom l0 k errs (parseInfixExpression r left (Parser.atToken l0 k errs)) := by
  obtain ⟨x, k1, more, hk1, heq⟩ := hr (Parser.atToken l0 k errs).curPrecedence (k + 1) errs hk
  simp only [parseInfixExpression, Parser.nextToken_atToken, heq]
  exact Parser.returnsFrom_some l0 k k1 errs more _ (by omega)

theorem parseGroupedExpression_returns (l0 : Lexer) (n fuel : Nat) (r : ParseFns)
    (hr : r.expressionsReturn l0 n fuel) (k : Nat) (errs : List GoString)
    (hk : (n - (k + 1)) + 1 ≤ fuel) :
    Parser.returnsFrom l0 k errs (parseGroupedExpression r (Parser.atToken l0 k errs)) := by
  obtain ⟨x, k1, more, hk1, heq⟩ := hr LOWEST (k + 1) errs hk
  simp only [parseGroupedExpression, Parser.nextToken_atToken, heq]
  rcases Parser.expectPeek_atToken l0 k1 (errs ++ more) .RPAREN with ⟨-, he⟩ | ⟨-, he⟩
  · simp only [he, Bool.not_true, Bool.false_eq_true, if_false]
    exact Parser.returnsFrom_some l0 k (k1 + 1) errs more _ (by omega)
  · simp only [he, Bool.not_false, if_true]
    exact Parser.returnsFrom_weaken l0 k k1 errs more _
      (Parser.returnsFrom_some l0 k1 k1 (errs ++ more) _ _ (Nat.le_refl _)) (by omega)

theorem ite_not_true {α : Type} (a b : α) : (if (!true) = true then a else b) = b := rfl

theorem ite_not_false {α : Type} (a b : α) : (if (!false) = true then a else b) = a := rfl

theorem parseExpressionListLoop_returns (l0 : Lexer) (n f : Nat) (r : ParseFns)
    (hn : ∀ j, n ≤ j → (Lexer.tokenAt j l0).Typ = .EOF)
    (hr : r.expressionsReturn l0 n f) :
    ∀ (fuel : Nat) (args : List Expression) (k : Nat) (errs : List GoString),
      n - k ≤ f → (n - k) + 1 ≤ fuel →
      Parser.returnsFrom l0 k errs (parseExpressionListLoop r fuel args (Parser.atToken l0 k errs)) := by
  intro fuel
  induction fuel with
  | zero => intro args k errs _ h; omega
  | succ fuel ih =>
    intro args k errs hf hfuel
    rw [parseExpressionListLoop]
    by_cases hc : (Parser.atToken l0 k errs).peekTokenIs .COMMA = true
    · have hty : (Lexer.tokenAt (k + 1) l0).Typ = .COMMA := of_decide_eq_true hc
      have hlt : k + 1 < n := lt_of_not_eof l0 n hn (k + 1) (by rw [hty]; decide)
      obtain ⟨x, k1, more, hk1, heq⟩ := hr LOWEST (k + 2) errs (by omega)
      rw [if_pos hc]
      dsimp only
      rw [Parser.nextToken_atToken, Parser.nextToken_atToken, heq]
      exact Parser.returnsFrom_weaken l0 k k1 errs more _
        (ih _ k1 (errs ++ more) (by omega) (by omega)) (by omega)
    · rw [if_neg hc]
      exact Parser.returnsFrom_same l0 k k errs _ (Nat.le_refl _)

theorem parseExpressionList_returns (l0 : Lexer) (n f : Nat) (r : ParseFns)
    (hn : ∀ j, n ≤ j → (Lexer.tokenAt j l0).Typ = .EOF)
    (hr : r.expressionsReturn l0 n f) (fuel : Nat) (endTok : TokenType) (k : Nat)
    (errs : List GoString) (hk : k < n) (hf : n - k ≤ f) (hfuel : (n - k) + 1 ≤ fuel) :
    Parser.returnsFrom l0 k errs
      (parseExpressionList fuel r endTok (Parser.atToken l0 k errs)) := by
  unfold parseExpressionList
  by_cases hc : (Parser.atToken l0 k errs).peekTokenIs endTok = true
  · rw [if_pos hc, Parser.nextToken_atToken]
    exact Parser.returnsFrom_same l0 k (k + 1) errs _ (by omega)
  · obtain ⟨x, k1, more, hk1, heq⟩ := hr LOWEST (k + 1) errs (by omega)
    rw [if_neg hc]
    dsimp only
    rw [Parser.nextToken_atToken, heq]
    dsimp only
    obtain ⟨args, k2, more2, hk2, heq2⟩ := parseExpressionListLoop_returns l0 n f r hn hr fuel
      [x] k1 (errs ++ more) (by omega) (by omega)
    rw [heq2]
    dsimp only
    rcases Parser.expectPeek_atToken l0 k2 (errs ++ more ++ more2) endTok with ⟨-, he⟩ | ⟨-, he⟩
    · rw [he]
      dsimp only
      rw [ite_not_true]
      exact ⟨_, k2 + 1, more ++ more2, by omega, by rw [List.append_assoc]⟩
    · rw [he]
      dsimp only
      rw [ite_not_false]
      exact Parser.returnsFrom_weaken l0 k k1 errs more _
        (Parser.returnsFrom_weaken l0 k1 k2 (errs ++ more) more2 _
          (Parser.returnsFrom_some l0 k2 k2 _ _ _ (Nat.le_refl _)) hk2) (by omega)

theorem parseCallExpression_returns (l0 : Lexer) (n f : Nat) (r : ParseFns)
    (hn : ∀ j, n ≤ j → (Lexer.tokenAt j l0).Typ = .EOF)
    (hr : r.expressionsReturn l0 n f) (fuel : Nat) (fn : Expression) (k : Nat)
    (errs : List GoString) (hk : k < n) (hf : n - k ≤ f) (hfuel : (n - k) + 1 ≤ fuel) :
    Parser.returnsFrom l0 k errs
      (parseCallExpression fuel r fn (Parser.atToken l0 k errs)) := by
  obtain ⟨args, k1, more, hk1, heq⟩ :=
    parseExpressionList_returns l0 n f r hn hr fuel .RPAREN k errs hk hf hfuel
  simp only [parseCallExpression, heq]
  exact Parser.returnsFrom_some l0 k k1 errs more _ hk1

theorem infixParseFns_cases (lfuel : Nat) (r : ParseFns) (t : TokenType) :
    infixParseFns lfuel r t = none ∨
    (t ≠ .EOF ∧ (infixParseFns lfuel r t = some (parseInfixExpression r) ∨
      infixParseFns lfuel r t = some (parseCallExpression lfuel r))) := by
  cases t <;> first
    | exact Or.inl rfl
    | exact Or.inr ⟨by decide, Or.inl rfl⟩
    | exact Or.inr ⟨by decide, Or.inr rfl⟩

theorem parseExpressionLoop_returns (l0 : Lexer) (n f : Nat) (r : ParseFns)
    (hn : ∀ j, n ≤ j → (Lexer.tokenAt j l0).Typ = .EOF)
    (hr : r.expressionsReturn l0 n f) (precedence : Nat) :
    ∀ (fuel : Nat) (leftExp : Expression) (k : Nat) (errs : List GoString),
      n - k ≤ f → (n - k) + 1 ≤ fuel →
      Parser.returnsFrom l0 k errs
        (parseExpressionLoop (f + 1) r precedence fuel leftExp (Parser.atToken l0 k errs)) := by
  intro fuel
  induction fuel with
  | zero => intro leftExp k errs _ h; omega
  | succ fuel ih =>
    intro leftExp k errs hf hfuel
    rw [parseExpressionLoop]
    by_cases hc : (!(Parser.atToken l0 k errs).peekTokenIs .SEMICOLON &&
        decide (precedence < (Parser.atToken l0 k errs).peekPrecedence)) = true
    · rw [if_pos hc, Parser.peekToken_atToken]
      rcases infixParseFns_cases (f + 1) r (Lexer.tokenAt (k + 1) l0).Typ with
        hi | ⟨hne, hi | hi⟩
      · rw [hi]
        exact Parser.returnsFrom_same l0 k k errs _ (Nat.le_refl _)
      · have hlt : k + 1 < n := lt_of_not_eof l0 n hn (k + 1) hne
        obtain ⟨x, k1, more, hk1, heq⟩ :=
          parseInfixExpression_returns l0 n f r hr leftExp (k + 1) errs (by omega)
        rw [hi]
        simp only [Parser.nextToken_atToken, heq]
        exact Parser.returnsFrom_weaken l0 k k1 errs more _
          (ih _ k1 (errs ++ more) (by omega) (by omega)) (by omega)
      · have hlt : k + 1 < n := lt_of_not_eof l0 n hn (k + 1) hne
        obtain ⟨x, k1, more, hk1, heq⟩ :=
          parseCallExpression_returns l0 n f r hn hr (f + 1) leftExp (k + 1) errs hlt
            (by omega) (by omega)
        rw [hi]
        simp only [Parser.nextToken_atToken, heq]
        exact Parser.returnsFrom_weaken l0 k k1 errs more _
          (ih _ k1 (errs ++ more) (by omega) (by omega)) (by omega)
    · rw [if_neg hc]
      exact Parser.returnsFrom_same l0 k k errs _ (Nat.le_refl _)

theorem prefixParseFns_cases (r : ParseFns) (t : TokenType) :
    prefixParseFns r t = none ∨
    prefixParseFns r t = some (fun p => some (parseIdentifier p)) ∨
    prefixParseFns r t = some (fun p => some (parseIntegerLiteral p)) ∨
    prefixParseFns r t = some (fun p => some (parseStringLiteral p)) ∨
    prefixParseFns r t = some (fun p => some (parseBooleanLiteral p)) ∨
    (t ≠ .EOF ∧ (prefixParseFns r t = some (parsePrefixExpression r) ∨
      prefixParseFns r t = some (parseGroupedExpression r))) := by
  cases t <;> first
    | exact Or.inl rfl
    | exact Or.inr (Or.inl rfl)
    | exact Or.inr (Or.inr (Or.inl rfl))
    | exact Or.inr (Or.inr (Or.inr (Or.inl rfl)))
    | exact Or.inr (Or.inr (Or.inr (Or.inr (Or.inl rfl))))
    | exact Or.inr (Or.inr (Or.inr (Or.inr (Or.inr ⟨by decide, Or.inl rfl⟩))))
    | exact Or.inr (Or.inr (Or.inr (Or.inr (Or.inr ⟨by decide, Or.inr rfl⟩))))

theorem parseIntegerLiteral_atToken (l0 : Lexer) (k : Nat) (errs : List GoString) :
    ∃ e more, parseIntegerLiteral (Parser.atToken l0 k errs) =
      (e, Parser.atToken l0 k (errs ++ more)) := by
  unfold parseIntegerLiteral
  cases ParseInt (Parser.atToken l0 k errs).curToken.Literal with
  | none => exact ⟨_, _, rfl⟩
  | some v => exact ⟨_, [], by rw [List.append_nil]⟩

/-- One level of `parseExpression` returns when the level below does. -/
theorem parseExpressionStep_returns (l0 : Lexer) (n f : Nat) (r : ParseFns)
    (hn : ∀ j, n ≤ j → (Lexer.tokenAt j l0).Typ = .EOF)
    (hr : r.expressionsReturn l0 n f) (precedence k : Nat) (errs : List GoString)
    (hk : n - k ≤ f) :
    Parser.returnsFrom l0 k errs
      (parseExpressionStep (f + 1) r precedence (Parser.atToken l0 k errs)) := by
  unfold parseExpressionStep
  rw [Parser.curToken_atToken]
  rcases prefixParseFns_cases r (Lexer.tokenAt k l0).Typ with
    h | h | h | h | h | ⟨hne, h | h⟩
  · rw [h]
    exact Parser.returnsFrom_some l0 k k errs _ _ (Nat.le_refl _)
  · rw [h]
    exact parseExpressionLoop_returns l0 n f r hn hr precedence (f + 1) _ k errs hk (by omega)
  · rw [h]
    obtain ⟨e, more, he⟩ := parseIntegerLiteral_atToken l0 k errs
    simp only [he]
    exact Parser.returnsFrom_weaken l0 k k errs more _
      (parseExpressionLoop_returns l0 n f r hn hr precedence (f + 1) _ k _ hk (by omega))
      (Nat.le_refl _)
  · rw [h]
    exact parseExpressionLoop_returns l0 n f r hn hr precedence (f + 1) _ k errs hk (by omega)
  · rw [h]
    exact parseExpressionLoop_returns l0 n f r hn hr precedence (f + 1) _ k errs hk (by omega)
  · have hlt : k < n := lt_of_not_eof l0 n hn k hne
    obtain ⟨x, k1, more, hk1, heq⟩ :=
      parsePrefixExpression_returns l0 n f r hr k errs (by omega)
    rw [h]
    simp only [heq]
    exact Parser.returnsFrom_weaken l0 k k1 errs more _
      (parseExpressionLoop_returns l0 n f r hn hr precedence (f + 1) _ k1 _ (by omega)
        (by omega)) hk1
  · have hlt : k < n := lt_of_not_eof l0 n hn k hne
    obtain ⟨x, k1, more, hk1, heq⟩ :=
      parseGroupedExpression_returns l0 n f r hr k errs (by omega)
    rw [h]
    simp only [heq]
    exact Parser.returnsFrom_weaken l0 k k1 errs more _
      (parseExpressionLoop_returns l0 n f r hn hr precedence (f + 1) _ k1 _ (by omega)
        (by omega)) hk1

theorem parseFunctionParametersLoop_returns (l0 : Lexer) (n : Nat)
    (hn : ∀ j, n ≤ j → (Lexer.tokenAt j l0).Typ = .EOF) :
    ∀ (fuel : Nat) (identifiers : List Identifier) (k : Nat) (errs : List GoString),
      (n - k) + 1 ≤ fuel →
      Parser.returnsFrom l0 k errs
        (parseFunctionParametersLoop fuel identifiers (Parser.atToken l0 k errs)) := by
  intro fuel
  induction fuel with
  | zero => intro identifiers k errs h; omega
  | succ fuel ih =>
    intro identifiers k errs hfuel
    rw [parseFunctionParametersLoop]
    by_cases hc : (Parser.atToken l0 k errs).peekTokenIs .COMMA = true
    · have hty : (Lexer.tokenAt (k + 1) l0).Typ = .COMMA := of_decide_eq_true hc
      have hlt : k + 1 < n := lt_of_not_eof l0 n hn (k + 1) (by rw [hty]; decide)
      rw [if_pos hc]
      dsimp only
      rw [Parser.nextToken_atToken, Parser.nextToken_atToken]
      exact Parser.returnsFrom_step l0 k (k + 2) errs _ (ih _ (k + 2) errs (by omega))
        (by omega)
    · rw [if_neg hc]
      exact Parser.returnsFrom_same l0 k k errs _ (Nat.le_refl _)

theorem parseFunctionParameters_returns (l0 : Lexer) (n : Nat)
    (hn : ∀ j, n ≤ j → (Lexer.tokenAt j l0).Typ = .EOF) (fuel k : Nat)
    (errs : List GoString) (hfuel : (n - k) + 1 ≤ fuel) :
    Parser.returnsFrom l0 k errs (parseFunctionParameters fuel (Parser.atToken l0 k errs)) := by
  unfold parseFunctionParameters
  by_cases hc : (Parser.atToken l0 k errs).peekTokenIs .RPAREN = true
  · rw [if_pos hc, Parser.nextToken_atToken]
    exact Parser.returnsFrom_same l0 k (k + 1) errs _ (by omega)
  · rw [if_neg hc]
    dsimp only
    rw [Parser.nextToken_atToken]
    obtain ⟨ids, k2, more2, hk2, heq2⟩ := parseFunctionParametersLoop_returns l0 n hn fuel
      [⟨(Parser.atToken l0 (k + 1) errs).curToken,
        (Parser.atToken l0 (k + 1) errs).curToken.Literal⟩] (k + 1) errs (by omega)
    rw [heq2]
    dsimp only
    rcases Parser.expectPeek_atToken l0 k2 (errs ++ more2) .RPAREN with ⟨-, he⟩ | ⟨-, he⟩
    · rw [he]
      dsimp only
      rw [ite_not_true]
      exact Parser.returnsFrom_some l0 k (k2 + 1) errs more2 _ (by omega)
    · rw [he]
      dsimp only
      rw [ite_not_false]
      exact Parser.returnsFrom_weaken l0 k k2 errs more2 _
        (Parser.returnsFrom_some l0 k2 k2 _ _ _ (Nat.le_refl _)) (by omega)

theorem parseBlockStatementLoop_returns (l0 : Lexer) (n f : Nat) (r : ParseFns)
    (hn : ∀ j, n ≤ j → (Lexer.tokenAt j l0).Typ = .EOF)
    (hr : r.statementsReturn l0 n f) :
    ∀ (fuel : Nat) (stmts : List Statement) (k : Nat) (errs : List GoString),
      (n - k) + 2 ≤ f ∨ n ≤ k → (n - k) + 1 ≤ fuel →
      Parser.returnsFrom l0 k errs
        (parseBlockStatementLoop r fuel stmts (Parser.atToken l0 k errs)) := by
  intro fuel
  induction fuel with
  | zero => intro stmts k errs _ h; omega
  | succ fuel ih =>
    intro stmts k errs hf hfuel
    rw [parseBlockStatementLoop]
    by_cases hc : (!(Parser.atToken l0 k errs).curTokenIs .RBRACE &&
        !(Parser.atToken l0 k errs).curTokenIs .EOF) = true
    · rw [if_pos hc]
      have hne : (Lexer.tokenAt k l0).Typ ≠ .EOF := by
        intro h
        simp only [Parser.curTokenIs_atToken, h, decide_True, Bool.not_true, Bool.and_false,
          Bool.false_eq_true] at hc
      have hlt : k < n := lt_of_not_eof l0 n hn k hne
      obtain ⟨x, k1, more, hk1, heq⟩ := hr k errs (by omega)
      rw [heq]
      dsimp only
      rw [Parser.nextToken_atToken]
      exact Parser.returnsFrom_weaken l0 k (k1 + 1) errs more _
        (ih _ (k1 + 1) (errs ++ more) (by omega) (by omega)) (by omega)
    · rw [if_neg hc]
      exact Parser.returnsFrom_same l0 k k errs _ (Nat.le_refl _)

theorem parseBlockStatement_returns (l0 : Lexer) (n f : Nat) (r : ParseFns)
    (hn : ∀ j, n ≤ j → (Lexer.tokenAt j l0).Typ = .EOF)
    (hr : r.statementsReturn l0 n f) (fuel k : Nat) (errs : List GoString)
    (hf : (n - (k + 1)) + 2 ≤ f ∨ n ≤ k + 1) (hfuel : (n - (k + 1)) + 1 ≤ fuel) :
    Parser.returnsFrom l0 k errs
      (parseBlockStatement fuel r (Parser.atToken l0 k errs)) := by
  obtain ⟨stmts, k1, more, hk1, heq⟩ :=
    parseBlockStatementLoop_returns l0 n f r hn hr fuel [] (k + 1) errs hf hfuel
  unfold parseBlockStatement
  rw [Parser.nextToken_atToken]
  rw [heq]
  dsimp only
  exact Parser.returnsFrom_some l0 k k1 errs more _ (by omega)

theorem parseLetStatement_returns (l0 : Lexer) (n f : Nat) (r : ParseFns)
    (hr : r.expressionsReturn l0 n f) (k : Nat) (errs : List GoString)
    (hk : (n - k) + 1 ≤ f) :
    Parser.returnsFrom l0 k errs (parseLetStatement r (Parser.atToken l0 k errs)) := by
  unfold parseLetStatement
  rcases Parser.expectPeek_atToken l0 k errs .IDENT with ⟨-, he⟩ | ⟨-, he⟩
  · rw [he]
    simp only [Bool.not_true, Bool.false_eq_true, if_false]
    rcases Parser.expectPeek_atToken l0 (k + 1) errs .ASSIGN with ⟨-, he2⟩ | ⟨-, he2⟩
    · rw [he2]
      simp only [Bool.not_true, Bool.false_eq_true, if_false]
      rw [Parser.nextToken_atToken]
      obtain ⟨x, k1, more, hk1, heq⟩ := hr LOWEST (k + 1 + 1 + 1) errs (by omega)
      rw [heq]
      dsimp only
      by_cases hs : (Parser.atToken l0 k1 (errs ++ more)).peekTokenIs .SEMICOLON = true
      · rw [if_pos hs, Parser.nextToken_atToken]
        exact Parser.returnsFrom_some l0 k (k1 + 1) errs more _ (by omega)
      · rw [if_neg hs]
        exact Parser.returnsFrom_some l0 k k1 errs more _ (by omega)
    · rw [he2]
      simp only [Bool.not_false, if_true]
      exact Parser.returnsFrom_some l0 k (k + 1) errs _ _ (by omega)
  · rw [he]
    simp only [Bool.not_false, if_true]
    exact Parser.returnsFrom_some l0 k k errs _ _ (Nat.le_refl _)

theorem parseReturnStatement_returns (l0 : Lexer) (n f : Nat) (r : ParseFns)
    (hr : r.expressionsReturn l0 n f) (k : Nat) (errs : List GoString)
    (hk : (n - k) + 1 ≤ f) :
    Parser.returnsFrom l0 k errs (parseReturnStatement r (Parser.atToken l0 k errs)) := by
  unfold parseReturnStatement
  rw [Parser.nextToken_atToken]
  dsimp only
  by_cases hc : (!(Parser.atToken l0 (k + 1) errs).curTokenIs .SEMICOLON) = true
  · obtain ⟨x, k1, more, hk1, heq⟩ := hr LOWEST (k + 1) errs (by omega)
    rw [if_pos hc, heq]
    dsimp only
    by_cases hs : (Parser.atToken l0 k1 (errs ++ more)).peekTokenIs .SEMICOLON = true
    · rw [if_pos hs, Parser.nextToken_atToken]
      exact Parser.returnsFrom_some l0 k (k1 + 1) errs more _ (by omega)
    · rw [if_neg hs]
      exact Parser.returnsFrom_some l0 k k1 errs more _ (by omega)
  · rw [if_neg hc]
    dsimp only
    by_cases hs : (Parser.atToken l0 (k + 1) errs).peekTokenIs .SEMICOLON = true
    · rw [if_pos hs, Parser.nextToken_atToken]
      exact Parser.returnsFrom_same l0 k (k + 1 + 1) errs _ (by omega)
    · rw [if_neg hs]
      exact Parser.returnsFrom_same l0 k (k + 1) errs _ (by omega)

theorem parseExpressionStatement_returns (l0 : Lexer) (n f : Nat) (r : ParseFns)
    (hr : r.expressionsReturn l0 n f) (k : Nat) (errs : List GoString)
    (hk : (n - k) + 1 ≤ f) :
    Parser.returnsFrom l0 k errs (parseExpressionStatement r (Parser.atToken l0 k errs)) := by
  unfold parseExpressionStatement
  obtain ⟨x, k1, more, hk1, heq⟩ := hr LOWEST k errs hk
  rw [heq]
  dsimp only
  by_cases hs : (Parser.atToken l0 k1 (errs ++ more)).peekTokenIs .SEMICOLON = true
  · rw [if_pos hs, Parser.nextToken_atToken]
    exact Parser.returnsFrom_some l0 k (k1 + 1) errs more _ (by omega)
  · rw [if_neg hs]
    exact Parser.returnsFrom_some l0 k k1 errs more _ (by omega)

theorem parseFunctionStatement_returns (l0 : Lexer) (n f : Nat) (r : ParseFns)
    (hn : ∀ j, n ≤ j → (Lexer.tokenAt j l0).Typ = .EOF)
    (hr : r.statementsReturn l0 n f) (k : Nat) (errs : List GoString)
    (hk : (n - k) + 1 ≤ f) :
    Parser.returnsFrom l0 k errs
      (parseFunctionStatement (f + 1) r (Parser.atToken l0 k errs)) := by
  unfold parseFunctionStatement
  rcases Parser.expectPeek_atToken l0 k errs .IDENT with ⟨-, he⟩ | ⟨-, he⟩
  · rw [he]
    dsimp only
    rw [ite_not_true]
    rcases Parser.expectPeek_atToken l0 (k + 1) errs .LPAREN with ⟨-, he2⟩ | ⟨-, he2⟩
    · rw [he2]
      dsimp only
      rw [ite_not_true]
      obtain ⟨ps, k1, more, hk1, heq⟩ :=
        parseFunctionParameters_returns l0 n hn (f + 1) (k + 1 + 1) errs (by omega)
      rw [heq]
      dsimp only
      rcases Parser.expectPeek_atToken l0 k1 (errs ++ more) .LBRACE with ⟨-, he3⟩ | ⟨-, he3⟩
      · rw [he3]
        dsimp only
        rw [ite_not_true]
        obtain ⟨b, k2, more2, hk2, heq2⟩ := parseBlockStatement_returns l0 n f r hn hr (f + 1)
          (k1 + 1) (errs ++ more) (by omega) (by omega)
        rw [heq2]
        exact ⟨_, k2, more ++ more2, by omega, by rw [List.append_assoc]⟩
      · rw [he3]
        dsimp only
        rw [ite_not_false]
        exact Parser.returnsFrom_weaken l0 k k1 errs more _
          (Parser.returnsFrom_some l0 k1 k1 _ _ _ (Nat.le_refl _)) (by omega)
    · rw [he2]
      dsimp only
      rw [ite_not_false]
      exact Parser.returnsFrom_some l0 k (k + 1) errs _ _ (by omega)
  · rw [he]
    dsimp only
    rw [ite_not_false]
    exact Parser.returnsFrom_some l0 k k errs _ _ (Nat.le_refl _)

theorem parseIfStatement_returns (l0 : Lexer) (n f : Nat) (r : ParseFns)
    (hn : ∀ j, n ≤ j → (Lexer.tokenAt j l0).Typ = .EOF)
    (hre : r.expressionsReturn l0 n f)
    (hr : r.statementsReturn l0 n f) (k : Nat) (errs : List GoString)
    (hk : (n - k) + 1 ≤ f) :
    Parser.returnsFrom l0 k errs
      (parseIfStatement (f + 1) r (Parser.atToken l0 k errs)) := by
  unfold parseIfStatement
  rcases Parser.expectPeek_atToken l0 k errs .LPAREN with ⟨-, he⟩ | ⟨-, he⟩
  · rw [he]
    dsimp only
    rw [ite_not_true, Parser.nextToken_atToken]
    obtain ⟨c, k1, more, hk1, heq⟩ := hre LOWEST (k + 1 + 1) errs (by omega)
    rw [heq]
    dsimp only
    rcases Parser.expectPeek_atToken l0 k1 (errs ++ more) .RPAREN with ⟨-, he2⟩ | ⟨-, he2⟩
    · rw [he2]
      dsimp only
      rw [ite_not_true]
      rcases Parser.expectPeek_atToken l0 (k1 + 1) (errs ++ more) .LBRACE with
        ⟨-, he3⟩ | ⟨-, he3⟩
      · rw [he3]
        dsimp only
        rw [ite_not_true]
        obtain ⟨b, k2, more2, hk2, heq2⟩ := parseBlockStatement_returns l0 n f r hn hr (f + 1)
          (k1 + 1 + 1) (errs ++ more) (by omega) (by omega)
        rw [heq2]
        dsimp only
        by_cases hel : (Parser.atToken l0 k2 (errs ++ more ++ more2)).peekTokenIs .ELSE = true
        · rw [if_pos hel, Parser.nextToken_atToken]
          rcases Parser.expectPeek_atToken l0 (k2 + 1) (errs ++ more ++ more2) .LBRACE with
            ⟨-, he4⟩ | ⟨-, he4⟩
          · rw [he4]
            dsimp only
            rw [ite_not_true]
            obtain ⟨a, k3, more3, hk3, heq3⟩ := parseBlockStatement_returns l0 n f r hn hr
              (f + 1) (k2 + 1 + 1) (errs ++ more ++ more2) (by omega) (by omega)
            rw [heq3]
            exact ⟨_, k3, more ++ more2 ++ more3, by omega, by
              rw [List.append_assoc, List.append_assoc, List.append_assoc]⟩
          · rw [he4]
            dsimp only
            rw [ite_not_false]
            exact Parser.returnsFrom_weaken l0 k k1 errs more _
              (Parser.returnsFrom_weaken l0 k1 (k2 + 1) (errs ++ more) more2 _
                (Parser.returnsFrom_some l0 _ _ _ _ _ (Nat.le_refl _)) (by omega)) (by omega)
        · rw [if_neg hel]
          exact ⟨_, k2, more ++ more2, by omega, by rw [List.append_assoc]⟩
      · rw [he3]
        dsimp only
        rw [ite_not_false]
        exact Parser.returnsFrom_weaken l0 k (k1 + 1) errs more _
          (Parser.returnsFrom_some l0 _ _ _ _ _ (Nat.le_refl _)) (by omega)
    · rw [he2]
      dsimp only
      rw [ite_not_false]
      exact Parser.returnsFrom_weaken l0 k k1 errs more _
        (Parser.returnsFrom_some l0 _ _ _ _ _ (Nat.le_refl _)) (by omega)
  · rw [he]
    dsimp only
    rw [ite_not_false]
    exact Parser.returnsFrom_some l0 k k errs _ _ (Nat.le_refl _)

theorem parseStatementStep_cases (fuel : Nat) (r : ParseFns) (p : Parser) :
    parseStatementStep fuel r p = parseLetStatement r p ∨
    parseStatementStep fuel r p = parseFunctionStatement fuel r p ∨
    parseStatementStep fuel r p = parseReturnStatement r p ∨
    parseStatementStep fuel r p = parseIfStatement fuel r p ∨
    (p.curToken.Typ ≠ .LET ∧ p.curToken.Typ ≠ .FUNCTION ∧ p.curToken.Typ ≠ .RETURN ∧
      p.curToken.Typ ≠ .IF ∧ parseStatementStep fuel r p = parseExpressionStatement r p) := by
  unfold parseStatementStep
  cases p.curToken.Typ <;> first
    | exact Or.inr (Or.inr (Or.inr (Or.inr ⟨by decide, by decide, by decide, by decide, rfl⟩)))
    | exact Or.inl rfl
    | exact Or.inr (Or.inl rfl)
    | exact Or.inr (Or.inr (Or.inl rfl))
    | exact Or.inr (Or.inr (Or.inr (Or.inl rfl)))

/-- One level of `parseStatement` returns when the level below does. -/
theorem parseStatementStep_returns (l0 : Lexer) (n f : Nat) (r : ParseFns)
    (hn : ∀ j, n ≤ j → (Lexer.tokenAt j l0).Typ = .EOF)
    (hre : r.expressionsReturn l0 n f) (hr : r.statementsReturn l0 n f)
    (k : Nat) (errs : List GoString) (hk : (n - k) + 1 ≤ f) :
    Parser.returnsFrom l0 k errs
      (parseStatementStep (f + 1) r (Parser.atToken l0 k errs)) := by
  rcases parseStatementStep_cases (f + 1) r (Parser.atToken l0 k errs) with
    h | h | h | h | ⟨-, -, -, -, h⟩
  · rw [h]; exact parseLetStatement_returns l0 n f r hre k errs hk
  · rw [h]; exact parseFunctionStatement_returns l0 n f r hn hr k errs hk
  · rw [h]; exact parseReturnStatement_returns l0 n f r hre k errs hk
  · rw [h]; exact parseIfStatement_returns l0 n f r hn hre hr k errs hk
  · rw [h]; exact parseExpressionStatement_returns l0 n f r hre k errs hk

/-- The parser with `fuel` levels of recursion returns wherever `fuel` is enough. -/
theorem parseFns_returns (l0 : Lexer) (n : Nat)
    (hn : ∀ j, n ≤ j → (Lexer.tokenAt j l0).Typ = .EOF) :
    ∀ fuel, (parseFns fuel).expressionsReturn l0 n fuel ∧
      (parseFns fuel).statementsReturn l0 n fuel := by
  intro fuel
  induction fuel with
  | zero =>
    exact ⟨fun _ k _ h => absurd h (by omega), fun k _ h => absurd h (by omega)⟩
  | succ f ih =>
    obtain ⟨he, hs⟩ := ih
    constructor
    · intro precedence k errs hk
      rw [parseFns_parseExpression]
      exact parseExpressionStep_returns l0 n f (parseFns f) hn he precedence k errs (by omega)
    · intro k errs hk
      rw [parseFns_parseStatement]
      exact parseStatementStep_returns l0 n f (parseFns f) hn he hs k errs (by omega)

/-- The loop of `ParseProgram` returns: it appends statements to the program and errors
to the error list. -/
theorem ParseProgramLoop_returns (l0 : Lexer) (n f : Nat) (r : ParseFns)
    (hn : ∀ j, n ≤ j → (Lexer.tokenAt j l0).Typ = .EOF)
    (hr : r.statementsReturn l0 n f) (hf : n + 2 ≤ f) :
    ∀ (fuel : Nat) (stmts : List Statement) (k : Nat) (errs : List GoString),
      (n - k) + 1 ≤ fuel →
      ∃ more1 k1 more, k ≤ k1 ∧
        ParseProgramLoop r fuel stmts (Parser.atToken l0 k errs) =
          some (stmts ++ more1, Parser.atToken l0 k1 (errs ++ more)) := by
  intro fuel
  induction fuel with
  | zero => intro stmts k errs h; omega
  | succ fuel ih =>
    intro stmts k errs hfuel
    rw [ParseProgramLoop]
    by_cases hc : (Lexer.tokenAt k l0).Typ = .EOF
    · simp only [Parser.curToken_atToken, hc, ne_eq, not_true_eq_false, if_false]
      exact ⟨[], k, [], Nat.le_refl _, by rw [List.append_nil, List.append_nil]⟩
    · have hlt : k < n := lt_of_not_eof l0 n hn k hc
      obtain ⟨x, k1, more, hk1, heq⟩ := hr k errs (by omega)
      simp only [Parser.curToken_atToken, hc, ne_eq, not_false_eq_true, if_true, heq]
      rw [Parser.nextToken_atToken]
      obtain ⟨more1, k2, more2, hk2, heq2⟩ := ih (stmts ++ [x]) (k1 + 1) (errs ++ more)
        (by omega)
      rw [heq2]
      exact ⟨[x] ++ more1, k2, more ++ more2, by omega, by
        rw [List.append_assoc, List.append_assoc]⟩

/-- The method `ParseProgram` returns on every source text. -/
theorem ParseProgram_returns (src : GoString) :
    ∃ program k errs, ParseProgram (NewParser (New src)) =
      some (program, Parser.atToken (New src) k errs) := by
  have hn := tokenAt_eof_of_length_le src
  have hlen : (NewParser (New src)).l.input.length = src.length := by
    rw [NewParser_atToken]
    show (Lexer.advance 2 (New src)).input.length = _
    rw [Lexer.advance_input (New src) (New_wf src), New_input]
  obtain ⟨more1, k1, more, -, heq⟩ := ParseProgramLoop_returns (New src) src.length
    (2 * src.length + 8) (parseFns (2 * src.length + 8)) hn
    (parseFns_returns (New src) src.length hn _).2 (by omega) (2 * src.length + 8) [] 0 []
    (by omega)
  refine ⟨⟨[] ++ more1⟩, k1, [] ++ more, ?_⟩
  unfold ParseProgram ParseProgramFuel
  rw [hlen, NewParser_atToken, heq]

/-! ## Errors of the parser -/

theorem prefixParseFns_none (t : TokenType) (h : hasPrefixRule t = false) (r : ParseFns) :
    prefixParseFns r t = none := by
  cases t <;> first
    | rfl
    | exact absurd h (by decide)

theorem parseStatementStep_expression (fuel : Nat) (r : ParseFns) (p : Parser)
    (h : startsStatementForm p.curToken.Typ = false) :
    parseStatementStep fuel r p = parseExpressionStatement r p := by
  unfold parseStatementStep
  generalize p.curToken.Typ = t at h
  cases t <;> first
    | exact absurd h (by decide)
    | rfl

theorem Parser.noPrefixParseFnError_atToken (l0 : Lexer) (k : Nat) (errs : List GoString)
    (t : TokenType) :
    (Parser.atToken l0 k errs).noPrefixParseFnError t =
      Parser.atToken l0 k (errs ++ [str "no prefix parse function for " ++ t.String ++
        str " found"]) := rfl

theorem parseStatementStep_let (fuel : Nat) (r : ParseFns) (p : Parser)
    (h : p.curToken.Typ = .LET) :
    parseStatementStep fuel r p = parseLetStatement r p := by
  unfold parseStatementStep
  rw [h]

/-- The rule `parseStatement` on a token that has no prefix rule and begins no statement
form: the statement is an expression statement without an expression, the error is
appended, and no token but a semicolon that follows is consumed. -/
theorem parseStatementStep_no_prefix (l0 : Lexer) (k f : Nat) (errs : List GoString)
    (hp : hasPrefixRule (Lexer.tokenAt k l0).Typ = false)
    (hs : startsStatementForm (Lexer.tokenAt k l0).Typ = false) :
    parseStatementStep (f + 2) (parseFns (f + 1)) (Parser.atToken l0 k errs) =
      some (Statement.ExpressionStatement (Lexer.tokenAt k l0) Expression.nil,
        Parser.atToken l0 (if (Lexer.tokenAt (k + 1) l0).Typ = .SEMICOLON then k + 1 else k)
          (errs ++ [str "no prefix parse function for " ++ (Lexer.tokenAt k l0).Typ.String ++
            str " found"])) := by
  rw [parseStatementStep_expression _ _ (Parser.atToken l0 k errs) hs]
  unfold parseExpressionStatement
  rw [parseFns_parseExpression]
  have he : parseExpressionStep (f + 1) (parseFns f) LOWEST (Parser.atToken l0 k errs) =
      some (Expression.nil, Parser.atToken l0 k
        (errs ++ [str "no prefix parse function for " ++ (Lexer.tokenAt k l0).Typ.String ++
          str " found"])) := by
    unfold parseExpressionStep
    rw [Parser.curToken_atToken, prefixParseFns_none _ hp]
    dsimp only
    rw [Parser.noPrefixParseFnError_atToken]
  rw [he]
  dsimp only
  rw [Parser.peekTokenIs_atToken, Parser.curToken_atToken]
  by_cases hsemi : (Lexer.tokenAt (k + 1) l0).Typ = .SEMICOLON
  · rw [if_pos hsemi, if_pos (decide_eq_true hsemi), Parser.nextToken_atToken]
  · rw [if_neg hsemi, if_neg (by rw [decide_eq_true_eq]; exact hsemi)]

/-- The program that `ParseProgram` returns begins with the statement that `parseStatement`
returns first, and its error list begins with the errors of this statement. -/
theorem ParseProgram_first_statement (src : GoString) (stmt : Statement) (k1 : Nat)
    (errs1 : List GoString) (hne : (Lexer.tokenAt 0 (New src)).Typ ≠ .EOF)
    (hs : parseStatementStep (2 * src.length + 7 + 1) (parseFns (2 * src.length + 7))
      (Parser.atToken (New src) 0 []) = some (stmt, Parser.atToken (New src) k1 errs1)) :
    ∃ rest k2 more, ParseProgram (NewParser (New src)) =
      some (⟨stmt :: rest⟩, Parser.atToken (New src) k2 (errs1 ++ more)) := by
  have hn := tokenAt_eof_of_length_le src
  have hlen : (NewParser (New src)).l.input.length = src.length := by
    rw [NewParser_atToken]
    show (Lexer.advance 2 (New src)).input.length = _
    rw [Lexer.advance_input (New src) (New_wf src), New_input]
  obtain ⟨more1, k2, more, -, heq⟩ := ParseProgramLoop_returns (New src) src.length
    (2 * src.length + 8) (parseFns (2 * src.length + 8)) hn
    (parseFns_returns (New src) src.length hn _).2 (by omega) (2 * src.length + 7) ([] ++ [stmt])
    (k1 + 1) errs1 (by omega)
  refine ⟨more1, k2, more, ?_⟩
  unfold ParseProgram ParseProgramFuel
  rw [hlen, NewParser_atToken]
  have e : 2 * src.length + 8 = (2 * src.length + 7) + 1 := rfl
  have hloop : ParseProgramLoop (parseFns (2 * src.length + 8)) (2 * src.length + 8) []
      (Parser.atToken (New src) 0 []) =
      some ([] ++ [stmt] ++ more1, Parser.atToken (New src) k2 (errs1 ++ more)) := by
    rw [← heq]
    conv => lhs; rw [e, ParseProgramLoop]
    rw [if_pos (by rw [Parser.curToken_atToken]; exact hne), parseFns_parseStatement, hs]
    dsimp only
    rw [Parser.nextToken_atToken]
  rw [hloop]
  rfl

/-- C26, as stated, fails: the kind LET has no prefix rule, and a `let` at the start of a
statement is parsed without any error. -/
theorem let_has_no_prefix_rule_and_is_no_error :
    hasPrefixRule .LET = false ∧
    parseAndRender (str "let x = 5;") = some (some (str "let x = 5;"), []) := by
  decide

/-- C26, amended. A token with no prefix rule that begins no statement form is reported
and parsing goes on. For every token kind that has no prefix rule and is none of LET,
FUNCTION, RETURN and IF, the rule `parseStatement` on a token of this kind yields an
expression statement without an expression, appends the error
`no prefix parse function for <k> found` and consumes nothing but a semicolon that
follows; for a source that begins with such a token, other than EOF, `ParseProgram`
returns a program that begins with this statement and an error list that begins with this
error; and for `); 5;` the error list has exactly one entry and the program renders as
`5;`. -/
theorem no_prefix_rule_is_reported :
    (∀ (l0 : Lexer) (k f : Nat) (errs : List GoString),
      hasPrefixRule (Lexer.tokenAt k l0).Typ = false →
      startsStatementForm (Lexer.tokenAt k l0).Typ = false →
      parseStatementStep (f + 2) (parseFns (f + 1)) (Parser.atToken l0 k errs) =
        some (Statement.ExpressionStatement (Lexer.tokenAt k l0) Expression.nil,
          Parser.atToken l0 (if (Lexer.tokenAt (k + 1) l0).Typ = .SEMICOLON then k + 1 else k)
            (errs ++ [str "no prefix parse function for " ++
              (Lexer.tokenAt k l0).Typ.String ++ str " found"]))) ∧
    (∀ src : GoString,
      hasPrefixRule (Lexer.tokenAt 0 (New src)).Typ = false →
      startsStatementForm (Lexer.tokenAt 0 (New src)).Typ = false →
      (Lexer.tokenAt 0 (New src)).Typ ≠ .EOF →
      ∃ rest p more, ParseProgram (NewParser (New src)) =
          some (⟨Statement.ExpressionStatement (Lexer.tokenAt 0 (New src)) Expression.nil ::
            rest⟩, p) ∧
        p.errors = (str "no prefix parse function for " ++
          (Lexer.tokenAt 0 (New src)).Typ.String ++ str " found") :: more) ∧
    parseAndRender (str "); 5;") =
      some (some (str "5;"), [str "no prefix parse function for ) found"]) := by
  refine ⟨fun l0 k f errs hp hs => parseStatementStep_no_prefix l0 k f errs hp hs, ?_,
    by decide⟩
  intro src hp hs hne
  have h := parseStatementStep_no_prefix (New src) 0 (2 * src.length + 6) [] hp hs
  obtain ⟨rest, k2, more, heq⟩ := ParseProgram_first_statement src _ _ _ hne h
  exact ⟨rest, _, more, heq, rfl⟩

theorem no_prefix_rule_is_reported_witness :
    ∃ rest p more, ParseProgram (NewParser (New (str "* 2"))) =
        some (⟨Statement.ExpressionStatement (Lexer.tokenAt 0 (New (str "* 2")))
          Expression.nil :: rest⟩, p) ∧
      p.errors = (str "no prefix parse function for " ++
        (Lexer.tokenAt 0 (New (str "* 2"))).Typ.String ++ str " found") :: more :=
  no_prefix_rule_is_reported.2.1 (str "* 2") (by decide) (by decide) (by decide)

/-- C27. Unexpected-token error message: for every source that starts with `let` followed
by a token whose kind `k` is not IDENT, `ParseProgram` returns, the first entry of the
error list is `expected next token to be IDENT, got <k> instead` with the display name of
`k`, the first statement is the nil `*LetStatement`, and the failed check leaves the
window of the parser and its lexer as they are. -/
theorem let_without_identifier_is_reported (src : GoString) (k : TokenType)
    (h0 : (Lexer.tokenAt 0 (New src)).Typ = .LET)
    (h1 : (Lexer.tokenAt 1 (New src)).Typ = k) (hk : k ≠ .IDENT) :
    (∃ rest p more, ParseProgram (NewParser (New src)) =
        some (⟨Statement.nilLetStatement :: rest⟩, p) ∧
      p.errors = (str "expected next token to be IDENT, got " ++ k.String ++
        str " instead") :: more) ∧
    (NewParser (New src)).expectPeek .IDENT =
      (false, { NewParser (New src) with
        errors := [str "expected next token to be IDENT, got " ++ k.String ++
          str " instead"] }) := by
  have he := Parser.expectPeek_atToken_false (New src) 0 [] .IDENT (by rw [h1]; exact hk)
  rw [h1] at he
  constructor
  · have hs : parseStatementStep (2 * src.length + 7 + 1) (parseFns (2 * src.length + 7))
        (Parser.atToken (New src) 0 []) =
        some (Statement.nilLetStatement, Parser.atToken (New src) 0
          ([] ++ [str "expected next token to be " ++ TokenType.IDENT.String ++ str ", got " ++
            k.String ++ str " instead"])) := by
      rw [parseStatementStep_let _ _ (Parser.atToken (New src) 0 []) h0]
      unfold parseLetStatement
      rw [he]
      rfl
    obtain ⟨rest, k2, more, heq⟩ := ParseProgram_first_statement src _ _ _
      (by rw [h0]; decide) hs
    exact ⟨rest, _, more, heq, rfl⟩
  · rw [NewParser_atToken, he]
    rfl

theorem let_without_identifier_is_reported_witness :
    (∃ rest p more, ParseProgram (NewParser (New (str "let 5 = 3;"))) =
        some (⟨Statement.nilLetStatement :: rest⟩, p) ∧
      p.errors = (str "expected next token to be IDENT, got " ++ TokenType.INT.String ++
        str " instead") :: more) ∧
    (NewParser (New (str "let 5 = 3;"))).expectPeek .IDENT =
      (false, { NewParser (New (str "let 5 = 3;")) with
        errors := [str "expected next token to be IDENT, got " ++ TokenType.INT.String ++
          str " instead"] }) :=
  let_without_identifier_is_reported (str "let 5 = 3;") .INT (by decide) (by decide)
    (by decide)

/-! ## Integer arithmetic -/

theorem wrap64_range (x : Int) : -2 ^ 63 ≤ wrap64 x ∧ wrap64 x < 2 ^ 63 := by
  unfold wrap64
  have h1 := Int.emod_nonneg (x + 2 ^ 63) (by norm_num : (2 : Int) ^ 64 ≠ 0)
  have h2 := Int.emod_lt_of_pos (x + 2 ^ 63) (by norm_num : (0 : Int) < 2 ^ 64)
  constructor <;> omega

theorem wrap64_congruent (x : Int) : (wrap64 x - x) % 2 ^ 64 = 0 := by
  unfold wrap64
  omega

theorem wrap64_of_range (x : Int) (h1 : -2 ^ 63 ≤ x) (h2 : x < 2 ^ 63) : wrap64 x = x := by
  unfold wrap64
  omega

theorem isInt64_wrap64 (x : Int) : isInt64 (wrap64 x) = true := by
  have h := wrap64_range x
  simp only [isInt64, Bool.and_eq_true, decide_eq_true_eq]
  exact h

/-- The quotient truncated toward zero of two `int64` values is an `int64` value, except
for `-2^63 / -1`. -/
theorem tdiv_range (a b : Int) (ha : -2 ^ 63 ≤ a ∧ a < 2 ^ 63) (hb : b ≠ 0)
    (hab : ¬ (a = -2 ^ 63 ∧ b = -1)) :
    -2 ^ 63 ≤ Int.tdiv a b ∧ Int.tdiv a b < 2 ^ 63 := by
  have hn : (Int.tdiv a b).natAbs = a.natAbs / b.natAbs := Int.natAbs_tdiv a b
  have hle : a.natAbs / b.natAbs ≤ a.natAbs := Nat.div_le_self _ _
  by_cases h1 : b.natAbs = 1
  · rcases Int.natAbs_eq b with hb1 | hb1
    · rw [h1] at hb1
      have : b = 1 := by simpa using hb1
      subst this
      simp only [Int.tdiv_one]
      exact ha
    · rw [h1] at hb1
      have : b = -1 := by simpa using hb1
      subst this
      have : Int.tdiv a (-1) = -a := by
        rw [Int.tdiv_neg, Int.tdiv_one]
      rw [this]
      have : a ≠ -2 ^ 63 := fun h => hab ⟨h, rfl⟩
      omega
  · have h2 : 2 ≤ b.natAbs := by
      have : b.natAbs ≠ 0 := by simpa using hb
      omega
    have hlt : a.natAbs / b.natAbs ≤ a.natAbs / 2 := Nat.div_le_div_left h2 (by norm_num)
    omega

theorem evalInfixExpression_integer (op : GoString) (a b : Int) :
    evalInfixExpression op (Object.Integer a) (Object.Integer b) =
      evalIntegerInfixExpression op (Object.Integer a) (Object.Integer b) := by
  simp +decide [evalInfixExpression, Object.Type, bothOfType, INTEGER_OBJ]

/-- C40. For every `int64` value `a` and every integer `b`, so for all `int64` values `a`
and `b`: `a + b`, `a - b`, `a * b` and prefix `-a`
evaluate to an Integer in the `int64` range that is congruent to the exact result modulo
`2^64`; for `b ≠ 0`, `a / b` evaluates to such an Integer for the quotient truncated toward
zero, which is that quotient itself except for `-2^63 / -1`; negating `-2^63` and dividing
it by `-1` give `-2^63`; and an infix expression with one of the four operators whose
operands evaluate to `a` and `b` (`b ≠ 0` for `/`) evaluates to an Integer. -/
theorem integer_arithmetic_is_two_complement (a b : Int) (ha : isInt64 a = true) :
    (∃ r, evalInfixExpression (str "+") (Object.Integer a) (Object.Integer b)
        = Res.ok (Object.Integer r) ∧ isInt64 r = true ∧ (r - (a + b)) % 2 ^ 64 = 0) ∧
    (∃ r, evalInfixExpression (str "-") (Object.Integer a) (Object.Integer b)
        = Res.ok (Object.Integer r) ∧ isInt64 r = true ∧ (r - (a - b)) % 2 ^ 64 = 0) ∧
    (∃ r, evalInfixExpression (str "*") (Object.Integer a) (Object.Integer b)
        = Res.ok (Object.Integer r) ∧ isInt64 r = true ∧ (r - a * b) % 2 ^ 64 = 0) ∧
    (∃ r, evalPrefixExpression (str "-") (Object.Integer a)
        = Res.ok (Object.Integer r) ∧ isInt64 r = true ∧ (r - -a) % 2 ^ 64 = 0) ∧
    (b ≠ 0 → ∃ r, evalInfixExpression (str "/") (Object.Integer a) (Object.Integer b)
        = Res.ok (Object.Integer r) ∧ isInt64 r = true ∧ (r - Int.tdiv a b) % 2 ^ 64 = 0 ∧
        (¬ (a = -2 ^ 63 ∧ b = -1) → r = Int.tdiv a b)) ∧
    evalPrefixExpression (str "-") (Object.Integer (-2 ^ 63))
      = Res.ok (Object.Integer (-2 ^ 63)) ∧
    evalInfixExpression (str "/") (Object.Integer (-2 ^ 63)) (Object.Integer (-1))
      = Res.ok (Object.Integer (-2 ^ 63)) ∧
    (∀ (fuel : Nat) (tok : Token) (left right : Expression) (op : GoString) (env : Nat)
        (h h1 h2 : Heap),
      op ∈ [str "+", str "-", str "*", str "/"] → (op = str "/" → b ≠ 0) →
      Eval fuel (Node.Expression left) env h = Res.ok (Object.Integer a, h1) →
      Eval fuel (Node.Expression right) env h1 = Res.ok (Object.Integer b, h2) →
      ∃ r, Eval (fuel + 1) (Node.Expression (Expression.InfixExpression tok left op right))
          env h = Res.ok (Object.Integer r, h2) ∧ isInt64 r = true) := by
  have hplus : evalInfixExpression (str "+") (Object.Integer a) (Object.Integer b)
      = Res.ok (Object.Integer (wrap64 (a + b))) := by
    rw [evalInfixExpression_integer]; rfl
  have hminus : evalInfixExpression (str "-") (Object.Integer a) (Object.Integer b)
      = Res.ok (Object.Integer (wrap64 (a - b))) := by
    rw [evalInfixExpression_integer]; rfl
  have htimes : evalInfixExpression (str "*") (Object.Integer a) (Object.Integer b)
      = Res.ok (Object.Integer (wrap64 (a * b))) := by
    rw [evalInfixExpression_integer]; rfl
  have hdiv : b ≠ 0 → evalInfixExpression (str "/") (Object.Integer a) (Object.Integer b)
      = Res.ok (Object.Integer (wrap64 (Int.tdiv a b))) := by
    intro hb0
    rw [evalInfixExpression_div, if_neg hb0]
  have ha' : -2 ^ 63 ≤ a ∧ a < 2 ^ 63 := by
    simpa only [isInt64, Bool.and_eq_true, decide_eq_true_eq] using ha
  refine ⟨⟨_, hplus, isInt64_wrap64 _, wrap64_congruent _⟩,
    ⟨_, hminus, isInt64_wrap64 _, wrap64_congruent _⟩,
    ⟨_, htimes, isInt64_wrap64 _, wrap64_congruent _⟩,
    ⟨_, rfl, isInt64_wrap64 _, wrap64_congruent _⟩, ?_, ?_, ?_, ?_⟩
  · intro hb0
    refine ⟨_, hdiv hb0, isInt64_wrap64 _, wrap64_congruent _, fun hab => ?_⟩
    have hr := tdiv_range a b ha' hb0 hab
    exact wrap64_of_range _ hr.1 hr.2
  · show Res.ok (Object.Integer (wrap64 (-(-2 ^ 63)))) = _
    have : wrap64 (-(-2 ^ 63)) = -2 ^ 63 := by unfold wrap64; omega
    rw [this]
  · rw [evalInfixExpression_div, if_neg (by decide)]
    have : wrap64 (Int.tdiv (-2 ^ 63) (-1)) = -2 ^ 63 := by
      rw [Int.tdiv_neg, Int.tdiv_one]; unfold wrap64; omega
    rw [this]
  · intro fuel tok left right op env h h1 h2 hop hb0 hl hr
    have step : ∀ r, evalInfixExpression op (Object.Integer a) (Object.Integer b)
        = Res.ok (Object.Integer r) →
        Eval (fuel + 1) (Node.Expression (Expression.InfixExpression tok left op right))
          env h = Res.ok (Object.Integer r, h2) := by
      intro r hr'
      simp only [Eval, EvalStep, evalExpression, hl, hr, isError, Bool.false_eq_true,
        if_false, hr']
    simp only [List.mem_cons, List.mem_singleton, List.not_mem_nil, or_false] at hop
    rcases hop with rfl | rfl | rfl | rfl
    · exact ⟨_, step _ hplus, isInt64_wrap64 _⟩
    · exact ⟨_, step _ hminus, isInt64_wrap64 _⟩
    · exact ⟨_, step _ htimes, isInt64_wrap64 _⟩
    · exact ⟨_, step _ (hdiv (hb0 rfl)), isInt64_wrap64 _⟩

/-- Witness of C40: `(2^63 - 1) + 1` wraps to `-2^63`, and `7 / -2` is `-3`. -/
theorem integer_arithmetic_is_two_complement_witness :
    evalInfixExpression (str "+") (Object.Integer (2 ^ 63 - 1)) (Object.Integer 1)
      = Res.ok (Object.Integer (-2 ^ 63)) ∧
    evalInfixExpression (str "/") (Object.Integer 7) (Object.Integer (-2))
      = Res.ok (Object.Integer (-3)) := by
  obtain ⟨r, h1, h2, h3⟩ :=
    (integer_arithmetic_is_two_complement (2 ^ 63 - 1) 1 (by decide)).1
  obtain ⟨q, h4, -, -, h5⟩ :=
    (integer_arithmetic_is_two_complement 7 (-2) (by decide)).2.2.2.2.1
      (by decide)
  have hq : q = -3 := h5 (by decide)
  subst hq
  refine ⟨?_, h4⟩
  rw [h1]
  simp only [isInt64, Bool.and_eq_true, decide_eq_true_eq] at h2
  have : r = -2 ^ 63 := by omega
  rw [this]

/-! ## Errors among the arguments of a call -/

theorem evalExpressionsLoop_error (ev : EvalFn) (env : Nat) (e : Expression)
    (post : List Expression) (msg : GoString) (h3 : Heap) :
    ∀ (pre : List Expression) (acc : List Object) (h2 h : Heap),
      argumentsPass ev env pre h = some h2 →
      ev (Node.Expression e) env h2 = Res.ok (Object.Error msg, h3) →
      evalExpressionsLoop ev env (pre ++ e :: post) acc h = Res.ok ([Object.Error msg], h3) := by
  intro pre
  induction pre with
  | nil =>
    intro acc h2 h hp he
    simp only [argumentsPass, Option.some.injEq] at hp
    subst hp
    have hm : isError (Object.Error msg) = true := rfl
    simp only [List.nil_append, evalExpressionsLoop, he, hm, if_true]
  | cons a pre ih =>
    intro acc h2 h hp he
    simp only [argumentsPass] at hp
    cases hev : ev (Node.Expression a) env h with
    | panic => simp [hev] at hp
    | outOfFuel => simp [hev] at hp
    | ok v =>
      obtain ⟨x, h'⟩ := v
      simp only [hev] at hp
      by_cases hx : isError x = true
      · simp [hx] at hp
      · simp only [hx, Bool.false_eq_true, if_false] at hp
        simp only [List.cons_append, evalExpressionsLoop, hev, hx, Bool.false_eq_true,
          if_false]
        exact ih _ h2 h' hp he

/-- C35. For every call expression and every way `ev` of evaluating its parts: when the
callee evaluates to an object `fn` that is not an Error, the arguments `pre` before the
argument `e` evaluate one after the other to objects that are not Errors, and `e` evaluates
to an Error, then the call evaluates to exactly that Error, in the heap that `e` left
behind. Nothing is assumed of `ev` on the arguments `post` to the right of `e` or on the
body of `fn`: they are not evaluated. `Eval (fuel + 1)` is `EvalStep (Eval fuel)`. -/
theorem argument_error_stops_call (ev : EvalFn) (tok : Token) (function e : Expression)
    (pre post : List Expression) (env : Nat) (h h1 h2 h3 : Heap) (fn : Object)
    (msg : GoString)
    (hfn : ev (Node.Expression function) env h = Res.ok (fn, h1))
    (hne : isError fn = false)
    (hpre : argumentsPass ev env pre h1 = some h2)
    (he : ev (Node.Expression e) env h2 = Res.ok (Object.Error msg, h3)) :
    EvalStep ev (Node.Expression (Expression.CallExpression tok function (pre ++ e :: post)))
        env h = Res.ok (Object.Error msg, h3) ∧
    (∀ fuel, ev = Eval fuel →
      Eval (fuel + 1)
          (Node.Expression (Expression.CallExpression tok function (pre ++ e :: post))) env h
        = Res.ok (Object.Error msg, h3)) := by
  have key : EvalStep ev
      (Node.Expression (Expression.CallExpression tok function (pre ++ e :: post))) env h
        = Res.ok (Object.Error msg, h3) := by
    have hm : isError (Object.Error msg) = true := rfl
    simp only [EvalStep, evalExpression, hfn, hne, Bool.false_eq_true, if_false,
      evalExpressions, evalExpressionsLoop_error ev env e post msg h3 pre [] h2 h1 hpre he,
      hm, if_true]
  refine ⟨key, ?_⟩
  intro fuel hev
  subst hev
  exact key

/-- Witness of C35: in the call `5(1, 1 / 0, x)` the callee is the Integer 5, the first
argument the Integer 1 and the second the Error "division by zero", which is the result of
the call: neither the third argument is looked up nor the callee applied. -/
theorem argument_error_stops_call_witness :
    Eval 3 (Node.Expression (Expression.CallExpression ⟨.LPAREN, str "(", 1, 2⟩
        (Expression.IntegerLiteral ⟨.INT, str "5", 1, 1⟩ 5)
        ([Expression.IntegerLiteral ⟨.INT, str "1", 1, 3⟩ 1] ++
          Expression.InfixExpression ⟨.DIVIDE, str "/", 1, 8⟩
            (Expression.IntegerLiteral ⟨.INT, str "1", 1, 6⟩ 1) (str "/")
            (Expression.IntegerLiteral ⟨.INT, str "0", 1, 10⟩ 0) ::
          [Expression.Identifier ⟨.IDENT, str "x", 1, 13⟩ (str "x")])))
      0 (NewEnvironment Heap.empty).2
      = Res.ok (Object.Error (str "division by zero"), (NewEnvironment Heap.empty).2) :=
  (argument_error_stops_call (Eval 2) ⟨.LPAREN, str "(", 1, 2⟩
    (Expression.IntegerLiteral ⟨.INT, str "5", 1, 1⟩ 5)
    (Expression.InfixExpression ⟨.DIVIDE, str "/", 1, 8⟩
      (Expression.IntegerLiteral ⟨.INT, str "1", 1, 6⟩ 1) (str "/")
      (Expression.IntegerLiteral ⟨.INT, str "0", 1, 10⟩ 0))
    [Expression.IntegerLiteral ⟨.INT, str "1", 1, 3⟩ 1]
    [Expression.Identifier ⟨.IDENT, str "x", 1, 13⟩ (str "x")] 0
    (NewEnvironment Heap.empty).2 (NewEnvironment Heap.empty).2 (NewEnvironment Heap.empty).2
    (NewEnvironment Heap.empty).2 (Object.Integer 5) (str "division by zero") rfl rfl rfl
    rfl).2 2 rfl

/-! ## Termination of the parser -/

/-- One iteration of the loop of `ParseProgram`: a statement is parsed and the loop goes on
at a later token. -/
theorem ParseProgramLoop_iteration (l0 : Lexer) (n f : Nat) (r : ParseFns)
    (hr : r.statementsReturn l0 n f) (fuel : Nat) (stmts : List Statement) (k : Nat)
    (errs : List GoString) (hk : (n - k) + 2 ≤ f) (hc : (Lexer.tokenAt k l0).Typ ≠ .EOF) :
    ∃ stmt k1 more, k < k1 ∧
      ParseProgramLoop r (fuel + 1) stmts (Parser.atToken l0 k errs) =
        ParseProgramLoop r fuel (stmts ++ [stmt]) (Parser.atToken l0 k1 (errs ++ more)) := by
  obtain ⟨x, k1, more, hk1, heq⟩ := hr k errs hk
  refine ⟨x, k1 + 1, more, by omega, ?_⟩
  rw [ParseProgramLoop]
  simp only [Parser.curToken_atToken, hc, ne_eq, not_false_eq_true, if_true, heq]
  rw [Parser.nextToken_atToken]

/-- One iteration of the loop of `parseBlockStatement`. -/
theorem parseBlockStatementLoop_iteration (l0 : Lexer) (n f : Nat) (r : ParseFns)
    (hr : r.statementsReturn l0 n f) (fuel : Nat) (stmts : List Statement) (k : Nat)
    (errs : List GoString) (hk : (n - k) + 2 ≤ f)
    (hc : (Lexer.tokenAt k l0).Typ ≠ .RBRACE ∧ (Lexer.tokenAt k l0).Typ ≠ .EOF) :
    ∃ stmt k1 more, k < k1 ∧
      parseBlockStatementLoop r (fuel + 1) stmts (Parser.atToken l0 k errs) =
        parseBlockStatementLoop r fuel (stmts ++ [stmt])
          (Parser.atToken l0 k1 (errs ++ more)) := by
  obtain ⟨x, k1, more, hk1, heq⟩ := hr k errs hk
  refine ⟨x, k1 + 1, more, by omega, ?_⟩
  have hcond : (!(Parser.atToken l0 k errs).curTokenIs .RBRACE &&
      !(Parser.atToken l0 k errs).curTokenIs .EOF) = true := by
    simp only [Parser.curTokenIs_atToken, hc.1, hc.2, decide_False, Bool.not_false,
      Bool.and_self]
  rw [parseBlockStatementLoop, if_pos hcond, heq]
  dsimp only
  rw [Parser.nextToken_atToken]

/-- One iteration of the loop of `parseExpression`: with no infix rule for the next token
the loop returns, else the infix rule consumes that token and the loop goes on at a later
token. -/
theorem parseExpressionLoop_iteration (l0 : Lexer) (n f : Nat) (r : ParseFns)
    (hn : ∀ j, n ≤ j → (Lexer.tokenAt j l0).Typ = .EOF)
    (hr : r.expressionsReturn l0 n f) (precedence fuel : Nat) (leftExp : Expression)
    (k : Nat) (errs : List GoString) (hk : n - k ≤ f)
    (hc : (!(Parser.atToken l0 k errs).peekTokenIs .SEMICOLON &&
      decide (precedence < (Parser.atToken l0 k errs).peekPrecedence)) = true) :
    parseExpressionLoop (f + 1) r precedence (fuel + 1) leftExp (Parser.atToken l0 k errs) =
      some (leftExp, Parser.atToken l0 k errs) ∨
    ∃ e k1 more, k < k1 ∧
      parseExpressionLoop (f + 1) r precedence (fuel + 1) leftExp (Parser.atToken l0 k errs) =
        parseExpressionLoop (f + 1) r precedence fuel e
          (Parser.atToken l0 k1 (errs ++ more)) := by
  rw [parseExpressionLoop, if_pos hc, Parser.peekToken_atToken]
  rcases infixParseFns_cases (f + 1) r (Lexer.tokenAt (k + 1) l0).Typ with
    hi | ⟨hne, hi | hi⟩
  · rw [hi]
    exact Or.inl rfl
  · have hlt : k + 1 < n := lt_of_not_eof l0 n hn (k + 1) hne
    obtain ⟨x, k1, more, hk1, heq⟩ :=
      parseInfixExpression_returns l0 n f r hr leftExp (k + 1) errs (by omega)
    rw [hi]
    simp only [Parser.nextToken_atToken, heq]
    exact Or.inr ⟨x, k1, more, by omega, rfl⟩
  · have hlt : k + 1 < n := lt_of_not_eof l0 n hn (k + 1) hne
    obtain ⟨x, k1, more, hk1, heq⟩ :=
      parseCallExpression_returns l0 n f r hn hr (f + 1) leftExp (k + 1) errs hlt
        (by omega) (by omega)
    rw [hi]
    simp only [Parser.nextToken_atToken, heq]
    exact Or.inr ⟨x, k1, more, by omega, rfl⟩

/-- One iteration of the loop of `parseFunctionParameters`: two tokens further. -/
theorem parseFunctionParametersLoop_iteration (l0 : Lexer) (fuel : Nat)
    (identifiers : List Identifier) (k : Nat) (errs : List GoString)
    (hc : (Lexer.tokenAt (k + 1) l0).Typ = .COMMA) :
    parseFunctionParametersLoop (fuel + 1) identifiers (Parser.atToken l0 k errs) =
      parseFunctionParametersLoop fuel
        (identifiers ++ [⟨Lexer.tokenAt (k + 2) l0, (Lexer.tokenAt (k + 2) l0).Literal⟩])
        (Parser.atToken l0 (k + 2) errs) := by
  have hcond : (Parser.atToken l0 k errs).peekTokenIs .COMMA = true := by
    rw [Parser.peekTokenIs_atToken, hc]
    rfl
  rw [parseFunctionParametersLoop, if_pos hcond]
  dsimp only
  rw [Parser.nextToken_atToken, Parser.nextToken_atToken]
  rfl

/-- One iteration of the loop of `parseExpressionList`: the comma and an expression. -/
theorem parseExpressionListLoop_iteration (l0 : Lexer) (n f : Nat) (r : ParseFns)
    (hr : r.expressionsReturn l0 n f) (fuel : Nat) (args : List Expression) (k : Nat)
    (errs : List GoString) (hk : (n - (k + 2)) + 1 ≤ f)
    (hc : (Lexer.tokenAt (k + 1) l0).Typ = .COMMA) :
    ∃ e k1 more, k + 2 ≤ k1 ∧
      parseExpressionListLoop r (fuel + 1) args (Parser.atToken l0 k errs) =
        parseExpressionListLoop r fuel (args ++ [e]) (Parser.atToken l0 k1 (errs ++ more)) := by
  have hcond : (Parser.atToken l0 k errs).peekTokenIs .COMMA = true := by
    rw [Parser.peekTokenIs_atToken, hc]
    rfl
  obtain ⟨x, k1, more, hk1, heq⟩ := hr LOWEST (k + 2) errs hk
  refine ⟨x, k1, more, hk1, ?_⟩
  rw [parseExpressionListLoop, if_pos hcond]
  dsimp only
  rw [Parser.nextToken_atToken, Parser.nextToken_atToken, heq]

/-- C36. For every source text `src`: `ParseProgram` returns a program and an error list,
and the parser it leaves stands on some token `k` of the source, so it has read `k + 2`
tokens; and at every level of recursion `f` that is enough for the tokens that are left,
every iteration of a loop of the parser ends at a later token than it began: the loop of
`ParseProgram` and the loop of `parseBlockStatement` while the current token does not end
them, the loop of `parseExpression` while it does not return, the loop of
`parseFunctionParameters` and the loop of `parseExpressionList` at every comma. -/
theorem ParseProgram_terminates (src : GoString) :
    (∃ program k errs, ParseProgram (NewParser (New src)) =
      some (program, Parser.atToken (New src) k errs)) ∧
    (∀ (f fuel : Nat) (stmts : List Statement) (k : Nat) (errs : List GoString),
      (src.length - k) + 2 ≤ f → (Lexer.tokenAt k (New src)).Typ ≠ .EOF →
      ∃ stmt k1 more, k < k1 ∧
        ParseProgramLoop (parseFns f) (fuel + 1) stmts (Parser.atToken (New src) k errs) =
          ParseProgramLoop (parseFns f) fuel (stmts ++ [stmt])
            (Parser.atToken (New src) k1 (errs ++ more))) ∧
    (∀ (f fuel : Nat) (stmts : List Statement) (k : Nat) (errs : List GoString),
      (src.length - k) + 2 ≤ f →
      (Lexer.tokenAt k (New src)).Typ ≠ .RBRACE ∧ (Lexer.tokenAt k (New src)).Typ ≠ .EOF →
      ∃ stmt k1 more, k < k1 ∧
        parseBlockStatementLoop (parseFns f) (fuel + 1) stmts
            (Parser.atToken (New src) k errs) =
          parseBlockStatementLoop (parseFns f) fuel (stmts ++ [stmt])
            (Parser.atToken (New src) k1 (errs ++ more))) ∧
    (∀ (f precedence fuel : Nat) (leftExp : Expression) (k : Nat) (errs : List GoString),
      src.length - k ≤ f →
      (!(Parser.atToken (New src) k errs).peekTokenIs .SEMICOLON &&
        decide (precedence < (Parser.atToken (New src) k errs).peekPrecedence)) = true →
      parseExpressionLoop (f + 1) (parseFns f) precedence (fuel + 1) leftExp
          (Parser.atToken (New src) k errs) =
        some (leftExp, Parser.atToken (New src) k errs) ∨
      ∃ e k1 more, k < k1 ∧
        parseExpressionLoop (f + 1) (parseFns f) precedence (fuel + 1) leftExp
            (Parser.atToken (New src) k errs) =
          parseExpressionLoop (f + 1) (parseFns f) precedence fuel e
            (Parser.atToken (New src) k1 (errs ++ more))) ∧
    (∀ (fuel : Nat) (identifiers : List Identifier) (k : Nat) (errs : List GoString),
      (Lexer.tokenAt (k + 1) (New src)).Typ = .COMMA →
      parseFunctionParametersLoop (fuel + 1) identifiers (Parser.atToken (New src) k errs) =
        parseFunctionParametersLoop fuel
          (identifiers ++ [⟨Lexer.tokenAt (k + 2) (New src),
            (Lexer.tokenAt (k + 2) (New src)).Literal⟩])
          (Parser.atToken (New src) (k + 2) errs)) ∧
    (∀ (f fuel : Nat) (args : List Expression) (k : Nat) (errs : List GoString),
      (src.length - (k + 2)) + 1 ≤ f → (Lexer.tokenAt (k + 1) (New src)).Typ = .COMMA →
      ∃ e k1 more, k + 2 ≤ k1 ∧
        parseExpressionListLoop (parseFns f) (fuel + 1) args
            (Parser.atToken (New src) k errs) =
          parseExpressionListLoop (parseFns f) fuel (args ++ [e])
            (Parser.atToken (New src) k1 (errs ++ more))) := by
  have hn := tokenAt_eof_of_length_le src
  have hret := parseFns_returns (New src) src.length hn
  exact ⟨ParseProgram_returns src,
    fun f fuel stmts k errs hk hc =>
      ParseProgramLoop_iteration (New src) src.length f (parseFns f) (hret f).2 fuel stmts k
        errs hk hc,
    fun f fuel stmts k errs hk hc =>
      parseBlockStatementLoop_iteration (New src) src.length f (parseFns f) (hret f).2 fuel
        stmts k errs hk hc,
    fun f precedence fuel leftExp k errs hk hc =>
      parseExpressionLoop_iteration (New src) src.length f (parseFns f) hn (hret f).1
        precedence fuel leftExp k errs hk hc,
    fun fuel identifiers k errs hc =>
      parseFunctionParametersLoop_iteration (New src) fuel identifiers k errs hc,
    fun f fuel args k errs hk hc =>
      parseExpressionListLoop_iteration (New src) src.length f (parseFns f) (hret f).1 fuel
        args k errs hk hc⟩

/-! ## Parameters of function statements -/

set_option maxRecDepth 100000 in
/-- C37. The source `func f(5) \x7b \x7d` parses with an empty error list, and the one
parameter of its Function statement was built from the token `5` of kind INT:
`parseFunctionParameters` takes whatever token stands at a parameter position. So do
`func f(\x7b) \x7b \x7d` and `func f("a b") \x7b \x7d`. The source
`func add(x, y) \x7b x + y; \x7d` of the parser test yields the parameters `x` and `y`,
built from tokens of kind IDENT. -/
theorem function_parameters_are_not_checked :
    parseParameters (str "func f(5) \x7b \x7d") = some ([(.INT, str "5")], []) ∧
    parseParameters (str "func f(\x7b) \x7b \x7d") = some ([(.LBRACE, str "\x7b")], []) ∧
    parseParameters (str "func f(\"a b\") \x7b \x7d") = some ([(.STRING, str "a b")], []) ∧
    parseParameters (str "func add(x, y) \x7b x + y; \x7d") =
      some ([(.IDENT, str "x"), (.IDENT, str "y")], []) :=
  ⟨rfl, rfl, rfl, rfl⟩

/-! ## The line and the column do not steer the lexer -/

theorem Lexer.erase_erase (l : Lexer) : l.erase.erase = l.erase := rfl

theorem Lexer.erase_ch (l : Lexer) : l.erase.ch = l.ch := rfl

theorem Lexer.erase_input (l : Lexer) : l.erase.input = l.input := rfl

theorem Lexer.erase_position (l : Lexer) : l.erase.position = l.position := rfl

theorem Lexer.ch_of_erase_eq {l m : Lexer} (h : l.erase = m.erase) : l.ch = m.ch := by
  have := congrArg Lexer.ch h
  exact this

theorem Lexer.position_of_erase_eq {l m : Lexer} (h : l.erase = m.erase) :
    l.position = m.position := by
  have := congrArg Lexer.position h
  exact this

theorem Lexer.peekChar_erase (l : Lexer) : l.erase.peekChar = l.peekChar := by
  rw [Lexer.peekChar_eq, Lexer.peekChar_eq]
  rfl

theorem Lexer.readChar_erase (l : Lexer) : l.erase.readChar.erase = l.readChar.erase := by
  rw [Lexer.readChar_eq, Lexer.readChar_eq]
  rfl

theorem Lexer.whileLoop_erase (c : Nat → Bool) :
    ∀ (fuel : Nat) (l : Lexer),
      (Lexer.whileLoop c fuel l.erase).erase = (Lexer.whileLoop c fuel l).erase := by
  intro fuel
  induction fuel with
  | zero => intro l; rfl
  | succ f ih =>
    intro l
    rw [Lexer.whileLoop, Lexer.whileLoop, Lexer.erase_ch]
    by_cases hc : c l.ch = true
    · rw [if_pos hc, if_pos hc, ← ih l.erase.readChar, Lexer.readChar_erase, ih]
    · rw [if_neg hc, if_neg hc]
      rfl

theorem Lexer.readStringLoop_erase :
    ∀ (fuel : Nat) (l : Lexer),
      (Lexer.readStringLoop fuel l.erase).erase = (Lexer.readStringLoop fuel l).erase := by
  intro fuel
  induction fuel with
  | zero => intro l; rfl
  | succ f ih =>
    intro l
    have hch : l.erase.readChar.ch = l.readChar.ch :=
      Lexer.ch_of_erase_eq (Lexer.readChar_erase l)
    rw [Lexer.readStringLoop_succ, Lexer.readStringLoop_succ, hch]
    by_cases hc : l.readChar.ch = 34 ∨ l.readChar.ch = 0
    · rw [if_pos hc, if_pos hc, Lexer.readChar_erase]
    · rw [if_neg hc, if_neg hc, ← ih l.erase.readChar, Lexer.readChar_erase, ih]

theorem Lexer.skipWhitespace_erase (l : Lexer) :
    l.erase.skipWhitespace.erase = l.skipWhitespace.erase := by
  simp only [Lexer.skipWhitespace, Lexer.skipWhitespaceLoop_eq, Lexer.erase_input]
  exact Lexer.whileLoop_erase _ _ l

theorem Lexer.skipComment_erase (l : Lexer) :
    l.erase.skipComment.erase = l.skipComment.erase := by
  simp only [Lexer.skipComment, Lexer.skipCommentLoop_eq, Lexer.erase_input]
  exact Lexer.whileLoop_erase _ _ l

theorem Lexer.readIdentifier_erase (l : Lexer) :
    l.erase.readIdentifier.1 = l.readIdentifier.1 ∧
      l.erase.readIdentifier.2.erase = l.readIdentifier.2.erase := by
  rw [Lexer.readIdentifier_eq, Lexer.readIdentifier_eq]
  have h := Lexer.whileLoop_erase (fun ch => isLetter ch || isDigit ch) (l.input.length + 1) l
  exact ⟨by
    show slice l.input l.position _ = slice l.input l.position _
    rw [Lexer.erase_input, Lexer.position_of_erase_eq h], h⟩

theorem Lexer.readNumber_erase (l : Lexer) :
    l.erase.readNumber.1 = l.readNumber.1 ∧
      l.erase.readNumber.2.erase = l.readNumber.2.erase := by
  rw [Lexer.readNumber_eq, Lexer.readNumber_eq]
  have h := Lexer.whileLoop_erase isDigit (l.input.length + 1) l
  exact ⟨by
    show slice l.input l.position _ = slice l.input l.position _
    rw [Lexer.erase_input, Lexer.position_of_erase_eq h], h⟩

theorem Lexer.readString_erase (l : Lexer) :
    l.erase.readString.1 = l.readString.1 ∧
      l.erase.readString.2.erase = l.readString.2.erase := by
  rw [Lexer.readString_eq, Lexer.readString_eq]
  have h := Lexer.readStringLoop_erase (l.input.length + 1) l
  exact ⟨by
    show slice l.input (l.position + 1) _ = slice l.input (l.position + 1) _
    rw [Lexer.erase_input, Lexer.position_of_erase_eq h], h⟩

/-- The two results of `twoCharToken`. -/
theorem Lexer.twoCharToken_eq (l : Lexer) (second : Nat) (two one : TokenType)
    (line column : Nat) :
    l.twoCharToken second two one line column =
      if l.peekChar = second then
        (⟨two, byteToString l.ch ++ byteToString l.readChar.ch, line, column⟩,
          l.readChar.readChar)
      else (newToken one l.ch line column, l.readChar) := by
  unfold Lexer.twoCharToken
  cases l.readChar
  rfl

theorem Lexer.twoCharToken_erase (l : Lexer) (second : Nat) (two one : TokenType)
    (line column line1 column1 : Nat) :
    Lexer.eraseResult (l.erase.twoCharToken second two one line column) =
      Lexer.eraseResult (l.twoCharToken second two one line1 column1) := by
  have hch : l.erase.readChar.ch = l.readChar.ch :=
    Lexer.ch_of_erase_eq (Lexer.readChar_erase l)
  have h2 : l.erase.readChar.readChar.erase = l.readChar.readChar.erase := by
    rw [← Lexer.readChar_erase l.erase.readChar, Lexer.readChar_erase l,
      Lexer.readChar_erase l.readChar]
  rw [Lexer.twoCharToken_eq, Lexer.twoCharToken_eq, Lexer.peekChar_erase, Lexer.erase_ch]
  by_cases hc : l.peekChar = second
  · rw [if_pos hc, if_pos hc]
    simp only [Lexer.eraseResult, Token.kindLiteral, hch, h2]
  · rw [if_neg hc, if_neg hc]
    simp only [Lexer.eraseResult, Token.kindLiteral, newToken, Lexer.readChar_erase]

theorem Lexer.tokenSwitch_erase (a b : Lexer → Token × Lexer) (l : Lexer)
    (h : l.ch = 47 → l.peekChar = 47 →
      Lexer.eraseResult (b l.erase.skipComment) = Lexer.eraseResult (a l.skipComment)) :
    Lexer.eraseResult (Lexer.tokenSwitch b l.erase) =
      Lexer.eraseResult (Lexer.tokenSwitch a l) := by
  have e : Lexer.tokenSwitch b l.erase =
      Lexer.tokenSwitch (fun _ => b l.erase.skipComment) l.erase := by
    apply Lexer.tokenSwitch_congr
    intro _ _
    rfl
  have e' : Lexer.tokenSwitch a l = Lexer.tokenSwitch (fun _ => a l.skipComment) l := by
    apply Lexer.tokenSwitch_congr
    intro _ _
    rfl
  have hrc : ∀ t : Token, ∀ t' : Token, t.kindLiteral = t'.kindLiteral →
      Lexer.eraseResult (t, l.erase.readChar) = Lexer.eraseResult (t', l.readChar) := by
    intro t t' ht
    simp only [Lexer.eraseResult, ht, Lexer.readChar_erase]
  have hs : Lexer.eraseResult (⟨.STRING, l.erase.readString.1, l.erase.line, l.erase.column⟩,
        l.erase.readString.2.readChar) =
      Lexer.eraseResult (⟨.STRING, l.readString.1, l.line, l.column⟩,
        l.readString.2.readChar) := by
    have := Lexer.readString_erase l
    simp only [Lexer.eraseResult, Token.kindLiteral, this.1]
    rw [← Lexer.readChar_erase l.erase.readString.2, this.2, Lexer.readChar_erase]
  have hi : Lexer.eraseResult (⟨LookupIdent l.erase.readIdentifier.1,
        l.erase.readIdentifier.1, l.erase.line, l.erase.column⟩, l.erase.readIdentifier.2) =
      Lexer.eraseResult (⟨LookupIdent l.readIdentifier.1, l.readIdentifier.1, l.line,
        l.column⟩, l.readIdentifier.2) := by
    have := Lexer.readIdentifier_erase l
    simp only [Lexer.eraseResult, Token.kindLiteral, this.1, this.2]
  have hnum : Lexer.eraseResult (⟨.INT, l.erase.readNumber.1, l.erase.line, l.erase.column⟩,
        l.erase.readNumber.2) =
      Lexer.eraseResult (⟨.INT, l.readNumber.1, l.line, l.column⟩, l.readNumber.2) := by
    have := Lexer.readNumber_erase l
    simp only [Lexer.eraseResult, Token.kindLiteral, this.1, this.2]
  rw [e, e', Lexer.tokenSwitch_eq, Lexer.tokenSwitch_eq, Lexer.erase_ch, Lexer.peekChar_erase]
  by_cases h61 : l.ch = 61
  · rw [if_pos h61, if_pos h61]
    exact Lexer.twoCharToken_erase l _ _ _ _ _ _ _
  rw [if_neg h61, if_neg h61]
  by_cases h43 : l.ch = 43
  · rw [if_pos h43, if_pos h43]
    exact hrc _ _ rfl
  rw [if_neg h43, if_neg h43]
  by_cases h45 : l.ch = 45
  · rw [if_pos h45, if_pos h45]
    exact hrc _ _ rfl
  rw [if_neg h45, if_neg h45]
  by_cases h42 : l.ch = 42
  · rw [if_pos h42, if_pos h42]
    exact hrc _ _ rfl
  rw [if_neg h42, if_neg h42]
  by_cases h47 : l.ch = 47
  · rw [if_pos h47, if_pos h47]
    by_cases hp : l.peekChar = 47
    · rw [if_pos hp, if_pos hp]
      exact h h47 hp
    · rw [if_neg hp, if_neg hp]
      exact hrc _ _ rfl
  rw [if_neg h47, if_neg h47]
  by_cases h33 : l.ch = 33
  · rw [if_pos h33, if_pos h33]
    exact Lexer.twoCharToken_erase l _ _ _ _ _ _ _
  rw [if_neg h33, if_neg h33]
  by_cases h60 : l.ch = 60
  · rw [if_pos h60, if_pos h60]
    exact Lexer.twoCharToken_erase l _ _ _ _ _ _ _
  rw [if_neg h60, if_neg h60]
  by_cases h62 : l.ch = 62
  · rw [if_pos h62, if_pos h62]
    exact Lexer.twoCharToken_erase l _ _ _ _ _ _ _
  rw [if_neg h62, if_neg h62]
  by_cases h38 : l.ch = 38
  · rw [if_pos h38, if_pos h38]
    exact Lexer.twoCharToken_erase l _ _ _ _ _ _ _
  rw [if_neg h38, if_neg h38]
  by_cases h124 : l.ch = 124
  · rw [if_pos h124, if_pos h124]
    exact Lexer.twoCharToken_erase l _ _ _ _ _ _ _
  rw [if_neg h124, if_neg h124]
  by_cases h44 : l.ch = 44
  · rw [if_pos h44, if_pos h44]
    exact hrc _ _ rfl
  rw [if_neg h44, if_neg h44]
  by_cases h59 : l.ch = 59
  · rw [if_pos h59, if_pos h59]
    exact hrc _ _ rfl
  rw [if_neg h59, if_neg h59]
  by_cases h40 : l.ch = 40
  · rw [if_pos h40, if_pos h40]
    exact hrc _ _ rfl
  rw [if_neg h40, if_neg h40]
  by_cases h41 : l.ch = 41
  · rw [if_pos h41, if_pos h41]
    exact hrc _ _ rfl
  rw [if_neg h41, if_neg h41]
  by_cases h123 : l.ch = 123
  · rw [if_pos h123, if_pos h123]
    exact hrc _ _ rfl
  rw [if_neg h123, if_neg h123]
  by_cases h125 : l.ch = 125
  · rw [if_pos h125, if_pos h125]
    exact hrc _ _ rfl
  rw [if_neg h125, if_neg h125]
  by_cases h34 : l.ch = 34
  · rw [if_pos h34, if_pos h34]
    exact hs
  rw [if_neg h34, if_neg h34]
  by_cases h0 : l.ch = 0
  · rw [if_pos h0, if_pos h0]
    exact hrc _ _ rfl
  rw [if_neg h0, if_neg h0]
  by_cases hl : isLetter l.ch = true
  · rw [if_pos hl, if_pos hl]
    exact hi
  rw [if_neg hl, if_neg hl]
  by_cases hd : isDigit l.ch = true
  · rw [if_pos hd, if_pos hd]
    exact hnum
  rw [if_neg hd, if_neg hd]
  exact hrc _ _ rfl

theorem Lexer.NextTokenAux_erase :
    ∀ (fuel : Nat) (l : Lexer),
      Lexer.eraseResult (Lexer.NextTokenAux fuel l.erase) =
        Lexer.eraseResult (Lexer.NextTokenAux fuel l) := by
  intro fuel
  induction fuel with
  | zero => intro l; rfl
  | succ f ih =>
    intro l
    rw [Lexer.NextTokenAux_succ, Lexer.NextTokenAux_succ]
    have key : ∀ m : Lexer, m.erase = l.skipWhitespace.erase →
        Lexer.eraseResult (Lexer.tokenSwitch (Lexer.NextTokenAux f) m) =
          Lexer.eraseResult (Lexer.tokenSwitch (Lexer.NextTokenAux f) l.skipWhitespace) := by
      intro m hm
      rw [← Lexer.tokenSwitch_erase (Lexer.NextTokenAux f) (Lexer.NextTokenAux f) m
          (fun _ _ => by rw [← ih m.erase.skipComment, Lexer.skipComment_erase, ih]),
        ← Lexer.tokenSwitch_erase (Lexer.NextTokenAux f) (Lexer.NextTokenAux f)
          l.skipWhitespace
          (fun _ _ => by rw [← ih l.skipWhitespace.erase.skipComment,
            Lexer.skipComment_erase, ih]), hm]
    exact key _ (Lexer.skipWhitespace_erase l)

/-- The kind and the literal of the token that `NextToken` returns, and the lexer it
leaves but for its line and column, do not depend on the line and the column. -/
theorem Lexer.NextToken_erase (l : Lexer) :
    Lexer.eraseResult l.erase.NextToken = Lexer.eraseResult l.NextToken := by
  rw [Lexer.NextToken_eq, Lexer.NextToken_eq]
  exact Lexer.NextTokenAux_erase _ l

theorem Lexer.NextToken_of_erase_eq (l m : Lexer) (h : l.erase = m.erase) :
    Lexer.eraseResult l.NextToken = Lexer.eraseResult m.NextToken := by
  rw [← Lexer.NextToken_erase l, ← Lexer.NextToken_erase m, h]

theorem Lexer.advance_of_erase_eq (l m : Lexer) (h : l.erase = m.erase) :
    ∀ k, (Lexer.advance k l).erase = (Lexer.advance k m).erase := by
  intro k
  induction k with
  | zero => exact h
  | succ k ih =>
    rw [Lexer.advance_succ, Lexer.advance_succ]
    exact congrArg Prod.snd (Lexer.NextToken_of_erase_eq _ _ ih)

theorem Lexer.tokenAt_of_erase_eq (l m : Lexer) (h : l.erase = m.erase) (k : Nat) :
    (Lexer.tokenAt k l).kindLiteral = (Lexer.tokenAt k m).kindLiteral :=
  congrArg Prod.fst (Lexer.NextToken_of_erase_eq _ _ (Lexer.advance_of_erase_eq l m h k))

theorem Lexer.advance_shift (pre : GoString) (l : Lexer) (hwf : l.wf) :
    ∀ k, Lexer.advance k (l.shift pre) = (Lexer.advance k l).shift pre := by
  intro k
  induction k with
  | zero => rfl
  | succ k ih =>
    rw [Lexer.advance_succ, Lexer.advance_succ, ih,
      Lexer.NextToken_shift pre _ (Lexer.advance_wf l hwf k)]
    rfl

theorem Lexer.tokenAt_shift (pre : GoString) (l : Lexer) (hwf : l.wf) (k : Nat) :
    Lexer.tokenAt k (l.shift pre) = Lexer.tokenAt k l := by
  unfold Lexer.tokenAt
  rw [Lexer.advance_shift pre l hwf k, Lexer.NextToken_shift pre _ (Lexer.advance_wf l hwf k)]
  rfl

/-! ## The method `TokenizeAll` -/

theorem Lexer.tokenAt_succ_front (k : Nat) (l : Lexer) :
    Lexer.tokenAt (k + 1) l = Lexer.tokenAt k l.NextToken.2 := by
  unfold Lexer.tokenAt
  rw [Lexer.advance_succ_front]

theorem Lexer.tokenAt_of_NextToken_eq (l m : Lexer) (h : l.NextToken = m.NextToken) :
    ∀ k, Lexer.tokenAt k l = Lexer.tokenAt k m := by
  intro k
  cases k with
  | zero => exact congrArg Prod.fst h
  | succ k => rw [Lexer.tokenAt_succ_front, Lexer.tokenAt_succ_front, h]

theorem Lexer.TokenizeAllLoop_succ (fuel : Nat) (tokens : List Token) (l : Lexer) :
    Lexer.TokenizeAllLoop (fuel + 1) tokens l =
      if l.NextToken.1.Typ = .EOF then some (tokens ++ [l.NextToken.1])
      else Lexer.TokenizeAllLoop fuel (tokens ++ [l.NextToken.1]) l.NextToken.2 := by
  rw [Lexer.TokenizeAllLoop]

/-- The loop of `TokenizeAll` returns the tokens up to the first one of kind EOF, when it
may run once for each of them. -/
theorem Lexer.TokenizeAllLoop_eq :
    ∀ (k fuel : Nat) (tokens : List Token) (l : Lexer),
      (∀ j, j < k → (Lexer.tokenAt j l).Typ ≠ .EOF) → (Lexer.tokenAt k l).Typ = .EOF →
      k < fuel →
      Lexer.TokenizeAllLoop fuel tokens l =
        some (tokens ++ (List.range (k + 1)).map (fun j => Lexer.tokenAt j l)) := by
  intro k
  induction k with
  | zero =>
    intro fuel tokens l _ hk hf
    obtain ⟨f, rfl⟩ : ∃ f, fuel = f + 1 := ⟨fuel - 1, by omega⟩
    have h0 : l.NextToken.1.Typ = .EOF := hk
    rw [Lexer.TokenizeAllLoop_succ, if_pos h0]
    rfl
  | succ k ih =>
    intro fuel tokens l hlt hk hf
    obtain ⟨f, rfl⟩ : ∃ f, fuel = f + 1 := ⟨fuel - 1, by omega⟩
    have h0 : ¬ l.NextToken.1.Typ = .EOF := hlt 0 (by omega)
    rw [Lexer.TokenizeAllLoop_succ, if_neg h0,
      ih f (tokens ++ [l.NextToken.1]) l.NextToken.2
        (fun j hj => by rw [← Lexer.tokenAt_succ_front]; exact hlt (j + 1) (by omega))
        (by rw [← Lexer.tokenAt_succ_front]; exact hk) (by omega)]
    rw [List.range_succ_eq_map (k + 1), List.map_cons, List.map_map, List.append_assoc]
    congr 2
    rw [List.singleton_append]
    congr 1
    apply List.map_congr_left
    intro j _
    exact (Lexer.tokenAt_succ_front j l).symm

theorem Lexer.first_eof (l : Lexer) (n : Nat) (hn : (Lexer.tokenAt n l).Typ = .EOF) :
    ∃ k, k ≤ n ∧ (∀ j, j < k → (Lexer.tokenAt j l).Typ ≠ .EOF) ∧
      (Lexer.tokenAt k l).Typ = .EOF := by
  have h : ∃ k, (Lexer.tokenAt k l).Typ = .EOF := ⟨n, hn⟩
  exact ⟨Nat.find h, Nat.find_le hn, fun j hj => Nat.find_min h hj, Nat.find_spec h⟩

/-- On a new lexer `TokenizeAll` returns: its result is the tokens up to the first one of
kind EOF, which comes at the latest when every byte is consumed. -/
theorem TokenizeAll_New (src : GoString) :
    ∃ k, k ≤ src.length ∧ (∀ j, j < k → (Lexer.tokenAt j (New src)).Typ ≠ .EOF) ∧
      (Lexer.tokenAt k (New src)).Typ = .EOF ∧
      (New src).TokenizeAll =
        some ((List.range (k + 1)).map (fun j => Lexer.tokenAt j (New src))) := by
  obtain ⟨k, hk, hlt, he⟩ := Lexer.first_eof (New src) src.length
    (tokenAt_eof_of_length_le src src.length (Nat.le_refl _))
  refine ⟨k, hk, hlt, he, ?_⟩
  unfold Lexer.TokenizeAll
  rw [Lexer.TokenizeAllLoop_eq k _ [] (New src) hlt he (by rw [New_input]; omega)]
  rfl

/-- Two source texts whose tokens agree in kind and literal, call by call of `NextToken`,
are lexed to the same sequence of (kind, literal) pairs. -/
theorem tokensOf_congr (src src1 : GoString)
    (h : ∀ k, (Lexer.tokenAt k (New src)).kindLiteral =
      (Lexer.tokenAt k (New src1)).kindLiteral) :
    tokensOf src = tokensOf src1 := by
  have hty : ∀ k, (Lexer.tokenAt k (New src)).Typ = (Lexer.tokenAt k (New src1)).Typ :=
    fun k => congrArg Prod.fst (h k)
  obtain ⟨k, -, hlt, he, heq⟩ := TokenizeAll_New src
  obtain ⟨k1, -, hlt1, he1, heq1⟩ := TokenizeAll_New src1
  have hk : k = k1 := by
    rcases Nat.lt_trichotomy k k1 with hlt' | heq' | hgt'
    · exact absurd ((hty k).symm.trans he) (hlt1 k hlt')
    · exact heq'
    · exact absurd ((hty k1).trans he1) (hlt k1 hgt')
  subst hk
  unfold tokensOf
  rw [heq, heq1]
  simp only [Option.map_some', List.map_map]
  congr 1
  apply List.map_congr_left
  intro j _
  exact h j

/-! ## Line comments -/

theorem Lexer.eq_between (l : Lexer) (pre post : GoString) (hwf : l.wf)
    (hin : l.input = pre ++ post) (hpos : l.position = pre.length) :
    l = Lexer.between pre post l.line l.column := by
  obtain ⟨i, p, rp, c, ln, cl⟩ := l
  obtain ⟨h1, h2⟩ := hwf
  simp only at hin hpos h1 h2
  subst hin hpos
  subst h1
  simp only [Lexer.between, Lexer.mk.injEq, true_and, and_true]
  rw [h2]
  have := getD_append_add pre post 0
  simpa using this

theorem Lexer.readChar_between (pre post : GoString) (x line col : Nat) :
    ∃ line1 col1, (Lexer.between pre (x :: post) line col).readChar =
      Lexer.between (pre ++ [x]) post line1 col1 := by
  refine ⟨_, _, Lexer.eq_between _ (pre ++ [x]) post (Lexer.wf_readChar _) ?_ ?_⟩
  · rw [Lexer.readChar_input]
    simp [Lexer.between]
  · rw [Lexer.readChar_position]
    simp [Lexer.between]

/-- A loop that reads on while the current byte satisfies `cnd` reads a run of such bytes
to its end. -/
theorem Lexer.whileLoop_run (cnd : Nat → Bool) :
    ∀ (xs pre post : GoString) (line col fuel : Nat),
      (∀ x ∈ xs, cnd x = true) → cnd (post.getD 0 0) = false → xs.length ≤ fuel →
      ∃ line1 col1, Lexer.whileLoop cnd fuel (Lexer.between pre (xs ++ post) line col) =
        Lexer.between (pre ++ xs) post line1 col1 := by
  intro xs
  induction xs with
  | nil =>
    intro pre post line col fuel _ hpost _
    refine ⟨line, col, ?_⟩
    rw [List.append_nil, List.nil_append]
    cases fuel with
    | zero => rfl
    | succ f =>
      rw [Lexer.whileLoop]
      have : cnd (Lexer.between pre post line col).ch = false := hpost
      rw [this]
      rfl
  | cons x xs ih =>
    intro pre post line col fuel hxs hpost hfuel
    obtain ⟨f, rfl⟩ : ∃ f, fuel = f + 1 := ⟨fuel - 1, by simp at hfuel; omega⟩
    have hx : cnd (Lexer.between pre (x :: xs ++ post) line col).ch = true :=
      hxs x (List.mem_cons_self _ _)
    obtain ⟨line1, col1, hrc⟩ := Lexer.readChar_between pre (xs ++ post) x line col
    obtain ⟨line2, col2, hrest⟩ := ih (pre ++ [x]) post line1 col1 f
      (fun y hy => hxs y (List.mem_cons_of_mem _ hy)) hpost (by simp at hfuel; omega)
    refine ⟨line2, col2, ?_⟩
    rw [Lexer.whileLoop, hx, if_pos rfl]
    rw [List.cons_append, hrc, hrest, List.append_assoc, List.singleton_append]

theorem Lexer.shift_erase_between (pre s : GoString) (line col : Nat) :
    ((New s).shift pre).erase = (Lexer.between pre s line col).erase := by
  rw [New_eq]
  rfl

/-- The lexer on a line comment: the next token is the one behind the comment. -/
theorem NextToken_comment (c post : GoString) (hlf : 10 ∉ c) (hnul : 0 ∉ c)
    (hpost : post.getD 0 0 = 10 ∨ post.getD 0 0 = 0) :
    ∃ line col, (New (47 :: 47 :: (c ++ post))).NextToken =
      (Lexer.between (47 :: 47 :: c) post line col).NextToken := by
  have hnew : New (47 :: 47 :: (c ++ post)) =
      Lexer.between [] ((47 :: 47 :: c) ++ post) 1 1 :=
    New_between _ (Nat.ne_of_beq_eq_false rfl)
  have hcnd : ∀ x ∈ 47 :: 47 :: c, (fun ch => decide (ch ≠ 10 ∧ ch ≠ 0)) x = true := by
    intro x hx
    simp only [List.mem_cons] at hx
    simp only [decide_eq_true_eq]
    rcases hx with rfl | rfl | hx
    · decide
    · decide
    · exact ⟨fun h => hlf (h ▸ hx), fun h => hnul (h ▸ hx)⟩
  have hstop : (fun ch => decide (ch ≠ 10 ∧ ch ≠ 0)) (post.getD 0 0) = false := by
    simp only [decide_eq_false_iff_not, not_and_or, not_not]
    exact hpost
  obtain ⟨line, col, hrun⟩ := Lexer.whileLoop_run (fun ch => decide (ch ≠ 10 ∧ ch ≠ 0))
    (47 :: 47 :: c) [] post 1 1 (((47 :: 47 :: c) ++ post).length + 1) hcnd hstop
    (by simp only [List.length_append]; omega)
  refine ⟨line, col, ?_⟩
  have hsw : (New (47 :: 47 :: (c ++ post))).skipWhitespace = New (47 :: 47 :: (c ++ post)) := by
    rw [hnew]
    simp only [Lexer.skipWhitespace, Lexer.skipWhitespaceLoop_eq]
    rw [Lexer.whileLoop]
    rfl
  have hsc : (New (47 :: 47 :: (c ++ post))).skipComment =
      Lexer.between (47 :: 47 :: c) post line col := by
    rw [hnew]
    simp only [Lexer.skipComment, Lexer.skipCommentLoop_eq]
    exact hrun
  have hlen : (New (47 :: 47 :: (c ++ post))).input.length = (c ++ post).length + 1 + 1 := by
    rw [New_input]
    rfl
  rw [Lexer.NextToken_eq, hlen, Lexer.NextTokenAux_succ, hsw,
    Lexer.tokenSwitch_comment _ _ (by rw [hnew]; rfl) (by rw [hnew]; rfl), hsc,
    Lexer.NextToken_eq]
  have hin : (Lexer.between (47 :: 47 :: c) post line col).input.length =
      (c ++ post).length + 1 + 1 := by
    simp [Lexer.between]
  rw [hin]
  exact (Lexer.NextTokenAux_fuel ((c ++ post).length + 1) 1 _ (Lexer.between_wf _ _ _ _)
    (by rw [hin]; simp only [Lexer.between, List.length_cons]; omega)).symm

/-- C31. For every text `c` with no LF and no NUL byte and every source `s`: lexing `//`,
`c`, an LF and `s` yields the same sequence of (kind, literal) pairs as lexing `s` alone,
and `TokenizeAll` returns on both; lexing `//` and `c` alone, a comment that runs to the
end of the input, yields just EOF. -/
theorem line_comment_is_invisible (c s : GoString) (hlf : 10 ∉ c) (hnul : 0 ∉ c) :
    tokensOf (str "//" ++ c ++ 10 :: s) = tokensOf s ∧ (tokensOf s).isSome = true ∧
    tokensOf (str "//" ++ c) = some [(.EOF, [])] := by
  have e1 : str "//" ++ c ++ 10 :: s = 47 :: 47 :: (c ++ 10 :: s) := by
    show ([47, 47] ++ c) ++ 10 :: s = _
    simp
  have e2 : str "//" ++ c = 47 :: 47 :: (c ++ []) := by
    show [47, 47] ++ c = _
    simp
  refine ⟨?_, ?_, ?_⟩
  · rw [e1]
    apply tokensOf_congr
    intro k
    obtain ⟨line, col, hnt⟩ := NextToken_comment c (10 :: s) hlf hnul (Or.inl rfl)
    obtain ⟨line1, col1, hrc⟩ := Lexer.readChar_between (47 :: 47 :: c) s 10 line col
    have hskip := Lexer.NextToken_skip (Lexer.between (47 :: 47 :: c) (10 :: s) line col)
      (Lexer.between_wf _ _ _ _) rfl
    rw [hrc] at hskip
    rw [Lexer.tokenAt_of_NextToken_eq _ _ (hnt.trans hskip) k,
      Lexer.tokenAt_of_erase_eq _ _
        (Lexer.shift_erase_between (47 :: 47 :: c ++ [10]) s line1 col1).symm k,
      Lexer.tokenAt_shift _ _ (New_wf s)]
  · obtain ⟨k, -, -, -, heq⟩ := TokenizeAll_New s
    unfold tokensOf
    rw [heq]
    rfl
  · rw [e2]
    obtain ⟨line, col, hnt⟩ := NextToken_comment c [] hlf hnul (Or.inr rfl)
    rw [NextToken_between_end] at hnt
    have h0 : (Lexer.tokenAt 0 (New (47 :: 47 :: (c ++ [])))).Typ = .EOF := by
      show (New (47 :: 47 :: (c ++ []))).NextToken.1.Typ = .EOF
      rw [hnt]
    unfold tokensOf Lexer.TokenizeAll
    rw [Lexer.TokenizeAllLoop_eq 0 _ [] _ (fun j hj => absurd hj (Nat.not_lt_zero j)) h0
      (by omega)]
    show some [(Lexer.tokenAt 0 (New (47 :: 47 :: (c ++ [])))).kindLiteral] = _
    have h1 : Lexer.tokenAt 0 (New (47 :: 47 :: (c ++ []))) = ⟨.EOF, [], line, col⟩ := by
      show (New (47 :: 47 :: (c ++ []))).NextToken.1 = _
      rw [hnt]
    rw [h1]
    rfl

set_option maxRecDepth 100000 in
/-- Witness of C31: the second and third line of the source of `TestCommentSkipping`. -/
theorem line_comment_is_invisible_witness :
    tokensOf (str "// Full line comment\nlet y = 10;") = tokensOf (str "let y = 10;") ∧
    tokensOf (str "let y = 10;") =
      some [(.LET, str "let"), (.IDENT, str "y"), (.ASSIGN, str "="), (.INT, str "10"),
        (.SEMICOLON, str ";"), (.EOF, [])] ∧
    tokensOf (str "// Full line comment") = some [(.EOF, [])] :=
  ⟨(line_comment_is_invisible (str " Full line comment") (str "let y = 10;") (by decide)
      (by decide)).1, by decide,
    (line_comment_is_invisible (str " Full line comment") (str "let y = 10;") (by decide)
      (by decide)).2.2⟩

/-! ## String literals -/

/-- The loop of `readString` from the byte `q` on reads a text without double quote and
NUL to its end. -/
theorem Lexer.readStringLoop_run :
    ∀ (s pre post : GoString) (q line col fuel : Nat),
      34 ∉ s → 0 ∉ s → (post.getD 0 0 = 34 ∨ post.getD 0 0 = 0) → s.length + 1 ≤ fuel →
      ∃ line1 col1, Lexer.readStringLoop fuel (Lexer.between pre (q :: s ++ post) line col) =
        Lexer.between (pre ++ q :: s) post line1 col1 := by
  intro s
  induction s with
  | nil =>
    intro pre post q line col fuel _ _ hpost hfuel
    obtain ⟨f, rfl⟩ : ∃ f, fuel = f + 1 := ⟨fuel - 1, by simp at hfuel; omega⟩
    obtain ⟨line1, col1, hrc⟩ := Lexer.readChar_between pre post q line col
    refine ⟨line1, col1, ?_⟩
    rw [Lexer.readStringLoop_succ, List.cons_append, List.nil_append, hrc]
    have hch : (Lexer.between (pre ++ [q]) post line1 col1).ch = post.getD 0 0 := rfl
    rw [hch, if_pos hpost]
  | cons x xs ih =>
    intro pre post q line col fuel h34 h0 hpost hfuel
    obtain ⟨f, rfl⟩ : ∃ f, fuel = f + 1 := ⟨fuel - 1, by simp at hfuel; omega⟩
    obtain ⟨line1, col1, hrc⟩ := Lexer.readChar_between pre (x :: xs ++ post) q line col
    obtain ⟨line2, col2, hrest⟩ := ih (pre ++ [q]) post x line1 col1 f
      (fun h => h34 (List.mem_cons_of_mem _ h)) (fun h => h0 (List.mem_cons_of_mem _ h))
      hpost (by simp at hfuel; omega)
    refine ⟨line2, col2, ?_⟩
    have hx : ¬ (x = 34 ∨ x = 0) := by
      intro h
      rcases h with h | h
      · exact h34 (h ▸ List.mem_cons_self _ _)
      · exact h0 (h ▸ List.mem_cons_self _ _)
    have hch : (Lexer.between (pre ++ [q]) (x :: xs ++ post) line1 col1).ch = x := rfl
    rw [Lexer.readStringLoop_succ, show q :: (x :: xs) ++ post = q :: (x :: xs ++ post) from rfl,
      hrc, hch, if_neg hx, hrest, List.append_assoc, List.singleton_append]

theorem Lexer.tokenSwitch_string (a : Lexer → Token × Lexer) (l : Lexer) (h : l.ch = 34) :
    Lexer.tokenSwitch a l =
      (⟨.STRING, l.readString.1, l.line, l.column⟩, l.readString.2.readChar) := by
  rw [Lexer.tokenSwitch_eq, h]
  rfl

theorem Lexer.skipWhitespace_of_not (l : Lexer) (h : isWhitespace l.ch = false) :
    l.skipWhitespace = l := by
  simp only [Lexer.skipWhitespace, Lexer.skipWhitespaceLoop_eq]
  rw [Lexer.whileLoop, h]
  rfl

/-- A string literal: the token is the text after the opening quote up to the next double
quote or the end of the input, and the lexer is left one byte behind that text. -/
theorem NextToken_string (s pre post : GoString) (line col : Nat) (h34 : 34 ∉ s)
    (h0 : 0 ∉ s) (hpost : post.getD 0 0 = 34 ∨ post.getD 0 0 = 0) :
    ∃ line1 col1, (Lexer.between pre (34 :: s ++ post) line col).NextToken =
      (⟨.STRING, s, line, col⟩, (Lexer.between (pre ++ 34 :: s) post line1 col1).readChar) ∧
      Lexer.readStringLoop ((pre ++ (34 :: s ++ post)).length + 1)
          (Lexer.between pre (34 :: s ++ post) line col) =
        Lexer.between (pre ++ 34 :: s) post line1 col1 := by
  obtain ⟨line1, col1, hrun⟩ := Lexer.readStringLoop_run s pre post 34 line col
    ((pre ++ (34 :: s ++ post)).length + 1) h34 h0 hpost
    (by simp only [List.length_append, List.length_cons]; omega)
  refine ⟨line1, col1, ?_, hrun⟩
  have hin : (Lexer.between pre (34 :: s ++ post) line col).input = pre ++ (34 :: s ++ post) :=
    rfl
  have hsl : slice (pre ++ (34 :: s ++ post)) (pre.length + 1) (pre ++ 34 :: s).length = s := by
    have := slice_middle (pre ++ [34]) s post
    simp only [List.length_append, List.length_singleton, List.append_assoc,
      List.singleton_append] at this
    simp only [List.length_append, List.length_cons, List.cons_append]
    rw [show pre.length + (s.length + 1) = pre.length + 1 + s.length from by omega]
    exact this
  rw [Lexer.NextToken_eq, Lexer.NextTokenAux_succ, Lexer.skipWhitespace_of_not (Lexer.between pre (34 :: s ++ post) line col) rfl,
    Lexer.tokenSwitch_string _ _ rfl, Lexer.readString_eq, hin, hrun]
  show ((⟨.STRING, slice (pre ++ (34 :: s ++ post)) (pre.length + 1)
    (pre ++ 34 :: s).length, line, col⟩ : Token), _) = _
  rw [hsl]

/-- The tokens of a text that is lexed to one token and then is at its end. -/
theorem tokensOf_single (src : GoString) (tok : Token) (l1 : Lexer)
    (h : (New src).NextToken = (tok, l1)) (hne : tok.Typ ≠ .EOF)
    (h1 : l1.NextToken.1.Typ = .EOF ∧ l1.NextToken.1.Literal = []) :
    tokensOf src = some [tok.kindLiteral, (.EOF, [])] := by
  have t0 : Lexer.tokenAt 0 (New src) = tok := congrArg Prod.fst h
  have t1 : Lexer.tokenAt 1 (New src) = l1.NextToken.1 := by
    rw [Lexer.tokenAt_succ_front, h]
    rfl
  unfold tokensOf Lexer.TokenizeAll
  rw [Lexer.TokenizeAllLoop_eq 1 _ [] (New src)
    (fun j hj => by
      obtain rfl : j = 0 := by omega
      rw [t0]
      exact hne)
    (by rw [t1]; exact h1.1) (by omega)]
  show some [(Lexer.tokenAt 0 (New src)).kindLiteral, (Lexer.tokenAt 1 (New src)).kindLiteral]
    = _
  rw [t0, t1]
  simp only [Token.kindLiteral, h1.1, h1.2]

/-- C32. For every byte string `s` with no double quote and no NUL byte, lexing `"`, `s`
and `"` yields one STRING token whose literal is `s`, whatever other bytes `s` holds, the
empty `s` included, and then the EOF token. -/
theorem string_literal_is_verbatim (s : GoString) (h34 : 34 ∉ s) (h0 : 0 ∉ s) :
    tokensOf (str "\"" ++ s ++ str "\"") = some [(.STRING, s), (.EOF, [])] ∧
    Lexer.tokenAt 0 (New (str "\"" ++ s ++ str "\"")) = ⟨.STRING, s, 1, 1⟩ := by
  have e : str "\"" ++ s ++ str "\"" = 34 :: s ++ [34] := rfl
  have hnew : New (34 :: s ++ [34]) = Lexer.between [] (34 :: s ++ [34]) 1 1 :=
    New_between _ (Nat.ne_of_beq_eq_false rfl)
  obtain ⟨line1, col1, hnt, -⟩ := NextToken_string s [] [34] 1 1 h34 h0 (Or.inl rfl)
  obtain ⟨line2, col2, hrc⟩ := Lexer.readChar_between ([] ++ 34 :: s) [] 34 line1 col1
  rw [e]
  rw [← hnew, hrc] at hnt
  refine ⟨tokensOf_single _ _ _ hnt (show TokenType.STRING ≠ TokenType.EOF by decide) ?_, congrArg Prod.fst hnt⟩
  rw [NextToken_between_end]
  exact ⟨rfl, rfl⟩

set_option maxRecDepth 100000 in
/-- Witness of C32: a literal with a backslash, the letter `n` and a line feed, and the
empty literal. -/
theorem string_literal_is_verbatim_witness :
    tokensOf (str "\"a\\n\nb\"") = some [(.STRING, str "a\\n\nb"), (.EOF, [])] ∧
    tokensOf (str "\"\"") = some [(.STRING, []), (.EOF, [])] :=
  ⟨(string_literal_is_verbatim (str "a\\n\nb") (by decide) (by decide)).1,
    (string_literal_is_verbatim [] (by decide) (by decide)).1⟩

/-! ## Strings that are never closed -/

/-- C38. For every byte string `s` with no double quote and no NUL byte, lexing `"` and
`s` with no closing quote yields a STRING token whose literal is `s` and then the EOF
token, so no ILLEGAL token; and the slice that `readString` takes from the input is in
range: it ends at the length of the input. Every other read of the input, in `readChar`
and `peekChar`, is guarded by a comparison with the length. -/
theorem unterminated_string_is_no_error (s : GoString) (h34 : 34 ∉ s) (h0 : 0 ∉ s) :
    tokensOf (str "\"" ++ s) = some [(.STRING, s), (.EOF, [])] ∧
    (Lexer.readStringLoop ((New (str "\"" ++ s)).input.length + 1)
      (New (str "\"" ++ s))).position = (str "\"" ++ s).length ∧
    sliceInRange (New (str "\"" ++ s)).input ((New (str "\"" ++ s)).position + 1)
      (New (str "\"" ++ s)).readString.2.position = true := by
  have e : str "\"" ++ s = 34 :: s ++ [] := by
    show 34 :: s = 34 :: s ++ []
    rw [List.append_nil]
  have hnew : New (34 :: s ++ []) = Lexer.between [] (34 :: s ++ []) 1 1 :=
    New_between _ (Nat.ne_of_beq_eq_false rfl)
  obtain ⟨line1, col1, hnt, hloop⟩ := NextToken_string s [] [] 1 1 h34 h0 (Or.inr rfl)
  rw [e]
  rw [← hnew] at hnt hloop
  have hin : (New (34 :: s ++ [])).input = [] ++ (34 :: s ++ []) := New_input _
  have hpos : (Lexer.readStringLoop ((New (34 :: s ++ [])).input.length + 1)
      (New (34 :: s ++ []))).position = (34 :: s ++ []).length := by
    rw [hin, hloop]
    simp [Lexer.between]
  refine ⟨tokensOf_single _ _ _ hnt (show TokenType.STRING ≠ TokenType.EOF by decide) ?_, hpos, ?_⟩
  · apply Lexer.NextToken_at_end _ (Lexer.wf_readChar _)
    rw [Lexer.readChar_input, Lexer.readChar_position]
    simp [Lexer.between]
  · rw [Lexer.readString_eq]
    show sliceInRange _ _ (Lexer.readStringLoop ((New (34 :: s ++ [])).input.length + 1)
      (New (34 :: s ++ []))).position = true
    rw [hpos, New_input, New_position]
    simp [sliceInRange]

set_option maxRecDepth 100000 in
/-- Witness of C38: the source `"abc` with no closing quote. -/
theorem unterminated_string_is_no_error_witness :
    tokensOf (str "\"abc") = some [(.STRING, str "abc"), (.EOF, [])] :=
  (unterminated_string_is_no_error (str "abc") (by decide) (by decide)).1

/-! ## Illegal bytes -/

theorem Lexer.tokenSwitch_illegal (a : Lexer → Token × Lexer) (l : Lexer)
    (hop : l.ch ∉ operatorBytes) (h34 : l.ch ≠ 34) (h0 : l.ch ≠ 0)
    (hl : isLetter l.ch = false) (hd : isDigit l.ch = false) :
    Lexer.tokenSwitch a l = (newToken .ILLEGAL l.ch l.line l.column, l.readChar) := by
  have hne : ∀ c, c ∈ operatorBytes → ¬ l.ch = c := fun c hc h => hop (h ▸ hc)
  have hl' : ¬ isLetter l.ch = true := by rw [hl]; decide
  have hd' : ¬ isDigit l.ch = true := by rw [hd]; decide
  rw [Lexer.tokenSwitch_eq, if_neg (hne 61 (by decide)), if_neg (hne 43 (by decide)),
    if_neg (hne 45 (by decide)), if_neg (hne 42 (by decide)), if_neg (hne 47 (by decide)),
    if_neg (hne 33 (by decide)), if_neg (hne 60 (by decide)), if_neg (hne 62 (by decide)),
    if_neg (hne 38 (by decide)), if_neg (hne 124 (by decide)), if_neg (hne 44 (by decide)),
    if_neg (hne 59 (by decide)), if_neg (hne 40 (by decide)), if_neg (hne 41 (by decide)),
    if_neg (hne 123 (by decide)), if_neg (hne 125 (by decide)), if_neg h34, if_neg h0,
    if_neg hl', if_neg hd']

/-- The tokens of a text of one byte that matches no rule of the lexer: an ILLEGAL token
with the literal `string(b)` and the EOF token. -/
theorem tokensOf_illegal (b : Nat) (hws : isWhitespace b = false)
    (hop : b ∉ operatorBytes) (h34 : b ≠ 34) (h0 : b ≠ 0)
    (hl : isLetter b = false) (hd : isDigit b = false) :
    tokensOf [b] = some [(.ILLEGAL, byteToString b), (.EOF, [])] := by
  have h10 : b ≠ 10 := by
    intro h
    rw [h] at hws
    exact absurd hws (by decide)
  have hnew : New [b] = Lexer.between [] [b] 1 1 := New_between _ h10
  have hnt : (New [b]).NextToken =
      (newToken .ILLEGAL b 1 1, (Lexer.between [] [b] 1 1).readChar) := by
    rw [hnew, Lexer.NextToken_eq, Lexer.NextTokenAux_succ,
      Lexer.skipWhitespace_of_not (Lexer.between [] [b] 1 1) hws,
      Lexer.tokenSwitch_illegal _ (Lexer.between [] [b] 1 1) hop h34 h0 hl hd]
    rfl
  refine tokensOf_single _ _ _ hnt (show TokenType.ILLEGAL ≠ TokenType.EOF by decide) ?_
  apply Lexer.NextToken_at_end _ (Lexer.wf_readChar _)
  rw [Lexer.readChar_input, Lexer.readChar_position]
  simp [Lexer.between]

theorem Lexer.NextToken_lone (l : Lexer) (c : Nat) (two : TokenType)
    (hsw : ∀ a, Lexer.tokenSwitch a l = l.twoCharToken c two .ILLEGAL l.line l.column)
    (hws : isWhitespace l.ch = false) (hp : l.peekChar ≠ c) :
    l.NextToken = (newToken .ILLEGAL l.ch l.line l.column, l.readChar) := by
  rw [Lexer.NextToken_eq, Lexer.NextTokenAux_succ, Lexer.skipWhitespace_of_not l hws, hsw,
    Lexer.twoCharToken_eq, if_neg hp]

/-- C33. For every byte `b` below 128 that is not whitespace, NUL, a letter, a digit, an
underscore, a double quote or the first byte of an operator or delimiter, lexing the
one-byte input `b` yields an ILLEGAL token whose literal is that byte, followed by EOF. For
a byte `b` from 128 on the literal of the ILLEGAL token is the two bytes of the UTF-8
encoding of the code point `b`, not the byte itself: for the byte `0xC3` the bytes `0xC3`,
`0x83`. A `&` not followed by `&` and a `|` not followed by `|` yield an ILLEGAL token
with that byte as literal and the lexer goes on with the next byte, as in `&x`. -/
theorem illegal_bytes :
    (∀ b : Nat, b < 128 → isWhitespace b = false → b ≠ 0 → isLetter b = false →
      isDigit b = false → b ≠ 34 → b ∉ operatorBytes →
      tokensOf [b] = some [(.ILLEGAL, [b]), (.EOF, [])]) ∧
    (∀ b : Nat, 128 ≤ b → b < 256 →
      tokensOf [b] = some [(.ILLEGAL, [192 + b / 64, 128 + b % 64]), (.EOF, [])]) ∧
    tokensOf [195] = some [(.ILLEGAL, [195, 131]), (.EOF, [])] ∧
    (∀ l : Lexer, l.ch = 38 → l.peekChar ≠ 38 →
      l.NextToken = (⟨.ILLEGAL, [38], l.line, l.column⟩, l.readChar)) ∧
    (∀ l : Lexer, l.ch = 124 → l.peekChar ≠ 124 →
      l.NextToken = (⟨.ILLEGAL, [124], l.line, l.column⟩, l.readChar)) ∧
    tokensOf (str "&x") = some [(.ILLEGAL, str "&"), (.IDENT, str "x"), (.EOF, [])] ∧
    tokensOf (str "|") = some [(.ILLEGAL, str "|"), (.EOF, [])] := by
  have high : ∀ b : Nat, 128 ≤ b →
      tokensOf [b] = some [(.ILLEGAL, [192 + b / 64, 128 + b % 64]), (.EOF, [])] := by
    intro b hb
    have hbs : byteToString b = [192 + b / 64, 128 + b % 64] := by
      unfold byteToString
      rw [if_neg (by omega)]
    rw [← hbs]
    apply tokensOf_illegal b
    · simp only [isWhitespace, Bool.or_eq_false_iff, decide_eq_false_iff_not]
      omega
    · intro h
      simp only [operatorBytes, str, String.toList, List.map, List.mem_cons,
        List.mem_nil_iff, or_false] at h
      revert h
      simp only [imp_false, not_or]
      refine ⟨?_, ?_, ?_, ?_, ?_, ?_, ?_, ?_, ?_, ?_, ?_, ?_, ?_, ?_, ?_, ?_⟩ <;>
        (intro h; rw [h] at hb; exact absurd hb (by decide))
    · omega
    · omega
    · simp only [isLetter, Bool.or_eq_false_iff, Bool.and_eq_false_iff,
        decide_eq_false_iff_not]
      omega
    · simp only [isDigit, Bool.and_eq_false_iff, decide_eq_false_iff_not]
      omega
  refine ⟨?_, fun b hb _ => high b hb, high 195 (by decide), ?_, ?_, by decide, by decide⟩
  · intro b hb hws h0 hl hd h34 hop
    have hbs : byteToString b = [b] := by
      unfold byteToString
      rw [if_pos hb]
    have := tokensOf_illegal b hws hop h34 h0 hl hd
    rw [hbs] at this
    exact this
  · intro l h hp
    have := Lexer.NextToken_lone l 38 .AND
      (fun a => by
        rw [Lexer.tokenSwitch_eq, if_neg (show ¬ l.ch = 61 by rw [h]; decide),
          if_neg (show ¬ l.ch = 43 by rw [h]; decide),
          if_neg (show ¬ l.ch = 45 by rw [h]; decide),
          if_neg (show ¬ l.ch = 42 by rw [h]; decide),
          if_neg (show ¬ l.ch = 47 by rw [h]; decide),
          if_neg (show ¬ l.ch = 33 by rw [h]; decide),
          if_neg (show ¬ l.ch = 60 by rw [h]; decide),
          if_neg (show ¬ l.ch = 62 by rw [h]; decide),
          if_pos h]) (by rw [h]; rfl) hp
    rw [this, h]
    rfl
  · intro l h hp
    have := Lexer.NextToken_lone l 124 .OR
      (fun a => by
        rw [Lexer.tokenSwitch_eq, if_neg (show ¬ l.ch = 61 by rw [h]; decide),
          if_neg (show ¬ l.ch = 43 by rw [h]; decide),
          if_neg (show ¬ l.ch = 45 by rw [h]; decide),
          if_neg (show ¬ l.ch = 42 by rw [h]; decide),
          if_neg (show ¬ l.ch = 47 by rw [h]; decide),
          if_neg (show ¬ l.ch = 33 by rw [h]; decide),
          if_neg (show ¬ l.ch = 60 by rw [h]; decide),
          if_neg (show ¬ l.ch = 62 by rw [h]; decide),
          if_neg (show ¬ l.ch = 38 by rw [h]; decide),
          if_pos h]) (by rw [h]; rfl) hp
    rw [this, h]
    rfl

/-! ## The shape of the tokens -/

theorem Lexer.readChar_ch (l : Lexer) : l.readChar.ch = l.peekChar := by
  rw [Lexer.readChar_eq, Lexer.peekChar_eq]

/-- A lexer that is not at the end of its input stands between the text before its
position and the text from its position on. -/
theorem Lexer.split_at (l : Lexer) (hwf : l.wf) (h0 : l.ch ≠ 0) :
    ∃ pre c rest line col, l = Lexer.between pre (c :: rest) line col := by
  have hlt : l.position < l.input.length := by
    by_contra h
    exact h0 (Lexer.ch_zero_of_length_le l hwf (by omega))
  refine ⟨l.input.take l.position, l.input[l.position], l.input.drop (l.position + 1),
    l.line, l.column, Lexer.eq_between l _ _ hwf ?_ ?_⟩
  · rw [← List.drop_eq_getElem_cons hlt, List.take_append_drop]
  · rw [List.length_take]
    omega

/-- A text splits into its longest front of bytes that satisfy `cnd` and the rest. -/
theorem span_bytes (cnd : Nat → Bool) (h0 : cnd 0 = false) :
    ∀ rest : GoString, ∃ xs post, rest = xs ++ post ∧ (∀ x ∈ xs, cnd x = true) ∧
      cnd (post.getD 0 0) = false := by
  intro rest
  induction rest with
  | nil => exact ⟨[], [], rfl, fun x hx => absurd hx (List.not_mem_nil x), h0⟩
  | cons y ys ih =>
    by_cases hy : cnd y = true
    · obtain ⟨xs, post, he, hxs, hpost⟩ := ih
      refine ⟨y :: xs, post, by rw [he]; rfl, ?_, hpost⟩
      intro x hx
      rcases List.mem_cons.mp hx with rfl | hx
      · exact hy
      · exact hxs x hx
    · exact ⟨[], y :: ys, rfl, fun x hx => absurd hx (List.not_mem_nil x), by
        simpa using hy⟩

theorem slice_between (pre xs post : GoString) :
    slice (pre ++ (xs ++ post)) pre.length (pre ++ xs).length = xs := by
  rw [List.length_append]
  exact slice_middle pre xs post

/-- The method `readIdentifier` on a letter: the run of letters and digits from it on. -/
theorem Lexer.readIdentifier_run (x : Nat) (xs pre post : GoString) (line col : Nat)
    (hx : isIdentByte x = true) (hxs : ∀ y ∈ xs, isIdentByte y = true)
    (hpost : isIdentByte (post.getD 0 0) = false) :
    ∃ line1 col1, (Lexer.between pre (x :: xs ++ post) line col).readIdentifier =
      (x :: xs, Lexer.between (pre ++ x :: xs) post line1 col1) := by
  obtain ⟨line1, col1, hrun⟩ := Lexer.whileLoop_run isIdentByte (x :: xs) pre post line col
    ((pre ++ (x :: xs ++ post)).length + 1)
    (fun y hy => by
      rcases List.mem_cons.mp hy with rfl | hy
      · exact hx
      · exact hxs y hy)
    hpost (by simp only [List.length_append, List.length_cons]; omega)
  refine ⟨line1, col1, ?_⟩
  rw [Lexer.readIdentifier_eq]
  show (slice (pre ++ (x :: xs ++ post)) pre.length
    (Lexer.whileLoop isIdentByte ((pre ++ (x :: xs ++ post)).length + 1)
      (Lexer.between pre (x :: xs ++ post) line col)).position, _) = _
  rw [hrun]
  show (slice (pre ++ (x :: xs ++ post)) pre.length (pre ++ x :: xs).length, _) = _
  rw [slice_between]
  exact Prod.ext rfl hrun

/-- The method `readNumber` on a digit: the run of digits from it on. -/
theorem Lexer.readNumber_run (x : Nat) (xs pre post : GoString) (line col : Nat)
    (hx : isDigit x = true) (hxs : ∀ y ∈ xs, isDigit y = true)
    (hpost : isDigit (post.getD 0 0) = false) :
    ∃ line1 col1, (Lexer.between pre (x :: xs ++ post) line col).readNumber =
      (x :: xs, Lexer.between (pre ++ x :: xs) post line1 col1) := by
  obtain ⟨line1, col1, hrun⟩ := Lexer.whileLoop_run isDigit (x :: xs) pre post line col
    ((pre ++ (x :: xs ++ post)).length + 1)
    (fun y hy => by
      rcases List.mem_cons.mp hy with rfl | hy
      · exact hx
      · exact hxs y hy)
    hpost (by simp only [List.length_append, List.length_cons]; omega)
  refine ⟨line1, col1, ?_⟩
  rw [Lexer.readNumber_eq]
  show (slice (pre ++ (x :: xs ++ post)) pre.length
    (Lexer.whileLoop isDigit ((pre ++ (x :: xs ++ post)).length + 1)
      (Lexer.between pre (x :: xs ++ post) line col)).position, _) = _
  rw [hrun]
  show (slice (pre ++ (x :: xs ++ post)) pre.length (pre ++ x :: xs).length, _) = _
  rw [slice_between]
  exact Prod.ext rfl hrun

/-- The method `readString` on a double quote: the text up to the next double quote or NUL
or the end of the input. -/
theorem Lexer.readString_run (s pre post : GoString) (line col : Nat) (h34 : 34 ∉ s)
    (h0 : 0 ∉ s) (hpost : post.getD 0 0 = 34 ∨ post.getD 0 0 = 0) :
    ∃ line1 col1, (Lexer.between pre (34 :: s ++ post) line col).readString =
      (s, Lexer.between (pre ++ 34 :: s) post line1 col1) := by
  obtain ⟨line1, col1, hrun⟩ := Lexer.readStringLoop_run s pre post 34 line col
    ((pre ++ (34 :: s ++ post)).length + 1) h34 h0 hpost
    (by simp only [List.length_append, List.length_cons]; omega)
  refine ⟨line1, col1, ?_⟩
  have hsl : slice (pre ++ (34 :: s ++ post)) (pre.length + 1) (pre ++ 34 :: s).length = s := by
    have := slice_middle (pre ++ [34]) s post
    simp only [List.length_append, List.length_singleton, List.append_assoc,
      List.singleton_append] at this
    simp only [List.length_append, List.length_cons, List.cons_append]
    rw [show pre.length + (s.length + 1) = pre.length + 1 + s.length from by omega]
    exact this
  rw [Lexer.readString_eq]
  show (slice (pre ++ (34 :: s ++ post)) (pre.length + 1)
    (Lexer.readStringLoop ((pre ++ (34 :: s ++ post)).length + 1)
      (Lexer.between pre (34 :: s ++ post) line col)).position, _) = _
  rw [hrun]
  show (slice (pre ++ (34 :: s ++ post)) (pre.length + 1) (pre ++ 34 :: s).length, _) = _
  rw [hsl]
  exact Prod.ext rfl hrun

theorem LookupIdent_not_string (s : GoString) : LookupIdent s ≠ .STRING := by
  unfold LookupIdent
  split_ifs <;> decide

theorem LookupIdent_not_illegal (s : GoString) : LookupIdent s ≠ .ILLEGAL := by
  unfold LookupIdent
  split_ifs <;> decide

theorem Token.lexed_word (x : Nat) (xs : GoString) (line col : Nat) (hx : isLetter x = true)
    (hxs : ∀ y ∈ xs, isIdentByte y = true) :
    Token.lexed ⟨LookupIdent (x :: xs), x :: xs, line, col⟩ :=
  Or.inr (Or.inr (Or.inr (Or.inr (Or.inl ⟨x, xs, rfl, hx, hxs, rfl⟩))))

theorem Token.lexed_punctuation (t : TokenType) (lit : GoString) (line col : Nat)
    (ht : t ∈ punctuation) (hlit : lit = t.String) : Token.lexed ⟨t, lit, line, col⟩ :=
  Or.inr (Or.inr (Or.inr (Or.inr (Or.inr ⟨ht, hlit⟩))))

theorem Lexer.twoCharToken_lexed (l : Lexer) (c second : Nat) (two one : TokenType)
    (line col : Nat) (hc : l.ch = c)
    (h2 : two ∈ punctuation ∧ byteToString c ++ byteToString second = two.String)
    (h1 : one = .ILLEGAL ∨ (one ∈ punctuation ∧ byteToString c = one.String)) :
    (l.twoCharToken second two one line col).1.lexed := by
  rw [Lexer.twoCharToken_eq]
  by_cases hp : l.peekChar = second
  · rw [if_pos hp]
    apply Token.lexed_punctuation _ _ _ _ h2.1
    show byteToString l.ch ++ byteToString l.readChar.ch = _
    rw [hc, Lexer.readChar_ch, hp]
    exact h2.2
  · rw [if_neg hp]
    rcases h1 with h1 | h1
    · exact Or.inl h1
    · apply Token.lexed_punctuation _ _ _ _ h1.1
      show byteToString l.ch = _
      rw [hc]
      exact h1.2

theorem Lexer.newToken_lexed (l : Lexer) (c : Nat) (t : TokenType) (hc : l.ch = c)
    (ht : t ∈ punctuation ∧ byteToString c = t.String) :
    (newToken t l.ch l.line l.column, l.readChar).1.lexed := by
  apply Token.lexed_punctuation _ _ _ _ ht.1
  show byteToString l.ch = _
  rw [hc]
  exact ht.2

/-! ## Every token has the shape of its kind -/

theorem Lexer.readString_lexed (l : Lexer) (hwf : l.wf) (h34 : l.ch = 34) :
    34 ∉ l.readString.1 ∧ 0 ∉ l.readString.1 := by
  obtain ⟨pre, c, rest, line, col, rfl⟩ := Lexer.split_at l hwf (by rw [h34]; decide)
  have hc : c = 34 := h34
  subst hc
  obtain ⟨s, post, rfl, hs, hpost⟩ :=
    span_bytes (fun b => decide (b ≠ 34 ∧ b ≠ 0)) (by decide) rest
  have hs34 : 34 ∉ s := fun h => by
    have := hs 34 h
    simp at this
  have hs0 : 0 ∉ s := fun h => by
    have := hs 0 h
    simp at this
  have hp : post.getD 0 0 = 34 ∨ post.getD 0 0 = 0 := by
    simp only [decide_eq_false_iff_not, not_and_or, not_not] at hpost
    exact hpost
  obtain ⟨line1, col1, hrs⟩ := Lexer.readString_run s pre post line col hs34 hs0 hp
  have hrs1 : (Lexer.between pre (34 :: (s ++ post)) line col).readString.1 = s :=
    congrArg Prod.fst hrs
  rw [hrs1]
  exact ⟨hs34, hs0⟩

theorem Lexer.readIdentifier_lexed (l : Lexer) (hwf : l.wf) (hl : isLetter l.ch = true) :
    ∃ x xs, l.readIdentifier.1 = x :: xs ∧ isLetter x = true ∧
      ∀ y ∈ xs, isIdentByte y = true := by
  have h0 : l.ch ≠ 0 := by
    intro h
    rw [h] at hl
    exact absurd hl (by decide)
  obtain ⟨pre, c, rest, line, col, rfl⟩ := Lexer.split_at l hwf h0
  have hc : isLetter c = true := hl
  obtain ⟨xs, post, rfl, hxs, hpost⟩ := span_bytes isIdentByte (by decide) rest
  obtain ⟨line1, col1, hrs⟩ := Lexer.readIdentifier_run c xs pre post line col
    (by simp only [isIdentByte, hc, Bool.true_or]) hxs hpost
  have hrs1 : (Lexer.between pre (c :: (xs ++ post)) line col).readIdentifier.1 = c :: xs :=
    congrArg Prod.fst hrs
  exact ⟨c, xs, hrs1, hc, hxs⟩

theorem Lexer.readNumber_lexed (l : Lexer) (hwf : l.wf) (hd : isDigit l.ch = true) :
    ∃ d ds, l.readNumber.1 = d :: ds ∧ isDigit d = true ∧ ∀ x ∈ ds, isDigit x = true := by
  have h0 : l.ch ≠ 0 := by
    intro h
    rw [h] at hd
    exact absurd hd (by decide)
  obtain ⟨pre, c, rest, line, col, rfl⟩ := Lexer.split_at l hwf h0
  have hc : isDigit c = true := hd
  obtain ⟨xs, post, rfl, hxs, hpost⟩ := span_bytes isDigit (by decide) rest
  obtain ⟨line1, col1, hrs⟩ := Lexer.readNumber_run c xs pre post line col hc hxs hpost
  have hrs1 : (Lexer.between pre (c :: (xs ++ post)) line col).readNumber.1 = c :: xs :=
    congrArg Prod.fst hrs
  exact ⟨c, xs, hrs1, hc, hxs⟩

theorem Lexer.tokenSwitch_lexed (a : Lexer → Token × Lexer) (l : Lexer) (hwf : l.wf)
    (h : l.ch = 47 → l.peekChar = 47 → (a l.skipComment).1.lexed) :
    (Lexer.tokenSwitch a l).1.lexed := by
  rw [Lexer.tokenSwitch_eq]
  by_cases h61 : l.ch = 61
  · rw [if_pos h61]
    exact Lexer.twoCharToken_lexed l 61 61 .EQ .ASSIGN _ _ h61 ⟨by decide, rfl⟩
      (Or.inr ⟨by decide, rfl⟩)
  rw [if_neg h61]
  by_cases h43 : l.ch = 43
  · rw [if_pos h43]
    exact Lexer.newToken_lexed l 43 .PLUS h43 ⟨by decide, rfl⟩
  rw [if_neg h43]
  by_cases h45 : l.ch = 45
  · rw [if_pos h45]
    exact Lexer.newToken_lexed l 45 .MINUS h45 ⟨by decide, rfl⟩
  rw [if_neg h45]
  by_cases h42 : l.ch = 42
  · rw [if_pos h42]
    exact Lexer.newToken_lexed l 42 .MULTIPLY h42 ⟨by decide, rfl⟩
  rw [if_neg h42]
  by_cases h47 : l.ch = 47
  · rw [if_pos h47]
    by_cases hp : l.peekChar = 47
    · rw [if_pos hp]
      exact h h47 hp
    · rw [if_neg hp]
      exact Lexer.newToken_lexed l 47 .DIVIDE h47 ⟨by decide, rfl⟩
  rw [if_neg h47]
  by_cases h33 : l.ch = 33
  · rw [if_pos h33]
    exact Lexer.twoCharToken_lexed l 33 61 .NOT_EQ .NOT _ _ h33 ⟨by decide, rfl⟩
      (Or.inr ⟨by decide, rfl⟩)
  rw [if_neg h33]
  by_cases h60 : l.ch = 60
  · rw [if_pos h60]
    exact Lexer.twoCharToken_lexed l 60 61 .LTE .LT _ _ h60 ⟨by decide, rfl⟩
      (Or.inr ⟨by decide, rfl⟩)
  rw [if_neg h60]
  by_cases h62 : l.ch = 62
  · rw [if_pos h62]
    exact Lexer.twoCharToken_lexed l 62 61 .GTE .GT _ _ h62 ⟨by decide, rfl⟩
      (Or.inr ⟨by decide, rfl⟩)
  rw [if_neg h62]
  by_cases h38 : l.ch = 38
  · rw [if_pos h38]
    exact Lexer.twoCharToken_lexed l 38 38 .AND .ILLEGAL _ _ h38 ⟨by decide, rfl⟩
      (Or.inl rfl)
  rw [if_neg h38]
  by_cases h124 : l.ch = 124
  · rw [if_pos h124]
    exact Lexer.twoCharToken_lexed l 124 124 .OR .ILLEGAL _ _ h124 ⟨by decide, rfl⟩
      (Or.inl rfl)
  rw [if_neg h124]
  by_cases h44 : l.ch = 44
  · rw [if_pos h44]
    exact Lexer.newToken_lexed l 44 .COMMA h44 ⟨by decide, rfl⟩
  rw [if_neg h44]
  by_cases h59 : l.ch = 59
  · rw [if_pos h59]
    exact Lexer.newToken_lexed l 59 .SEMICOLON h59 ⟨by decide, rfl⟩
  rw [if_neg h59]
  by_cases h40 : l.ch = 40
  · rw [if_pos h40]
    exact Lexer.newToken_lexed l 40 .LPAREN h40 ⟨by decide, rfl⟩
  rw [if_neg h40]
  by_cases h41 : l.ch = 41
  · rw [if_pos h41]
    exact Lexer.newToken_lexed l 41 .RPAREN h41 ⟨by decide, rfl⟩
  rw [if_neg h41]
  by_cases h123 : l.ch = 123
  · rw [if_pos h123]
    exact Lexer.newToken_lexed l 123 .LBRACE h123 ⟨by decide, rfl⟩
  rw [if_neg h123]
  by_cases h125 : l.ch = 125
  · rw [if_pos h125]
    exact Lexer.newToken_lexed l 125 .RBRACE h125 ⟨by decide, rfl⟩
  rw [if_neg h125]
  by_cases h34 : l.ch = 34
  · rw [if_pos h34]
    exact Or.inr (Or.inr (Or.inl ⟨rfl, Lexer.readString_lexed l hwf h34⟩))
  rw [if_neg h34]
  by_cases h0 : l.ch = 0
  · rw [if_pos h0]
    exact Or.inr (Or.inl ⟨rfl, rfl⟩)
  rw [if_neg h0]
  by_cases hl : isLetter l.ch = true
  · rw [if_pos hl]
    obtain ⟨x, xs, hlit, hx, hxs⟩ := Lexer.readIdentifier_lexed l hwf hl
    exact Or.inr (Or.inr (Or.inr (Or.inr (Or.inl ⟨x, xs, hlit, hx, hxs, by
      show LookupIdent l.readIdentifier.1 = _
      rw [hlit]⟩))))
  rw [if_neg hl]
  by_cases hd : isDigit l.ch = true
  · rw [if_pos hd]
    exact Or.inr (Or.inr (Or.inr (Or.inl ⟨rfl, Lexer.readNumber_lexed l hwf hd⟩)))
  rw [if_neg hd]
  exact Or.inl rfl

theorem Lexer.NextTokenAux_lexed :
    ∀ (fuel : Nat) (l : Lexer), l.wf → (Lexer.NextTokenAux fuel l).1.lexed := by
  intro fuel
  induction fuel with
  | zero => intro l _; exact Or.inl rfl
  | succ f ih =>
    intro l hwf
    rw [Lexer.NextTokenAux_succ]
    have hws := Lexer.skipWhitespace_wf l hwf
    exact Lexer.tokenSwitch_lexed _ _ hws (fun _ _ => ih _ (Lexer.skipComment_wf _ hws))

/-- Every token that `NextToken` returns has the shape of its kind. -/
theorem Lexer.NextToken_lexed (l : Lexer) (hwf : l.wf) : l.NextToken.1.lexed := by
  rw [Lexer.NextToken_eq]
  exact Lexer.NextTokenAux_lexed _ l hwf

theorem Lexer.tokenAt_lexed (l : Lexer) (hwf : l.wf) (k : Nat) : (Lexer.tokenAt k l).lexed :=
  Lexer.NextToken_lexed _ (Lexer.advance_wf l hwf k)

theorem Token.lexed_eof (t : Token) (ht : t.lexed) (he : t.Typ = .EOF) : t.Literal = [] := by
  rcases ht with h | ⟨_, h⟩ | ⟨h, _⟩ | ⟨h, _⟩ | ⟨x, xs, _, _, _, h⟩ | ⟨h, _⟩
  · rw [he] at h
    exact absurd h (by decide)
  · exact h
  · rw [he] at h
    exact absurd h (by decide)
  · rw [he] at h
    exact absurd h (by decide)
  · rw [he] at h
    exact absurd h.symm (LookupIdent_ne_eof _)
  · rw [he] at h
    exact absurd h (by decide)

/-! ## Lexing the source form of a token -/

set_option maxRecDepth 100000 in
/-- An operator or a delimiter before a space, read from the front of a text. -/
theorem NextToken_punctuation_front (op : TokenType) (hop : op ∈ punctuation)
    (post : GoString) (line col : Nat) :
    (op.String ++ 32 :: post).getD 0 0 ≠ 10 ∧
    Lexer.NextToken ⟨op.String ++ 32 :: post, 0, 1, (op.String ++ 32 :: post).getD 0 0,
        line, col⟩ =
      (⟨op, op.String, line, col⟩,
        ⟨op.String ++ 32 :: post, op.String.length, op.String.length + 1,
          (32 :: post).getD 0 0, line, col + op.String.length⟩) := by
  simp only [punctuation, List.mem_cons, List.mem_nil_iff, or_false] at hop
  rcases hop with rfl | rfl | rfl | rfl | rfl | rfl | rfl | rfl | rfl | rfl | rfl | rfl |
    rfl | rfl | rfl | rfl | rfl | rfl | rfl | rfl <;>
    exact ⟨Nat.ne_of_beq_eq_false rfl, rfl⟩

theorem Token.sourceForm_of_ne (t : Token) (h : t.Typ ≠ .STRING) :
    t.sourceForm = t.Literal := by
  unfold Token.sourceForm
  rw [if_neg h]

/-- The source form of a token that `NextToken` has returned, followed by a space, is
lexed to a token of the same kind and literal, and the lexer is left before the space. -/
theorem relex_token (t : Token) (ht : t.lexed) (hI : t.Typ ≠ .ILLEGAL) (hE : t.Typ ≠ .EOF)
    (pre post : GoString) (line col : Nat) :
    ∃ line1 col1, (Lexer.between pre (t.sourceForm ++ 32 :: post) line col).NextToken =
      (⟨t.Typ, t.Literal, line, col⟩,
        Lexer.between (pre ++ t.sourceForm) (32 :: post) line1 col1) := by
  obtain ⟨ty, lit, tl, tc⟩ := t
  rcases ht with h | ⟨h, _⟩ | ⟨h, h34, h0⟩ | ⟨h, d, ds, hlit, hd, hds⟩ |
    ⟨x, xs, hlit, hx, hxs, hty⟩ | ⟨hp, hlit⟩
  · exact absurd h hI
  · exact absurd h hE
  · simp only at h h34 h0
    subst h
    have hsf : (⟨.STRING, lit, tl, tc⟩ : Token).sourceForm = 34 :: (lit ++ [34]) := rfl
    obtain ⟨line1, col1, hnt, -⟩ := NextToken_string lit pre (34 :: 32 :: post) line col
      h34 h0 (Or.inl rfl)
    obtain ⟨line2, col2, hrc⟩ :=
      Lexer.readChar_between (pre ++ 34 :: lit) (32 :: post) 34 line1 col1
    refine ⟨line2, col2, ?_⟩
    have e1 : 34 :: (lit ++ [34]) ++ 32 :: post = 34 :: lit ++ 34 :: 32 :: post := by simp
    have e2 : pre ++ 34 :: (lit ++ [34]) = pre ++ 34 :: lit ++ [34] := by simp
    rw [hsf, e1, e2, hnt, hrc]
  · simp only at h hlit
    subst h
    subst hlit
    have hsf : (⟨.INT, d :: ds, tl, tc⟩ : Token).sourceForm = d :: ds := rfl
    rw [hsf]
    exact ⟨_, _, NextToken_number ds pre (32 :: post) d line col hd hds rfl
      (space_ne_newline _)⟩
  · simp only at hty hlit
    subst hlit
    subst hty
    have hsf : (⟨LookupIdent (x :: xs), x :: xs, tl, tc⟩ : Token).sourceForm = x :: xs :=
      Token.sourceForm_of_ne _ (LookupIdent_not_string _)
    rw [hsf]
    exact ⟨_, _, NextToken_word xs pre (32 :: post) x line col hx hxs rfl
      (space_ne_newline _)⟩
  · simp only at hp hlit
    subst hlit
    have hne : ty ≠ .STRING := by
      intro h
      rw [h] at hp
      exact absurd hp (by decide)
    have hsf : (⟨ty, ty.String, tl, tc⟩ : Token).sourceForm = ty.String :=
      Token.sourceForm_of_ne _ hne
    rw [hsf]
    obtain ⟨h10, hfront⟩ := NextToken_punctuation_front ty hp post line col
    exact ⟨_, _, Lexer.NextToken_between pre ty.String (32 :: post) _ line col line
      (col + ty.String.length) _ rfl hfront⟩

theorem NextToken_space (pre post : GoString) (line col : Nat) :
    ∃ line1 col1, (Lexer.between pre (32 :: post) line col).NextToken =
      (Lexer.between (pre ++ [32]) post line1 col1).NextToken := by
  obtain ⟨line1, col1, hrc⟩ := Lexer.readChar_between pre post 32 line col
  refine ⟨line1, col1, ?_⟩
  rw [Lexer.NextToken_skip (Lexer.between pre (32 :: post) line col)
    (Lexer.between_wf _ _ _ _) rfl, hrc]

/-! ## The round trip of the lexer -/

theorem joinTokens_cons (t : Token) (rest : List Token) (hne : rest ≠ []) :
    joinTokens (t :: rest) = t.sourceForm ++ 32 :: joinTokens rest := by
  cases rest with
  | nil => exact absurd rfl hne
  | cons b r =>
    show t.sourceForm ++ [32] ++ stringsJoin [32] ((b :: r).map Token.sourceForm) = _
    rw [List.append_assoc, List.singleton_append]
    rfl

theorem joinTokens_length (eof : Token) :
    ∀ ts : List Token, ts.length ≤ (joinTokens (ts ++ [eof])).length := by
  intro ts
  induction ts with
  | nil => exact Nat.zero_le _
  | cons t rest ih =>
    rw [List.cons_append, joinTokens_cons t (rest ++ [eof]) (by simp)]
    simp only [List.length_append, List.length_cons]
    omega

theorem Lexer.TokenizeAllLoop_congr (l m : Lexer) (h : l.NextToken = m.NextToken)
    (fuel : Nat) (acc : List Token) :
    Lexer.TokenizeAllLoop fuel acc l = Lexer.TokenizeAllLoop fuel acc m := by
  cases fuel with
  | zero => rfl
  | succ f => rw [Lexer.TokenizeAllLoop_succ, Lexer.TokenizeAllLoop_succ, h]

/-- The text of the joined source forms of tokens, the last of them the EOF token, is
lexed to tokens of the same kinds and literals. -/
theorem relex_all (eof : Token) (he : eof.Typ = .EOF) (hl : eof.Literal = []) :
    ∀ (ts : List Token) (pre : GoString) (line col fuel : Nat) (acc : List Token),
      (∀ t ∈ ts, t.lexed ∧ t.Typ ≠ .ILLEGAL ∧ t.Typ ≠ .EOF) → ts.length < fuel →
      ∃ ts1, Lexer.TokenizeAllLoop fuel acc
          (Lexer.between pre (joinTokens (ts ++ [eof])) line col) = some (acc ++ ts1) ∧
        ts1.map Token.kindLiteral = (ts ++ [eof]).map Token.kindLiteral := by
  intro ts
  induction ts with
  | nil =>
    intro pre line col fuel acc _ hfuel
    obtain ⟨f, rfl⟩ : ∃ f, fuel = f + 1 := ⟨fuel - 1, by simp at hfuel; omega⟩
    have hj : joinTokens ([] ++ [eof]) = [] := by
      show eof.sourceForm = []
      rw [Token.sourceForm_of_ne _ (by rw [he]; decide), hl]
    refine ⟨[⟨.EOF, [], line, col⟩], ?_, ?_⟩
    · rw [hj, Lexer.TokenizeAllLoop_succ, NextToken_between_end]
      rfl
    · show [((.EOF, []) : TokenType × GoString)] = [(eof.Typ, eof.Literal)]
      rw [he, hl]
  | cons t rest ih =>
    intro pre line col fuel acc hts hfuel
    obtain ⟨f, rfl⟩ : ∃ f, fuel = f + 1 := ⟨fuel - 1, by simp at hfuel; omega⟩
    obtain ⟨htl, htI, htE⟩ := hts t (List.mem_cons_self _ _)
    obtain ⟨line1, col1, hnt⟩ := relex_token t htl htI htE pre
      (joinTokens (rest ++ [eof])) line col
    obtain ⟨line2, col2, hsp⟩ := NextToken_space (pre ++ t.sourceForm)
      (joinTokens (rest ++ [eof])) line1 col1
    obtain ⟨ts1, hrest, hmap⟩ := ih (pre ++ t.sourceForm ++ [32]) line2 col2 f
      (acc ++ [⟨t.Typ, t.Literal, line, col⟩])
      (fun u hu => hts u (List.mem_cons_of_mem _ hu)) (by simp at hfuel; omega)
    refine ⟨⟨t.Typ, t.Literal, line, col⟩ :: ts1, ?_, ?_⟩
    · rw [List.cons_append, joinTokens_cons t (rest ++ [eof]) (by simp),
        Lexer.TokenizeAllLoop_succ, hnt]
      have hne : ¬ (⟨t.Typ, t.Literal, line, col⟩ : Token).Typ = .EOF := htE
      rw [if_neg hne]
      show Lexer.TokenizeAllLoop f _ (Lexer.between (pre ++ t.sourceForm)
        (32 :: joinTokens (rest ++ [eof])) line1 col1) = _
      rw [Lexer.TokenizeAllLoop_congr _ _ hsp, hrest, List.append_assoc]
      rfl
    · rw [List.map_cons, hmap]
      rfl

/-- C34. For every source text whose token sequence `T`, the result of `TokenizeAll`,
holds no ILLEGAL token: lexing the text obtained by joining the source forms of the tokens
of `T` (the literal, for a STRING token between double quotes) with single spaces yields a
token sequence with the same (kind, literal) pairs as `T`. -/
theorem lexer_round_trip (src : GoString) (T : List Token)
    (hT : (New src).TokenizeAll = some T) (hill : ∀ t ∈ T, t.Typ ≠ .ILLEGAL) :
    tokensOf (joinTokens T) = some (T.map Token.kindLiteral) := by
  obtain ⟨k, -, hlt, he, heq⟩ := TokenizeAll_New src
  rw [heq] at hT
  have hT1 : T = (List.range k).map (fun j => Lexer.tokenAt j (New src)) ++
      [Lexer.tokenAt k (New src)] := by
    rw [← Option.some.inj hT, List.range_succ, List.map_append]
    rfl
  have hlex := Lexer.tokenAt_lexed (New src) (New_wf src)
  have hts : ∀ t ∈ (List.range k).map (fun j => Lexer.tokenAt j (New src)),
      t.lexed ∧ t.Typ ≠ .ILLEGAL ∧ t.Typ ≠ .EOF := by
    intro t ht
    obtain ⟨j, hj, rfl⟩ := List.mem_map.mp ht
    refine ⟨hlex j, hill _ ?_, hlt j (List.mem_range.mp hj)⟩
    rw [hT1]
    exact List.mem_append_left _ ht
  have hlen := joinTokens_length (Lexer.tokenAt k (New src))
    ((List.range k).map (fun j => Lexer.tokenAt j (New src)))
  obtain ⟨ts1, hloop, hmap⟩ := relex_all (Lexer.tokenAt k (New src)) he
    (Token.lexed_eof _ (hlex k) he)
    ((List.range k).map (fun j => Lexer.tokenAt j (New src))) []
    (New (joinTokens T)).line (New (joinTokens T)).column ((joinTokens T).length + 2) []
    hts (by rw [hT1]; omega)
  have hnew : New (joinTokens T) = Lexer.between [] (joinTokens T) (New (joinTokens T)).line
      (New (joinTokens T)).column :=
    Lexer.eq_between _ [] _ (New_wf _) (New_input _) (New_position _)
  unfold tokensOf Lexer.TokenizeAll
  rw [New_input]
  rw [hnew]
  rw [← hT1] at hloop hmap
  rw [hloop]
  show some (ts1.map Token.kindLiteral) = _
  rw [hmap]

set_option maxRecDepth 100000 in
/-- Witness of C34: the source `let s="a b";//c` with its comment is lexed to LET, IDENT,
ASSIGN, STRING, SEMICOLON and EOF, and the joined text `let s = "a b" ; ` is lexed to the
same kinds and literals. -/
theorem lexer_round_trip_witness :
    tokensOf (str "let s = \"a b\" ; ") =
      some [(.LET, str "let"), (.IDENT, str "s"), (.ASSIGN, str "="), (.STRING, str "a b"),
        (.SEMICOLON, str ";"), (.EOF, [])] :=
  lexer_round_trip (str "let s=\"a b\";//c")
    [⟨.LET, str "let", 1, 1⟩, ⟨.IDENT, str "s", 1, 5⟩, ⟨.ASSIGN, str "=", 1, 6⟩,
      ⟨.STRING, str "a b", 1, 7⟩, ⟨.SEMICOLON, str ";", 1, 12⟩, ⟨.EOF, [], 1, 16⟩]
    (by decide) (by decide)

/-! ## Lexing a rendering -/

theorem Expression.StringAll_nil : Expression.StringAll [] = some [] := by
  rw [Expression.StringAll]

theorem Expression.StringAll_cons (e : Expression) (es : List Expression) (s : GoString)
    (ss : List GoString) (he : e.String = some s) (hes : Expression.StringAll es = some ss) :
    Expression.StringAll (e :: es) = some (s :: ss) := by
  rw [Expression.StringAll, he, hes]

theorem Expression.StringAll_append :
    ∀ (a b : List Expression) (sa sb : List GoString),
      Expression.StringAll a = some sa → Expression.StringAll b = some sb →
      Expression.StringAll (a ++ b) = some (sa ++ sb) := by
  intro a
  induction a with
  | nil =>
    intro b sa sb ha hb
    rw [Expression.StringAll_nil] at ha
    rw [← Option.some.inj ha]
    exact hb
  | cons e a ih =>
    intro b sa sb ha hb
    rw [Expression.StringAll] at ha
    cases he : e.String with
    | none => rw [he] at ha; exact absurd ha (by simp)
    | some s =>
      rw [he] at ha
      cases hr : Expression.StringAll a with
      | none => rw [hr] at ha; exact absurd ha (by simp)
      | some ss =>
        rw [hr] at ha
        rw [← Option.some.inj ha]
        exact Expression.StringAll_cons e (a ++ b) s (ss ++ sb) he (ih b ss sb hr hb)

end TinyLang
